import Mathlib

/-!
MPM snow simulator: grid transfer, forces, the implicit operator, the particle updates
and the Conjugate Residuals solver.

A shallow embedding of `src/src/Grid.cpp` (class `Grid` of `src/include/Grid.h`), and a
model of the Conjugate Residuals solver that `src/src/tests/TestConjugateResiduals.cpp`
exercises, whose source is not included.

Conventions of the embedding:

* `float` is the field `ℚ` (exact arithmetic); `int` is `ℤ`.  Signed overflow and
  out-of-range float-to-int casts are undefined behaviour in C++, so the model over
  `ℤ` agrees with the code wherever the code has a defined meaning.
* `Eigen::Vector3f`, `Eigen::Vector3i`, `Eigen::Matrix3f` are `Fin 3 → ℚ`,
  `Fin 3 → ℤ` and `Matrix (Fin 3) (Fin 3) ℚ`.
* `Eigen::VectorXf` is `List ℚ`; a read outside the vector gives `0` and a write
  outside it is dropped (both are undefined behaviour in the code; the stencil
  theorem shows that neither happens on a grid built from its particles).
* In-out reference parameters become arguments and results.
* `sqrt`, which has no exact counterpart on `ℚ`, is an explicit parameter `sqrtf`
  of the functions that need it; so are `exp` (`expf`), Eigen `JacobiSVD` (`svd`) and
  Eigen `computeRotationScaling` (`polar`).
* The compile-time macro `PLASTICITY` is a `Bool` parameter of the functions whose body
  it guards.
* A `float` division by zero gives an infinity or NaN, the division of `ℚ` gives `0`.
  The friction line of `Grid::updateGridVelocities` divides by `vTangent.norm()` without
  a guard: the model gives the velocity of the code there only when this norm is not
  zero.  The head-on impact, where it is zero, is evaluated up to the division.
-/

namespace MpmSnow

set_option linter.dupNamespace false

/-! ## Scalars, vectors and constants -/

/-- The type `Eigen::Vector3f`. -/
abbrev Vector3f := Fin 3 → ℚ

/-- The type `Eigen::Vector3i`. -/
abbrev Vector3i := Fin 3 → ℤ

/-- The type `Eigen::Matrix3f`. -/
abbrev Matrix3f := Matrix (Fin 3) (Fin 3) ℚ

/-- The type `Eigen::VectorXf`. -/
abbrev VectorXf := List ℚ

/-- Macro `#define GRID_H 0.1f` -/
def GRID_H : ℚ := 1 / 10

/-- Macro `#define TIME_STEP 0.01f` -/
def TIME_STEP : ℚ := 1 / 100

/-- Macro `#define GRAVITY -9.8f` -/
def GRAVITY : ℚ := -(98 / 10)

/-- Macro `#define COULOMBFRICTION 0.5f` -/
def COULOMBFRICTION : ℚ := 1 / 2

/-- Macro `#define YOUNGSMODULUS 1.4e5f` -/
def YOUNGSMODULUS : ℚ := 140000

/-- Macro `#define POISSONRATIO 0.2f` -/
def POISSONRATIO : ℚ := 2 / 10

/-- Macro `#define MU ( YOUNGSMODULUS / ( 2 * ( 1 + POISSONRATIO ) ) )` -/
def MU : ℚ := YOUNGSMODULUS / (2 * (1 + POISSONRATIO))

/-- Macro `#define LAMBDA ( YOUNGSMODULUS * POISSONRATIO / ( ( 1 + POISSONRATIO ) * ( 1 - 2 * POISSONRATIO ) ) )` -/
def LAMBDA : ℚ := YOUNGSMODULUS * POISSONRATIO / ((1 + POISSONRATIO) * (1 - 2 * POISSONRATIO))

/-- Macro `#define THETA_C 2.5e-2f` -/
def THETA_C : ℚ := 1 / 40

/-- Macro `#define THETA_S 7.5e-3f` -/
def THETA_S : ℚ := 3 / 400

/-- Macro `#define HARDENING 10` -/
def HARDENING : ℚ := 10

/-- Eigen `NumTraits<float>::dummy_precision()`, the default `absDeterminantThreshold` of
`computeInverseAndDetWithCheck`: `1e-5f`. -/
def dummy_precision : ℚ := 1 / 100000

/-- Modelled from the spec: `ParticleData.h` is not among the sources.  The spec
describes the particle state as arrays indexed by the particle id; one record here
is the slice of those arrays at one id, with the field names `Grid.cpp` uses. -/
structure Particle where
  particleX : Vector3f
  particleV : Vector3f
  particleM : ℚ
  particleVolumes : ℚ
  particleF : Matrix3f
  particleR : Matrix3f
  particleS : Matrix3f
  particleJ : ℚ
  particleFinvTrans : Matrix3f
  particleMu : ℚ
  particleLambda : ℚ
  particleFplastic : Matrix3f

/-- Modelled from the spec: the particle arrays of `ParticleData`, all of one length. -/
abbrev ParticleData := List Particle

/-- Modelled from the spec: `CollisionObject.h` is not among the sources.  A collision
surface is the opaque pair of a signed distance `phi` and its gradient `grad`. -/
structure CollisionObject where
  phi : Vector3f → ℚ
  grad : Vector3f → Vector3f

/-- Read of `v[i]`. -/
def coeff (v : VectorXf) (i : ℤ) : ℚ :=
  if 0 ≤ i then v.getD i.toNat 0 else 0

/-- Write `v[i] = a`. -/
def setCoeff (v : VectorXf) (i : ℤ) (a : ℚ) : VectorXf :=
  if 0 ≤ i then v.set i.toNat a else v

/-- Read of `v.segment<3>( start )`. -/
def segment3 (v : VectorXf) (start : ℤ) : Vector3f :=
  ![coeff v start, coeff v (start + 1), coeff v (start + 2)]

/-- Write `v.segment<3>( start ) = a`. -/
def setSegment3 (v : VectorXf) (start : ℤ) (a : Vector3f) : VectorXf :=
  setCoeff (setCoeff (setCoeff v start (a 0)) (start + 1) (a 1)) (start + 2) (a 2)

/-- Eigen `a.dot( b )` on dynamic vectors. -/
def dot (a b : VectorXf) : ℚ :=
  (List.zipWith (fun x y => x * y) a b).sum

/-- Eigen `m.inverse()` for a fixed-size 3×3 matrix: the transposed cofactor matrix
scaled by the reciprocal of the determinant. -/
def inverse (m : Matrix3f) : Matrix3f :=
  (1 / m.det) • m.adjugate

/-- The loop nest `for i in -1..2, for j in -1..2, for k in -1..2` over a 4×4×4 stencil. -/
def forStencil {α : Type} (body : ℤ → ℤ → ℤ → α → α) (init : α) : α :=
  [-1, 0, 1, 2].foldl (fun a i =>
    [-1, 0, 1, 2].foldl (fun a j =>
      [-1, 0, 1, 2].foldl (fun a k => body i j k a) a) a) init

/-- The 64 offsets `(i, j, k)` of the stencil loop nest, in the order the loops visit
them; used to state what a stencil loop accumulates. -/
def stencil : List (ℤ × ℤ × ℤ) :=
  [-1, 0, 1, 2].flatMap (fun i => [-1, 0, 1, 2].flatMap (fun j => [-1, 0, 1, 2].map (fun k => (i, j, k))))

/-- The loop `for( int i=0; i < n; ++i )`. -/
def forRange {α : Type} (n : ℤ) (body : ℤ → α → α) (init : α) : α :=
  (List.range n.toNat).foldl (fun a (i : ℕ) => body (i : ℤ) a) init

/-! ## The grid -/

/-- The data members of `class Grid`. -/
structure Grid where
  m_xmin : ℚ
  m_ymin : ℚ
  m_zmin : ℚ
  m_xmax : ℚ
  m_ymax : ℚ
  m_zmax : ℚ
  m_nx : ℤ
  m_ny : ℤ
  m_nz : ℤ
  m_gridMasses : VectorXf
  m_gridVelocities : VectorXf
  m_prevGridVelocities : VectorXf
  m_nodeCollided : List Bool

/-- The weight buffers filled by `cellAndWeights`: `w d k` is `w[d][k]`. -/
structure CellAndWeights where
  particleCell : Vector3i
  w : Fin 3 → ℤ → ℚ
  dw : Fin 3 → ℤ → ℚ

/-- Function `Grid::N`, the cubic B-spline. -/
def Grid.N (x : ℚ) : ℚ :=
  let ax := |x|
  if ax < 1 then
    1 / 2 * ax * ax * ax - ax * ax + 2 / 3
  else if ax < 2 then
    -ax * ax * ax / 6 + ax * ax - 2 * ax + 4 / 3
  else
    0

/-- The body of `Grid::DN` below its guard `x < 0`. -/
def Grid.DNnonneg (x : ℚ) : ℚ :=
  if x < 1 then
    x * (3 / 2 * x - 2)
  else if x < 2 then
    (let y := x - 2; -(1 / 2) * y * y)
  else
    0

/-- Function `Grid::DN`.  The recursive call `-DN( -x )` is made only for `x < 0`, so its
argument is positive and it runs the non-recursive part of the body. -/
def Grid.DN (x : ℚ) : ℚ :=
  if x < 0 then -Grid.DNnonneg (-x) else Grid.DNnonneg x

/-- Function `Grid::coordsToIndex`. -/
def Grid.coordsToIndex (g : Grid) (x y z : ℤ) : ℤ :=
  x + g.m_nx * (y + z * g.m_ny)

/-- Function `Grid::minMax`; returns the updated `(min, max)`. -/
def Grid.minMax (x min max : ℚ) : ℚ × ℚ :=
  (if x < min then x else min, if x > max then x else max)

/-- Function `Grid::fixDim`; returns `n` and the updated `(min, max)`. -/
def Grid.fixDim (min max : ℚ) : ℤ × ℚ × ℚ :=
  let minPadded := min - 3 / 2 * GRID_H
  let maxPadded := max + 3 / 2 * GRID_H
  let n : ℤ := ⌈(maxPadded - minPadded) / GRID_H⌉ + 1
  (n, minPadded, minPadded + n * GRID_H)

/-- Function `Grid::cellAndWeights`, always filling the derivative buffer as well (the
callers that pass no `dw` never read it). -/
def Grid.cellAndWeights (g : Grid) (particleX : Vector3f) : CellAndWeights :=
  let positionInCell0 : Vector3f :=
    ![(particleX 0 - g.m_xmin) / GRID_H,
      (particleX 1 - g.m_ymin) / GRID_H,
      (particleX 2 - g.m_zmin) / GRID_H]
  let particleCell : Vector3i := fun i => ⌊positionInCell0 i⌋
  let positionInCell : Vector3f := fun i => positionInCell0 i - (particleCell i : ℚ)
  { particleCell := particleCell
    w := fun i k =>
      if k = -1 then Grid.N (positionInCell i + 1)
      else if k = 0 then Grid.N (positionInCell i)
      else if k = 1 then Grid.N (positionInCell i - 1)
      else if k = 2 then Grid.N (positionInCell i - 2)
      else 0
    dw := fun i k =>
      if k = -1 then Grid.DN (positionInCell i + 1) / GRID_H
      else if k = 0 then Grid.DN (positionInCell i) / GRID_H
      else if k = 1 then Grid.DN (positionInCell i - 1) / GRID_H
      else if k = 2 then Grid.DN (positionInCell i - 2) / GRID_H
      else 0 }

/-- The index `idx` a stencil loop body computes from the particle cell. -/
def Grid.stencilIndex (g : Grid) (cw : CellAndWeights) (i j k : ℤ) : ℤ :=
  g.coordsToIndex (cw.particleCell 0 + i) (cw.particleCell 1 + j) (cw.particleCell 2 + k)

/-- The vector `weightGrad` of a stencil loop body. -/
def CellAndWeights.weightGrad (cw : CellAndWeights) (i j k : ℤ) : Vector3f :=
  ![cw.dw 0 i * cw.w 1 j * cw.w 2 k,
    cw.w 0 i * cw.dw 1 j * cw.w 2 k,
    cw.w 0 i * cw.w 1 j * cw.dw 2 k]

/-- The bounding-box loop of the constructor `Grid::Grid`, started from the running
values `b` of `((xmin, xmax), (ymin, ymax), (zmin, zmax))`. -/
def Grid.boundingBox (d : ParticleData) (b : (ℚ × ℚ) × (ℚ × ℚ) × (ℚ × ℚ)) :
    (ℚ × ℚ) × (ℚ × ℚ) × (ℚ × ℚ) :=
  d.foldl
    (fun (b : (ℚ × ℚ) × (ℚ × ℚ) × (ℚ × ℚ)) p =>
      (Grid.minMax (p.particleX 0) b.1.1 b.1.2,
       Grid.minMax (p.particleX 1) b.2.1.1 b.2.1.2,
       Grid.minMax (p.particleX 2) b.2.2.1 b.2.2.2)) b

/-- The first part of the constructor `Grid::Grid`: bounding box of the particles and
grid dimensions, with the node arrays still empty. -/
def Grid.bounds (d : ParticleData) : Grid :=
  let big : ℚ := 10000000000
  let box := Grid.boundingBox d ((big, -big), (big, -big), (big, -big))
  let fx := Grid.fixDim box.1.1 box.1.2
  let fy := Grid.fixDim box.2.1.1 box.2.1.2
  let fz := Grid.fixDim box.2.2.1 box.2.2.2
  { m_xmin := fx.2.1, m_ymin := fy.2.1, m_zmin := fz.2.1
    m_xmax := fx.2.2, m_ymax := fy.2.2, m_zmax := fz.2.2
    m_nx := fx.1, m_ny := fy.1, m_nz := fz.1
    m_gridMasses := [], m_gridVelocities := [], m_prevGridVelocities := []
    m_nodeCollided := [] }

/-- The mass splat of the constructor `Grid::Grid` (the block `// calculate masses:`). -/
def Grid.splatMasses (g : Grid) (d : ParticleData) : VectorXf :=
  d.foldl
    (fun m p =>
      let cw := g.cellAndWeights p.particleX
      forStencil (fun i j k m =>
        let idx := g.stencilIndex cw i j k
        let weight := cw.w 0 i * cw.w 1 j * cw.w 2 k
        setCoeff m idx (coeff m idx + p.particleM * weight)) m)
    (List.replicate (g.m_nx * g.m_ny * g.m_nz).toNat 0)

/-- The velocity splat of the constructor `Grid::Grid` (the block
`// calculate velocities:`), reading the finished masses of `g`. -/
def Grid.splatVelocities (g : Grid) (d : ParticleData) : VectorXf :=
  d.foldl
    (fun v p =>
      let cw := g.cellAndWeights p.particleX
      forStencil (fun i j k v =>
        let idx := g.stencilIndex cw i j k
        if coeff g.m_gridMasses idx > 0 then
          let particleMass := p.particleM
          let gridCellMass := coeff g.m_gridMasses idx
          let overallWeight := cw.w 0 i * cw.w 1 j * cw.w 2 k * (particleMass / gridCellMass)
          setSegment3 v (3 * idx) (segment3 v (3 * idx) + overallWeight • p.particleV)
        else v) v)
    (List.replicate (g.m_nx * g.m_ny * g.m_nz * 3).toNat 0)

/-- The constructor `Grid::Grid( const ParticleData& d )`. -/
def Grid.Grid (d : ParticleData) : Grid :=
  let g0 := Grid.bounds d
  let g1 := { g0 with m_gridMasses := g0.splatMasses d }
  { g1 with m_gridVelocities := g1.splatVelocities d }

/-- Function `Grid::matrixDoubleDot`. -/
def Grid.matrixDoubleDot (a b : Matrix3f) : ℚ :=
  a 0 0 * b 0 0 + a 0 1 * b 0 1 + a 0 2 * b 0 2 +
  a 1 0 * b 1 0 + a 1 1 * b 1 1 + a 1 2 * b 1 2 +
  a 2 0 * b 2 0 + a 2 1 * b 2 1 + a 2 2 * b 2 2

/-- The matrix `G` that `Grid::computeRdifferential` builds from `S`. -/
def Grid.computeRdifferentialG (S : Matrix3f) : Matrix3f :=
  !![S 0 0 + S 1 1, S 1 2, -S 0 2;
     S 1 2, S 0 0 + S 2 2, S 0 1;
     -S 0 2, S 0 1, S 1 1 + S 2 2]

/-- The matrix `RtdR` that `Grid::computeRdifferential` fills from the solution `w`. -/
def Grid.computeRdifferentialRtdR (w : Vector3f) : Matrix3f :=
  !![0, w 0, w 1;
     -w 0, 0, w 2;
     -w 1, -w 2, 0]

/-- Function `Grid::computeRdifferential`. -/
def Grid.computeRdifferential (dF R S : Matrix3f) : Matrix3f :=
  let M : Matrix3f := R.transpose * dF - dF.transpose * R
  let w : Vector3f := ![M 0 1, M 0 2, M 1 2]
  let G := Grid.computeRdifferentialG S
  let w : Vector3f := (inverse G).mulVec w
  let RtdR := Grid.computeRdifferentialRtdR w
  R * RtdR

/-- The deformation gradient differential `dFp` that `Grid::calculateForceDifferentials`
accumulates for one particle over its stencil. -/
def Grid.dFp (g : MpmSnow.Grid) (p : Particle) (dx : VectorXf) : Matrix3f :=
  let cw := g.cellAndWeights p.particleX
  forStencil (fun i j k dFp =>
    let idx := g.stencilIndex cw i j k
    let weightGrad := cw.weightGrad i j k
    let deltaX := segment3 dx (3 * idx)
    dFp + Matrix.vecMulVec deltaX weightGrad * p.particleF) 0

/-- The matrix `Ap` that `Grid::calculateForceDifferentials` computes for one particle
from its `dFp`: the differential of `2 MU (F - R) + LAMBDA (J - 1) J F^-T`. -/
def Grid.Ap (p : Particle) (dFp : Matrix3f) : Matrix3f :=
  let J := p.particleJ
  let dJ := J * Grid.matrixDoubleDot p.particleFinvTrans dFp
  let dFInvTrans : Matrix3f := -p.particleFinvTrans * dFp.transpose * p.particleFinvTrans
  let dR := Grid.computeRdifferential dFp p.particleR p.particleS
  let Ap : Matrix3f := (2 * p.particleMu) • (dFp - dR)
  Ap + p.particleLambda •
    ((dJ * J) • p.particleFinvTrans + (J - 1) • (dJ • p.particleFinvTrans + J • dFInvTrans))

/-- The matrix `forceMatrix` that `Grid::calculateForceDifferentials` computes for one
particle from its `dFp`. -/
def Grid.forceMatrix (p : Particle) (dFp : Matrix3f) : Matrix3f :=
  p.particleVolumes • Grid.Ap p dFp * p.particleF.transpose

/-- Function `Grid::calculateForceDifferentials`; `df` is the caller's vector on entry and the
result is its value on return. -/
def Grid.calculateForceDifferentials (g : MpmSnow.Grid) (d : ParticleData) (dx df : VectorXf) :
    VectorXf :=
  d.foldl
    (fun df p =>
      let cw := g.cellAndWeights p.particleX
      let forceMatrix := Grid.forceMatrix p (g.dFp p dx)
      forStencil (fun i j k df =>
        let idx := g.stencilIndex cw i j k
        let weightGrad := cw.weightGrad i j k
        setSegment3 df (3 * idx) (segment3 df (3 * idx) - forceMatrix.mulVec weightGrad)) df)
    (List.replicate df.length 0)

/-- The matrix `dEdF` that `Grid::calculateForces` computes for one particle. -/
def Grid.dEdF (p : Particle) : Matrix3f :=
  (2 * p.particleMu) • (p.particleF - p.particleR) +
    (p.particleLambda * (p.particleJ - 1) * p.particleJ) • p.particleFinvTrans

/-- Function `Grid::calculateForces`; `forces` is the caller's vector on entry and the result
is its value on return. -/
def Grid.calculateForces (g : MpmSnow.Grid) (d : ParticleData) (forces : VectorXf) : VectorXf :=
  let forces := forRange g.m_gridMasses.length
    (fun i forces => setSegment3 forces (3 * i) (coeff g.m_gridMasses i • ![0, GRAVITY, 0]))
    forces
  d.foldl
    (fun forces p =>
      let cw := g.cellAndWeights p.particleX
      let dEdF := Grid.dEdF p
      forStencil (fun i j k forces =>
        let idx := g.stencilIndex cw i j k
        let weightGrad := cw.weightGrad i j k
        setSegment3 forces (3 * idx)
          (segment3 forces (3 * idx) -
            (p.particleVolumes • dEdF * p.particleF.transpose).mulVec weightGrad)) forces)
    forces

/-- Function `Grid::applyImplicitUpdateMatrix`; the result is the value of `result` on return.
The block that would project out collided degrees of freedom is commented out in
the source, so `collisionObjects` is not consulted. -/
def Grid.applyImplicitUpdateMatrix (g : MpmSnow.Grid) (d : ParticleData)
    (_collisionObjects : List CollisionObject) (vNPlusOne : VectorXf) : VectorXf :=
  let df := g.calculateForceDifferentials d (vNPlusOne.map (fun x => TIME_STEP * x))
    (List.replicate vNPlusOne.length 0)
  let result := vNPlusOne
  let result :=
    forRange g.m_nx (fun i result =>
      forRange g.m_ny (fun j result =>
        forRange g.m_nz (fun k result =>
          let idx := g.coordsToIndex i j k
          if coeff g.m_gridMasses idx ≠ 0 then
            let resultV := segment3 result (3 * idx) -
              (TIME_STEP / coeff g.m_gridMasses idx) • segment3 df (3 * idx)
            setSegment3 result (3 * idx) resultV
          else result) result) result) result
  forRange g.m_gridMasses.length
    (fun i result => setSegment3 result (3 * i) (coeff g.m_gridMasses i • segment3 result (3 * i)))
    result

/-- Eigen `v.norm()`, with `sqrtf` for the square root. -/
def norm (sqrtf : ℚ → ℚ) (v : Vector3f) : ℚ :=
  sqrtf (Matrix.dotProduct v v)

/-- Eigen `v.normalize()`: the vector divided by its norm (the value of the code only
when the norm is not zero). -/
def normalize (sqrtf : ℚ → ℚ) (v : Vector3f) : Vector3f :=
  fun c => v c / norm sqrtf v

/-- Method `std::vector<bool>::resize( n )`: keeps the first `n` flags and pads with `false`. -/
def resizeFlags (l : List Bool) (n : ℕ) : List Bool :=
  l.take n ++ List.replicate (n - l.length) false

/-- Write `flags[i] = b`. -/
def setFlag (l : List Bool) (i : ℤ) (b : Bool) : List Bool :=
  if 0 ≤ i then l.set i.toNat b else l

/-- Read of `flags[i]`. -/
def flag (l : List Bool) (i : ℤ) : Bool :=
  if 0 ≤ i then l.getD i.toNat false else false

/-- Modelled from the spec: `Solver.h` is not among the sources.  The implicit solver is
called with the grid, the particles, the collision objects, the right-hand side and the
current grid velocities, and returns the new grid velocities. -/
abbrev Solver :=
  MpmSnow.Grid → ParticleData → List CollisionObject → VectorXf → VectorXf → VectorXf

/-- The loop `// apply collisions:` of `Grid::updateGridVelocities` for the node at
position `x`: from the predicted velocity and the collided flag of the node to their
values after all collision objects.

The friction line divides by `vTangent.norm()` without a guard, and `n.normalize()`
divides by the norm of the gradient.  In `float` a division by zero gives an infinity or
NaN, in `ℚ` it gives `0`: the velocity this function returns is the velocity of the code
only when both norms are non-zero (the collided flag does not depend on the friction
line).  For a head-on impact `vTangent = 0` the code computes `0 * (-inf) = NaN`. -/
def Grid.applyCollisions (sqrtf : ℚ → ℚ) (collisionObjects : List CollisionObject)
    (x : Vector3f) (forwardVelocity : Vector3f) (collided : Bool) : Vector3f × Bool :=
  collisionObjects.foldl
    (fun (st : Vector3f × Bool) obj =>
      let phi := obj.phi x
      if phi ≤ 0 then
        let n := normalize sqrtf (obj.grad x)
        let nDotV := Matrix.dotProduct n st.1
        if nDotV < 0 then
          let vPerp := nDotV • n
          let vTangent := st.1 - vPerp
          ((1 + COULOMBFRICTION * nDotV / norm sqrtf vTangent) • vTangent, true)
        else st
      else st)
    (forwardVelocity, collided)

/-- The loop nest over the nodes in `Grid::updateGridVelocities` (the block
`// work out forward velocity update`): from `forwardVelocities` and `m_nodeCollided`
before the loops to their values after them. -/
def Grid.forwardUpdate (sqrtf : ℚ → ℚ) (g : MpmSnow.Grid) (forces : VectorXf)
    (collisionObjects : List CollisionObject) (init : VectorXf × List Bool) :
    VectorXf × List Bool :=
  forRange g.m_nx (fun i st =>
    forRange g.m_ny (fun j st =>
      forRange g.m_nz (fun k (st : VectorXf × List Bool) =>
        let idx := g.coordsToIndex i j k
        let nodeCollided := setFlag st.2 idx false
        if coeff g.m_gridMasses idx = 0 then
          (setSegment3 st.1 (3 * idx) (segment3 g.m_gridVelocities (3 * idx)), nodeCollided)
        else
          let force := segment3 forces (3 * idx)
          let velocity := segment3 g.m_gridVelocities (3 * idx)
          let forwardVelocity : Vector3f :=
            fun c => velocity c + TIME_STEP * force c / coeff g.m_gridMasses idx
          let x : Vector3f :=
            ![GRID_H * i + g.m_xmin, GRID_H * j + g.m_ymin, GRID_H * k + g.m_zmin]
          let r := Grid.applyCollisions sqrtf collisionObjects x forwardVelocity false
          (setSegment3 st.1 (3 * idx) r.1,
            if r.2 then setFlag nodeCollided idx true else nodeCollided)) st) st) init

/-- Function `Grid::updateGridVelocities` up to the call of the solver: the grid with
`m_prevGridVelocities` and `m_nodeCollided` updated, and the right-hand side
`forwardVelocities` handed to the solver.  The vectors `forces` and
`forwardVelocities`, uninitialised in the source, start as zeros. -/
def Grid.updateGridVelocitiesRhs (sqrtf : ℚ → ℚ) (g : MpmSnow.Grid) (d : ParticleData)
    (collisionObjects : List CollisionObject) : MpmSnow.Grid × VectorXf :=
  let g := { g with m_prevGridVelocities := g.m_gridVelocities }
  let forces := g.calculateForces d (List.replicate g.m_gridVelocities.length 0)
  let st := g.forwardUpdate sqrtf forces collisionObjects
    (List.replicate g.m_gridVelocities.length 0,
      resizeFlags g.m_nodeCollided g.m_gridMasses.length)
  let forwardVelocities := forRange g.m_gridMasses.length
    (fun i fv => setSegment3 fv (3 * i) (coeff g.m_gridMasses i • segment3 fv (3 * i))) st.1
  ({ g with m_nodeCollided := st.2 }, forwardVelocities)

/-- Function `Grid::updateGridVelocities`. -/
def Grid.updateGridVelocities (sqrtf : ℚ → ℚ) (g : MpmSnow.Grid) (d : ParticleData)
    (collisionObjects : List CollisionObject) (implicitSolver : Solver) : MpmSnow.Grid :=
  let r := g.updateGridVelocitiesRhs sqrtf d collisionObjects
  { r.1 with
    m_gridVelocities := implicitSolver r.1 d collisionObjects r.2 r.1.m_gridVelocities }

/-- Function `Grid::updateParticleVelocities`.  The loop over the particles writes only
`d.particleV[p]` and reads only the state of particle `p`, so it is a map over the
particles. -/
def Grid.updateParticleVelocities (g : MpmSnow.Grid) (d : ParticleData) : ParticleData :=
  d.map (fun p =>
    let cw := g.cellAndWeights p.particleX
    { p with
      particleV := forStencil (fun i j k (particleV : Vector3f) =>
        let idx := g.stencilIndex cw i j k
        particleV + (cw.w 0 i * cw.w 1 j * cw.w 2 k) •
          (segment3 g.m_gridVelocities (3 * idx) - segment3 g.m_prevGridVelocities (3 * idx)))
        p.particleV })

/-- Eigen `m.computeInverseAndDetWithCheck( inverse, determinant, invertible )` for a 3×3
matrix, with `inverse0` the value of `inverse` before the call: the determinant is always
written, the matrix is declared invertible when the absolute value of its determinant is
greater than `dummy_precision`, and the inverse is written only then.  The result is
`(inverse, determinant, invertible)`. -/
def computeInverseAndDetWithCheck (m inverse0 : Matrix3f) : Matrix3f × ℚ × Bool :=
  let determinant := m.det
  let invertible := decide (|determinant| > dummy_precision)
  (if invertible then inverse m else inverse0, determinant, invertible)

/-- The body of the loop `// apply plastic yeild:` of `Grid::updateDeformationGradients`
for one singular value: the stretching test, then the compression test. -/
def Grid.clampSingularValue (singularValue : ℚ) : ℚ :=
  let singularValue := if singularValue > 1 + THETA_S then 1 + THETA_S else singularValue
  if singularValue < 1 - THETA_C then 1 - THETA_C else singularValue

/-- The velocity gradient `delV` that `Grid::updateDeformationGradients` accumulates for
one particle over its stencil.  (The vector `v` accumulated by the same loop is never
read.) -/
def Grid.delV (g : MpmSnow.Grid) (particleX : Vector3f) : Matrix3f :=
  let cw := g.cellAndWeights particleX
  forStencil (fun i j k delV =>
    let idx := g.stencilIndex cw i j k
    let weightGrad := cw.weightGrad i j k
    let vSample := segment3 g.m_gridVelocities (3 * idx)
    delV + Matrix.vecMulVec vSample weightGrad) 0

/-- The value `newParticleF` of `Grid::updateDeformationGradients` for one particle, the
trial deformation gradient `(I + dt * delV) * F_p`; used to state the theorems. -/
def Grid.trialF (g : MpmSnow.Grid) (p : Particle) : Matrix3f :=
  (1 + TIME_STEP • g.delV p.particleX) * p.particleF

/-- The block guarded by `#ifdef PLASTICITY` in `Grid::updateDeformationGradients` for
one particle.  `svd` stands for Eigen `JacobiSVD` and returns
`(matrixU, singularValues, matrixV)`; `expf` stands for `exp`. -/
def Grid.applyPlasticity (svd : Matrix3f → Matrix3f × Vector3f × Matrix3f) (expf : ℚ → ℚ)
    (p : Particle) : Particle :=
  let usv := svd p.particleF
  let singularValues : Vector3f := fun i => Grid.clampSingularValue (usv.2.1 i)
  let diagonalMat : Matrix3f := Matrix.diagonal singularValues
  let diagonalMatInv : Matrix3f := Matrix.diagonal (fun i => 1 / singularValues i)
  let particleF := usv.1 * diagonalMat * usv.2.2.transpose
  let particleFplastic := usv.2.2 * diagonalMatInv * usv.1.transpose * p.particleFplastic
  let hardeningFactor := expf (HARDENING * (1 - particleFplastic.det))
  { p with
    particleF := particleF
    particleFplastic := particleFplastic
    particleMu := MU * hardeningFactor
    particleLambda := LAMBDA * hardeningFactor }

/-- The body of the particle loop of `Grid::updateDeformationGradients`.  The
compile-time macro `PLASTICITY` (not defined in `Grid.h` as shipped) is the parameter
`plasticity`; `polar` stands for Eigen `computeRotationScaling` and returns
`(rotation, scaling)`. -/
def Grid.updateDeformationGradient (plasticity : Bool)
    (svd : Matrix3f → Matrix3f × Vector3f × Matrix3f) (polar : Matrix3f → Matrix3f × Matrix3f)
    (expf : ℚ → ℚ) (g : MpmSnow.Grid) (p : Particle) : Particle :=
  let delV := g.delV p.particleX
  let newParticleF := (1 + TIME_STEP • delV) * p.particleF
  let p := { p with particleF := newParticleF }
  let r := computeInverseAndDetWithCheck p.particleF p.particleFinvTrans
  let p := { p with particleFinvTrans := r.1, particleJ := r.2.1 }
  if r.2.2 then
    let p := { p with particleFinvTrans := p.particleFinvTrans.transpose }
    let p := if plasticity then Grid.applyPlasticity svd expf p else p
    let rs := polar p.particleF
    { p with particleR := rs.1, particleS := rs.2 }
  else p

/-- Function `Grid::updateDeformationGradients`. -/
def Grid.updateDeformationGradients (plasticity : Bool)
    (svd : Matrix3f → Matrix3f × Vector3f × Matrix3f) (polar : Matrix3f → Matrix3f × Matrix3f)
    (expf : ℚ → ℚ) (g : MpmSnow.Grid) (d : ParticleData) : ParticleData :=
  d.map (Grid.updateDeformationGradient plasticity svd polar expf g)

/-! ## Conjugate Residuals solver -/

/-- Modelled from the spec: `ConjugateResiduals.h` is not among the sources.  The state
of the iteration of section 4.8: the iterate `x_k`, the residual `r_k` and the search
direction `p_k`. -/
structure CRState (n : ℕ) where
  x : Fin n → ℚ
  r : Fin n → ℚ
  p : Fin n → ℚ

/-- Modelled from the spec: the start of the iteration (section 4.8),
`r_0 = P(b - A x_0)` and `p_0 = r_0`, for the operator `A` and the subspace projection
`P`. -/
def crInit {n : ℕ} (A : Matrix (Fin n) (Fin n) ℚ) (P : (Fin n → ℚ) → Fin n → ℚ)
    (b x0 : Fin n → ℚ) : CRState n :=
  let r0 := P (b - A.mulVec x0)
  { x := x0, r := r0, p := r0 }

/-- Modelled from the spec: one pass of the loop of section 4.8,
`α = (r_k · A r_k) / (A p_k · A p_k)`, `x ← x + α p_k`, `r_{k+1} = r_k - α A p_k`,
`β = (r_{k+1} · A r_{k+1}) / (r_k · A r_k)`, `p_{k+1} = r_{k+1} + β p_k`, with `P` applied
to `r` and `A p`.  Division is that of `ℚ`, where a zero denominator gives 0. -/
def crStep {n : ℕ} (A : Matrix (Fin n) (Fin n) ℚ) (P : (Fin n → ℚ) → Fin n → ℚ)
    (s : CRState n) : CRState n :=
  let Ap := P (A.mulVec s.p)
  let alpha := Matrix.dotProduct s.r (A.mulVec s.r) / Matrix.dotProduct Ap Ap
  let x := s.x + alpha • s.p
  let r := P (s.r - alpha • Ap)
  let beta := Matrix.dotProduct r (A.mulVec r) / Matrix.dotProduct s.r (A.mulVec s.r)
  { x := x, r := r, p := r + beta • s.p }

/-- Modelled from the spec: the loop of section 4.8 with the default termination, which
stops when `‖r_k‖² ≤ tol²` or after `maxIters` passes.  The result is the list of the
states visited, which holds the recorded residuals and search directions; its last
state holds the returned `x`. -/
def crLoop {n : ℕ} (A : Matrix (Fin n) (Fin n) ℚ) (P : (Fin n → ℚ) → Fin n → ℚ) (tol : ℚ) :
    ℕ → CRState n → List (CRState n)
  | 0, s => [s]
  | maxIters + 1, s =>
    if Matrix.dotProduct s.r s.r ≤ tol ^ 2 then [s]
    else s :: crLoop A P tol maxIters (crStep A P s)

/-- Modelled from the spec: the states a solve of `A x = b` from `x0` visits. -/
def ConjugateResiduals {n : ℕ} (A : Matrix (Fin n) (Fin n) ℚ) (P : (Fin n → ℚ) → Fin n → ℚ)
    (tol : ℚ) (maxIters : ℕ) (b x0 : Fin n → ℚ) : List (CRState n) :=
  crLoop A P tol maxIters (crInit A P b x0)

/-- Modelled from the spec: the `x` a solve of `A x = b` from `x0` returns, that of the
last state visited. -/
def crSolve {n : ℕ} (A : Matrix (Fin n) (Fin n) ℚ) (P : (Fin n → ℚ) → Fin n → ℚ)
    (tol : ℚ) (maxIters : ℕ) (b x0 : Fin n → ℚ) : Fin n → ℚ :=
  ((ConjugateResiduals A P tol maxIters b x0).getLastD (crInit A P b x0)).x

/-! ## Concrete inputs and the quantities the theorems are stated with -/

/-- A particle at rest at the origin with unit mass and volume and an undeformed
state (scenario 1 of the spec); the concrete input of the worked instances. -/
def restParticle : Particle :=
  { particleX := ![0, 0, 0], particleV := ![0, 0, 0], particleM := 1, particleVolumes := 1
    particleF := 1, particleR := 1, particleS := 1, particleJ := 1, particleFinvTrans := 1
    particleMu := MU, particleLambda := LAMBDA, particleFplastic := 1 }

/-- The rest particle given the velocity `(1, 0, 0)`. -/
def slidingParticle : Particle :=
  { restParticle with particleV := ![1, 0, 0] }

/-- The rest particle given the velocity `(1, -4, 0)`: it moves along the floor plane
`y = 0` and four times as fast into it. -/
def divingParticle : Particle :=
  { restParticle with particleV := ![1, -4, 0] }

/-- The rest particle given the velocity `(0, -1, 0)` of scenario 5 of the spec: it falls
straight onto the floor plane `y = 0`. -/
def fallingParticle : Particle :=
  { restParticle with particleV := ![0, -1, 0] }

/-- The floor plane `y = 0` (scenario 5 of the spec) as a collision object: signed
distance `y` and gradient `(0, 1, 0)`. -/
def floorPlane : CollisionObject :=
  { phi := fun x => x 1, grad := fun _ => ![0, 1, 0] }

/-- A square root on `ℚ` that is exact on the squares of rationals (integer square roots
of numerator and denominator); the `sqrtf` of the worked instances. -/
def sqrtExact (x : ℚ) : ℚ :=
  (Nat.sqrt x.num.toNat : ℚ) / (Nat.sqrt x.den : ℚ)

/-- The grid of the rest particle after a solve that left the velocity `(a, 0, 0)` at the
node `(1, 1, 1)` and no velocity at the other nodes. -/
def pushedGrid (a : ℚ) : MpmSnow.Grid :=
  { Grid.Grid [restParticle] with
    m_gridVelocities :=
      setSegment3 (List.replicate (Grid.Grid [restParticle]).m_gridVelocities.length 0)
        (3 * (Grid.Grid [restParticle]).coordsToIndex 1 1 1) ![a, 0, 0] }

/-- The grid of the rest particle after a solve that left the velocity `(1, 1, 1)` at
every node. -/
def driftingGrid : MpmSnow.Grid :=
  { Grid.Grid [restParticle] with
    m_gridVelocities :=
      List.replicate (Grid.Grid [restParticle]).m_gridVelocities.length 1 }

/-- The rest particle stretched to twice its length along the x axis, with consistent
caches: `F = S = diag(2, 1, 1)`, `J = 2`, `F^-T = diag(1/2, 1, 1)`. -/
def stretchedParticle : Particle :=
  { restParticle with
    particleF := Matrix.diagonal ![2, 1, 1]
    particleS := Matrix.diagonal ![2, 1, 1]
    particleJ := 2
    particleFinvTrans := Matrix.diagonal ![1 / 2, 1, 1] }

/-- A singular value decomposition for diagonal matrices with a non-negative diagonal:
`U = V = 1` and the diagonal as singular values. -/
def svdDiagonal (m : Matrix3f) : Matrix3f × Vector3f × Matrix3f :=
  (1, fun i => m i i, 1)

/-- A polar decomposition for symmetric positive semidefinite matrices: the rotation
is `1` and the scaling is the matrix. -/
def polarSymmetric (m : Matrix3f) : Matrix3f × Matrix3f :=
  (1, m)

/-- The particle position in grid units, relative to the grid origin (the first value
of `positionInCell` in `Grid::cellAndWeights`); used to state the theorems. -/
def Grid.gridPos (g : MpmSnow.Grid) (particleX : Vector3f) : Vector3f :=
  ![(particleX 0 - g.m_xmin) / GRID_H,
    (particleX 1 - g.m_ymin) / GRID_H,
    (particleX 2 - g.m_zmin) / GRID_H]


/-- The weight `w_p(i)` of the spec (section 4.1) of a particle at `particleX` for the
node with coordinates `(a, b, c)`: the product over the three axes of
`N((x_d - x_min) / h - i_d)`. -/
def Grid.nodeWeight (g : MpmSnow.Grid) (particleX : Vector3f) (a b c : ℤ) : ℚ :=
  Grid.N (g.gridPos particleX 0 - a) * Grid.N (g.gridPos particleX 1 - b) *
    Grid.N (g.gridPos particleX 2 - c)

/-- The weight gradient `∇w_p(i)` of the spec (section 4.1) of a particle at `particleX`
for the node with coordinates `(a, b, c)`, with `dw_d = DN(...) / h` on the
differentiated axis. -/
def Grid.nodeWeightGrad (g : MpmSnow.Grid) (particleX : Vector3f) (a b c : ℤ) : Vector3f :=
  ![Grid.DN (g.gridPos particleX 0 - a) / GRID_H * Grid.N (g.gridPos particleX 1 - b) *
      Grid.N (g.gridPos particleX 2 - c),
    Grid.N (g.gridPos particleX 0 - a) * (Grid.DN (g.gridPos particleX 1 - b) / GRID_H) *
      Grid.N (g.gridPos particleX 2 - c),
    Grid.N (g.gridPos particleX 0 - a) * Grid.N (g.gridPos particleX 1 - b) *
      (Grid.DN (g.gridPos particleX 2 - c) / GRID_H)]

/-- The position `x` of the node `(i, j, k)` that the node loop of
`Grid::updateGridVelocities` computes; used to state the theorems. -/
def Grid.nodeX (g : MpmSnow.Grid) (i j k : ℤ) : Vector3f :=
  ![GRID_H * i + g.m_xmin, GRID_H * j + g.m_ymin, GRID_H * k + g.m_zmin]

/-- The value of `forwardVelocity` at the node `(i, j, k)` before the collision loop of
`Grid::updateGridVelocities`, the predicted velocity `v* = v_i + dt * f_i / m_i` with
`f = calculateForces`; used to state the theorems. -/
def Grid.predictedVelocity (g : MpmSnow.Grid) (d : ParticleData) (i j k : ℤ) : Vector3f :=
  fun t => segment3 g.m_gridVelocities (3 * g.coordsToIndex i j k) t +
    TIME_STEP * segment3 (g.calculateForces d (List.replicate g.m_gridVelocities.length 0))
      (3 * g.coordsToIndex i j k) t / coeff g.m_gridMasses (g.coordsToIndex i j k)

/-- The cubic B-spline in the words of the spec (section 4.1): `(1/2)|x|³ − x² + 2/3` for
`|x| < 1`, `−|x|³/6 + x² − 2|x| + 4/3` for `1 ≤ |x| < 2`, and `0` otherwise; compared with
`Grid.N`, which follows the source. -/
def specN (x : ℚ) : ℚ :=
  if |x| < 1 then 1 / 2 * |x| ^ 3 - x ^ 2 + 2 / 3
  else if 1 ≤ |x| ∧ |x| < 2 then -(|x| ^ 3) / 6 + x ^ 2 - 2 * |x| + 4 / 3
  else 0

/-- The total grid momentum `Σ_i m_i v_i` over the first `n` nodes, for a vector `m` of
node masses and a vector `v` of node velocities; used to state the theorems. -/
def nodeMomentum (n : ℕ) (m v : VectorXf) : Vector3f :=
  ∑ i in Finset.range n, coeff m (i : ℤ) • segment3 v (3 * (i : ℤ))

/-- The grid contains the stencil of every particle of `d`: on each axis the particle
cell has one node below it and two above it. -/
def Grid.Contains (g : MpmSnow.Grid) (d : ParticleData) : Prop :=
  ∀ p ∈ d,
    (1 ≤ (g.cellAndWeights p.particleX).particleCell 0 ∧
      (g.cellAndWeights p.particleX).particleCell 0 + 2 ≤ g.m_nx - 1) ∧
    (1 ≤ (g.cellAndWeights p.particleX).particleCell 1 ∧
      (g.cellAndWeights p.particleX).particleCell 1 + 2 ≤ g.m_ny - 1) ∧
    (1 ≤ (g.cellAndWeights p.particleX).particleCell 2 ∧
      (g.cellAndWeights p.particleX).particleCell 2 + 2 ≤ g.m_nz - 1)
/-! ## Shape functions -/

theorem N_of_abs_lt_one {x : ℚ} (h : |x| < 1) :
    Grid.N x = 1 / 2 * |x| * |x| * |x| - |x| * |x| + 2 / 3 := by
  simp [Grid.N, h]

theorem N_of_one_le_abs_lt_two {x : ℚ} (h1 : 1 ≤ |x|) (h2 : |x| < 2) :
    Grid.N x = (2 - |x|) ^ 3 / 6 := by
  simp only [Grid.N, not_lt.mpr h1, h2, if_true, if_false]
  ring

theorem N_of_two_le_abs {x : ℚ} (h : 2 ≤ |x|) : Grid.N x = 0 := by
  have h1 : ¬ |x| < 1 := by linarith
  have h2 : ¬ |x| < 2 := by linarith
  simp [Grid.N, h1, h2]

theorem N_stencil_sum (t : ℚ) (h0 : 0 ≤ t) (h1 : t < 1) :
    Grid.N (t + 1) + Grid.N t + Grid.N (t - 1) + Grid.N (t - 2) = 1 := by
  have a1 : |t + 1| = t + 1 := abs_of_nonneg (by linarith)
  have a2 : |t| = t := abs_of_nonneg h0
  have a3 : |t - 1| = 1 - t := by rw [abs_of_neg (by linarith)]; ring
  have a4 : |t - 2| = 2 - t := by rw [abs_of_neg (by linarith)]; ring
  rw [N_of_one_le_abs_lt_two (x := t + 1) (by rw [a1]; linarith) (by rw [a1]; linarith),
    N_of_abs_lt_one (x := t) (by rw [a2]; exact h1), a1, a2]
  rcases eq_or_lt_of_le h0 with h | h
  · subst h
    rw [N_of_one_le_abs_lt_two (x := 0 - 1) (by norm_num) (by norm_num),
      N_of_two_le_abs (x := 0 - 2) (by norm_num)]
    norm_num
  · rw [N_of_abs_lt_one (x := t - 1) (by rw [a3]; linarith),
      N_of_one_le_abs_lt_two (x := t - 2) (by rw [a4]; linarith) (by rw [a4]; linarith), a3, a4]
    ring

theorem DN_stencil_sum (t : ℚ) (h0 : 0 ≤ t) (h1 : t < 1) :
    Grid.DN (t + 1) + Grid.DN t + Grid.DN (t - 1) + Grid.DN (t - 2) = 0 := by
  have e1 : Grid.DN (t + 1) = -(1 / 2) * (t - 1) * (t - 1) := by
    have c1 : ¬ t + 1 < 0 := by linarith
    have c2 : ¬ t + 1 < 1 := by linarith
    have c3 : t + 1 < 2 := by linarith
    simp only [Grid.DN, Grid.DNnonneg, c1, c2, c3, if_true, if_false]
    ring
  have e2 : Grid.DN t = t * (3 / 2 * t - 2) := by
    simp only [Grid.DN, Grid.DNnonneg, not_lt.mpr h0, h1, if_true, if_false]
  have e3 : Grid.DN (t - 1) = (1 - t) * (1 / 2 + 3 / 2 * t) := by
    have c1 : t - 1 < 0 := by linarith
    rcases eq_or_lt_of_le h0 with h | h
    · subst h
      norm_num [Grid.DN, Grid.DNnonneg]
    · have c2 : -(t - 1) < 1 := by linarith
      simp only [Grid.DN, Grid.DNnonneg, c1, c2, if_true]
      ring
  have e4 : Grid.DN (t - 2) = 1 / 2 * t * t := by
    have c1 : t - 2 < 0 := by linarith
    rcases eq_or_lt_of_le h0 with h | h
    · subst h
      norm_num [Grid.DN, Grid.DNnonneg]
    · have c2 : ¬ -(t - 2) < 1 := by linarith
      have c3 : -(t - 2) < 2 := by linarith
      simp only [Grid.DN, Grid.DNnonneg, c1, c2, c3, if_true, if_false]
      ring
  rw [e1, e2, e3, e4]
  ring

/-! ## The weight buffers of `cellAndWeights` -/

theorem cellAndWeights_particleCell (g : Grid) (x : Vector3f) (a : Fin 3) :
    (g.cellAndWeights x).particleCell a = ⌊g.gridPos x a⌋ := by
  fin_cases a <;> rfl

theorem cellAndWeights_w (g : Grid) (x : Vector3f) (a : Fin 3) (k : ℤ)
    (hk : k = -1 ∨ k = 0 ∨ k = 1 ∨ k = 2) :
    (g.cellAndWeights x).w a k = Grid.N (Int.fract (g.gridPos x a) - k) := by
  have e : ∀ b : Fin 3, ((g.cellAndWeights x).w b k =
      if k = -1 then Grid.N (Int.fract (g.gridPos x b) + 1)
      else if k = 0 then Grid.N (Int.fract (g.gridPos x b))
      else if k = 1 then Grid.N (Int.fract (g.gridPos x b) - 1)
      else if k = 2 then Grid.N (Int.fract (g.gridPos x b) - 2)
      else 0) := by
    intro b; fin_cases b <;> rfl
  rw [e]
  rcases hk with h | h | h | h <;> subst h <;> norm_num

theorem cellAndWeights_dw (g : Grid) (x : Vector3f) (a : Fin 3) (k : ℤ)
    (hk : k = -1 ∨ k = 0 ∨ k = 1 ∨ k = 2) :
    (g.cellAndWeights x).dw a k = Grid.DN (Int.fract (g.gridPos x a) - k) / GRID_H := by
  have e : ∀ b : Fin 3, ((g.cellAndWeights x).dw b k =
      if k = -1 then Grid.DN (Int.fract (g.gridPos x b) + 1) / GRID_H
      else if k = 0 then Grid.DN (Int.fract (g.gridPos x b)) / GRID_H
      else if k = 1 then Grid.DN (Int.fract (g.gridPos x b) - 1) / GRID_H
      else if k = 2 then Grid.DN (Int.fract (g.gridPos x b) - 2) / GRID_H
      else 0) := by
    intro b; fin_cases b <;> rfl
  rw [e]
  rcases hk with h | h | h | h <;> subst h <;> norm_num

theorem w_axis_sum (g : Grid) (x : Vector3f) (a : Fin 3) :
    (g.cellAndWeights x).w a (-1) + (g.cellAndWeights x).w a 0 + (g.cellAndWeights x).w a 1 +
      (g.cellAndWeights x).w a 2 = 1 := by
  rw [cellAndWeights_w g x a (-1) (by simp), cellAndWeights_w g x a 0 (by simp),
    cellAndWeights_w g x a 1 (by simp), cellAndWeights_w g x a 2 (by simp)]
  have h := N_stencil_sum (Int.fract (g.gridPos x a)) (Int.fract_nonneg _) (Int.fract_lt_one _)
  simp only [Int.cast_neg, Int.cast_one, Int.cast_zero, Int.cast_ofNat, sub_neg_eq_add, sub_zero]
  exact h

theorem dw_axis_sum (g : Grid) (x : Vector3f) (a : Fin 3) :
    (g.cellAndWeights x).dw a (-1) + (g.cellAndWeights x).dw a 0 + (g.cellAndWeights x).dw a 1 +
      (g.cellAndWeights x).dw a 2 = 0 := by
  rw [cellAndWeights_dw g x a (-1) (by simp), cellAndWeights_dw g x a 0 (by simp),
    cellAndWeights_dw g x a 1 (by simp), cellAndWeights_dw g x a 2 (by simp)]
  have h := DN_stencil_sum (Int.fract (g.gridPos x a)) (Int.fract_nonneg _) (Int.fract_lt_one _)
  simp only [Int.cast_neg, Int.cast_one, Int.cast_zero, Int.cast_ofNat, sub_neg_eq_add, sub_zero]
  rw [← add_div, ← add_div, ← add_div, h, zero_div]

/-- The sum a stencil loop accumulates is the product of the three per-axis sums when
each term is a product of per-axis factors. -/
theorem forStencil_sum_mul (a b c : ℤ → ℚ) :
    forStencil (fun i j k s => s + a i * b j * c k) 0 =
      (a (-1) + a 0 + a 1 + a 2) * (b (-1) + b 0 + b 1 + b 2) * (c (-1) + c 0 + c 1 + c 2) := by
  simp only [forStencil, List.foldl_cons, List.foldl_nil]
  ring

/-! ## C2, C3: partition of unity and vanishing gradient sum -/

/-- C2 (partition of unity).  For an in-cell fractional position `t` with `0 ≤ t < 1`
the four values `N(t+1)`, `N(t)`, `N(t-1)`, `N(t-2)` sum to 1; on every axis the four
weights written by `cellAndWeights` are these values at the fractional position of the
particle (which lies in `[0, 1)`); and the 64 product weights
`w[0][i] * w[1][j] * w[2][k]` accumulated over the stencil loop sum to 1, for every
grid and every particle position. -/
theorem partition_of_unity (t : ℚ) (h0 : 0 ≤ t) (h1 : t < 1) (g : Grid) (x : Vector3f) :
    Grid.N (t + 1) + Grid.N t + Grid.N (t - 1) + Grid.N (t - 2) = 1 ∧
    (∀ a : Fin 3, 0 ≤ Int.fract (g.gridPos x a) ∧ Int.fract (g.gridPos x a) < 1 ∧
      (g.cellAndWeights x).w a (-1) = Grid.N (Int.fract (g.gridPos x a) + 1) ∧
      (g.cellAndWeights x).w a 0 = Grid.N (Int.fract (g.gridPos x a)) ∧
      (g.cellAndWeights x).w a 1 = Grid.N (Int.fract (g.gridPos x a) - 1) ∧
      (g.cellAndWeights x).w a 2 = Grid.N (Int.fract (g.gridPos x a) - 2)) ∧
    forStencil (fun i j k s => s + (g.cellAndWeights x).w 0 i * (g.cellAndWeights x).w 1 j *
      (g.cellAndWeights x).w 2 k) 0 = 1 := by
  refine ⟨N_stencil_sum t h0 h1, ?_, ?_⟩
  · intro a
    refine ⟨Int.fract_nonneg _, Int.fract_lt_one _, ?_, ?_, ?_, ?_⟩
    · rw [cellAndWeights_w g x a (-1) (by simp)]; norm_num
    · rw [cellAndWeights_w g x a 0 (by simp)]; norm_num
    · rw [cellAndWeights_w g x a 1 (by simp)]; norm_num
    · rw [cellAndWeights_w g x a 2 (by simp)]; norm_num
  · rw [forStencil_sum_mul, w_axis_sum, w_axis_sum, w_axis_sum]
    norm_num

/-- Instance of `partition_of_unity` at `t = 1/2` on the grid of the rest particle. -/
theorem partition_of_unity_witness :
    (0 : ℚ) ≤ 1 / 2 ∧ (1 / 2 : ℚ) < 1 ∧
    Grid.N (1 / 2 + 1) + Grid.N (1 / 2) + Grid.N (1 / 2 - 1) + Grid.N (1 / 2 - 2) = 1 :=
  ⟨by norm_num, by norm_num,
    (partition_of_unity (1 / 2) (by norm_num) (by norm_num) (Grid.Grid [restParticle])
      ![0, 0, 0]).1⟩

/-- The accumulated vector of a stencil loop, read at one component. -/
theorem forStencil_sum_apply (f : ℤ → ℤ → ℤ → Vector3f) (a : Fin 3) :
    forStencil (fun i j k s => s + f i j k) (0 : Vector3f) a =
      forStencil (fun i j k s => s + f i j k a) 0 := by
  simp only [forStencil, List.foldl_cons, List.foldl_nil, Pi.add_apply, Pi.zero_apply]

theorem weightGrad_stencil_sum (g : Grid) (x : Vector3f) :
    forStencil (fun i j k s => s + (g.cellAndWeights x).weightGrad i j k) (0 : Vector3f) = 0 := by
  funext a
  rw [forStencil_sum_apply]
  fin_cases a
  · simp only [CellAndWeights.weightGrad, Fin.zero_eta, Matrix.cons_val_zero, Pi.zero_apply]
    rw [forStencil_sum_mul, dw_axis_sum]
    ring
  · simp only [CellAndWeights.weightGrad, Fin.mk_one, Matrix.cons_val_one, Matrix.head_cons,
      Pi.zero_apply]
    rw [forStencil_sum_mul, dw_axis_sum]
    ring
  · have e : ∀ i j k, (g.cellAndWeights x).weightGrad i j k 2 =
        (g.cellAndWeights x).w 0 i * (g.cellAndWeights x).w 1 j * (g.cellAndWeights x).dw 2 k :=
      fun _ _ _ => rfl
    simp only [Fin.reduceFinMk, e, Pi.zero_apply]
    rw [forStencil_sum_mul, dw_axis_sum]
    ring

/-- C3 (derivative weights sum to zero).  For an in-cell fractional position `t` with
`0 ≤ t < 1` the four values `DN(t+1)`, `DN(t)`, `DN(t-1)`, `DN(t-2)` sum to 0; on every
axis the four derivative weights written by `cellAndWeights` are these values at the
fractional position of the particle divided by `GRID_H`; and the 64 vectors
`weightGrad = (dw0*w1*w2, w0*dw1*w2, w0*w1*dw2)` accumulated over the stencil loop sum
to the zero vector, for every grid and every particle position. -/
theorem weight_gradients_sum_zero (t : ℚ) (h0 : 0 ≤ t) (h1 : t < 1) (g : Grid)
    (x : Vector3f) :
    Grid.DN (t + 1) + Grid.DN t + Grid.DN (t - 1) + Grid.DN (t - 2) = 0 ∧
    (∀ a : Fin 3, 0 ≤ Int.fract (g.gridPos x a) ∧ Int.fract (g.gridPos x a) < 1 ∧
      (g.cellAndWeights x).dw a (-1) = Grid.DN (Int.fract (g.gridPos x a) + 1) / GRID_H ∧
      (g.cellAndWeights x).dw a 0 = Grid.DN (Int.fract (g.gridPos x a)) / GRID_H ∧
      (g.cellAndWeights x).dw a 1 = Grid.DN (Int.fract (g.gridPos x a) - 1) / GRID_H ∧
      (g.cellAndWeights x).dw a 2 = Grid.DN (Int.fract (g.gridPos x a) - 2) / GRID_H) ∧
    forStencil (fun i j k s => s + (g.cellAndWeights x).weightGrad i j k) (0 : Vector3f) = 0 := by
  refine ⟨DN_stencil_sum t h0 h1, ?_, weightGrad_stencil_sum g x⟩
  intro a
  refine ⟨Int.fract_nonneg _, Int.fract_lt_one _, ?_, ?_, ?_, ?_⟩
  · rw [cellAndWeights_dw g x a (-1) (by simp)]; norm_num
  · rw [cellAndWeights_dw g x a 0 (by simp)]; norm_num
  · rw [cellAndWeights_dw g x a 1 (by simp)]; norm_num
  · rw [cellAndWeights_dw g x a 2 (by simp)]; norm_num

/-- Instance of `weight_gradients_sum_zero` at `t = 1/2` on the grid of the rest
particle. -/
theorem weight_gradients_sum_zero_witness :
    (0 : ℚ) ≤ 1 / 2 ∧ (1 / 2 : ℚ) < 1 ∧
    Grid.DN (1 / 2 + 1) + Grid.DN (1 / 2) + Grid.DN (1 / 2 - 1) + Grid.DN (1 / 2 - 2) = 0 :=
  ⟨by norm_num, by norm_num,
    (weight_gradients_sum_zero (1 / 2) (by norm_num) (by norm_num) (Grid.Grid [restParticle])
      ![0, 0, 0]).1⟩

/-! ## Bounding box, grid dimensions and the stencil (C4) -/

theorem GRID_H_pos : 0 < GRID_H := by norm_num [GRID_H]

/-- The running `(min, max)` of the bounding-box loop encloses every value seen. -/
theorem minMax_foldl_bounds (f : Particle → ℚ) (d : ParticleData) (b : ℚ × ℚ) :
    (d.foldl (fun m p => Grid.minMax (f p) m.1 m.2) b).1 ≤ b.1 ∧
    b.2 ≤ (d.foldl (fun m p => Grid.minMax (f p) m.1 m.2) b).2 ∧
    ∀ p ∈ d, (d.foldl (fun m p => Grid.minMax (f p) m.1 m.2) b).1 ≤ f p ∧
      f p ≤ (d.foldl (fun m p => Grid.minMax (f p) m.1 m.2) b).2 := by
  induction d generalizing b with
  | nil => simp
  | cons q d ih =>
    simp only [List.foldl_cons]
    obtain ⟨h1, h2, h3⟩ := ih (Grid.minMax (f q) b.1 b.2)
    have m1 : (Grid.minMax (f q) b.1 b.2).1 ≤ b.1 ∧ (Grid.minMax (f q) b.1 b.2).1 ≤ f q := by
      simp only [Grid.minMax]
      split_ifs with h
      · exact ⟨le_of_lt h, le_refl _⟩
      · exact ⟨le_refl _, not_lt.mp h⟩
    have m2 : b.2 ≤ (Grid.minMax (f q) b.1 b.2).2 ∧ f q ≤ (Grid.minMax (f q) b.1 b.2).2 := by
      simp only [Grid.minMax]
      split_ifs with h
      · exact ⟨le_of_lt h, le_refl _⟩
      · exact ⟨le_refl _, not_lt.mp h⟩
    refine ⟨le_trans h1 m1.1, le_trans m2.1 h2, ?_⟩
    intro p hp
    rcases List.mem_cons.mp hp with rfl | hp
    · exact ⟨le_trans h1 m1.2, le_trans m2.2 h2⟩
    · exact h3 p hp

theorem boundingBox_proj (d : ParticleData) (b : (ℚ × ℚ) × (ℚ × ℚ) × (ℚ × ℚ)) :
    (Grid.boundingBox d b).1 = d.foldl (fun m p => Grid.minMax (p.particleX 0) m.1 m.2) b.1 ∧
    (Grid.boundingBox d b).2.1 = d.foldl (fun m p => Grid.minMax (p.particleX 1) m.1 m.2) b.2.1 ∧
    (Grid.boundingBox d b).2.2 = d.foldl (fun m p => Grid.minMax (p.particleX 2) m.1 m.2) b.2.2 := by
  induction d generalizing b with
  | nil => simp [Grid.boundingBox]
  | cons q d ih =>
    simp only [Grid.boundingBox, List.foldl_cons] at ih ⊢
    exact ih _

/-- With `min ≤ x ≤ max`, the cell of `x` on the axis resized by `fixDim` has one node
below it and two above it inside the `n` nodes of the axis. -/
theorem fixDim_cell (mn mx x : ℚ) (h1 : mn ≤ x) (h2 : x ≤ mx) :
    1 ≤ ⌊(x - (Grid.fixDim mn mx).2.1) / GRID_H⌋ ∧
    ⌊(x - (Grid.fixDim mn mx).2.1) / GRID_H⌋ + 2 ≤ (Grid.fixDim mn mx).1 - 1 := by
  have hh := GRID_H_pos
  simp only [Grid.fixDim]
  have e1 : (x - (mn - 3 / 2 * GRID_H)) / GRID_H = (x - mn) / GRID_H + 3 / 2 := by
    field_simp; ring
  have e2 : (mx + 3 / 2 * GRID_H - (mn - 3 / 2 * GRID_H)) / GRID_H = (mx - mn) / GRID_H + 3 := by
    field_simp; ring
  rw [e1, e2]
  have p1 : 0 ≤ (x - mn) / GRID_H := div_nonneg (by linarith) hh.le
  have p2 : (x - mn) / GRID_H ≤ (mx - mn) / GRID_H :=
    div_le_div_of_nonneg_right (by linarith) hh.le
  constructor
  · apply Int.le_floor.mpr
    push_cast
    linarith
  · have f1 : ((⌊(x - mn) / GRID_H + 3 / 2⌋ : ℤ) : ℚ) ≤ (x - mn) / GRID_H + 3 / 2 :=
      Int.floor_le _
    have f2 : (mx - mn) / GRID_H + 3 ≤ ((⌈(mx - mn) / GRID_H + 3⌉ : ℤ) : ℚ) := Int.le_ceil _
    have f3 : ((⌊(x - mn) / GRID_H + 3 / 2⌋ : ℤ) : ℚ) + 2 <
        ((⌈(mx - mn) / GRID_H + 3⌉ : ℤ) : ℚ) + 1 := by linarith
    have f4 : ⌊(x - mn) / GRID_H + 3 / 2⌋ + 2 < ⌈(mx - mn) / GRID_H + 3⌉ + 1 := by
      exact_mod_cast f3
    omega

/-- Node coordinates inside the box give a linear index inside the storage range. -/
theorem coordsToIndex_range (g : Grid) (x y z : ℤ) (hx0 : 0 ≤ x) (hx : x < g.m_nx)
    (hy0 : 0 ≤ y) (hy : y < g.m_ny) (hz0 : 0 ≤ z) (hz : z < g.m_nz) :
    0 ≤ g.coordsToIndex x y z ∧ g.coordsToIndex x y z < g.m_nx * g.m_ny * g.m_nz := by
  simp only [Grid.coordsToIndex]
  have hnx : 0 < g.m_nx := by omega
  have hny : 0 < g.m_ny := by omega
  constructor
  · have : 0 ≤ g.m_nx * (y + z * g.m_ny) :=
      mul_nonneg hnx.le (add_nonneg hy0 (mul_nonneg hz0 hny.le))
    omega
  · have a1 : y + z * g.m_ny + 1 ≤ g.m_ny * g.m_nz := by
      have : (z + 1) * g.m_ny ≤ g.m_nz * g.m_ny :=
        mul_le_mul_of_nonneg_right (by omega) hny.le
      nlinarith
    have a2 : g.m_nx * (y + z * g.m_ny + 1) ≤ g.m_nx * (g.m_ny * g.m_nz) :=
      mul_le_mul_of_nonneg_left a1 hnx.le
    nlinarith

/-! ### Loop invariants -/

/-- A property kept by every body run on stencil offsets is kept by the stencil loop. -/
theorem forStencil_invariant {α : Type} (P : α → Prop) (body : ℤ → ℤ → ℤ → α → α) (init : α)
    (h0 : P init)
    (hstep : ∀ i j k a, (i = -1 ∨ i = 0 ∨ i = 1 ∨ i = 2) → (j = -1 ∨ j = 0 ∨ j = 1 ∨ j = 2) →
      (k = -1 ∨ k = 0 ∨ k = 1 ∨ k = 2) → P a → P (body i j k a)) :
    P (forStencil body init) := by
  simp only [forStencil, List.foldl_cons, List.foldl_nil]
  repeat first
    | exact h0
    | (refine hstep _ _ _ _ (by simp) (by simp) (by simp) ?_)

/-- A property kept by every body run on a list element is kept by the fold. -/
theorem foldl_invariant {α β : Type} (P : α → Prop) (f : α → β → α) (l : List β) (init : α)
    (h0 : P init) (hstep : ∀ a b, b ∈ l → P a → P (f a b)) : P (l.foldl f init) := by
  induction l generalizing init with
  | nil => exact h0
  | cons b l ih =>
    simp only [List.foldl_cons]
    exact ih _ (hstep _ _ (List.mem_cons_self _ _) h0)
      (fun a c hc ha => hstep a c (List.mem_cons_of_mem _ hc) ha)

theorem forRange_invariant {α : Type} (P : α → Prop) (n : ℤ) (body : ℤ → α → α) (init : α)
    (h0 : P init) (hstep : ∀ i a, 0 ≤ i → i < n → P a → P (body i a)) :
    P (forRange n body init) := by
  unfold forRange
  apply foldl_invariant P _ _ _ h0
  intro a b hb ha
  have hb2 := List.mem_range.mp hb
  apply hstep _ _ (by omega) (by omega) ha

theorem length_setCoeff (v : VectorXf) (i : ℤ) (a : ℚ) : (setCoeff v i a).length = v.length := by
  unfold setCoeff
  split_ifs <;> simp

theorem length_setSegment3 (v : VectorXf) (i : ℤ) (a : Vector3f) :
    (setSegment3 v i a).length = v.length := by
  simp [setSegment3, length_setCoeff]

theorem length_splatMasses (g : Grid) (d : ParticleData) :
    (g.splatMasses d).length = (g.m_nx * g.m_ny * g.m_nz).toNat := by
  unfold Grid.splatMasses
  apply foldl_invariant (fun m : VectorXf => m.length = (g.m_nx * g.m_ny * g.m_nz).toNat)
  · simp
  · intro m p _ hm
    apply forStencil_invariant (fun m : VectorXf => m.length = (g.m_nx * g.m_ny * g.m_nz).toNat) _ _ hm
    intro i j k a _ _ _ ha
    simpa [length_setCoeff] using ha

theorem length_splatVelocities (g : Grid) (d : ParticleData) :
    (g.splatVelocities d).length = (g.m_nx * g.m_ny * g.m_nz * 3).toNat := by
  unfold Grid.splatVelocities
  apply foldl_invariant (fun m : VectorXf => m.length = (g.m_nx * g.m_ny * g.m_nz * 3).toNat)
  · simp
  · intro m p _ hm
    apply forStencil_invariant (fun m : VectorXf => m.length = (g.m_nx * g.m_ny * g.m_nz * 3).toNat) _ _ hm
    intro i j k a _ _ _ ha
    simp only
    split_ifs
    · simpa [length_setSegment3] using ha
    · exact ha

/-! ### Geometry of a constructed grid -/

theorem Grid_cellAndWeights (d : ParticleData) (x : Vector3f) :
    (Grid.Grid d).cellAndWeights x = (Grid.bounds d).cellAndWeights x := rfl

theorem Grid_stencilIndex (d : ParticleData) (cw : CellAndWeights) (i j k : ℤ) :
    (Grid.Grid d).stencilIndex cw i j k = (Grid.bounds d).stencilIndex cw i j k := rfl

theorem Grid_coordsToIndex (d : ParticleData) (x y z : ℤ) :
    (Grid.Grid d).coordsToIndex x y z = (Grid.bounds d).coordsToIndex x y z := rfl

theorem Grid_gridPos (d : ParticleData) (x : Vector3f) :
    (Grid.Grid d).gridPos x = (Grid.bounds d).gridPos x := rfl

theorem Grid_dims (d : ParticleData) :
    (Grid.Grid d).m_nx = (Grid.bounds d).m_nx ∧ (Grid.Grid d).m_ny = (Grid.bounds d).m_ny ∧
      (Grid.Grid d).m_nz = (Grid.bounds d).m_nz := ⟨rfl, rfl, rfl⟩

theorem Grid_masses_length (d : ParticleData) :
    (Grid.Grid d).m_gridMasses.length =
      ((Grid.Grid d).m_nx * (Grid.Grid d).m_ny * (Grid.Grid d).m_nz).toNat :=
  length_splatMasses (Grid.bounds d) d

theorem Grid_velocities_length (d : ParticleData) :
    (Grid.Grid d).m_gridVelocities.length =
      ((Grid.Grid d).m_nx * (Grid.Grid d).m_ny * (Grid.Grid d).m_nz * 3).toNat :=
  length_splatVelocities _ d

/-- Every particle of the set has its cell at least one node above the lower faces and
three nodes below the upper faces of the grid sized from the set. -/
theorem bounds_cell (d : ParticleData) (p : Particle) (hp : p ∈ d) :
    (1 ≤ ((Grid.bounds d).cellAndWeights p.particleX).particleCell 0 ∧
      ((Grid.bounds d).cellAndWeights p.particleX).particleCell 0 + 2 ≤ (Grid.bounds d).m_nx - 1) ∧
    (1 ≤ ((Grid.bounds d).cellAndWeights p.particleX).particleCell 1 ∧
      ((Grid.bounds d).cellAndWeights p.particleX).particleCell 1 + 2 ≤ (Grid.bounds d).m_ny - 1) ∧
    (1 ≤ ((Grid.bounds d).cellAndWeights p.particleX).particleCell 2 ∧
      ((Grid.bounds d).cellAndWeights p.particleX).particleCell 2 + 2 ≤ (Grid.bounds d).m_nz - 1) := by
  obtain ⟨e0, e1, e2⟩ := boundingBox_proj d
    ((10000000000, -10000000000), (10000000000, -10000000000), (10000000000, -10000000000))
  have b0 := (minMax_foldl_bounds (fun q => q.particleX 0) d (10000000000, -10000000000)).2.2 p hp
  have b1 := (minMax_foldl_bounds (fun q => q.particleX 1) d (10000000000, -10000000000)).2.2 p hp
  have b2 := (minMax_foldl_bounds (fun q => q.particleX 2) d (10000000000, -10000000000)).2.2 p hp
  rw [← e0] at b0
  rw [← e1] at b1
  rw [← e2] at b2
  exact ⟨fixDim_cell _ _ _ b0.1 b0.2, fixDim_cell _ _ _ b1.1 b1.2, fixDim_cell _ _ _ b2.1 b2.2⟩

/-- The stencil of a particle of the set stays inside the box of the grid sized from
the set. -/
theorem bounds_stencilIndex (d : ParticleData) (p : Particle) (hp : p ∈ d) (i j k : ℤ)
    (hi : i = -1 ∨ i = 0 ∨ i = 1 ∨ i = 2) (hj : j = -1 ∨ j = 0 ∨ j = 1 ∨ j = 2)
    (hk : k = -1 ∨ k = 0 ∨ k = 1 ∨ k = 2) :
    0 ≤ (Grid.bounds d).stencilIndex ((Grid.bounds d).cellAndWeights p.particleX) i j k ∧
    (Grid.bounds d).stencilIndex ((Grid.bounds d).cellAndWeights p.particleX) i j k <
      (Grid.bounds d).m_nx * (Grid.bounds d).m_ny * (Grid.bounds d).m_nz := by
  obtain ⟨⟨x1, x2⟩, ⟨y1, y2⟩, ⟨z1, z2⟩⟩ := bounds_cell d p hp
  unfold Grid.stencilIndex
  apply coordsToIndex_range <;> omega

/-- C4 (the stencil stays inside the grid).  For every particle `p` of the set the grid
is constructed from, the cell computed by `cellAndWeights` is
`floor((x_p - min) / h)` on each axis and satisfies `1 ≤ c_d` and `c_d + 2 ≤ n_d - 1`;
hence every stencil index `coordsToIndex(c + (i,j,k))` with `i, j, k ∈ {-1,0,1,2}` lies
in `[0, n_x*n_y*n_z)`, is a valid position of `m_gridMasses`, and its segment
`3*idx .. 3*idx+2` is a valid range of `m_gridVelocities`. -/
theorem stencil_inside_grid (d : ParticleData) (p : Particle) (hp : p ∈ d) :
    (∀ a : Fin 3, ((Grid.Grid d).cellAndWeights p.particleX).particleCell a =
      ⌊(p.particleX a - ![(Grid.Grid d).m_xmin, (Grid.Grid d).m_ymin, (Grid.Grid d).m_zmin] a) /
        GRID_H⌋) ∧
    (1 ≤ ((Grid.Grid d).cellAndWeights p.particleX).particleCell 0 ∧
      ((Grid.Grid d).cellAndWeights p.particleX).particleCell 0 + 2 ≤ (Grid.Grid d).m_nx - 1) ∧
    (1 ≤ ((Grid.Grid d).cellAndWeights p.particleX).particleCell 1 ∧
      ((Grid.Grid d).cellAndWeights p.particleX).particleCell 1 + 2 ≤ (Grid.Grid d).m_ny - 1) ∧
    (1 ≤ ((Grid.Grid d).cellAndWeights p.particleX).particleCell 2 ∧
      ((Grid.Grid d).cellAndWeights p.particleX).particleCell 2 + 2 ≤ (Grid.Grid d).m_nz - 1) ∧
    ∀ i j k : ℤ, (i = -1 ∨ i = 0 ∨ i = 1 ∨ i = 2) → (j = -1 ∨ j = 0 ∨ j = 1 ∨ j = 2) →
      (k = -1 ∨ k = 0 ∨ k = 1 ∨ k = 2) →
      0 ≤ (Grid.Grid d).stencilIndex ((Grid.Grid d).cellAndWeights p.particleX) i j k ∧
      (Grid.Grid d).stencilIndex ((Grid.Grid d).cellAndWeights p.particleX) i j k <
        (Grid.Grid d).m_nx * (Grid.Grid d).m_ny * (Grid.Grid d).m_nz ∧
      ((Grid.Grid d).stencilIndex ((Grid.Grid d).cellAndWeights p.particleX) i j k).toNat <
        (Grid.Grid d).m_gridMasses.length ∧
      (3 * (Grid.Grid d).stencilIndex ((Grid.Grid d).cellAndWeights p.particleX) i j k + 2).toNat <
        (Grid.Grid d).m_gridVelocities.length := by
  refine ⟨?_, (bounds_cell d p hp).1, (bounds_cell d p hp).2.1, (bounds_cell d p hp).2.2, ?_⟩
  · intro a
    fin_cases a <;> rfl
  · intro i j k hi hj hk
    have h := bounds_stencilIndex d p hp i j k hi hj hk
    have e := Grid_dims d
    rw [Grid_masses_length, Grid_velocities_length, Grid_cellAndWeights, Grid_stencilIndex,
      e.1, e.2.1, e.2.2]
    have h1 := h.1
    have h2 := h.2
    refine ⟨h1, h2, ?_, ?_⟩
    · exact (Int.toNat_lt_toNat (lt_of_le_of_lt h1 h2)).mpr h2
    · apply (Int.toNat_lt_toNat (by omega)).mpr
      omega

/-- Instance of `stencil_inside_grid` for the grid of the rest particle. -/
theorem stencil_inside_grid_witness :
    restParticle ∈ [restParticle] ∧
    0 ≤ (Grid.Grid [restParticle]).stencilIndex
      ((Grid.Grid [restParticle]).cellAndWeights restParticle.particleX) (-1) (-1) (-1) :=
  ⟨by simp, ((stencil_inside_grid [restParticle] restParticle (by simp)).2.2.2.2
    (-1) (-1) (-1) (by simp) (by simp) (by simp)).1⟩

/-! ## Accumulation loops -/

/-- A fold whose body adds `c s` to an observed quantity adds the sum of the `c s`. -/
theorem foldl_accum {α ι M : Type} [AddCommMonoid M] (obs : α → M) (Inv : α → Prop)
    (f : α → ι → α) (c : ι → M) (l : List ι)
    (hInv : ∀ a s, s ∈ l → Inv a → Inv (f a s))
    (hobs : ∀ a s, s ∈ l → Inv a → obs (f a s) = obs a + c s) (a : α) (ha : Inv a) :
    obs (l.foldl f a) = obs a + (l.map c).sum := by
  induction l generalizing a with
  | nil => simp
  | cons s l ih =>
    simp only [List.foldl_cons, List.map_cons, List.sum_cons]
    rw [ih (fun a t ht => hInv a t (List.mem_cons_of_mem _ ht))
      (fun a t ht => hobs a t (List.mem_cons_of_mem _ ht)) _
      (hInv a s (List.mem_cons_self _ _) ha), hobs a s (List.mem_cons_self _ _) ha, add_assoc]

theorem forStencil_eq_foldl {α : Type} (body : ℤ → ℤ → ℤ → α → α) (init : α) :
    forStencil body init = stencil.foldl (fun a s => body s.1 s.2.1 s.2.2 a) init := rfl

theorem mem_stencil (s : ℤ × ℤ × ℤ) (hs : s ∈ stencil) :
    (s.1 = -1 ∨ s.1 = 0 ∨ s.1 = 1 ∨ s.1 = 2) ∧ (s.2.1 = -1 ∨ s.2.1 = 0 ∨ s.2.1 = 1 ∨ s.2.1 = 2) ∧
      (s.2.2 = -1 ∨ s.2.2 = 0 ∨ s.2.2 = 1 ∨ s.2.2 = 2) := by
  simp only [stencil, List.mem_flatMap, List.mem_map, List.mem_cons, List.mem_singleton,
    List.not_mem_nil, or_false] at hs
  obtain ⟨i, hi, j, hj, k, hk, rfl⟩ := hs
  exact ⟨hi, hj, hk⟩

/-- A stencil loop whose body adds `c i j k` to an observed quantity adds the sum of
`c` over the 64 offsets. -/
theorem forStencil_accum {α M : Type} [AddCommMonoid M] (obs : α → M) (Inv : α → Prop)
    (body : ℤ → ℤ → ℤ → α → α) (c : ℤ → ℤ → ℤ → M)
    (hInv : ∀ i j k a, (i = -1 ∨ i = 0 ∨ i = 1 ∨ i = 2) → (j = -1 ∨ j = 0 ∨ j = 1 ∨ j = 2) →
      (k = -1 ∨ k = 0 ∨ k = 1 ∨ k = 2) → Inv a → Inv (body i j k a))
    (hobs : ∀ i j k a, (i = -1 ∨ i = 0 ∨ i = 1 ∨ i = 2) → (j = -1 ∨ j = 0 ∨ j = 1 ∨ j = 2) →
      (k = -1 ∨ k = 0 ∨ k = 1 ∨ k = 2) → Inv a → obs (body i j k a) = obs a + c i j k)
    (a : α) (ha : Inv a) :
    obs (forStencil body a) = obs a + (stencil.map (fun s => c s.1 s.2.1 s.2.2)).sum := by
  rw [forStencil_eq_foldl]
  apply foldl_accum obs Inv _ (fun s : ℤ × ℤ × ℤ => c s.1 s.2.1 s.2.2) stencil _ _ a ha
  · intro a s hs h
    obtain ⟨h1, h2, h3⟩ := mem_stencil s hs
    exact hInv _ _ _ _ h1 h2 h3 h
  · intro a s hs h
    obtain ⟨h1, h2, h3⟩ := mem_stencil s hs
    exact hobs _ _ _ _ h1 h2 h3 h

/-- The sum over the 64 offsets is the sum a stencil loop accumulates from zero. -/
theorem stencil_sum_eq_forStencil {M : Type} [AddCommMonoid M] (c : ℤ → ℤ → ℤ → M) :
    (stencil.map (fun s => c s.1 s.2.1 s.2.2)).sum = forStencil (fun i j k s => s + c i j k) 0 := by
  have h := forStencil_accum (fun m : M => m) (fun _ => True) (fun i j k s => s + c i j k) c
    (fun _ _ _ _ _ _ _ _ => trivial) (fun _ _ _ _ _ _ _ _ => rfl) 0 trivial
  simp only [zero_add] at h
  exact h.symm

/-! ## Reads and writes of a dynamic vector -/

theorem coeff_of_lt (v : VectorXf) (i : ℤ) (h0 : 0 ≤ i) (h1 : i.toNat < v.length) :
    coeff v i = v[i.toNat] := by
  simp [coeff, h0, List.getD_eq_getElem?_getD, List.getElem?_eq_getElem h1]

theorem sum_setCoeff (v : VectorXf) (i : ℤ) (a : ℚ) (h0 : 0 ≤ i) (h1 : i.toNat < v.length) :
    (setCoeff v i (coeff v i + a)).sum = v.sum + a := by
  rw [coeff_of_lt v i h0 h1]
  simp only [setCoeff, h0, if_true]
  rw [List.sum_set']
  simp [h1]

/-! ## C1: mass conservation -/

/-- The mass splat of one particle whose stencil is inside the vector adds the particle
mass to the total. -/
theorem sum_splat_particle (g : Grid) (p : Particle) (m : VectorXf)
    (hin : ∀ i j k : ℤ, (i = -1 ∨ i = 0 ∨ i = 1 ∨ i = 2) → (j = -1 ∨ j = 0 ∨ j = 1 ∨ j = 2) →
      (k = -1 ∨ k = 0 ∨ k = 1 ∨ k = 2) →
      0 ≤ g.stencilIndex (g.cellAndWeights p.particleX) i j k ∧
      (g.stencilIndex (g.cellAndWeights p.particleX) i j k).toNat < m.length) :
    (forStencil (fun i j k m =>
      setCoeff m (g.stencilIndex (g.cellAndWeights p.particleX) i j k)
        (coeff m (g.stencilIndex (g.cellAndWeights p.particleX) i j k) +
          p.particleM * ((g.cellAndWeights p.particleX).w 0 i * (g.cellAndWeights p.particleX).w 1 j *
            (g.cellAndWeights p.particleX).w 2 k))) m).sum = m.sum + p.particleM ∧
    (forStencil (fun i j k m =>
      setCoeff m (g.stencilIndex (g.cellAndWeights p.particleX) i j k)
        (coeff m (g.stencilIndex (g.cellAndWeights p.particleX) i j k) +
          p.particleM * ((g.cellAndWeights p.particleX).w 0 i * (g.cellAndWeights p.particleX).w 1 j *
            (g.cellAndWeights p.particleX).w 2 k))) m).length = m.length := by
  constructor
  · rw [forStencil_accum (fun v : VectorXf => v.sum) (fun v : VectorXf => v.length = m.length) _
      (fun i j k => p.particleM * ((g.cellAndWeights p.particleX).w 0 i *
        (g.cellAndWeights p.particleX).w 1 j * (g.cellAndWeights p.particleX).w 2 k)) _ _ m rfl]
    · congr 1
      rw [List.sum_map_mul_left, stencil_sum_eq_forStencil (fun i j k =>
        (g.cellAndWeights p.particleX).w 0 i * (g.cellAndWeights p.particleX).w 1 j *
          (g.cellAndWeights p.particleX).w 2 k), forStencil_sum_mul, w_axis_sum,
        w_axis_sum, w_axis_sum]
      norm_num
    · intro i j k a _ _ _ ha
      rw [length_setCoeff, ha]
    · intro i j k a hi hj hk ha
      obtain ⟨h0, h1⟩ := hin i j k hi hj hk
      exact sum_setCoeff a _ _ h0 (by rw [ha]; exact h1)
  · apply forStencil_invariant (fun v : VectorXf => v.length = m.length) _ _ rfl
    intro i j k a _ _ _ ha
    rw [length_setCoeff, ha]

/-- The mass splat conserves mass on any grid that contains the stencils of all
particles. -/
theorem sum_splatMasses (g : Grid) (d : ParticleData)
    (hin : ∀ p ∈ d, ∀ i j k : ℤ, (i = -1 ∨ i = 0 ∨ i = 1 ∨ i = 2) →
      (j = -1 ∨ j = 0 ∨ j = 1 ∨ j = 2) → (k = -1 ∨ k = 0 ∨ k = 1 ∨ k = 2) →
      0 ≤ g.stencilIndex (g.cellAndWeights p.particleX) i j k ∧
      g.stencilIndex (g.cellAndWeights p.particleX) i j k < g.m_nx * g.m_ny * g.m_nz) :
    (g.splatMasses d).sum = (d.map (fun p => p.particleM)).sum := by
  unfold Grid.splatMasses
  rw [foldl_accum (fun v : VectorXf => v.sum)
    (fun v : VectorXf => v.length = (g.m_nx * g.m_ny * g.m_nz).toNat) _
    (fun p : Particle => p.particleM) d _ _ _ (by simp)]
  · simp
  · intro a p hp ha
    have h := (sum_splat_particle g p a (fun i j k hi hj hk => by
      obtain ⟨h0, h1⟩ := hin p hp i j k hi hj hk
      exact ⟨h0, by rw [ha]; exact (Int.toNat_lt_toNat (lt_of_le_of_lt h0 h1)).mpr h1⟩)).2
    simpa [ha] using h
  · intro a p hp ha
    exact (sum_splat_particle g p a (fun i j k hi hj hk => by
      obtain ⟨h0, h1⟩ := hin p hp i j k hi hj hk
      exact ⟨h0, by rw [ha]; exact (Int.toNat_lt_toNat (lt_of_le_of_lt h0 h1)).mpr h1⟩)).1

/-- C1 (mass conservation of the particle-to-grid scatter).  For every non-empty
particle set, after the constructor `Grid::Grid` the sum of all grid node masses
equals the sum of all particle masses. -/
theorem mass_conservation (d : ParticleData) (hd : d ≠ []) :
    (Grid.Grid d).m_gridMasses.sum = (d.map (fun p => p.particleM)).sum := by
  have _ := hd
  exact sum_splatMasses (Grid.bounds d) d (fun p hp i j k hi hj hk =>
    bounds_stencilIndex d p hp i j k hi hj hk)

/-- Instance of `mass_conservation` for the rest particle: the grid masses sum to 1. -/
theorem mass_conservation_witness :
    [restParticle] ≠ [] ∧ (Grid.Grid [restParticle]).m_gridMasses.sum = 1 :=
  ⟨by simp, by
    rw [mass_conservation [restParticle] (by simp)]
    simp [restParticle]⟩

/-! ## Pointwise reads after writes -/

theorem coeff_setCoeff (v : VectorXf) (i j : ℤ) (a : ℚ) :
    coeff (setCoeff v i a) j =
      if i = j ∧ 0 ≤ i ∧ i.toNat < v.length then a else coeff v j := by
  unfold coeff setCoeff
  by_cases hi : 0 ≤ i
  · by_cases hj : 0 ≤ j
    · simp only [hi, hj, if_true, true_and, List.getD_eq_getElem?_getD, List.getElem?_set]
      by_cases hij : i = j
      · subst hij
        by_cases hl : i.toNat < v.length
        · simp [hl]
        · simp [hl, List.getElem?_eq_none (not_lt.mp hl)]
      · have : i.toNat ≠ j.toNat := by
          intro h
          apply hij
          rw [← Int.toNat_of_nonneg hi, ← Int.toNat_of_nonneg hj, h]
        simp [hij, this]
    · have hij : i ≠ j := by intro h; rw [h] at hi; exact hj hi
      simp [hi, hj, hij]
  · simp [hi]

theorem coeff_setCoeff_add (v : VectorXf) (i j : ℤ) (a : ℚ) (h0 : 0 ≤ j)
    (h1 : j.toNat < v.length) :
    coeff (setCoeff v i (coeff v i + a)) j = coeff v j + if i = j then a else 0 := by
  rw [coeff_setCoeff]
  by_cases hij : i = j
  · subst hij
    simp [h0, h1]
  · simp [hij]

theorem segment3_setSegment3 (v : VectorXf) (i j : ℤ) (a : Vector3f) (h0 : 0 ≤ j)
    (h1 : (3 * j + 2).toNat < v.length) :
    segment3 (setSegment3 v (3 * i) a) (3 * j) = if i = j then a else segment3 v (3 * j) := by
  have l0 : (3 * j).toNat < v.length := by omega
  have l1 : (3 * j + 1).toNat < v.length := by omega
  by_cases hij : i = j
  · subst hij
    funext c
    simp only [segment3, setSegment3, coeff_setCoeff, length_setCoeff, if_true]
    fin_cases c
    · have n1 : ¬ (3 * i + 2 = 3 * i) := by omega
      have n2 : ¬ (3 * i + 1 = 3 * i) := by omega
      have p0 : (0 : ℤ) ≤ 3 * i := by omega
      simp [n1, n2, p0, l0]
    · have n1 : ¬ (3 * i + 2 = 3 * i + 1) := by omega
      have p0 : (0 : ℤ) ≤ 3 * i + 1 := by omega
      simp [n1, p0, l1]
    · have p0 : (0 : ℤ) ≤ 3 * i + 2 := by omega
      simp [p0, h1]
  · rw [if_neg hij]
    funext c
    simp only [segment3, setSegment3, coeff_setCoeff, length_setCoeff]
    have q1 : ¬ (3 * i + 2 = 3 * j) := by omega
    have q2 : ¬ (3 * i + 1 = 3 * j) := by omega
    have q3 : ¬ (3 * i = 3 * j) := by omega
    have q4 : ¬ (3 * i + 2 = 3 * j + 1) := by omega
    have q5 : ¬ (3 * i + 1 = 3 * j + 1) := by omega
    have q6 : ¬ (3 * i = 3 * j + 1) := by omega
    have q7 : ¬ (3 * i + 2 = 3 * j + 2) := by omega
    have q8 : ¬ (3 * i + 1 = 3 * j + 2) := by omega
    have q9 : ¬ (3 * i = 3 * j + 2) := by omega
    fin_cases c <;> simp [q1, q2, q3, q4, q5, q6, q7, q8, q9]

theorem segment3_setSegment3_add (v : VectorXf) (i j : ℤ) (a : Vector3f) (h0 : 0 ≤ j)
    (h1 : (3 * j + 2).toNat < v.length) :
    segment3 (setSegment3 v (3 * i) (segment3 v (3 * i) + a)) (3 * j) =
      segment3 v (3 * j) + if i = j then a else 0 := by
  rw [segment3_setSegment3 v i j _ h0 h1]
  by_cases hij : i = j
  · subst hij; simp
  · simp [hij]

/-! ## Node coordinates and linear indices -/

/-- The linear index determines the node coordinates inside the box. -/
theorem coordsToIndex_inj (g : Grid) (x y z x2 y2 z2 : ℤ) (hx0 : 0 ≤ x) (hx : x < g.m_nx)
    (hy0 : 0 ≤ y) (hy : y < g.m_ny) (hx20 : 0 ≤ x2) (hx2 : x2 < g.m_nx)
    (hy20 : 0 ≤ y2) (hy2 : y2 < g.m_ny)
    (h : g.coordsToIndex x y z = g.coordsToIndex x2 y2 z2) : x = x2 ∧ y = y2 ∧ z = z2 := by
  simp only [Grid.coordsToIndex] at h
  have e1 : (x + g.m_nx * (y + z * g.m_ny)) % g.m_nx = x := by
    rw [Int.add_mul_emod_self_left]; exact Int.emod_eq_of_lt hx0 hx
  have e2 : (x2 + g.m_nx * (y2 + z2 * g.m_ny)) % g.m_nx = x2 := by
    rw [Int.add_mul_emod_self_left]; exact Int.emod_eq_of_lt hx20 hx2
  have hxx : x = x2 := by rw [← e1, ← e2, h]
  subst hxx
  have hnx : g.m_nx ≠ 0 := by omega
  have h2 : y + z * g.m_ny = y2 + z2 * g.m_ny := by
    have := add_left_cancel h
    exact mul_left_cancel₀ hnx this
  have e3 : (y + z * g.m_ny) % g.m_ny = y := by
    rw [Int.add_mul_emod_self]; exact Int.emod_eq_of_lt hy0 hy
  have e4 : (y2 + z2 * g.m_ny) % g.m_ny = y2 := by
    rw [Int.add_mul_emod_self]; exact Int.emod_eq_of_lt hy20 hy2
  have hyy : y = y2 := by rw [← e3, ← e4, h2]
  subst hyy
  have hny : g.m_ny ≠ 0 := by omega
  refine ⟨rfl, rfl, ?_⟩
  have := add_left_cancel h2
  exact mul_right_cancel₀ hny this

/-! ## The stencil weights as functions of the node -/

theorem DN_of_two_le_abs {x : ℚ} (h : 2 ≤ |x|) : Grid.DN x = 0 := by
  unfold Grid.DN Grid.DNnonneg
  by_cases hx : x < 0
  · have : |x| = -x := abs_of_neg hx
    have c1 : ¬ -x < 1 := by linarith
    have c2 : ¬ -x < 2 := by linarith
    simp [hx, c1, c2]
  · have : |x| = x := abs_of_nonneg (not_lt.mp hx)
    have c1 : ¬ x < 1 := by linarith
    have c2 : ¬ x < 2 := by linarith
    simp [hx, c1, c2]

/-- Of the four stencil values of a function that vanishes outside `(-2, 2)`, the one
selected by the node coordinate `a` is the value at the distance to that node. -/
theorem axis_select (f : ℚ → ℚ) (hf : ∀ y, 2 ≤ |y| → f y = 0) (pos : ℚ) (a : ℤ) :
    (if ⌊pos⌋ + -1 = a then f (Int.fract pos + 1) else 0) +
      (if ⌊pos⌋ + 0 = a then f (Int.fract pos) else 0) +
      (if ⌊pos⌋ + 1 = a then f (Int.fract pos - 1) else 0) +
      (if ⌊pos⌋ + 2 = a then f (Int.fract pos - 2) else 0) = f (pos - a) := by
  have hfr : Int.fract pos = pos - ⌊pos⌋ := rfl
  have t0 := Int.fract_nonneg pos
  have t1 := Int.fract_lt_one pos
  by_cases h1 : ⌊pos⌋ + -1 = a
  · have e : pos - (a : ℚ) = Int.fract pos + 1 := by rw [← h1, hfr]; push_cast; ring
    rw [if_pos h1, if_neg (by omega), if_neg (by omega), if_neg (by omega), e]
    simp
  by_cases h2 : ⌊pos⌋ + 0 = a
  · have e : pos - (a : ℚ) = Int.fract pos := by rw [← h2, hfr]; push_cast; ring
    rw [if_neg h1, if_pos h2, if_neg (by omega), if_neg (by omega), e]
    simp
  by_cases h3 : ⌊pos⌋ + 1 = a
  · have e : pos - (a : ℚ) = Int.fract pos - 1 := by rw [← h3, hfr]; push_cast; ring
    rw [if_neg h1, if_neg h2, if_pos h3, if_neg (by omega), e]
    simp
  by_cases h4 : ⌊pos⌋ + 2 = a
  · have e : pos - (a : ℚ) = Int.fract pos - 2 := by rw [← h4, hfr]; push_cast; ring
    rw [if_neg h1, if_neg h2, if_neg h3, if_pos h4, e]
    simp
  rw [if_neg h1, if_neg h2, if_neg h3, if_neg h4]
  simp only [add_zero]
  symm
  apply hf
  have e : pos - (a : ℚ) = Int.fract pos + ((⌊pos⌋ - a : ℤ) : ℚ) := by
    rw [hfr]; push_cast; ring
  rw [e]
  rcases lt_or_ge (⌊pos⌋ - a) 0 with hneg | hpos
  · have h5 : ⌊pos⌋ - a ≤ -3 := by omega
    have h6 : ((⌊pos⌋ - a : ℤ) : ℚ) ≤ -3 := by exact_mod_cast h5
    rw [abs_of_neg (by linarith)]
    linarith
  · have h5 : 2 ≤ ⌊pos⌋ - a := by omega
    have h6 : (2 : ℚ) ≤ ((⌊pos⌋ - a : ℤ) : ℚ) := by exact_mod_cast h5
    rw [abs_of_nonneg (by linarith)]
    linarith

theorem w_axis_select (g : Grid) (x : Vector3f) (d : Fin 3) (a : ℤ) :
    (if (g.cellAndWeights x).particleCell d + -1 = a then (g.cellAndWeights x).w d (-1) else 0) +
      (if (g.cellAndWeights x).particleCell d + 0 = a then (g.cellAndWeights x).w d 0 else 0) +
      (if (g.cellAndWeights x).particleCell d + 1 = a then (g.cellAndWeights x).w d 1 else 0) +
      (if (g.cellAndWeights x).particleCell d + 2 = a then (g.cellAndWeights x).w d 2 else 0) =
      Grid.N (g.gridPos x d - a) := by
  rw [cellAndWeights_w g x d (-1) (by simp), cellAndWeights_w g x d 0 (by simp),
    cellAndWeights_w g x d 1 (by simp), cellAndWeights_w g x d 2 (by simp),
    cellAndWeights_particleCell]
  simp only [Int.cast_neg, Int.cast_one, Int.cast_zero, Int.cast_ofNat, sub_neg_eq_add, sub_zero]
  exact axis_select Grid.N (fun y hy => N_of_two_le_abs hy) _ a

theorem dw_axis_select (g : Grid) (x : Vector3f) (d : Fin 3) (a : ℤ) :
    (if (g.cellAndWeights x).particleCell d + -1 = a then (g.cellAndWeights x).dw d (-1) else 0) +
      (if (g.cellAndWeights x).particleCell d + 0 = a then (g.cellAndWeights x).dw d 0 else 0) +
      (if (g.cellAndWeights x).particleCell d + 1 = a then (g.cellAndWeights x).dw d 1 else 0) +
      (if (g.cellAndWeights x).particleCell d + 2 = a then (g.cellAndWeights x).dw d 2 else 0) =
      Grid.DN (g.gridPos x d - a) / GRID_H := by
  rw [cellAndWeights_dw g x d (-1) (by simp), cellAndWeights_dw g x d 0 (by simp),
    cellAndWeights_dw g x d 1 (by simp), cellAndWeights_dw g x d 2 (by simp),
    cellAndWeights_particleCell]
  simp only [Int.cast_neg, Int.cast_one, Int.cast_zero, Int.cast_ofNat, sub_neg_eq_add, sub_zero]
  exact axis_select (fun y => Grid.DN y / GRID_H)
    (fun y hy => by simp only [DN_of_two_le_abs hy, zero_div]) _ a

/-- The stencil terms that land on the node `(a, b, c)` add up to the product of the
per-axis selections, when the stencil and the node are inside the box. -/
theorem stencil_select (g : Grid) (cell : Vector3i) (a b c : ℤ) (u0 u1 u2 : ℤ → ℚ)
    (hx : 1 ≤ cell 0 ∧ cell 0 + 2 ≤ g.m_nx - 1) (hy : 1 ≤ cell 1 ∧ cell 1 + 2 ≤ g.m_ny - 1)
    (ha : 0 ≤ a ∧ a < g.m_nx) (hb : 0 ≤ b ∧ b < g.m_ny) :
    (stencil.map (fun s =>
      if g.coordsToIndex (cell 0 + s.1) (cell 1 + s.2.1) (cell 2 + s.2.2) = g.coordsToIndex a b c
      then u0 s.1 * u1 s.2.1 * u2 s.2.2 else 0)).sum =
    ((if cell 0 + -1 = a then u0 (-1) else 0) + (if cell 0 + 0 = a then u0 0 else 0) +
      (if cell 0 + 1 = a then u0 1 else 0) + (if cell 0 + 2 = a then u0 2 else 0)) *
    ((if cell 1 + -1 = b then u1 (-1) else 0) + (if cell 1 + 0 = b then u1 0 else 0) +
      (if cell 1 + 1 = b then u1 1 else 0) + (if cell 1 + 2 = b then u1 2 else 0)) *
    ((if cell 2 + -1 = c then u2 (-1) else 0) + (if cell 2 + 0 = c then u2 0 else 0) +
      (if cell 2 + 1 = c then u2 1 else 0) + (if cell 2 + 2 = c then u2 2 else 0)) := by
  rw [← forStencil_sum_mul (fun i => if cell 0 + i = a then u0 i else 0)
    (fun j => if cell 1 + j = b then u1 j else 0) (fun k => if cell 2 + k = c then u2 k else 0),
    ← stencil_sum_eq_forStencil (fun i j k => (if cell 0 + i = a then u0 i else 0) *
      (if cell 1 + j = b then u1 j else 0) * (if cell 2 + k = c then u2 k else 0))]
  congr 1
  apply List.map_congr_left
  intro s hs
  obtain ⟨h1, h2, h3⟩ := mem_stencil s hs
  by_cases h : g.coordsToIndex (cell 0 + s.1) (cell 1 + s.2.1) (cell 2 + s.2.2) =
      g.coordsToIndex a b c
  · obtain ⟨e1, e2, e3⟩ := coordsToIndex_inj g _ _ _ _ _ _ (by omega) (by omega) (by omega)
      (by omega) ha.1 ha.2 hb.1 hb.2 h
    simp [h, e1, e2, e3]
  · have : ¬ (cell 0 + s.1 = a ∧ cell 1 + s.2.1 = b ∧ cell 2 + s.2.2 = c) := by
      rintro ⟨e1, e2, e3⟩
      apply h
      rw [e1, e2, e3]
    rw [if_neg h]
    by_cases e1 : cell 0 + s.1 = a
    · by_cases e2 : cell 1 + s.2.1 = b
      · have e3 : ¬ cell 2 + s.2.2 = c := fun e3 => this ⟨e1, e2, e3⟩
        simp [e3]
      · simp [e2]
    · simp [e1]

/-! ## Node values after the constructor (C5) -/

theorem bounds_contains (d : ParticleData) : (Grid.bounds d).Contains d :=
  fun p hp => bounds_cell d p hp

theorem Grid_contains (d : ParticleData) : (Grid.Grid d).Contains d :=
  fun p hp => bounds_cell d p hp

theorem contains_stencilIndex (g : Grid) (d : ParticleData) (h : g.Contains d) (p : Particle)
    (hp : p ∈ d) (i j k : ℤ) (hi : i = -1 ∨ i = 0 ∨ i = 1 ∨ i = 2)
    (hj : j = -1 ∨ j = 0 ∨ j = 1 ∨ j = 2) (hk : k = -1 ∨ k = 0 ∨ k = 1 ∨ k = 2) :
    0 ≤ g.stencilIndex (g.cellAndWeights p.particleX) i j k ∧
    g.stencilIndex (g.cellAndWeights p.particleX) i j k < g.m_nx * g.m_ny * g.m_nz := by
  obtain ⟨⟨x1, x2⟩, ⟨y1, y2⟩, ⟨z1, z2⟩⟩ := h p hp
  unfold Grid.stencilIndex
  apply coordsToIndex_range <;> omega

/-- The weights of the stencil entries of a particle that land on a node add up to the
node weight of the spec. -/
theorem stencil_weight_select (g : Grid) (d : ParticleData) (h : g.Contains d) (p : Particle)
    (hp : p ∈ d) (a b c : ℤ) (ha : 0 ≤ a ∧ a < g.m_nx) (hb : 0 ≤ b ∧ b < g.m_ny) :
    (stencil.map (fun s =>
      if g.stencilIndex (g.cellAndWeights p.particleX) s.1 s.2.1 s.2.2 = g.coordsToIndex a b c
      then (g.cellAndWeights p.particleX).w 0 s.1 * (g.cellAndWeights p.particleX).w 1 s.2.1 *
        (g.cellAndWeights p.particleX).w 2 s.2.2 else 0)).sum =
    g.nodeWeight p.particleX a b c := by
  obtain ⟨hx, hy, _⟩ := h p hp
  unfold Grid.stencilIndex
  rw [stencil_select g _ a b c _ _ _ hx hy ha hb, w_axis_select, w_axis_select, w_axis_select]
  rfl

/-- The mass of a node after the mass splat is the weighted sum of the particle masses. -/
theorem coeff_splatMasses (g : Grid) (d : ParticleData) (h : g.Contains d) (a b c : ℤ)
    (ha : 0 ≤ a ∧ a < g.m_nx) (hb : 0 ≤ b ∧ b < g.m_ny) (hc : 0 ≤ c ∧ c < g.m_nz) :
    coeff (g.splatMasses d) (g.coordsToIndex a b c) =
      (d.map (fun p => p.particleM * g.nodeWeight p.particleX a b c)).sum := by
  obtain ⟨r0, r1⟩ := coordsToIndex_range g a b c ha.1 ha.2 hb.1 hb.2 hc.1 hc.2
  have r2 : (g.coordsToIndex a b c).toNat < (g.m_nx * g.m_ny * g.m_nz).toNat :=
    (Int.toNat_lt_toNat (lt_of_le_of_lt r0 r1)).mpr r1
  unfold Grid.splatMasses
  rw [foldl_accum (fun v : VectorXf => coeff v (g.coordsToIndex a b c))
    (fun v : VectorXf => v.length = (g.m_nx * g.m_ny * g.m_nz).toNat) _
    (fun p : Particle => p.particleM * g.nodeWeight p.particleX a b c) d _ _ _ (by simp)]
  · simp [coeff, r0, r2]
  · intro v p _ hv
    apply forStencil_invariant (fun m : VectorXf => m.length = (g.m_nx * g.m_ny * g.m_nz).toNat)
      _ _ hv
    intro i j k m _ _ _ hm
    simpa [length_setCoeff] using hm
  · intro v p hp hv
    simp only
    rw [forStencil_accum (fun v : VectorXf => coeff v (g.coordsToIndex a b c))
      (fun v : VectorXf => v.length = (g.m_nx * g.m_ny * g.m_nz).toNat) _
      (fun i j k =>
        if g.stencilIndex (g.cellAndWeights p.particleX) i j k = g.coordsToIndex a b c
        then p.particleM * ((g.cellAndWeights p.particleX).w 0 i *
          (g.cellAndWeights p.particleX).w 1 j * (g.cellAndWeights p.particleX).w 2 k) else 0)
      _ _ v hv]
    · congr 1
      rw [← stencil_weight_select g d h p hp a b c ha hb, ← List.sum_map_mul_left]
      congr 1
      apply List.map_congr_left
      intro s _
      split_ifs <;> simp
    · intro i j k m _ _ _ hm
      simpa [length_setCoeff] using hm
    · intro i j k m _ _ _ hm
      exact coeff_setCoeff_add m _ _ _ r0 (by rw [hm]; exact r2)

theorem sum_map_smul_const {ι : Type} (l : List ι) (f : ι → ℚ) (x : Vector3f) :
    (l.map (fun s => f s • x)).sum = (l.map f).sum • x := by
  induction l with
  | nil => simp
  | cons s l ih => simp [ih, add_smul]

/-- The velocity of a node after the velocity splat, for any mass vector `g.m_gridMasses`
the splat reads: the weighted sum of the particle velocities where the node mass is
positive, and zero elsewhere. -/
theorem segment3_splatVelocities (g : Grid) (d : ParticleData) (h : g.Contains d) (a b c : ℤ)
    (ha : 0 ≤ a ∧ a < g.m_nx) (hb : 0 ≤ b ∧ b < g.m_ny) (hc : 0 ≤ c ∧ c < g.m_nz) :
    segment3 (g.splatVelocities d) (3 * g.coordsToIndex a b c) =
      if coeff g.m_gridMasses (g.coordsToIndex a b c) > 0 then
        (d.map (fun p => (g.nodeWeight p.particleX a b c *
          (p.particleM / coeff g.m_gridMasses (g.coordsToIndex a b c))) • p.particleV)).sum
      else 0 := by
  obtain ⟨r0, r1⟩ := coordsToIndex_range g a b c ha.1 ha.2 hb.1 hb.2 hc.1 hc.2
  have r2 : (3 * g.coordsToIndex a b c + 2).toNat < (g.m_nx * g.m_ny * g.m_nz * 3).toNat := by
    apply (Int.toNat_lt_toNat (by omega)).mpr
    omega
  have z : segment3 (List.replicate (g.m_nx * g.m_ny * g.m_nz * 3).toNat (0 : ℚ))
      (3 * g.coordsToIndex a b c) = 0 := by
    funext t
    fin_cases t <;> simp [segment3, coeff, List.getD_eq_getElem?_getD, List.getElem?_replicate] <;>
      intros <;> split_ifs <;> rfl
  unfold Grid.splatVelocities
  rw [foldl_accum (fun v : VectorXf => segment3 v (3 * g.coordsToIndex a b c))
    (fun v : VectorXf => v.length = (g.m_nx * g.m_ny * g.m_nz * 3).toNat) _
    (fun p : Particle =>
      if coeff g.m_gridMasses (g.coordsToIndex a b c) > 0 then
        (g.nodeWeight p.particleX a b c *
          (p.particleM / coeff g.m_gridMasses (g.coordsToIndex a b c))) • p.particleV
      else 0) d _ _ _ (by simp)]
  · simp only [z, zero_add]
    split_ifs with hm
    · rfl
    · simp
  · intro v p _ hv
    apply forStencil_invariant
      (fun m : VectorXf => m.length = (g.m_nx * g.m_ny * g.m_nz * 3).toNat) _ _ hv
    intro i j k m _ _ _ hm
    simp only
    split_ifs
    · simpa [length_setSegment3] using hm
    · exact hm
  · intro v p hp hv
    simp only
    rw [forStencil_accum (fun v : VectorXf => segment3 v (3 * g.coordsToIndex a b c))
      (fun v : VectorXf => v.length = (g.m_nx * g.m_ny * g.m_nz * 3).toNat) _
      (fun i j k =>
        (if g.stencilIndex (g.cellAndWeights p.particleX) i j k = g.coordsToIndex a b c
        then (g.cellAndWeights p.particleX).w 0 i *
          (g.cellAndWeights p.particleX).w 1 j * (g.cellAndWeights p.particleX).w 2 k else 0) •
        (if coeff g.m_gridMasses (g.coordsToIndex a b c) > 0 then
          (p.particleM / coeff g.m_gridMasses (g.coordsToIndex a b c)) • p.particleV else 0))
      _ _ v hv]
    · congr 1
      rw [sum_map_smul_const, stencil_weight_select g d h p hp a b c ha hb]
      split_ifs
      · rw [mul_smul]
      · simp
    · intro i j k m _ _ _ hm
      split_ifs
      · simpa [length_setSegment3] using hm
      · exact hm
    · intro i j k m _ _ _ hm
      beta_reduce
      by_cases hij : g.stencilIndex (g.cellAndWeights p.particleX) i j k = g.coordsToIndex a b c
      · rw [hij]
        by_cases hpos : coeff g.m_gridMasses (g.coordsToIndex a b c) > 0
        · rw [if_pos hpos, segment3_setSegment3_add m _ _ _ r0 (by rw [hm]; exact r2)]
          simp [hpos, mul_smul]
        · simp [hpos]
      · rw [if_neg hij, zero_smul, add_zero]
        by_cases hpos : coeff g.m_gridMasses (g.stencilIndex (g.cellAndWeights p.particleX) i j k) > 0
        · rw [if_pos hpos, segment3_setSegment3_add m _ _ _ r0 (by rw [hm]; exact r2), if_neg hij,
            add_zero]
        · rw [if_neg hpos]

theorem N_pos_of_abs_lt_two {x : ℚ} (h : |x| < 2) : 0 < Grid.N x := by
  have h0 : 0 ≤ |x| := abs_nonneg x
  by_cases h1 : |x| < 1
  · rw [N_of_abs_lt_one h1]
    nlinarith [mul_nonneg h0 (sub_nonneg.mpr h1.le), mul_nonneg (sub_nonneg.mpr h1.le)
      (mul_nonneg h0 (sub_nonneg.mpr h1.le))]
  · rw [N_of_one_le_abs_lt_two (not_lt.mp h1) h]
    have : 0 < 2 - |x| := by linarith
    positivity

theorem N_nonneg (x : ℚ) : 0 ≤ Grid.N x := by
  by_cases h : |x| < 2
  · exact (N_pos_of_abs_lt_two h).le
  · rw [N_of_two_le_abs (not_lt.mp h)]

theorem nodeWeight_nonneg (g : Grid) (x : Vector3f) (a b c : ℤ) : 0 ≤ g.nodeWeight x a b c :=
  mul_nonneg (mul_nonneg (N_nonneg _) (N_nonneg _)) (N_nonneg _)

theorem sum_map_nonneg {ι : Type} (l : List ι) (f : ι → ℚ) (h : ∀ s ∈ l, 0 ≤ f s) :
    0 ≤ (l.map f).sum := by
  apply List.sum_nonneg
  intro x hx
  obtain ⟨s, hs, rfl⟩ := List.mem_map.mp hx
  exact h s hs

/-- The node masses of a constructed grid. -/
theorem Grid_mass_node (d : ParticleData) (a b c : ℤ)
    (ha : 0 ≤ a ∧ a < (Grid.Grid d).m_nx) (hb : 0 ≤ b ∧ b < (Grid.Grid d).m_ny)
    (hc : 0 ≤ c ∧ c < (Grid.Grid d).m_nz) :
    coeff (Grid.Grid d).m_gridMasses ((Grid.Grid d).coordsToIndex a b c) =
      (d.map (fun p => p.particleM * (Grid.Grid d).nodeWeight p.particleX a b c)).sum :=
  coeff_splatMasses (Grid.bounds d) d (bounds_contains d) a b c ha hb hc

/-- The node velocities of a constructed grid. -/
theorem Grid_velocity_node (d : ParticleData) (a b c : ℤ)
    (ha : 0 ≤ a ∧ a < (Grid.Grid d).m_nx) (hb : 0 ≤ b ∧ b < (Grid.Grid d).m_ny)
    (hc : 0 ≤ c ∧ c < (Grid.Grid d).m_nz) :
    segment3 (Grid.Grid d).m_gridVelocities (3 * (Grid.Grid d).coordsToIndex a b c) =
      if coeff (Grid.Grid d).m_gridMasses ((Grid.Grid d).coordsToIndex a b c) > 0 then
        (d.map (fun p => ((Grid.Grid d).nodeWeight p.particleX a b c *
          (p.particleM / coeff (Grid.Grid d).m_gridMasses ((Grid.Grid d).coordsToIndex a b c))) •
            p.particleV)).sum
      else 0 :=
  segment3_splatVelocities
    { Grid.bounds d with m_gridMasses := (Grid.bounds d).splatMasses d } d
    (fun p hp => bounds_cell d p hp) a b c ha hb hc

/-- C5 (grid velocity is the mass-weighted average).  For every particle set with
positive masses and every node `(a, b, c)` of the constructed grid, with `m_i` the node
mass (which is `Σ_p m_p * w_p(i)` and is non-negative): if `m_i > 0` the node velocity is
`(1/m_i) * Σ_p m_p * w_p(i) * v_p`, and if `m_i = 0` the node velocity is 0.  Here
`w_p(i)` is the node weight `Grid.nodeWeight` of the spec. -/
theorem grid_velocity_mass_weighted_average (d : ParticleData)
    (hm : ∀ p ∈ d, 0 < p.particleM) (a b c : ℤ)
    (ha : 0 ≤ a ∧ a < (Grid.Grid d).m_nx) (hb : 0 ≤ b ∧ b < (Grid.Grid d).m_ny)
    (hc : 0 ≤ c ∧ c < (Grid.Grid d).m_nz) :
    coeff (Grid.Grid d).m_gridMasses ((Grid.Grid d).coordsToIndex a b c) =
      (d.map (fun p => p.particleM * (Grid.Grid d).nodeWeight p.particleX a b c)).sum ∧
    0 ≤ coeff (Grid.Grid d).m_gridMasses ((Grid.Grid d).coordsToIndex a b c) ∧
    (0 < coeff (Grid.Grid d).m_gridMasses ((Grid.Grid d).coordsToIndex a b c) →
      segment3 (Grid.Grid d).m_gridVelocities (3 * (Grid.Grid d).coordsToIndex a b c) =
        (1 / coeff (Grid.Grid d).m_gridMasses ((Grid.Grid d).coordsToIndex a b c)) •
          (d.map (fun p => (p.particleM * (Grid.Grid d).nodeWeight p.particleX a b c) •
            p.particleV)).sum) ∧
    (coeff (Grid.Grid d).m_gridMasses ((Grid.Grid d).coordsToIndex a b c) = 0 →
      segment3 (Grid.Grid d).m_gridVelocities (3 * (Grid.Grid d).coordsToIndex a b c) = 0) := by
  refine ⟨Grid_mass_node d a b c ha hb hc, ?_, ?_, ?_⟩
  · rw [Grid_mass_node d a b c ha hb hc]
    exact sum_map_nonneg _ _ (fun p hp => mul_nonneg (hm p hp).le (nodeWeight_nonneg _ _ _ _ _))
  · intro hpos
    rw [Grid_velocity_node d a b c ha hb hc, if_pos hpos, List.smul_sum, List.map_map]
    congr 1
    apply List.map_congr_left
    intro p _
    simp only [Function.comp, smul_smul]
    congr 1
    ring
  · intro hz
    rw [Grid_velocity_node d a b c ha hb hc, if_neg (by rw [hz]; exact lt_irrefl 0)]

/-! ### The grid of the rest particle -/

theorem restGrid_fixDim : Grid.fixDim 0 0 = (4, -(3 / 20), 1 / 4) := by
  have e : (0 + 3 / 2 * GRID_H - (0 - 3 / 2 * GRID_H)) / GRID_H = ((3 : ℤ) : ℚ) := by
    norm_num [GRID_H]
  simp only [Grid.fixDim, e, Int.ceil_intCast]
  norm_num [GRID_H]

theorem originGrid_boundingBox (p : Particle) (hp : p.particleX = ![0, 0, 0]) :
    Grid.boundingBox [p]
      ((10000000000, -10000000000), (10000000000, -10000000000), (10000000000, -10000000000)) =
      ((0, 0), (0, 0), (0, 0)) := by
  simp [Grid.boundingBox, Grid.minMax, hp]

/-- The grid built from a single particle at the origin: 4 × 4 × 4 nodes from
`(-0.15, -0.15, -0.15)`. -/
theorem originGrid_geometry (p : Particle) (hp : p.particleX = ![0, 0, 0]) :
    (Grid.Grid [p]).m_nx = 4 ∧ (Grid.Grid [p]).m_ny = 4 ∧
    (Grid.Grid [p]).m_nz = 4 ∧ (Grid.Grid [p]).m_xmin = -(3 / 20) ∧
    (Grid.Grid [p]).m_ymin = -(3 / 20) ∧ (Grid.Grid [p]).m_zmin = -(3 / 20) := by
  simp only [Grid.Grid, Grid.bounds, originGrid_boundingBox p hp, restGrid_fixDim]
  simp

theorem restGrid_geometry :
    (Grid.Grid [restParticle]).m_nx = 4 ∧ (Grid.Grid [restParticle]).m_ny = 4 ∧
    (Grid.Grid [restParticle]).m_nz = 4 ∧ (Grid.Grid [restParticle]).m_xmin = -(3 / 20) ∧
    (Grid.Grid [restParticle]).m_ymin = -(3 / 20) ∧ (Grid.Grid [restParticle]).m_zmin = -(3 / 20) :=
  originGrid_geometry restParticle rfl

/-- The node `(1, 1, 1)` of the grid of a single particle at the origin carries the
particle mass times `N(1/2)^3 = (23/48)^3`. -/
theorem originGrid_mass (p : Particle) (hp : p.particleX = ![0, 0, 0]) :
    coeff (Grid.Grid [p]).m_gridMasses ((Grid.Grid [p]).coordsToIndex 1 1 1) =
      p.particleM * (23 / 48) ^ 3 := by
  obtain ⟨h1, h2, h3, h4, h5, h6⟩ := originGrid_geometry p hp
  rw [Grid_mass_node [p] 1 1 1 (by rw [h1]; omega) (by rw [h2]; omega) (by rw [h3]; omega)]
  have n : Grid.N ((0 - -(3 / 20 : ℚ)) / GRID_H - ((1 : ℤ) : ℚ)) = 23 / 48 := by
    norm_num [Grid.N, GRID_H, abs_of_pos]
  simp only [List.map_cons, List.map_nil, List.sum_cons, List.sum_nil, add_zero,
    Grid.nodeWeight, Grid.gridPos, h4, h5, h6, hp, Matrix.cons_val_zero, Matrix.cons_val_one,
    Matrix.head_cons, Matrix.cons_val_two, Matrix.tail_cons, n]
  ring

/-- Instance of `grid_velocity_mass_weighted_average` at the node `(1, 1, 1)` of the
grid of the rest particle: a node of zero mass would have zero velocity. -/
theorem grid_velocity_mass_weighted_average_witness :
    (∀ p ∈ [restParticle], 0 < p.particleM) ∧
    ((0 : ℤ) ≤ 1 ∧ (1 : ℤ) < (Grid.Grid [restParticle]).m_nx) ∧
    0 ≤ coeff (Grid.Grid [restParticle]).m_gridMasses
      ((Grid.Grid [restParticle]).coordsToIndex 1 1 1) :=
  ⟨by simp [restParticle], by simp [restGrid_geometry.1],
    (grid_velocity_mass_weighted_average [restParticle] (by simp [restParticle]) 1 1 1
      (by simp [restGrid_geometry.1]) (by simp [restGrid_geometry.2.1])
      (by simp [restGrid_geometry.2.2.1])).2.1⟩

/-! ## Scatter of 3-vectors onto the nodes -/

theorem list_sum_apply {ι : Type} (l : List ι) (f : ι → Vector3f) (t : Fin 3) :
    (l.map f).sum t = (l.map (fun s => f s t)).sum := by
  induction l with
  | nil => simp
  | cons s l ih => simp [ih]

theorem mulVec_list_sum {ι : Type} (M : Matrix3f) (l : List ι) (f : ι → Vector3f) :
    M.mulVec (l.map f).sum = (l.map (fun s => M.mulVec (f s))).sum := by
  induction l with
  | nil => simp
  | cons s l ih => simp [ih, Matrix.mulVec_add]

/-- The weight gradients of the stencil entries of a particle that land on a node add
up to the node weight gradient of the spec. -/
theorem stencil_weightGrad_select (g : Grid) (d : ParticleData) (h : g.Contains d)
    (p : Particle) (hp : p ∈ d) (a b c : ℤ) (ha : 0 ≤ a ∧ a < g.m_nx)
    (hb : 0 ≤ b ∧ b < g.m_ny) :
    (stencil.map (fun s =>
      if g.stencilIndex (g.cellAndWeights p.particleX) s.1 s.2.1 s.2.2 = g.coordsToIndex a b c
      then (g.cellAndWeights p.particleX).weightGrad s.1 s.2.1 s.2.2 else 0)).sum =
    g.nodeWeightGrad p.particleX a b c := by
  obtain ⟨hx, hy, _⟩ := h p hp
  funext t
  rw [list_sum_apply]
  have e : ∀ s : ℤ × ℤ × ℤ,
      (if g.stencilIndex (g.cellAndWeights p.particleX) s.1 s.2.1 s.2.2 = g.coordsToIndex a b c
        then (g.cellAndWeights p.particleX).weightGrad s.1 s.2.1 s.2.2 else (0 : Vector3f)) t =
      if g.coordsToIndex ((g.cellAndWeights p.particleX).particleCell 0 + s.1)
        ((g.cellAndWeights p.particleX).particleCell 1 + s.2.1)
        ((g.cellAndWeights p.particleX).particleCell 2 + s.2.2) = g.coordsToIndex a b c
      then (g.cellAndWeights p.particleX).weightGrad s.1 s.2.1 s.2.2 t else 0 := by
    intro s
    unfold Grid.stencilIndex
    split_ifs <;> rfl
  simp only [e]
  fin_cases t
  · have e0 : ∀ i j k, (g.cellAndWeights p.particleX).weightGrad i j k 0 =
        (g.cellAndWeights p.particleX).dw 0 i * (g.cellAndWeights p.particleX).w 1 j *
          (g.cellAndWeights p.particleX).w 2 k := fun _ _ _ => rfl
    simp only [Fin.zero_eta, e0]
    rw [stencil_select g _ a b c _ _ _ hx hy ha hb, dw_axis_select, w_axis_select, w_axis_select]
    rfl
  · have e1 : ∀ i j k, (g.cellAndWeights p.particleX).weightGrad i j k 1 =
        (g.cellAndWeights p.particleX).w 0 i * (g.cellAndWeights p.particleX).dw 1 j *
          (g.cellAndWeights p.particleX).w 2 k := fun _ _ _ => rfl
    simp only [Fin.mk_one, e1]
    rw [stencil_select g _ a b c _ _ _ hx hy ha hb, w_axis_select, dw_axis_select, w_axis_select]
    rfl
  · have e2 : ∀ i j k, (g.cellAndWeights p.particleX).weightGrad i j k 2 =
        (g.cellAndWeights p.particleX).w 0 i * (g.cellAndWeights p.particleX).w 1 j *
          (g.cellAndWeights p.particleX).dw 2 k := fun _ _ _ => rfl
    simp only [Fin.reduceFinMk, e2]
    rw [stencil_select g _ a b c _ _ _ hx hy ha hb, w_axis_select, w_axis_select, dw_axis_select]
    rfl

/-- What a particle loop that adds `M p * weightGrad` at every stencil node leaves at the
node `(a, b, c)`: the start value plus the sum of `M p * ∇w_p(i)` over the particles. -/
theorem segment3_scatter (g : Grid) (d : ParticleData) (h : g.Contains d)
    (M : Particle → Matrix3f) (v0 : VectorXf)
    (hv0 : v0.length = (g.m_nx * g.m_ny * g.m_nz * 3).toNat) (a b c : ℤ)
    (ha : 0 ≤ a ∧ a < g.m_nx) (hb : 0 ≤ b ∧ b < g.m_ny) (hc : 0 ≤ c ∧ c < g.m_nz) :
    segment3 (d.foldl (fun v p => forStencil (fun i j k v =>
      setSegment3 v (3 * g.stencilIndex (g.cellAndWeights p.particleX) i j k)
        (segment3 v (3 * g.stencilIndex (g.cellAndWeights p.particleX) i j k) +
          (M p).mulVec ((g.cellAndWeights p.particleX).weightGrad i j k))) v) v0)
      (3 * g.coordsToIndex a b c) =
    segment3 v0 (3 * g.coordsToIndex a b c) +
      (d.map (fun p => (M p).mulVec (g.nodeWeightGrad p.particleX a b c))).sum ∧
    (d.foldl (fun v p => forStencil (fun i j k v =>
      setSegment3 v (3 * g.stencilIndex (g.cellAndWeights p.particleX) i j k)
        (segment3 v (3 * g.stencilIndex (g.cellAndWeights p.particleX) i j k) +
          (M p).mulVec ((g.cellAndWeights p.particleX).weightGrad i j k))) v) v0).length =
      v0.length := by
  obtain ⟨r0, r1⟩ := coordsToIndex_range g a b c ha.1 ha.2 hb.1 hb.2 hc.1 hc.2
  have r2 : (3 * g.coordsToIndex a b c + 2).toNat < (g.m_nx * g.m_ny * g.m_nz * 3).toNat := by
    apply (Int.toNat_lt_toNat (by omega)).mpr
    omega
  have hInv : ∀ (v : VectorXf) (p : Particle), p ∈ d → v.length = v0.length →
      (forStencil (fun i j k v =>
        setSegment3 v (3 * g.stencilIndex (g.cellAndWeights p.particleX) i j k)
          (segment3 v (3 * g.stencilIndex (g.cellAndWeights p.particleX) i j k) +
            (M p).mulVec ((g.cellAndWeights p.particleX).weightGrad i j k))) v).length =
        v0.length := by
    intro v p _ hv
    apply forStencil_invariant (fun m : VectorXf => m.length = v0.length) _ _ hv
    intro i j k m _ _ _ hm
    simpa [length_setSegment3] using hm
  constructor
  · rw [foldl_accum (fun v : VectorXf => segment3 v (3 * g.coordsToIndex a b c))
      (fun v : VectorXf => v.length = v0.length) _
      (fun p : Particle => (M p).mulVec (g.nodeWeightGrad p.particleX a b c)) d hInv _ v0 rfl]
    intro v p hp hv
    beta_reduce
    rw [forStencil_accum (fun v : VectorXf => segment3 v (3 * g.coordsToIndex a b c))
      (fun v : VectorXf => v.length = v0.length) _
      (fun i j k =>
        if g.stencilIndex (g.cellAndWeights p.particleX) i j k = g.coordsToIndex a b c
        then (M p).mulVec ((g.cellAndWeights p.particleX).weightGrad i j k) else 0)
      _ _ v hv]
    · congr 1
      rw [← stencil_weightGrad_select g d h p hp a b c ha hb, mulVec_list_sum]
      congr 1
      apply List.map_congr_left
      intro s _
      split_ifs
      · rfl
      · simp
    · intro i j k m _ _ _ hm
      simpa [length_setSegment3] using hm
    · intro i j k m _ _ _ hm
      exact segment3_setSegment3_add m _ _ _ r0 (by rw [hm, hv0]; exact r2)
  · exact foldl_invariant (fun v : VectorXf => v.length = v0.length) _ d v0 rfl
      (fun v p hp hv => hInv v p hp hv)

/-! ## Loops over all nodes by linear index -/

/-- A loop over the linear indices that rewrites segment `i` from its own old value
leaves `F j` of the old value in every segment `j` it visits. -/
theorem forRange_segment3 (n : ℕ) (F : ℤ → Vector3f → Vector3f) (v0 : VectorXf) (j : ℤ)
    (hj0 : 0 ≤ j) (hj : (3 * j + 2).toNat < v0.length) :
    segment3 (forRange (n : ℤ) (fun i v => setSegment3 v (3 * i) (F i (segment3 v (3 * i)))) v0)
      (3 * j) = (if j < n then F j (segment3 v0 (3 * j)) else segment3 v0 (3 * j)) ∧
    (forRange (n : ℤ) (fun i v => setSegment3 v (3 * i) (F i (segment3 v (3 * i)))) v0).length =
      v0.length := by
  induction n with
  | zero =>
    have : ¬ j < 0 := not_lt.mpr hj0
    simp [forRange, this]
  | succ n ih =>
    obtain ⟨ih1, ih2⟩ := ih
    have e : forRange ((n + 1 : ℕ) : ℤ)
        (fun i v => setSegment3 v (3 * i) (F i (segment3 v (3 * i)))) v0 =
        setSegment3 (forRange (n : ℤ)
          (fun i v => setSegment3 v (3 * i) (F i (segment3 v (3 * i)))) v0) (3 * (n : ℤ))
          (F n (segment3 (forRange (n : ℤ)
            (fun i v => setSegment3 v (3 * i) (F i (segment3 v (3 * i)))) v0) (3 * (n : ℤ)))) := by
      simp [forRange, List.range_succ, List.foldl_append]
    rw [e]
    constructor
    · rw [segment3_setSegment3 _ _ _ _ hj0 (by rw [ih2]; exact hj)]
      by_cases hnj : (n : ℤ) = j
      · subst hnj
        have h1 : ¬ ((n : ℤ) < (n : ℤ)) := lt_irrefl _
        have h2 : ((n : ℤ) < ((n + 1 : ℕ) : ℤ)) := by push_cast; omega
        rw [if_pos rfl, ih1, if_neg h1, if_pos h2]
      · rw [if_neg hnj, ih1]
        by_cases hlt : j < (n : ℤ)
        · have h2 : (j < ((n + 1 : ℕ) : ℤ)) := by push_cast; omega
          rw [if_pos hlt, if_pos h2]
        · have h2 : ¬ (j < ((n + 1 : ℕ) : ℤ)) := by push_cast; omega
          rw [if_neg hlt, if_neg h2]
    · rw [length_setSegment3, ih2]

theorem sum_map_neg {ι M : Type} [AddCommGroup M] (l : List ι) (f : ι → M) :
    (l.map (fun s => -f s)).sum = -(l.map f).sum := by
  induction l with
  | nil => simp
  | cons s l ih => simp [ih, add_comm]

theorem segment3_replicate_zero (n : ℕ) (i : ℤ) :
    segment3 (List.replicate n (0 : ℚ)) i = 0 := by
  funext t
  fin_cases t <;> simp [segment3, coeff, List.getD_eq_getElem?_getD, List.getElem?_replicate] <;>
    intros <;> split_ifs <;> rfl

/-! ## Forces and force differentials at a node -/

/-- The force `calculateForces` leaves at the node `(a, b, c)`: gravity on the node mass
minus the sum over the particles of `V_p * dEdF_p * F_p^T * ∇w_p(i)`. -/
theorem segment3_calculateForces (g : Grid) (d : ParticleData) (h : g.Contains d)
    (hm : g.m_gridMasses.length = (g.m_nx * g.m_ny * g.m_nz).toNat) (f0 : VectorXf)
    (hf0 : f0.length = (g.m_nx * g.m_ny * g.m_nz * 3).toNat) (a b c : ℤ)
    (ha : 0 ≤ a ∧ a < g.m_nx) (hb : 0 ≤ b ∧ b < g.m_ny) (hc : 0 ≤ c ∧ c < g.m_nz) :
    segment3 (g.calculateForces d f0) (3 * g.coordsToIndex a b c) =
      coeff g.m_gridMasses (g.coordsToIndex a b c) • ![0, GRAVITY, 0] -
        (d.map (fun p => (p.particleVolumes • Grid.dEdF p * p.particleF.transpose).mulVec
          (g.nodeWeightGrad p.particleX a b c))).sum := by
  obtain ⟨r0, r1⟩ := coordsToIndex_range g a b c ha.1 ha.2 hb.1 hb.2 hc.1 hc.2
  have r2 : (3 * g.coordsToIndex a b c + 2).toNat < f0.length := by
    rw [hf0]
    apply (Int.toNat_lt_toNat (by omega)).mpr
    omega
  have r3 : g.coordsToIndex a b c < (g.m_gridMasses.length : ℤ) := by
    rw [hm, Int.toNat_of_nonneg (by omega)]
    exact r1
  obtain ⟨g1, g2⟩ := forRange_segment3 g.m_gridMasses.length
    (fun i _ => coeff g.m_gridMasses i • ![0, GRAVITY, 0]) f0 _ r0 r2
  have e : g.calculateForces d f0 =
      d.foldl (fun v p => forStencil (fun i j k v =>
        setSegment3 v (3 * g.stencilIndex (g.cellAndWeights p.particleX) i j k)
          (segment3 v (3 * g.stencilIndex (g.cellAndWeights p.particleX) i j k) +
            (-(p.particleVolumes • Grid.dEdF p * p.particleF.transpose)).mulVec
              ((g.cellAndWeights p.particleX).weightGrad i j k))) v)
        (forRange (g.m_gridMasses.length : ℤ)
          (fun i v => setSegment3 v (3 * i) (coeff g.m_gridMasses i • ![0, GRAVITY, 0])) f0) := by
    simp only [Grid.calculateForces, sub_eq_add_neg, Matrix.neg_mulVec]
  rw [e, (segment3_scatter g d h _ _ (by rw [g2, hf0]) a b c ha hb hc).1, g1, if_pos r3,
    sub_eq_add_neg]
  congr 1
  simp only [Matrix.neg_mulVec]
  rw [sum_map_neg]

/-- The force differential `calculateForceDifferentials` leaves at the node `(a, b, c)`:
minus the sum over the particles of `forceMatrix_p * ∇w_p(i)`. -/
theorem segment3_calculateForceDifferentials (g : Grid) (d : ParticleData) (h : g.Contains d)
    (dx df : VectorXf) (hdf : df.length = (g.m_nx * g.m_ny * g.m_nz * 3).toNat) (a b c : ℤ)
    (ha : 0 ≤ a ∧ a < g.m_nx) (hb : 0 ≤ b ∧ b < g.m_ny) (hc : 0 ≤ c ∧ c < g.m_nz) :
    segment3 (g.calculateForceDifferentials d dx df) (3 * g.coordsToIndex a b c) =
      -(d.map (fun p => (Grid.forceMatrix p (g.dFp p dx)).mulVec
          (g.nodeWeightGrad p.particleX a b c))).sum := by
  have e : g.calculateForceDifferentials d dx df =
      d.foldl (fun v p => forStencil (fun i j k v =>
        setSegment3 v (3 * g.stencilIndex (g.cellAndWeights p.particleX) i j k)
          (segment3 v (3 * g.stencilIndex (g.cellAndWeights p.particleX) i j k) +
            (-(Grid.forceMatrix p (g.dFp p dx))).mulVec
              ((g.cellAndWeights p.particleX).weightGrad i j k))) v)
        (List.replicate df.length 0) := by
    simp only [Grid.calculateForceDifferentials, sub_eq_add_neg, Matrix.neg_mulVec]
  rw [e, (segment3_scatter g d h _ _ (by simp [hdf]) a b c ha hb hc).1, segment3_replicate_zero,
    zero_add]
  simp only [Matrix.neg_mulVec]
  rw [sum_map_neg]

theorem length_calculateForceDifferentials (g : Grid) (d : ParticleData) (dx df : VectorXf) :
    (g.calculateForceDifferentials d dx df).length = df.length := by
  unfold Grid.calculateForceDifferentials
  apply foldl_invariant (fun v : VectorXf => v.length = df.length)
  · simp
  · intro v p _ hv
    apply forStencil_invariant (fun m : VectorXf => m.length = df.length) _ _ hv
    intro i j k m _ _ _ hm
    simpa [length_setSegment3] using hm

/-! ## C6: zero-mass nodes are inert -/

theorem sum_map_zero {ι : Type} (l : List ι) (f : ι → Vector3f) (h : ∀ s ∈ l, f s = 0) :
    (l.map f).sum = 0 := by
  induction l with
  | nil => simp
  | cons t l ih =>
    simp only [List.map_cons, List.sum_cons]
    rw [h t (List.mem_cons_self _ _), ih (fun s hs => h s (List.mem_cons_of_mem _ hs)), add_zero]

theorem length_forwardUpdate (sqrtf : ℚ → ℚ) (g : Grid) (forces : VectorXf)
    (objs : List CollisionObject) (init : VectorXf × List Bool) :
    (g.forwardUpdate sqrtf forces objs init).1.length = init.1.length := by
  unfold Grid.forwardUpdate
  apply forRange_invariant (fun st : VectorXf × List Bool => st.1.length = init.1.length) _ _ _ rfl
  intro i st _ _ hst
  apply forRange_invariant (fun st : VectorXf × List Bool => st.1.length = init.1.length) _ _ _ hst
  intro j st _ _ hst
  apply forRange_invariant (fun st : VectorXf × List Bool => st.1.length = init.1.length) _ _ _ hst
  intro k st _ _ hst
  beta_reduce
  simp only
  split_ifs <;> simpa [length_setSegment3] using hst

theorem mul_inverse (G : Matrix3f) (h : G.det ≠ 0) : G * inverse G = 1 := by
  unfold inverse
  rw [Matrix.mul_smul, Matrix.mul_adjugate, smul_smul, one_div, inv_mul_cancel₀ h, one_smul]

theorem mulVec_inverse_mulVec (G : Matrix3f) (h : G.det ≠ 0) (m : Vector3f) :
    G.mulVec ((inverse G).mulVec m) = m := by
  rw [Matrix.mulVec_mulVec, mul_inverse G h, Matrix.one_mulVec]

theorem computeRdifferentialRtdR_transpose (w : Vector3f) :
    (Grid.computeRdifferentialRtdR w).transpose = -Grid.computeRdifferentialRtdR w := by
  ext i j
  fin_cases i <;> fin_cases j <;> simp [Grid.computeRdifferentialRtdR]

/-- For symmetric `S`, the 3×3 system `G w = (M01, M02, M12)` says the same as the matrix
equation `W S + S W = M` for the skew matrix `W` of `w` and a skew matrix `M`. -/
theorem system_iff_matrix_equation (S M : Matrix3f) (hS : S.IsSymm) (hM : M.transpose = -M)
    (w : Vector3f) :
    (Grid.computeRdifferentialG S).mulVec w = ![M 0 1, M 0 2, M 1 2] ↔
      Grid.computeRdifferentialRtdR w * S + S * Grid.computeRdifferentialRtdR w = M := by
  have s10 : S 1 0 = S 0 1 := hS.apply 0 1
  have s20 : S 2 0 = S 0 2 := hS.apply 0 2
  have s21 : S 2 1 = S 1 2 := hS.apply 1 2
  have m00 : M 0 0 = 0 := by
    have := congrFun (congrFun hM 0) 0
    simp only [Matrix.transpose_apply, Matrix.neg_apply] at this
    linarith
  have m11 : M 1 1 = 0 := by
    have := congrFun (congrFun hM 1) 1
    simp only [Matrix.transpose_apply, Matrix.neg_apply] at this
    linarith
  have m22 : M 2 2 = 0 := by
    have := congrFun (congrFun hM 2) 2
    simp only [Matrix.transpose_apply, Matrix.neg_apply] at this
    linarith
  have m10 : M 1 0 = -M 0 1 := by
    have := congrFun (congrFun hM 0) 1
    simpa only [Matrix.transpose_apply, Matrix.neg_apply] using this
  have m20 : M 2 0 = -M 0 2 := by
    have := congrFun (congrFun hM 0) 2
    simpa only [Matrix.transpose_apply, Matrix.neg_apply] using this
  have m21 : M 2 1 = -M 1 2 := by
    have := congrFun (congrFun hM 1) 2
    simpa only [Matrix.transpose_apply, Matrix.neg_apply] using this
  have w00 : Grid.computeRdifferentialRtdR w 0 0 = 0 := rfl
  have w01 : Grid.computeRdifferentialRtdR w 0 1 = w 0 := rfl
  have w02 : Grid.computeRdifferentialRtdR w 0 2 = w 1 := rfl
  have w10 : Grid.computeRdifferentialRtdR w 1 0 = -w 0 := rfl
  have w11 : Grid.computeRdifferentialRtdR w 1 1 = 0 := rfl
  have w12 : Grid.computeRdifferentialRtdR w 1 2 = w 2 := rfl
  have w20 : Grid.computeRdifferentialRtdR w 2 0 = -w 1 := rfl
  have w21 : Grid.computeRdifferentialRtdR w 2 1 = -w 2 := rfl
  have w22 : Grid.computeRdifferentialRtdR w 2 2 = 0 := rfl
  have g0 : (Grid.computeRdifferentialG S).mulVec w 0 =
      (S 0 0 + S 1 1) * w 0 + S 1 2 * w 1 + -S 0 2 * w 2 := by
    simp only [Matrix.mulVec, Matrix.dotProduct, Fin.sum_univ_three]; rfl
  have g1 : (Grid.computeRdifferentialG S).mulVec w 1 =
      S 1 2 * w 0 + (S 0 0 + S 2 2) * w 1 + S 0 1 * w 2 := by
    simp only [Matrix.mulVec, Matrix.dotProduct, Fin.sum_univ_three]; rfl
  have g2 : (Grid.computeRdifferentialG S).mulVec w 2 =
      -S 0 2 * w 0 + S 0 1 * w 1 + (S 1 1 + S 2 2) * w 2 := by
    simp only [Matrix.mulVec, Matrix.dotProduct, Fin.sum_univ_three]; rfl
  constructor
  · intro h
    have h0 := congrFun h 0
    have h1 := congrFun h 1
    have h2 := congrFun h 2
    rw [g0] at h0
    rw [g1] at h1
    rw [g2] at h2
    simp only [Matrix.cons_val_zero, Matrix.cons_val_one, Matrix.head_cons, Matrix.cons_val_two,
      Matrix.tail_cons] at h0 h1 h2
    ext i j
    fin_cases i <;> fin_cases j <;>
      simp only [Fin.zero_eta, Fin.mk_one, Fin.reduceFinMk, Matrix.add_apply, Matrix.mul_apply,
        Fin.sum_univ_three, w00, w01, w02, w10, w11, w12, w20, w21, w22, s10, s20, s21,
        m00, m11, m22, m10, m20, m21] <;> linarith
  · intro h
    have h01 := congrFun (congrFun h 0) 1
    have h02 := congrFun (congrFun h 0) 2
    have h12 := congrFun (congrFun h 1) 2
    simp only [Matrix.add_apply, Matrix.mul_apply,
        Fin.sum_univ_three, w00, w01, w02, w10, w11, w12, w20, w21, w22, s10, s20, s21]
      at h01 h02 h12
    funext i
    fin_cases i
    · rw [Fin.zero_eta, g0]
      simp only [Matrix.cons_val_zero]
      linarith
    · rw [Fin.mk_one, g1]
      simp only [Matrix.cons_val_one, Matrix.head_cons]
      linarith
    · have : (⟨2, by omega⟩ : Fin 3) = 2 := rfl
      rw [this, g2]
      simp only [Matrix.cons_val_two, Matrix.tail_cons, Matrix.head_cons]
      linarith

theorem skew_M (dF R : Matrix3f) :
    (R.transpose * dF - dF.transpose * R).transpose = -(R.transpose * dF - dF.transpose * R) := by
  simp [Matrix.transpose_sub, Matrix.transpose_mul]

theorem computeRdifferentialG_one : Grid.computeRdifferentialG 1 = (2 : ℚ) • (1 : Matrix3f) := by
  ext i j
  fin_cases i <;> fin_cases j <;>
    simp [Grid.computeRdifferentialG, Matrix.one_apply, Matrix.vecHead, Matrix.vecTail] <;>
    norm_num

theorem inverse_two_smul_one : inverse ((2 : ℚ) • (1 : Matrix3f)) = (1 / 2 : ℚ) • (1 : Matrix3f) := by
  have h : ((2 : ℚ) • (1 : Matrix3f)).det ≠ 0 := by
    rw [Matrix.det_smul, Matrix.det_one]; norm_num
  have e := mul_inverse _ h
  have e3 : ((1 / 2 : ℚ) • (1 : Matrix3f)) * ((2 : ℚ) • (1 : Matrix3f)) = 1 := by
    rw [Matrix.smul_mul, Matrix.mul_smul, smul_smul, Matrix.one_mul]; norm_num
  calc inverse ((2 : ℚ) • (1 : Matrix3f))
      = (((1 / 2 : ℚ) • (1 : Matrix3f)) * ((2 : ℚ) • (1 : Matrix3f))) *
          inverse ((2 : ℚ) • (1 : Matrix3f)) := by rw [e3, Matrix.one_mul]
    _ = (1 / 2 : ℚ) • (1 : Matrix3f) := by rw [Matrix.mul_assoc, e, Matrix.mul_one]

/-- The skew matrix built from the three upper entries of a skew matrix is that matrix. -/
theorem computeRdifferentialRtdR_of_skew (M : Matrix3f) (hM : M.transpose = -M) :
    Grid.computeRdifferentialRtdR ![M 0 1, M 0 2, M 1 2] = M := by
  have m00 : M 0 0 = 0 := by
    have := congrFun (congrFun hM 0) 0
    simp only [Matrix.transpose_apply, Matrix.neg_apply] at this
    linarith
  have m11 : M 1 1 = 0 := by
    have := congrFun (congrFun hM 1) 1
    simp only [Matrix.transpose_apply, Matrix.neg_apply] at this
    linarith
  have m22 : M 2 2 = 0 := by
    have := congrFun (congrFun hM 2) 2
    simp only [Matrix.transpose_apply, Matrix.neg_apply] at this
    linarith
  have m10 : M 1 0 = -M 0 1 := by
    have := congrFun (congrFun hM 0) 1
    simpa only [Matrix.transpose_apply, Matrix.neg_apply] using this
  have m20 : M 2 0 = -M 0 2 := by
    have := congrFun (congrFun hM 0) 2
    simpa only [Matrix.transpose_apply, Matrix.neg_apply] using this
  have m21 : M 2 1 = -M 1 2 := by
    have := congrFun (congrFun hM 1) 2
    simpa only [Matrix.transpose_apply, Matrix.neg_apply] using this
  ext i j
  fin_cases i <;> fin_cases j <;>
    simp [Grid.computeRdifferentialRtdR, m00, m11, m22, m10, m20, m21]

theorem computeRdifferentialRtdR_smul (c : ℚ) (w : Vector3f) :
    Grid.computeRdifferentialRtdR (c • w) = c • Grid.computeRdifferentialRtdR w := by
  ext i j
  fin_cases i <;> fin_cases j <;> simp [Grid.computeRdifferentialRtdR]

/-- C8 (the rotation differential solves the polar-decomposition equation).  For every
`dF` and `R` and every symmetric `S` whose system matrix `G` is invertible,
`computeRdifferential(dF, R, S)` is `R * W` for the skew-symmetric matrix `W` of a vector
`w = (w_01, w_02, w_12)` that solves the 3×3 system `G w = (M_01, M_02, M_12)` of the
spec, with `M = R^T dF - dF^T R`; solving that system is the same as solving
`W S + S W = M`, which `W` does; and for `S = I` the result is
`(1/2) * R * (R^T dF - dF^T R)`. -/
theorem rotation_differential (dF R S : Matrix3f) (hS : S.IsSymm)
    (hG : (Grid.computeRdifferentialG S).det ≠ 0) :
    (∃ w : Vector3f,
      Grid.computeRdifferential dF R S = R * Grid.computeRdifferentialRtdR w ∧
      (Grid.computeRdifferentialRtdR w).transpose = -Grid.computeRdifferentialRtdR w ∧
      Grid.computeRdifferentialRtdR w = !![0, w 0, w 1; -w 0, 0, w 2; -w 1, -w 2, 0] ∧
      (Grid.computeRdifferentialG S).mulVec w =
        ![(R.transpose * dF - dF.transpose * R) 0 1, (R.transpose * dF - dF.transpose * R) 0 2,
          (R.transpose * dF - dF.transpose * R) 1 2] ∧
      Grid.computeRdifferentialRtdR w * S + S * Grid.computeRdifferentialRtdR w =
        R.transpose * dF - dF.transpose * R) ∧
    (∀ w : Vector3f, (Grid.computeRdifferentialG S).mulVec w =
        ![(R.transpose * dF - dF.transpose * R) 0 1, (R.transpose * dF - dF.transpose * R) 0 2,
          (R.transpose * dF - dF.transpose * R) 1 2] ↔
      Grid.computeRdifferentialRtdR w * S + S * Grid.computeRdifferentialRtdR w =
        R.transpose * dF - dF.transpose * R) ∧
    Grid.computeRdifferential dF R 1 = (1 / 2 : ℚ) • (R * (R.transpose * dF - dF.transpose * R)) := by
  refine ⟨⟨(inverse (Grid.computeRdifferentialG S)).mulVec
      ![(R.transpose * dF - dF.transpose * R) 0 1, (R.transpose * dF - dF.transpose * R) 0 2,
        (R.transpose * dF - dF.transpose * R) 1 2], rfl, computeRdifferentialRtdR_transpose _,
      rfl, mulVec_inverse_mulVec _ hG _, ?_⟩, ?_, ?_⟩
  · exact (system_iff_matrix_equation S _ hS (skew_M dF R) _).mp (mulVec_inverse_mulVec _ hG _)
  · intro w
    exact system_iff_matrix_equation S _ hS (skew_M dF R) w
  · unfold Grid.computeRdifferential
    simp only
    rw [computeRdifferentialG_one, inverse_two_smul_one, Matrix.smul_mulVec_assoc,
      Matrix.one_mulVec, computeRdifferentialRtdR_smul,
      computeRdifferentialRtdR_of_skew _ (skew_M dF R), Matrix.mul_smul]

/-- Instance of `rotation_differential` at `S = I`, `R = I` and `dF` with one
off-diagonal entry: the system matrix is `2 I`, of determinant 8. -/
theorem rotation_differential_witness :
    (1 : Matrix3f).IsSymm ∧ (Grid.computeRdifferentialG 1).det ≠ 0 ∧
    Grid.computeRdifferential !![0, 1, 0; 0, 0, 0; 0, 0, 0] 1 1 =
      (1 / 2 : ℚ) • ((1 : Matrix3f) * ((1 : Matrix3f).transpose * !![0, 1, 0; 0, 0, 0; 0, 0, 0] -
        (!![0, 1, 0; 0, 0, 0; 0, 0, 0] : Matrix3f).transpose * 1)) :=
  ⟨Matrix.isSymm_one, by rw [computeRdifferentialG_one, Matrix.det_smul, Matrix.det_one]; norm_num,
    (rotation_differential !![0, 1, 0; 0, 0, 0; 0, 0, 0] 1 1 Matrix.isSymm_one
      (by rw [computeRdifferentialG_one, Matrix.det_smul, Matrix.det_one]; norm_num)).2.2⟩

/-! ## C7: symmetry of the force-differential operator -/

theorem matrixDoubleDot_comm (a b : Matrix3f) :
    Grid.matrixDoubleDot a b = Grid.matrixDoubleDot b a := by
  unfold Grid.matrixDoubleDot
  ring

theorem matrixDoubleDot_eq_trace (a b : Matrix3f) :
    Grid.matrixDoubleDot a b = Matrix.trace (a.transpose * b) := by
  simp only [Grid.matrixDoubleDot, Matrix.trace, Matrix.diag, Matrix.mul_apply,
    Matrix.transpose_apply, Fin.sum_univ_three]
  ring

theorem matrixDoubleDot_add_left (a b c : Matrix3f) :
    Grid.matrixDoubleDot (a + b) c = Grid.matrixDoubleDot a c + Grid.matrixDoubleDot b c := by
  simp only [Grid.matrixDoubleDot, Matrix.add_apply]
  ring

theorem matrixDoubleDot_add_right (a b c : Matrix3f) :
    Grid.matrixDoubleDot a (b + c) = Grid.matrixDoubleDot a b + Grid.matrixDoubleDot a c := by
  simp only [Grid.matrixDoubleDot, Matrix.add_apply]
  ring

theorem matrixDoubleDot_sub_left (a b c : Matrix3f) :
    Grid.matrixDoubleDot (a - b) c = Grid.matrixDoubleDot a c - Grid.matrixDoubleDot b c := by
  simp only [Grid.matrixDoubleDot, Matrix.sub_apply]
  ring

theorem matrixDoubleDot_smul_left (r : ℚ) (a c : Matrix3f) :
    Grid.matrixDoubleDot (r • a) c = r * Grid.matrixDoubleDot a c := by
  simp only [Grid.matrixDoubleDot, Matrix.smul_apply, smul_eq_mul]
  ring

theorem matrixDoubleDot_zero_right (a : Matrix3f) : Grid.matrixDoubleDot a 0 = 0 := by
  simp [Grid.matrixDoubleDot]

/-- The term of `dFInvTrans` pairs symmetrically. -/
theorem pairing_dFInvTrans_symm (B X Y : Matrix3f) :
    Grid.matrixDoubleDot (-B * X.transpose * B) Y = Grid.matrixDoubleDot (-B * Y.transpose * B) X := by
  rw [matrixDoubleDot_eq_trace, matrixDoubleDot_eq_trace]
  simp only [Matrix.transpose_mul, Matrix.transpose_neg, Matrix.transpose_transpose,
    Matrix.neg_mul, Matrix.mul_neg, Matrix.trace_neg]
  congr 1
  rw [Matrix.mul_assoc, Matrix.mul_assoc, Matrix.mul_assoc, Matrix.mul_assoc,
    ← Matrix.mul_assoc B.transpose X, Matrix.trace_mul_comm, Matrix.mul_assoc]

/-- The pairing of `R * W` with `Y`, for the skew matrix `W` of `w`, is the dot product of
`w` with the three upper entries of `R^T Y - Y^T R`. -/
theorem pairing_rotation (R Y : Matrix3f) (w : Vector3f) :
    Grid.matrixDoubleDot (R * Grid.computeRdifferentialRtdR w) Y =
      Matrix.dotProduct w
        ![(R.transpose * Y - Y.transpose * R) 0 1, (R.transpose * Y - Y.transpose * R) 0 2,
          (R.transpose * Y - Y.transpose * R) 1 2] := by
  have w00 : Grid.computeRdifferentialRtdR w 0 0 = 0 := rfl
  have w01 : Grid.computeRdifferentialRtdR w 0 1 = w 0 := rfl
  have w02 : Grid.computeRdifferentialRtdR w 0 2 = w 1 := rfl
  have w10 : Grid.computeRdifferentialRtdR w 1 0 = -w 0 := rfl
  have w11 : Grid.computeRdifferentialRtdR w 1 1 = 0 := rfl
  have w12 : Grid.computeRdifferentialRtdR w 1 2 = w 2 := rfl
  have w20 : Grid.computeRdifferentialRtdR w 2 0 = -w 1 := rfl
  have w21 : Grid.computeRdifferentialRtdR w 2 1 = -w 2 := rfl
  have w22 : Grid.computeRdifferentialRtdR w 2 2 = 0 := rfl
  simp only [Grid.matrixDoubleDot, Matrix.dotProduct, Matrix.mul_apply, Matrix.sub_apply,
    Matrix.transpose_apply, Fin.sum_univ_three, w00, w01, w02, w10, w11, w12, w20, w21, w22,
    Matrix.cons_val_zero, Matrix.cons_val_one, Matrix.head_cons, Matrix.cons_val_two,
    Matrix.tail_cons]
  ring

theorem computeRdifferentialG_transpose (S : Matrix3f) :
    (Grid.computeRdifferentialG S).transpose = Grid.computeRdifferentialG S := by
  ext i j
  fin_cases i <;> fin_cases j <;> rfl

theorem inverse_transpose_of_symm (G : Matrix3f) (h : G.transpose = G) :
    (inverse G).transpose = inverse G := by
  unfold inverse
  rw [Matrix.transpose_smul, Matrix.adjugate_transpose, h]

/-- The term of `dR` pairs symmetrically, because the system matrix `G` is symmetric by
construction. -/
theorem pairing_dR_symm (R S X Y : Matrix3f) :
    Grid.matrixDoubleDot (Grid.computeRdifferential X R S) Y =
      Grid.matrixDoubleDot (Grid.computeRdifferential Y R S) X := by
  unfold Grid.computeRdifferential
  simp only
  rw [pairing_rotation, pairing_rotation, Matrix.dotProduct_comm, Matrix.dotProduct_mulVec,
    ← Matrix.mulVec_transpose,
    inverse_transpose_of_symm _ (computeRdifferentialG_transpose S)]

/-- The bilinear form `(X, Y) ↦ Ap(X) : Y` of one particle is symmetric. -/
theorem pairing_Ap_symm (p : Particle) (X Y : Matrix3f) :
    Grid.matrixDoubleDot (Grid.Ap p X) Y = Grid.matrixDoubleDot (Grid.Ap p Y) X := by
  unfold Grid.Ap
  simp only [matrixDoubleDot_add_left, matrixDoubleDot_smul_left, matrixDoubleDot_sub_left]
  rw [pairing_dR_symm p.particleR p.particleS X Y,
    pairing_dFInvTrans_symm p.particleFinvTrans X Y, matrixDoubleDot_comm X Y]
  ring

/-! ### Dot products against a scattered vector -/

theorem dot_set (a b : List ℚ) (n : ℕ) (y : ℚ) (h : a.length = b.length) (hn : n < b.length) :
    dot a (b.set n y) = dot a b + a.getD n 0 * (y - b.getD n 0) := by
  induction a generalizing b n with
  | nil =>
    simp only [List.length_nil] at h
    omega
  | cons x a ih =>
    cases b with
    | nil => simp at hn
    | cons z b =>
      cases n with
      | zero =>
        simp only [dot, List.set_cons_zero, List.zipWith_cons_cons, List.sum_cons,
          List.getD_cons_zero]
        ring
      | succ n =>
        have h2 : a.length = b.length := by simpa using h
        have hn2 : n < b.length := by simpa using hn
        have := ih b n h2 hn2
        simp only [dot, List.set_cons_succ, List.zipWith_cons_cons, List.sum_cons,
          List.getD_cons_succ] at this ⊢
        rw [this]
        ring

theorem coeff_eq_zero_of_le (v : VectorXf) (i : ℤ) (h : 0 ≤ i) (hl : v.length ≤ i.toNat) :
    coeff v i = 0 := by
  simp [coeff, h, List.getD_eq_getElem?_getD, List.getElem?_eq_none hl]

theorem dot_setCoeff (a b : VectorXf) (i : ℤ) (y : ℚ) (h : a.length = b.length) :
    dot a (setCoeff b i y) = dot a b + coeff a i * (if 0 ≤ i ∧ i.toNat < b.length then
      y - coeff b i else 0) := by
  by_cases h0 : 0 ≤ i
  · by_cases hl : i.toNat < b.length
    · simp only [setCoeff, coeff, h0, hl, if_true, and_self]
      exact dot_set a b _ y h hl
    · have e : setCoeff b i y = b := by
        simp only [setCoeff, h0, if_true]
        exact List.set_eq_of_length_le (not_lt.mp hl)
      simp [e, hl]
  · simp [setCoeff, h0]

theorem dot_setSegment3_add (a b : VectorXf) (i : ℤ) (v : Vector3f) (h : a.length = b.length) :
    dot a (setSegment3 b (3 * i) (segment3 b (3 * i) + v)) =
      dot a b + Matrix.dotProduct (segment3 a (3 * i)) v := by
  have n1 : ¬ (3 * i = 3 * i + 1 ∧ 0 ≤ 3 * i ∧ (3 * i).toNat < b.length) := by omega
  have n2 : ¬ (3 * i + 1 = 3 * i + 2 ∧ 0 ≤ 3 * i + 1 ∧ (3 * i + 1).toNat < b.length) := by
    omega
  have n3 : ¬ (3 * i = 3 * i + 2 ∧ 0 ≤ 3 * i ∧ (3 * i).toNat < b.length) := by omega
  simp only [setSegment3]
  rw [dot_setCoeff _ _ _ _ (by simp [length_setCoeff, h]),
    dot_setCoeff _ _ _ _ (by simp [length_setCoeff, h]), dot_setCoeff _ _ _ _ h]
  simp only [coeff_setCoeff, length_setCoeff, if_neg n1, if_neg n2, if_neg n3]
  have s0 : (segment3 b (3 * i) + v) 0 - coeff b (3 * i) = v 0 := by
    simp [segment3]
  have s1 : (segment3 b (3 * i) + v) 1 - coeff b (3 * i + 1) = v 1 := by
    simp [segment3]
  have s2 : (segment3 b (3 * i) + v) 2 - coeff b (3 * i + 2) = v 2 := by
    simp [segment3]
  rw [s0, s1, s2]
  simp only [Matrix.dotProduct, Fin.sum_univ_three]
  have a0 : segment3 a (3 * i) 0 = coeff a (3 * i) := rfl
  have a1 : segment3 a (3 * i) 1 = coeff a (3 * i + 1) := rfl
  have a2 : segment3 a (3 * i) 2 = coeff a (3 * i + 2) := rfl
  rw [a0, a1, a2]
  by_cases c0 : 0 ≤ 3 * i ∧ (3 * i).toNat < b.length
  · by_cases c1 : 0 ≤ 3 * i + 1 ∧ (3 * i + 1).toNat < b.length
    · by_cases c2 : 0 ≤ 3 * i + 2 ∧ (3 * i + 2).toNat < b.length
      · rw [if_pos c0, if_pos c1, if_pos c2]; ring
      · have z : coeff a (3 * i + 2) = 0 :=
          coeff_eq_zero_of_le a _ (by omega) (by rw [h]; omega)
        rw [if_pos c0, if_pos c1, if_neg c2, z]; ring
    · have z1 : coeff a (3 * i + 1) = 0 :=
        coeff_eq_zero_of_le a _ (by omega) (by rw [h]; omega)
      have z2 : coeff a (3 * i + 2) = 0 :=
        coeff_eq_zero_of_le a _ (by omega) (by rw [h]; omega)
      rw [if_pos c0, z1, z2]; ring
  · by_cases hi : 0 ≤ i
    · have z0 : coeff a (3 * i) = 0 :=
        coeff_eq_zero_of_le a _ (by omega) (by rw [h]; omega)
      have z1 : coeff a (3 * i + 1) = 0 :=
        coeff_eq_zero_of_le a _ (by omega) (by rw [h]; omega)
      have z2 : coeff a (3 * i + 2) = 0 :=
        coeff_eq_zero_of_le a _ (by omega) (by rw [h]; omega)
      rw [z0, z1, z2]; ring
    · have z0 : coeff a (3 * i) = 0 := by
        have : ¬ (0 ≤ 3 * i) := by omega
        simp [coeff, this]
      have z1 : coeff a (3 * i + 1) = 0 := by
        have : ¬ (0 ≤ 3 * i + 1) := by omega
        simp [coeff, this]
      have z2 : coeff a (3 * i + 2) = 0 := by
        have : ¬ (0 ≤ 3 * i + 2) := by omega
        simp [coeff, this]
      rw [z0, z1, z2]; ring

theorem dot_replicate_zero (a : VectorXf) (n : ℕ) : dot a (List.replicate n 0) = 0 := by
  induction a generalizing n with
  | nil => simp [dot]
  | cons x a ih =>
    cases n with
    | zero => simp [dot]
    | succ n =>
      have := ih n
      simp only [dot, List.replicate_succ, List.zipWith_cons_cons, List.sum_cons] at this ⊢
      rw [this]
      ring

/-- The deformation gradient differential of a particle is the sum over its stencil of
`δx_i ∇w_i^T F`. -/
theorem dFp_eq_sum (g : Grid) (p : Particle) (dx : VectorXf) :
    g.dFp p dx = (stencil.map (fun s =>
      Matrix.vecMulVec (segment3 dx (3 * g.stencilIndex (g.cellAndWeights p.particleX) s.1 s.2.1 s.2.2))
        ((g.cellAndWeights p.particleX).weightGrad s.1 s.2.1 s.2.2) * p.particleF)).sum := by
  unfold Grid.dFp
  simp only
  rw [forStencil_accum (fun m : Matrix3f => m) (fun _ => True) _
    (fun i j k => Matrix.vecMulVec
      (segment3 dx (3 * g.stencilIndex (g.cellAndWeights p.particleX) i j k))
      ((g.cellAndWeights p.particleX).weightGrad i j k) * p.particleF)
    (fun _ _ _ _ _ _ _ _ => trivial) (fun _ _ _ _ _ _ _ _ => rfl) 0 trivial, zero_add]

/-- The work of the nodal force `(A F^T) ∇w` against a nodal vector `u` is the pairing
of `A` with `u ∇w^T F`. -/
theorem dotProduct_mulVec_eq_pairing (A F : Matrix3f) (u w : Vector3f) :
    Matrix.dotProduct u ((A * F.transpose).mulVec w) =
      Grid.matrixDoubleDot A (Matrix.vecMulVec u w * F) := by
  simp only [Grid.matrixDoubleDot, Matrix.dotProduct, Matrix.mulVec, Matrix.mul_apply,
    Matrix.transpose_apply, Matrix.vecMulVec_apply, Fin.sum_univ_three]
  ring

theorem matrixDoubleDot_list_sum {ι : Type} (A : Matrix3f) (l : List ι) (f : ι → Matrix3f) :
    Grid.matrixDoubleDot A (l.map f).sum = (l.map (fun s => Grid.matrixDoubleDot A (f s))).sum := by
  induction l with
  | nil => simp [matrixDoubleDot_zero_right]
  | cons s l ih => simp [ih, matrixDoubleDot_add_right]

/-- The dot product of a nodal field `dy` with the force differentials of `dx` is minus
the sum over the particles of `V_p * (Ap(dFp(dx)) : dFp(dy))`. -/
theorem dot_calculateForceDifferentials (g : Grid) (d : ParticleData) (dx dy df : VectorXf)
    (h : dy.length = df.length) :
    dot dy (g.calculateForceDifferentials d dx df) =
      -(d.map (fun p => p.particleVolumes *
        Grid.matrixDoubleDot (Grid.Ap p (g.dFp p dx)) (g.dFp p dy))).sum := by
  have e : g.calculateForceDifferentials d dx df =
      d.foldl (fun v p => forStencil (fun i j k v =>
        setSegment3 v (3 * g.stencilIndex (g.cellAndWeights p.particleX) i j k)
          (segment3 v (3 * g.stencilIndex (g.cellAndWeights p.particleX) i j k) +
            (-(Grid.forceMatrix p (g.dFp p dx))).mulVec
              ((g.cellAndWeights p.particleX).weightGrad i j k))) v)
        (List.replicate df.length 0) := by
    simp only [Grid.calculateForceDifferentials, sub_eq_add_neg, Matrix.neg_mulVec]
  have hInv : ∀ (v : VectorXf) (p : Particle), p ∈ d → dy.length = v.length →
      dy.length = (forStencil (fun i j k v =>
        setSegment3 v (3 * g.stencilIndex (g.cellAndWeights p.particleX) i j k)
          (segment3 v (3 * g.stencilIndex (g.cellAndWeights p.particleX) i j k) +
            (-(Grid.forceMatrix p (g.dFp p dx))).mulVec
              ((g.cellAndWeights p.particleX).weightGrad i j k))) v).length := by
    intro v p _ hv
    apply forStencil_invariant (fun m : VectorXf => dy.length = m.length) _ _ hv
    intro i j k m _ _ _ hm
    simpa [length_setSegment3] using hm
  rw [e, foldl_accum (fun v : VectorXf => dot dy v) (fun v : VectorXf => dy.length = v.length) _
    (fun p : Particle => -(p.particleVolumes *
        Grid.matrixDoubleDot (Grid.Ap p (g.dFp p dx)) (g.dFp p dy))) d hInv _ _ (by simp [h]),
    dot_replicate_zero, zero_add]
  · rw [sum_map_neg]
  · intro v p _ hv
    beta_reduce
    rw [forStencil_accum (fun v : VectorXf => dot dy v)
      (fun v : VectorXf => dy.length = v.length) _
      (fun i j k => Matrix.dotProduct
        (segment3 dy (3 * g.stencilIndex (g.cellAndWeights p.particleX) i j k))
        ((-(Grid.forceMatrix p (g.dFp p dx))).mulVec
          ((g.cellAndWeights p.particleX).weightGrad i j k))) _ _ v hv]
    · congr 1
      rw [dFp_eq_sum g p dy, matrixDoubleDot_list_sum, ← List.sum_map_mul_left, ← sum_map_neg]
      congr 1
      apply List.map_congr_left
      intro s _
      simp only [Grid.forceMatrix, Matrix.neg_mulVec, Matrix.dotProduct_neg]
      rw [dotProduct_mulVec_eq_pairing, matrixDoubleDot_smul_left]
    · intro i j k m _ _ _ hm
      simpa [length_setSegment3] using hm
    · intro i j k m _ _ _ hm
      exact dot_setSegment3_add dy m _ _ hm

/-- C7 (the force-differential operator is symmetric).  For every particle data set in
which each `S_p` is symmetric and the 3×3 system matrix of `computeRdifferential` is
invertible, on the grid built from the particles, and for all grid displacement fields
`dx` and `dy` (vectors of the size of the grid velocities): the dot product of `dy` with
`calculateForceDifferentials(dx)` equals the dot product of `dx` with
`calculateForceDifferentials(dy)`. -/
theorem force_differential_symmetric (d : ParticleData)
    (hS : ∀ p ∈ d, p.particleS.IsSymm)
    (hG : ∀ p ∈ d, (Grid.computeRdifferentialG p.particleS).det ≠ 0)
    (dx dy df1 df2 : VectorXf)
    (hx : dx.length = (Grid.Grid d).m_gridVelocities.length)
    (hy : dy.length = (Grid.Grid d).m_gridVelocities.length)
    (h1 : df1.length = (Grid.Grid d).m_gridVelocities.length)
    (h2 : df2.length = (Grid.Grid d).m_gridVelocities.length) :
    dot dy ((Grid.Grid d).calculateForceDifferentials d dx df1) =
      dot dx ((Grid.Grid d).calculateForceDifferentials d dy df2) := by
  have _ := hS
  have _ := hG
  rw [dot_calculateForceDifferentials _ d dx dy df1 (by rw [hy, h1]),
    dot_calculateForceDifferentials _ d dy dx df2 (by rw [hx, h2])]
  have e : d.map (fun p => p.particleVolumes *
        Grid.matrixDoubleDot (Grid.Ap p ((Grid.Grid d).dFp p dx)) ((Grid.Grid d).dFp p dy)) =
      d.map (fun p => p.particleVolumes *
        Grid.matrixDoubleDot (Grid.Ap p ((Grid.Grid d).dFp p dy)) ((Grid.Grid d).dFp p dx)) :=
    List.map_congr_left (fun p _ => by rw [pairing_Ap_symm])
  rw [e]

/-- Instance of `force_differential_symmetric` on the grid of the rest particle (whose
`S` is the identity), for two fields that each move one node along one axis. -/
theorem force_differential_symmetric_witness :
    (∀ p ∈ [restParticle], p.particleS.IsSymm) ∧
    (∀ p ∈ [restParticle], (Grid.computeRdifferentialG p.particleS).det ≠ 0) ∧
    dot (setCoeff (List.replicate 192 0) 5 1)
        ((Grid.Grid [restParticle]).calculateForceDifferentials [restParticle]
          (setCoeff (List.replicate 192 0) 64 1) (List.replicate 192 0)) =
      dot (setCoeff (List.replicate 192 0) 64 1)
        ((Grid.Grid [restParticle]).calculateForceDifferentials [restParticle]
          (setCoeff (List.replicate 192 0) 5 1) (List.replicate 192 0)) :=
  have hl : (Grid.Grid [restParticle]).m_gridVelocities.length = 192 := by
    rw [Grid_velocities_length, restGrid_geometry.1, restGrid_geometry.2.1,
      restGrid_geometry.2.2.1]
    simp
  have hs : ∀ p ∈ [restParticle], p.particleS.IsSymm := by
    intro p hp
    rw [List.mem_singleton.mp hp]
    exact Matrix.isSymm_one
  have hg : ∀ p ∈ [restParticle], (Grid.computeRdifferentialG p.particleS).det ≠ 0 := by
    intro p hp
    rw [List.mem_singleton.mp hp]
    show (Grid.computeRdifferentialG 1).det ≠ 0
    rw [computeRdifferentialG_one, Matrix.det_smul, Matrix.det_one]
    norm_num
  ⟨hs, hg, force_differential_symmetric [restParticle] hs hg _ _ _ _
    (by rw [length_setCoeff, List.length_replicate, hl])
    (by rw [length_setCoeff, List.length_replicate, hl])
    (by rw [List.length_replicate, hl]) (by rw [List.length_replicate, hl])⟩

/-! ## Loops over all nodes by coordinates -/

/-- A counting loop in which at most one iteration `hit`s and applies `U` to an observed
quantity, the other iterations leaving it alone: the loop applies `U` once if some
iteration hits and leaves the quantity alone otherwise. -/
theorem forRange_hit {α β : Type} (n : ℤ) (body : ℤ → α → α) (obs : α → β) (Inv : α → Prop)
    (hit : ℤ → Prop) [DecidablePred hit] (U : β → β)
    (hInv : ∀ i a, 0 ≤ i → i < n → Inv a → Inv (body i a))
    (hobs : ∀ i a, 0 ≤ i → i < n → Inv a → obs (body i a) = if hit i then U (obs a) else obs a)
    (huniq : ∀ i k, 0 ≤ i → i < n → 0 ≤ k → k < n → hit i → hit k → i = k)
    (a : α) (ha : Inv a) :
    ((∃ i, 0 ≤ i ∧ i < n ∧ hit i) → obs (forRange n body a) = U (obs a)) ∧
    ((¬ ∃ i, 0 ≤ i ∧ i < n ∧ hit i) → obs (forRange n body a) = obs a) := by
  have key : ∀ m : ℕ, m ≤ n.toNat →
      Inv ((List.range m).foldl (fun a (i : ℕ) => body (i : ℤ) a) a) ∧
      ((∃ i : ℕ, i < m ∧ hit (i : ℤ)) →
        obs ((List.range m).foldl (fun a (i : ℕ) => body (i : ℤ) a) a) = U (obs a)) ∧
      ((¬ ∃ i : ℕ, i < m ∧ hit (i : ℤ)) →
        obs ((List.range m).foldl (fun a (i : ℕ) => body (i : ℤ) a) a) = obs a) := by
    intro m
    induction m with
    | zero =>
      intro _
      refine ⟨ha, ?_, fun _ => rfl⟩
      rintro ⟨i, hi, _⟩
      omega
    | succ m ih =>
      intro hm
      obtain ⟨i1, i2, i3⟩ := ih (by omega)
      have hm0 : (0 : ℤ) ≤ (m : ℤ) := by omega
      have hmn : (m : ℤ) < n := by omega
      rw [List.range_succ, List.foldl_append]
      simp only [List.foldl_cons, List.foldl_nil]
      refine ⟨hInv _ _ hm0 hmn i1, ?_, ?_⟩
      · rintro ⟨i, hi, hh⟩
        rw [hobs _ _ hm0 hmn i1]
        by_cases hhm : hit (m : ℤ)
        · rw [if_pos hhm, i3]
          rintro ⟨k, hk, hhk⟩
          have := huniq k m (by omega) (by omega) hm0 hmn hhk hhm
          omega
        · rw [if_neg hhm]
          apply i2
          refine ⟨i, ?_, hh⟩
          rcases Nat.lt_succ_iff_lt_or_eq.mp hi with h | h
          · exact h
          · subst h; exact absurd hh hhm
      · intro hne
        rw [hobs _ _ hm0 hmn i1]
        have hhm : ¬ hit (m : ℤ) := fun h => hne ⟨m, Nat.lt_succ_self m, h⟩
        rw [if_neg hhm]
        apply i3
        rintro ⟨k, hk, hhk⟩
        exact hne ⟨k, Nat.lt_succ_of_lt hk, hhk⟩
  obtain ⟨_, k2, k3⟩ := key n.toNat (le_refl _)
  unfold forRange
  constructor
  · rintro ⟨i, h0, h1, hh⟩
    apply k2
    refine ⟨i.toNat, by omega, ?_⟩
    rw [Int.toNat_of_nonneg h0]
    exact hh
  · intro hne
    apply k3
    rintro ⟨k, hk, hhk⟩
    exact hne ⟨k, by omega, by omega, hhk⟩

/-- A loop nest over the node coordinates whose body, at the node it visits, applies `U`
to an observed quantity of the node `(a, b, c)` exactly when it visits that node,
applies `U` exactly once. -/
theorem forNodes_hit {α β : Type} (g : Grid) (body : ℤ → ℤ → ℤ → α → α) (obs : α → β)
    (Inv : α → Prop) (U : β → β) (a b c : ℤ)
    (ha : 0 ≤ a ∧ a < g.m_nx) (hb : 0 ≤ b ∧ b < g.m_ny) (hc : 0 ≤ c ∧ c < g.m_nz)
    (hInv : ∀ i j k st, 0 ≤ i → i < g.m_nx → 0 ≤ j → j < g.m_ny → 0 ≤ k → k < g.m_nz →
      Inv st → Inv (body i j k st))
    (hobs : ∀ i j k st, 0 ≤ i → i < g.m_nx → 0 ≤ j → j < g.m_ny → 0 ≤ k → k < g.m_nz →
      Inv st → obs (body i j k st) =
        if g.coordsToIndex i j k = g.coordsToIndex a b c then U (obs st) else obs st)
    (st : α) (hst : Inv st) :
    obs (forRange g.m_nx (fun i st => forRange g.m_ny (fun j st =>
      forRange g.m_nz (fun k st => body i j k st) st) st) st) = U (obs st) := by
  have inner : ∀ i j st, 0 ≤ i → i < g.m_nx → 0 ≤ j → j < g.m_ny → Inv st →
      Inv (forRange g.m_nz (fun k st => body i j k st) st) ∧
      obs (forRange g.m_nz (fun k st => body i j k st) st) =
        if i = a ∧ j = b then U (obs st) else obs st := by
    intro i j st hi0 hi hj0 hj hst
    refine ⟨forRange_invariant Inv _ _ _ hst
      (fun k s hk0 hk hs => hInv i j k s hi0 hi hj0 hj hk0 hk hs), ?_⟩
    obtain ⟨h1, h2⟩ := forRange_hit g.m_nz (fun k st => body i j k st) obs Inv
      (fun k => i = a ∧ j = b ∧ k = c) U
      (fun k s hk0 hk hs => hInv i j k s hi0 hi hj0 hj hk0 hk hs)
      (fun k s hk0 hk hs => by
        rw [hobs i j k s hi0 hi hj0 hj hk0 hk hs]
        by_cases e : g.coordsToIndex i j k = g.coordsToIndex a b c
        · obtain ⟨e1, e2, e3⟩ := coordsToIndex_inj g _ _ _ _ _ _ hi0 hi hj0 hj ha.1 ha.2
            hb.1 hb.2 e
          rw [if_pos e, if_pos ⟨e1, e2, e3⟩]
        · have : ¬ (i = a ∧ j = b ∧ k = c) := by
            rintro ⟨e1, e2, e3⟩
            exact e (by rw [e1, e2, e3])
          rw [if_neg e, if_neg this])
      (fun k l _ _ _ _ hk hl => by rw [hk.2.2, hl.2.2]) st hst
    by_cases e : i = a ∧ j = b
    · rw [if_pos e]
      exact h1 ⟨c, hc.1, hc.2, e.1, e.2, rfl⟩
    · rw [if_neg e]
      apply h2
      rintro ⟨k, _, _, e1, e2, _⟩
      exact e ⟨e1, e2⟩
  have middle : ∀ i st, 0 ≤ i → i < g.m_nx → Inv st →
      Inv (forRange g.m_ny (fun j st => forRange g.m_nz (fun k st => body i j k st) st) st) ∧
      obs (forRange g.m_ny (fun j st => forRange g.m_nz (fun k st => body i j k st) st) st) =
        if i = a then U (obs st) else obs st := by
    intro i st hi0 hi hst
    refine ⟨forRange_invariant Inv _ _ _ hst
      (fun j s hj0 hj hs => (inner i j s hi0 hi hj0 hj hs).1), ?_⟩
    obtain ⟨h1, h2⟩ := forRange_hit g.m_ny
      (fun j st => forRange g.m_nz (fun k st => body i j k st) st) obs Inv
      (fun j => i = a ∧ j = b) U
      (fun j s hj0 hj hs => (inner i j s hi0 hi hj0 hj hs).1)
      (fun j s hj0 hj hs => (inner i j s hi0 hi hj0 hj hs).2)
      (fun k l _ _ _ _ hk hl => by rw [hk.2, hl.2]) st hst
    by_cases e : i = a
    · rw [if_pos e]
      exact h1 ⟨b, hb.1, hb.2, e, rfl⟩
    · rw [if_neg e]
      apply h2
      rintro ⟨k, _, _, e1, _⟩
      exact e e1
  obtain ⟨h1, _⟩ := forRange_hit g.m_nx
    (fun i st => forRange g.m_ny (fun j st =>
      forRange g.m_nz (fun k st => body i j k st) st) st) obs Inv
    (fun i => i = a) U
    (fun i s hi0 hi hs => (middle i s hi0 hi hs).1)
    (fun i s hi0 hi hs => (middle i s hi0 hi hs).2)
    (fun k l _ _ _ _ hk hl => by rw [hk, hl]) st hst
  exact h1 ⟨a, ha.1, ha.2, rfl⟩

/-! ## C9: the implicit operator -/

/-- The result of `applyImplicitUpdateMatrix` at the node `(a, b, c)`: the node mass
times the trial velocity corrected by `TIME_STEP / m` times the force differential (no
correction at a node of zero mass). -/
theorem segment3_applyImplicitUpdateMatrix (g : Grid) (d : ParticleData)
    (objs : List CollisionObject) (v : VectorXf)
    (hm : g.m_gridMasses.length = (g.m_nx * g.m_ny * g.m_nz).toNat)
    (hv : v.length = (g.m_nx * g.m_ny * g.m_nz * 3).toNat) (a b c : ℤ)
    (ha : 0 ≤ a ∧ a < g.m_nx) (hb : 0 ≤ b ∧ b < g.m_ny) (hc : 0 ≤ c ∧ c < g.m_nz) :
    segment3 (g.applyImplicitUpdateMatrix d objs v) (3 * g.coordsToIndex a b c) =
      coeff g.m_gridMasses (g.coordsToIndex a b c) •
        (if coeff g.m_gridMasses (g.coordsToIndex a b c) ≠ 0 then
          segment3 v (3 * g.coordsToIndex a b c) -
            (TIME_STEP / coeff g.m_gridMasses (g.coordsToIndex a b c)) •
              segment3 (g.calculateForceDifferentials d (v.map (fun x => TIME_STEP * x))
                (List.replicate v.length 0)) (3 * g.coordsToIndex a b c)
        else segment3 v (3 * g.coordsToIndex a b c)) := by
  obtain ⟨r0, r1⟩ := coordsToIndex_range g a b c ha.1 ha.2 hb.1 hb.2 hc.1 hc.2
  have r2 : (3 * g.coordsToIndex a b c + 2).toNat < v.length := by
    rw [hv]
    apply (Int.toNat_lt_toNat (by omega)).mpr
    omega
  have r3 : g.coordsToIndex a b c < (g.m_gridMasses.length : ℤ) := by
    rw [hm, Int.toNat_of_nonneg (by omega)]
    exact r1
  have hInv : ∀ (i j k : ℤ) (st : VectorXf), 0 ≤ i → i < g.m_nx → 0 ≤ j → j < g.m_ny →
      0 ≤ k → k < g.m_nz → st.length = v.length →
      (if coeff g.m_gridMasses (g.coordsToIndex i j k) ≠ 0 then
        setSegment3 st (3 * g.coordsToIndex i j k)
          (segment3 st (3 * g.coordsToIndex i j k) -
            (TIME_STEP / coeff g.m_gridMasses (g.coordsToIndex i j k)) •
              segment3 (g.calculateForceDifferentials d (v.map (fun x => TIME_STEP * x))
                (List.replicate v.length 0)) (3 * g.coordsToIndex i j k))
      else st).length = v.length := by
    intro i j k st _ _ _ _ _ _ hst
    split_ifs
    · rw [length_setSegment3, hst]
    · exact hst
  have loop := forNodes_hit g
    (fun i j k (st : VectorXf) =>
      if coeff g.m_gridMasses (g.coordsToIndex i j k) ≠ 0 then
        setSegment3 st (3 * g.coordsToIndex i j k)
          (segment3 st (3 * g.coordsToIndex i j k) -
            (TIME_STEP / coeff g.m_gridMasses (g.coordsToIndex i j k)) •
              segment3 (g.calculateForceDifferentials d (v.map (fun x => TIME_STEP * x))
                (List.replicate v.length 0)) (3 * g.coordsToIndex i j k))
      else st)
    (fun st : VectorXf => segment3 st (3 * g.coordsToIndex a b c))
    (fun st : VectorXf => st.length = v.length)
    (fun s : Vector3f =>
      if coeff g.m_gridMasses (g.coordsToIndex a b c) ≠ 0 then
        s - (TIME_STEP / coeff g.m_gridMasses (g.coordsToIndex a b c)) •
          segment3 (g.calculateForceDifferentials d (v.map (fun x => TIME_STEP * x))
            (List.replicate v.length 0)) (3 * g.coordsToIndex a b c)
      else s)
    a b c ha hb hc hInv
    (fun i j k st _ _ _ _ _ _ hst => by
      beta_reduce
      by_cases e : g.coordsToIndex i j k = g.coordsToIndex a b c
      · rw [if_pos e, e]
        by_cases hz : coeff g.m_gridMasses (g.coordsToIndex a b c) ≠ 0
        · rw [if_pos hz, if_pos hz, segment3_setSegment3 st _ _ _ r0 (by rw [hst]; exact r2),
            if_pos rfl]
        · rw [if_neg hz, if_neg hz]
      · rw [if_neg e]
        by_cases hz : coeff g.m_gridMasses (g.coordsToIndex i j k) ≠ 0
        · rw [if_pos hz, segment3_setSegment3 st _ _ _ r0 (by rw [hst]; exact r2), if_neg e]
        · rw [if_neg hz])
    v rfl
  have len : (forRange g.m_nx (fun i st => forRange g.m_ny (fun j st =>
      forRange g.m_nz (fun k (st : VectorXf) =>
        if coeff g.m_gridMasses (g.coordsToIndex i j k) ≠ 0 then
          setSegment3 st (3 * g.coordsToIndex i j k)
            (segment3 st (3 * g.coordsToIndex i j k) -
              (TIME_STEP / coeff g.m_gridMasses (g.coordsToIndex i j k)) •
                segment3 (g.calculateForceDifferentials d (v.map (fun x => TIME_STEP * x))
                  (List.replicate v.length 0)) (3 * g.coordsToIndex i j k))
        else st) st) st) v).length = v.length := by
    apply forRange_invariant (fun st : VectorXf => st.length = v.length) _ _ _ rfl
    intro i st hi0 hi hst
    apply forRange_invariant (fun st : VectorXf => st.length = v.length) _ _ _ hst
    intro j st hj0 hj hst
    apply forRange_invariant (fun st : VectorXf => st.length = v.length) _ _ _ hst
    intro k st hk0 hk hst
    exact hInv i j k st hi0 hi hj0 hj hk0 hk hst
  have fin := (forRange_segment3 g.m_gridMasses.length (fun i s => coeff g.m_gridMasses i • s)
    _ (g.coordsToIndex a b c) r0 (by rw [len]; exact r2)).1
  rw [if_pos r3] at fin
  beta_reduce at fin loop
  rw [loop] at fin
  exact fin

/-- C9 (implicit operator formula).  For every trial velocity field `v` (a vector of the
size of the grid velocities) and every node `(a, b, c)` of the grid built from the
particles, with `m_i` the node mass: if `m_i ≠ 0` the result of
`applyImplicitUpdateMatrix` at the node is `m_i * v_i - dt * df_i(dt * v)`, where `df` is
the result of `calculateForceDifferentials` on `dt * v`; and if `m_i = 0` it is 0. -/
theorem implicit_operator_formula (d : ParticleData) (collisionObjects : List CollisionObject)
    (v : VectorXf) (hv : v.length = (Grid.Grid d).m_gridVelocities.length) (a b c : ℤ)
    (ha : 0 ≤ a ∧ a < (Grid.Grid d).m_nx) (hb : 0 ≤ b ∧ b < (Grid.Grid d).m_ny)
    (hc : 0 ≤ c ∧ c < (Grid.Grid d).m_nz) :
    (coeff (Grid.Grid d).m_gridMasses ((Grid.Grid d).coordsToIndex a b c) ≠ 0 →
      segment3 ((Grid.Grid d).applyImplicitUpdateMatrix d collisionObjects v)
          (3 * (Grid.Grid d).coordsToIndex a b c) =
        coeff (Grid.Grid d).m_gridMasses ((Grid.Grid d).coordsToIndex a b c) •
            segment3 v (3 * (Grid.Grid d).coordsToIndex a b c) -
          TIME_STEP • segment3 ((Grid.Grid d).calculateForceDifferentials d
            (v.map (fun x => TIME_STEP * x)) (List.replicate v.length 0))
            (3 * (Grid.Grid d).coordsToIndex a b c)) ∧
    (coeff (Grid.Grid d).m_gridMasses ((Grid.Grid d).coordsToIndex a b c) = 0 →
      segment3 ((Grid.Grid d).applyImplicitUpdateMatrix d collisionObjects v)
          (3 * (Grid.Grid d).coordsToIndex a b c) = 0) := by
  have key := segment3_applyImplicitUpdateMatrix (Grid.Grid d) d collisionObjects v
    (Grid_masses_length d) (by rw [hv, Grid_velocities_length]) a b c ha hb hc
  constructor
  · intro hz
    rw [key, if_pos hz, smul_sub, smul_smul, mul_div_cancel₀ _ hz]
  · intro hz
    rw [key, hz, zero_smul]

/-- Instance of `implicit_operator_formula` at the node `(1, 1, 1)` of the grid of the
rest particle, whose mass is `(23/48)^3 ≠ 0`, for the zero trial field. -/
theorem implicit_operator_formula_witness :
    (List.replicate 192 (0 : ℚ)).length = (Grid.Grid [restParticle]).m_gridVelocities.length ∧
    coeff (Grid.Grid [restParticle]).m_gridMasses
        ((Grid.Grid [restParticle]).coordsToIndex 1 1 1) ≠ 0 ∧
    segment3 ((Grid.Grid [restParticle]).applyImplicitUpdateMatrix [restParticle] []
        (List.replicate 192 0)) (3 * (Grid.Grid [restParticle]).coordsToIndex 1 1 1) =
      coeff (Grid.Grid [restParticle]).m_gridMasses
          ((Grid.Grid [restParticle]).coordsToIndex 1 1 1) •
        segment3 (List.replicate 192 0) (3 * (Grid.Grid [restParticle]).coordsToIndex 1 1 1) -
      TIME_STEP • segment3 ((Grid.Grid [restParticle]).calculateForceDifferentials [restParticle]
        ((List.replicate 192 (0 : ℚ)).map (fun x => TIME_STEP * x))
        (List.replicate (List.replicate 192 (0 : ℚ)).length 0))
        (3 * (Grid.Grid [restParticle]).coordsToIndex 1 1 1) :=
  have hl : (List.replicate 192 (0 : ℚ)).length =
      (Grid.Grid [restParticle]).m_gridVelocities.length := by
    rw [Grid_velocities_length, restGrid_geometry.1, restGrid_geometry.2.1,
      restGrid_geometry.2.2.1, List.length_replicate]
    simp
  have hne : coeff (Grid.Grid [restParticle]).m_gridMasses
      ((Grid.Grid [restParticle]).coordsToIndex 1 1 1) ≠ 0 := by
    rw [originGrid_mass restParticle rfl]
    norm_num [restParticle]
  ⟨hl, hne, (implicit_operator_formula [restParticle] [] (List.replicate 192 0) hl 1 1 1
    (by rw [restGrid_geometry.1]; omega) (by rw [restGrid_geometry.2.1]; omega)
    (by rw [restGrid_geometry.2.2.1]; omega)).1 hne⟩

/-! ## Collision flags after the predictor loop -/

theorem length_setFlag (l : List Bool) (i : ℤ) (b : Bool) : (setFlag l i b).length = l.length := by
  unfold setFlag
  split_ifs <;> simp

theorem flag_setFlag (l : List Bool) (i j : ℤ) (b : Bool) :
    flag (setFlag l i b) j = if i = j ∧ 0 ≤ i ∧ i.toNat < l.length then b else flag l j := by
  unfold flag setFlag
  by_cases hi : 0 ≤ i
  · by_cases hj : 0 ≤ j
    · simp only [hi, hj, if_true, true_and, List.getD_eq_getElem?_getD, List.getElem?_set]
      by_cases hij : i = j
      · subst hij
        by_cases hl : i.toNat < l.length
        · simp [hl]
        · simp [hl, List.getElem?_eq_none (not_lt.mp hl)]
      · have : i.toNat ≠ j.toNat := by
          intro h
          apply hij
          rw [← Int.toNat_of_nonneg hi, ← Int.toNat_of_nonneg hj, h]
        simp [hij, this]
    · have hij : i ≠ j := by intro h; rw [h] at hi; exact hj hi
      simp [hi, hj, hij]
  · simp [hi]

theorem length_resizeFlags (l : List Bool) (n : ℕ) : (resizeFlags l n).length = n := by
  simp only [resizeFlags, List.length_append, List.length_take, List.length_replicate]
  omega

/-- The collided flag and the predicted velocity the node loop of `updateGridVelocities`
leaves at the node `(a, b, c)`. -/
theorem forwardUpdate_node (sqrtf : ℚ → ℚ) (g : Grid) (forces : VectorXf)
    (objs : List CollisionObject) (init : VectorXf × List Bool)
    (h1 : init.1.length = (g.m_nx * g.m_ny * g.m_nz * 3).toNat)
    (h2 : init.2.length = (g.m_nx * g.m_ny * g.m_nz).toNat) (a b c : ℤ)
    (ha : 0 ≤ a ∧ a < g.m_nx) (hb : 0 ≤ b ∧ b < g.m_ny) (hc : 0 ≤ c ∧ c < g.m_nz) :
    (segment3 (g.forwardUpdate sqrtf forces objs init).1 (3 * g.coordsToIndex a b c),
      flag (g.forwardUpdate sqrtf forces objs init).2 (g.coordsToIndex a b c)) =
    if coeff g.m_gridMasses (g.coordsToIndex a b c) = 0 then
      (segment3 g.m_gridVelocities (3 * g.coordsToIndex a b c), false)
    else
      Grid.applyCollisions sqrtf objs
        ![GRID_H * a + g.m_xmin, GRID_H * b + g.m_ymin, GRID_H * c + g.m_zmin]
        (fun t => segment3 g.m_gridVelocities (3 * g.coordsToIndex a b c) t +
          TIME_STEP * segment3 forces (3 * g.coordsToIndex a b c) t /
            coeff g.m_gridMasses (g.coordsToIndex a b c)) false := by
  obtain ⟨r0, r1⟩ := coordsToIndex_range g a b c ha.1 ha.2 hb.1 hb.2 hc.1 hc.2
  have r2 : (3 * g.coordsToIndex a b c + 2).toNat < (g.m_nx * g.m_ny * g.m_nz * 3).toNat := by
    apply (Int.toNat_lt_toNat (by omega)).mpr
    omega
  have r3 : (g.coordsToIndex a b c).toNat < (g.m_nx * g.m_ny * g.m_nz).toNat :=
    (Int.toNat_lt_toNat (lt_of_le_of_lt r0 r1)).mpr r1
  unfold Grid.forwardUpdate
  apply forNodes_hit g _
    (fun st : VectorXf × List Bool =>
      (segment3 st.1 (3 * g.coordsToIndex a b c), flag st.2 (g.coordsToIndex a b c)))
    (fun st : VectorXf × List Bool =>
      st.1.length = (g.m_nx * g.m_ny * g.m_nz * 3).toNat ∧
      st.2.length = (g.m_nx * g.m_ny * g.m_nz).toNat)
    (fun _ =>
      if coeff g.m_gridMasses (g.coordsToIndex a b c) = 0 then
        (segment3 g.m_gridVelocities (3 * g.coordsToIndex a b c), false)
      else
        Grid.applyCollisions sqrtf objs
          ![GRID_H * a + g.m_xmin, GRID_H * b + g.m_ymin, GRID_H * c + g.m_zmin]
          (fun t => segment3 g.m_gridVelocities (3 * g.coordsToIndex a b c) t +
            TIME_STEP * segment3 forces (3 * g.coordsToIndex a b c) t /
              coeff g.m_gridMasses (g.coordsToIndex a b c)) false)
    a b c ha hb hc
  · intro i j k st _ _ _ _ _ _ hst
    simp only
    split_ifs <;> simp [length_setSegment3, length_setFlag, hst.1, hst.2]
  · intro i j k st hi0 hi hj0 hj hk0 hk hst
    simp only
    by_cases e : g.coordsToIndex i j k = g.coordsToIndex a b c
    · obtain ⟨e1, e2, e3⟩ := coordsToIndex_inj g _ _ _ _ _ _ hi0 hi hj0 hj ha.1 ha.2
        hb.1 hb.2 e
      subst e1 e2 e3
      rw [if_pos rfl]
      by_cases hz : coeff g.m_gridMasses (g.coordsToIndex i j k) = 0
      · rw [if_pos hz, if_pos hz]
        simp only
        rw [segment3_setSegment3 _ _ _ _ r0 (by rw [hst.1]; exact r2), if_pos rfl, flag_setFlag,
          if_pos ⟨rfl, r0, by rw [hst.2]; exact r3⟩]
      · rw [if_neg hz, if_neg hz]
        simp only
        rw [segment3_setSegment3 _ _ _ _ r0 (by rw [hst.1]; exact r2), if_pos rfl]
        split_ifs with hr
        · rw [flag_setFlag, if_pos ⟨rfl, r0, by rw [length_setFlag, hst.2]; exact r3⟩]
          exact Prod.ext rfl hr.symm
        · rw [flag_setFlag, if_pos ⟨rfl, r0, by rw [hst.2]; exact r3⟩]
          have hr2 : (Grid.applyCollisions sqrtf objs
              ![GRID_H * i + g.m_xmin, GRID_H * j + g.m_ymin, GRID_H * k + g.m_zmin]
              (fun t => segment3 g.m_gridVelocities (3 * g.coordsToIndex i j k) t +
                TIME_STEP * segment3 forces (3 * g.coordsToIndex i j k) t /
                  coeff g.m_gridMasses (g.coordsToIndex i j k)) false).2 = false := by
            simpa using hr
          exact Prod.ext rfl hr2.symm
    · rw [if_neg e]
      split_ifs <;>
        simp only [segment3_setSegment3 _ _ _ _ r0 (by rw [hst.1]; exact r2), if_neg e,
          flag_setFlag, e, false_and, if_false]
  · exact ⟨h1, h2⟩

/-- The collided flag `updateGridVelocities` leaves at the node `(a, b, c)`: set exactly
when the node has mass and some collision object turns back its predicted velocity. -/
theorem updateGridVelocitiesRhs_flag (sqrtf : ℚ → ℚ) (g : Grid) (d : ParticleData)
    (objs : List CollisionObject)
    (hm : g.m_gridMasses.length = (g.m_nx * g.m_ny * g.m_nz).toNat)
    (hv : g.m_gridVelocities.length = (g.m_nx * g.m_ny * g.m_nz * 3).toNat) (a b c : ℤ)
    (ha : 0 ≤ a ∧ a < g.m_nx) (hb : 0 ≤ b ∧ b < g.m_ny) (hc : 0 ≤ c ∧ c < g.m_nz) :
    flag (g.updateGridVelocitiesRhs sqrtf d objs).1.m_nodeCollided (g.coordsToIndex a b c) =
      if coeff g.m_gridMasses (g.coordsToIndex a b c) = 0 then false
      else
        (Grid.applyCollisions sqrtf objs
          ![GRID_H * a + g.m_xmin, GRID_H * b + g.m_ymin, GRID_H * c + g.m_zmin]
          (fun t => segment3 g.m_gridVelocities (3 * g.coordsToIndex a b c) t +
            TIME_STEP * segment3 (g.calculateForces d
              (List.replicate g.m_gridVelocities.length 0)) (3 * g.coordsToIndex a b c) t /
              coeff g.m_gridMasses (g.coordsToIndex a b c)) false).2 := by
  have key := forwardUpdate_node sqrtf { g with m_prevGridVelocities := g.m_gridVelocities }
    (Grid.calculateForces { g with m_prevGridVelocities := g.m_gridVelocities } d
      (List.replicate g.m_gridVelocities.length 0)) objs
    (List.replicate g.m_gridVelocities.length 0,
      resizeFlags g.m_nodeCollided g.m_gridMasses.length)
    (by rw [List.length_replicate]; exact hv) (by rw [length_resizeFlags]; exact hm)
    a b c ha hb hc
  have k2 := congrArg Prod.snd key
  rw [apply_ite Prod.snd] at k2
  exact k2

theorem applyImplicitUpdateMatrix_after_rhs (sqrtf : ℚ → ℚ) (g : Grid) (d : ParticleData)
    (objs objs2 : List CollisionObject) (v : VectorXf) :
    (g.updateGridVelocitiesRhs sqrtf d objs).1.applyImplicitUpdateMatrix d objs2 v =
      g.applyImplicitUpdateMatrix d [] v := rfl

/-! ## Uniform displacement fields -/

theorem Ap_zero (p : Particle) : Grid.Ap p 0 = 0 := by
  have e : Grid.computeRdifferentialRtdR 0 = 0 := by
    have := computeRdifferentialRtdR_smul 0 0
    simpa using this
  have z : Grid.matrixDoubleDot p.particleFinvTrans 0 = 0 := matrixDoubleDot_zero_right _
  have hz : (![0, 0, 0] : Vector3f) = 0 := by
    funext i
    fin_cases i <;> rfl
  have r : Grid.computeRdifferential 0 p.particleR p.particleS = 0 := by
    unfold Grid.computeRdifferential
    simp only [Matrix.transpose_zero, Matrix.mul_zero, Matrix.zero_mul, sub_zero,
      Matrix.zero_apply, hz, Matrix.mulVec_zero, e]
  unfold Grid.Ap
  simp only [z, r, Matrix.transpose_zero, Matrix.mul_zero, Matrix.zero_mul, sub_zero, mul_zero,
    zero_mul, zero_smul, smul_zero, add_zero]

theorem sum_map_mul_right_matrix {ι : Type} (l : List ι) (f : ι → Matrix3f) (F : Matrix3f) :
    (l.map (fun s => f s * F)).sum = (l.map f).sum * F := by
  induction l with
  | nil => simp
  | cons s l ih => simp [ih, Matrix.add_mul]

theorem sum_map_vecMulVec {ι : Type} (l : List ι) (u : Vector3f) (f : ι → Vector3f) :
    (l.map (fun s => Matrix.vecMulVec u (f s))).sum = Matrix.vecMulVec u (l.map f).sum := by
  induction l with
  | nil =>
    ext i j
    simp [Matrix.vecMulVec_apply]
  | cons s l ih =>
    rw [List.map_cons, List.sum_cons, ih, List.map_cons, List.sum_cons]
    ext i j
    simp [Matrix.vecMulVec_apply, mul_add]

/-- A displacement field that is the same vector `u` at all stencil nodes of a particle
gives the particle a zero deformation gradient differential. -/
theorem dFp_uniform (g : Grid) (p : Particle) (dx : VectorXf) (u : Vector3f)
    (h : ∀ i j k : ℤ, (i = -1 ∨ i = 0 ∨ i = 1 ∨ i = 2) → (j = -1 ∨ j = 0 ∨ j = 1 ∨ j = 2) →
      (k = -1 ∨ k = 0 ∨ k = 1 ∨ k = 2) →
      segment3 dx (3 * g.stencilIndex (g.cellAndWeights p.particleX) i j k) = u) :
    g.dFp p dx = 0 := by
  rw [dFp_eq_sum]
  have e : stencil.map (fun s => Matrix.vecMulVec
        (segment3 dx (3 * g.stencilIndex (g.cellAndWeights p.particleX) s.1 s.2.1 s.2.2))
        ((g.cellAndWeights p.particleX).weightGrad s.1 s.2.1 s.2.2) * p.particleF) =
      stencil.map (fun s => Matrix.vecMulVec u
        ((g.cellAndWeights p.particleX).weightGrad s.1 s.2.1 s.2.2) * p.particleF) := by
    apply List.map_congr_left
    intro s hs
    obtain ⟨h1, h2, h3⟩ := mem_stencil s hs
    rw [h _ _ _ h1 h2 h3]
  rw [e, sum_map_mul_right_matrix stencil (fun s => Matrix.vecMulVec u
        ((g.cellAndWeights p.particleX).weightGrad s.1 s.2.1 s.2.2)) p.particleF,
    sum_map_vecMulVec stencil u (fun s => (g.cellAndWeights p.particleX).weightGrad s.1 s.2.1 s.2.2),
    stencil_sum_eq_forStencil (fun i j k => (g.cellAndWeights p.particleX).weightGrad i j k),
    weightGrad_stencil_sum]
  ext i j
  simp [Matrix.vecMulVec_apply, Matrix.mul_apply]

theorem segment3_replicate (n : ℕ) (x : ℚ) (i : ℤ) (h0 : 0 ≤ i) (h : (3 * i + 2).toNat < n) :
    segment3 (List.replicate n x) (3 * i) = ![x, x, x] := by
  have c : ∀ j : ℤ, 0 ≤ j → j.toNat < n → coeff (List.replicate n x) j = x := by
    intro j hj0 hj
    simp [coeff, hj0, List.getD_eq_getElem?_getD, List.getElem?_replicate, hj]
  unfold segment3
  rw [c _ (by omega) (by omega), c _ (by omega) (by omega), c _ (by omega) h]

/-- The force differentials of a constant displacement field vanish at every node of a
grid that contains the stencils of its particles. -/
theorem calculateForceDifferentials_replicate (g : Grid) (d : ParticleData) (h : g.Contains d)
    (x : ℚ) (df : VectorXf) (hdf : df.length = (g.m_nx * g.m_ny * g.m_nz * 3).toNat) (a b c : ℤ)
    (ha : 0 ≤ a ∧ a < g.m_nx) (hb : 0 ≤ b ∧ b < g.m_ny) (hc : 0 ≤ c ∧ c < g.m_nz) :
    segment3 (g.calculateForceDifferentials d
      (List.replicate (g.m_nx * g.m_ny * g.m_nz * 3).toNat x) df) (3 * g.coordsToIndex a b c) = 0 := by
  rw [segment3_calculateForceDifferentials g d h _ df hdf a b c ha hb hc, neg_eq_zero]
  apply sum_map_zero
  intro p hp
  have e : g.dFp p (List.replicate (g.m_nx * g.m_ny * g.m_nz * 3).toNat x) = 0 := by
    apply dFp_uniform g p _ ![x, x, x]
    intro i j k hi hj hk
    obtain ⟨s0, s1⟩ := contains_stencilIndex g d h p hp i j k hi hj hk
    apply segment3_replicate _ _ _ s0
    apply (Int.toNat_lt_toNat (by omega)).mpr
    omega
  rw [e]
  simp [Grid.forceMatrix, Ap_zero]

/-! ## C10: the implicit operator on collided nodes -/

theorem sqrtExact_one : sqrtExact 1 = 1 := by
  simp [sqrtExact]

theorem dEdF_slidingParticle : Grid.dEdF slidingParticle = 0 := by
  simp [Grid.dEdF, slidingParticle, restParticle]

/-- On the grid of the sliding particle with the floor plane `y = 0`, the node
`(1, 1, 1)` at `(-0.05, -0.05, -0.05)` lies below the floor and is pushed down by
gravity, so `updateGridVelocities` marks it collided. -/
theorem slidingGrid_collided :
    flag ((Grid.Grid [slidingParticle]).updateGridVelocitiesRhs sqrtExact [slidingParticle]
      [floorPlane]).1.m_nodeCollided ((Grid.Grid [slidingParticle]).coordsToIndex 1 1 1) =
      true := by
  obtain ⟨h1, h2, h3, h4, h5, h6⟩ := originGrid_geometry slidingParticle rfl
  have hmass := originGrid_mass slidingParticle rfl
  have hm1 : slidingParticle.particleM = 1 := rfl
  rw [hm1, one_mul] at hmass
  have hne : coeff (Grid.Grid [slidingParticle]).m_gridMasses
      ((Grid.Grid [slidingParticle]).coordsToIndex 1 1 1) ≠ 0 := by
    rw [hmass]; norm_num
  have hpos : coeff (Grid.Grid [slidingParticle]).m_gridMasses
      ((Grid.Grid [slidingParticle]).coordsToIndex 1 1 1) > 0 := by
    rw [hmass]; norm_num
  have hvel : segment3 (Grid.Grid [slidingParticle]).m_gridVelocities
      (3 * (Grid.Grid [slidingParticle]).coordsToIndex 1 1 1) 1 = 0 := by
    rw [Grid_velocity_node [slidingParticle] 1 1 1 (by rw [h1]; omega) (by rw [h2]; omega)
      (by rw [h3]; omega), if_pos hpos]
    simp [slidingParticle]
  have hforce : segment3 ((Grid.Grid [slidingParticle]).calculateForces [slidingParticle]
      (List.replicate (Grid.Grid [slidingParticle]).m_gridVelocities.length 0))
      (3 * (Grid.Grid [slidingParticle]).coordsToIndex 1 1 1) 1 =
      coeff (Grid.Grid [slidingParticle]).m_gridMasses
        ((Grid.Grid [slidingParticle]).coordsToIndex 1 1 1) * GRAVITY := by
    rw [segment3_calculateForces (Grid.Grid [slidingParticle]) [slidingParticle]
      (Grid_contains _) (Grid_masses_length _) _
      (by rw [List.length_replicate, Grid_velocities_length]) 1 1 1 (by rw [h1]; omega)
      (by rw [h2]; omega) (by rw [h3]; omega)]
    simp [dEdF_slidingParticle]
  rw [updateGridVelocitiesRhs_flag sqrtExact (Grid.Grid [slidingParticle]) [slidingParticle]
    [floorPlane] (Grid_masses_length _) (Grid_velocities_length _) 1 1 1 (by rw [h1]; omega)
    (by rw [h2]; omega) (by rw [h3]; omega), if_neg hne]
  have hn : norm sqrtExact ![0, 1, 0] = 1 := by
    simp [norm, Matrix.dotProduct, Fin.sum_univ_three, sqrtExact_one]
  have hnorm : normalize sqrtExact ![0, 1, 0] = ![0, 1, 0] := by
    funext t
    simp [normalize, hn]
  have hphi : GRID_H * ((1 : ℤ) : ℚ) + (Grid.Grid [slidingParticle]).m_ymin ≤ 0 := by
    rw [h5]; norm_num [GRID_H]
  have hdot : TIME_STEP * (coeff (Grid.Grid [slidingParticle]).m_gridMasses
      ((Grid.Grid [slidingParticle]).coordsToIndex 1 1 1) * GRAVITY) /
      coeff (Grid.Grid [slidingParticle]).m_gridMasses
        ((Grid.Grid [slidingParticle]).coordsToIndex 1 1 1) < 0 := by
    rw [mul_div_assoc, mul_div_cancel_left₀ _ hne]
    norm_num [TIME_STEP, GRAVITY]
  simp only [Grid.applyCollisions, List.foldl_cons, List.foldl_nil, floorPlane,
    Matrix.cons_val_one, Matrix.head_cons, hphi, if_true, hnorm, Matrix.dotProduct,
    Fin.sum_univ_three, Matrix.cons_val_zero, Matrix.cons_val_two, Matrix.tail_cons, zero_mul,
    one_mul, zero_add, add_zero, hvel, hforce, hdot]

/-- The result of the implicit operator for the constant trial field `-1` at the node
`(1, 1, 1)` of the grid of the sliding particle: the node mass times `(-1, -1, -1)`. -/
theorem slidingGrid_operator :
    segment3 (((Grid.Grid [slidingParticle]).updateGridVelocitiesRhs sqrtExact [slidingParticle]
      [floorPlane]).1.applyImplicitUpdateMatrix [slidingParticle] [floorPlane]
        (List.replicate 192 (-1))) (3 * (Grid.Grid [slidingParticle]).coordsToIndex 1 1 1) =
      ![-(23 / 48) ^ 3, -(23 / 48) ^ 3, -(23 / 48) ^ 3] := by
  obtain ⟨h1, h2, h3, h4, h5, h6⟩ := originGrid_geometry slidingParticle rfl
  have hmass := originGrid_mass slidingParticle rfl
  have hm1 : slidingParticle.particleM = 1 := rfl
  rw [hm1, one_mul] at hmass
  have hne : coeff (Grid.Grid [slidingParticle]).m_gridMasses
      ((Grid.Grid [slidingParticle]).coordsToIndex 1 1 1) ≠ 0 := by
    rw [hmass]; norm_num
  have hN : ((Grid.Grid [slidingParticle]).m_nx * (Grid.Grid [slidingParticle]).m_ny *
      (Grid.Grid [slidingParticle]).m_nz * 3).toNat = 192 := by
    rw [h1, h2, h3]; simp
  have hidx : (Grid.Grid [slidingParticle]).coordsToIndex 1 1 1 = 21 := by
    simp [Grid.coordsToIndex, h1, h2]
  have hdx : List.map (fun x => TIME_STEP * x) (List.replicate 192 (-1 : ℚ)) =
      List.replicate ((Grid.Grid [slidingParticle]).m_nx * (Grid.Grid [slidingParticle]).m_ny *
        (Grid.Grid [slidingParticle]).m_nz * 3).toNat (TIME_STEP * -1) := by
    rw [hN, List.map_replicate]
  rw [applyImplicitUpdateMatrix_after_rhs,
    segment3_applyImplicitUpdateMatrix (Grid.Grid [slidingParticle]) [slidingParticle] []
      (List.replicate 192 (-1)) (Grid_masses_length _) (by rw [List.length_replicate, hN])
      1 1 1 (by rw [h1]; omega) (by rw [h2]; omega) (by rw [h3]; omega),
    if_pos hne, hdx,
    calculateForceDifferentials_replicate (Grid.Grid [slidingParticle]) [slidingParticle]
      (Grid_contains _) _ _ (by rw [List.length_replicate, List.length_replicate, hN])
      1 1 1 (by rw [h1]; omega) (by rw [h2]; omega) (by rw [h3]; omega),
    smul_zero, sub_zero, hmass, hidx,
    segment3_replicate 192 (-1) 21 (by omega) (by simp)]
  funext t
  fin_cases t <;> simp

/-- C10, counterexample.  On the grid of the sliding particle with the floor plane
`y = 0`, the node `(1, 1, 1)` is marked collided by `updateGridVelocities`, its surface
normal is `n = (0, 1, 0)`, and for the constant trial field `-1` the result of
`applyImplicitUpdateMatrix` at the node has the component `-(23/48)^3 ≠ 0` along `n`. -/
theorem implicit_operator_not_projected :
    flag ((Grid.Grid [slidingParticle]).updateGridVelocitiesRhs sqrtExact [slidingParticle]
      [floorPlane]).1.m_nodeCollided ((Grid.Grid [slidingParticle]).coordsToIndex 1 1 1) =
      true ∧
    Matrix.dotProduct
      (floorPlane.grad ![GRID_H * 1 + (Grid.Grid [slidingParticle]).m_xmin,
        GRID_H * 1 + (Grid.Grid [slidingParticle]).m_ymin,
        GRID_H * 1 + (Grid.Grid [slidingParticle]).m_zmin])
      (segment3 (((Grid.Grid [slidingParticle]).updateGridVelocitiesRhs sqrtExact
        [slidingParticle] [floorPlane]).1.applyImplicitUpdateMatrix [slidingParticle]
          [floorPlane] (List.replicate 192 (-1)))
        (3 * (Grid.Grid [slidingParticle]).coordsToIndex 1 1 1)) = -(23 / 48) ^ 3 ∧
    (-(23 / 48 : ℚ) ^ 3 ≠ 0) := by
  refine ⟨slidingGrid_collided, ?_, by norm_num⟩
  rw [slidingGrid_operator]
  simp [floorPlane, Matrix.dotProduct, Fin.sum_univ_three]

/-- C10, amended.  The implicit operator applies no collision projection: on the grid
state left by `updateGridVelocities` (for any collision objects), every node `(a, b, c)`
marked collided has non-zero mass, and for every trial velocity field `v` the result of
`applyImplicitUpdateMatrix` at the node is the unprojected `m_i * v_i - dt * df_i(dt * v)`;
its component along any normal `n` is `m_i * (n . v_i) - dt * (n . df_i(dt * v))`. -/
theorem implicit_operator_unprojected (sqrtf : ℚ → ℚ) (d : ParticleData)
    (collisionObjects : List CollisionObject) (v : VectorXf)
    (hv : v.length = (Grid.Grid d).m_gridVelocities.length) (a b c : ℤ)
    (ha : 0 ≤ a ∧ a < (Grid.Grid d).m_nx) (hb : 0 ≤ b ∧ b < (Grid.Grid d).m_ny)
    (hc : 0 ≤ c ∧ c < (Grid.Grid d).m_nz)
    (hflag : flag ((Grid.Grid d).updateGridVelocitiesRhs sqrtf d
      collisionObjects).1.m_nodeCollided ((Grid.Grid d).coordsToIndex a b c) = true) :
    coeff (Grid.Grid d).m_gridMasses ((Grid.Grid d).coordsToIndex a b c) ≠ 0 ∧
    segment3 (((Grid.Grid d).updateGridVelocitiesRhs sqrtf d
        collisionObjects).1.applyImplicitUpdateMatrix d collisionObjects v)
        (3 * (Grid.Grid d).coordsToIndex a b c) =
      coeff (Grid.Grid d).m_gridMasses ((Grid.Grid d).coordsToIndex a b c) •
          segment3 v (3 * (Grid.Grid d).coordsToIndex a b c) -
        TIME_STEP • segment3 ((Grid.Grid d).calculateForceDifferentials d
          (v.map (fun x => TIME_STEP * x)) (List.replicate v.length 0))
          (3 * (Grid.Grid d).coordsToIndex a b c) ∧
    ∀ n : Vector3f,
      Matrix.dotProduct n (segment3 (((Grid.Grid d).updateGridVelocitiesRhs sqrtf d
        collisionObjects).1.applyImplicitUpdateMatrix d collisionObjects v)
        (3 * (Grid.Grid d).coordsToIndex a b c)) =
      coeff (Grid.Grid d).m_gridMasses ((Grid.Grid d).coordsToIndex a b c) *
          Matrix.dotProduct n (segment3 v (3 * (Grid.Grid d).coordsToIndex a b c)) -
        TIME_STEP * Matrix.dotProduct n (segment3 ((Grid.Grid d).calculateForceDifferentials d
          (v.map (fun x => TIME_STEP * x)) (List.replicate v.length 0))
          (3 * (Grid.Grid d).coordsToIndex a b c)) := by
  have hne : coeff (Grid.Grid d).m_gridMasses ((Grid.Grid d).coordsToIndex a b c) ≠ 0 := by
    intro hz
    rw [updateGridVelocitiesRhs_flag sqrtf (Grid.Grid d) d collisionObjects
      (Grid_masses_length d) (Grid_velocities_length d) a b c ha hb hc, if_pos hz] at hflag
    exact Bool.false_ne_true hflag
  have key : segment3 (((Grid.Grid d).updateGridVelocitiesRhs sqrtf d
        collisionObjects).1.applyImplicitUpdateMatrix d collisionObjects v)
        (3 * (Grid.Grid d).coordsToIndex a b c) =
      coeff (Grid.Grid d).m_gridMasses ((Grid.Grid d).coordsToIndex a b c) •
          segment3 v (3 * (Grid.Grid d).coordsToIndex a b c) -
        TIME_STEP • segment3 ((Grid.Grid d).calculateForceDifferentials d
          (v.map (fun x => TIME_STEP * x)) (List.replicate v.length 0))
          (3 * (Grid.Grid d).coordsToIndex a b c) := by
    rw [applyImplicitUpdateMatrix_after_rhs,
      segment3_applyImplicitUpdateMatrix (Grid.Grid d) d [] v (Grid_masses_length d)
        (by rw [hv, Grid_velocities_length]) a b c ha hb hc, if_pos hne, smul_sub, smul_smul,
      mul_div_cancel₀ _ hne]
  refine ⟨hne, key, ?_⟩
  intro n
  rw [key, Matrix.dotProduct_sub, Matrix.dotProduct_smul, Matrix.dotProduct_smul, smul_eq_mul,
    smul_eq_mul]

/-- Instance of `implicit_operator_unprojected` at the collided node `(1, 1, 1)` of the
grid of the sliding particle over the floor plane. -/
theorem implicit_operator_unprojected_witness :
    flag ((Grid.Grid [slidingParticle]).updateGridVelocitiesRhs sqrtExact [slidingParticle]
      [floorPlane]).1.m_nodeCollided ((Grid.Grid [slidingParticle]).coordsToIndex 1 1 1) =
      true ∧
    coeff (Grid.Grid [slidingParticle]).m_gridMasses
      ((Grid.Grid [slidingParticle]).coordsToIndex 1 1 1) ≠ 0 :=
  have hg := originGrid_geometry slidingParticle rfl
  have hl : (List.replicate 192 (-1 : ℚ)).length =
      (Grid.Grid [slidingParticle]).m_gridVelocities.length := by
    rw [Grid_velocities_length, hg.1, hg.2.1, hg.2.2.1, List.length_replicate]
    simp
  ⟨slidingGrid_collided,
    (implicit_operator_unprojected sqrtExact [slidingParticle] [floorPlane]
      (List.replicate 192 (-1)) hl 1 1 1 (by rw [hg.1]; omega) (by rw [hg.2.1]; omega)
      (by rw [hg.2.2.1]; omega) slidingGrid_collided).1⟩

/-! ## C11, C12: the explicit predictor and the right-hand side -/

/-- The collision loop leaves the predicted velocity and the flag unchanged when no
collision object both contains the node and is approached by the predicted velocity. -/
theorem applyCollisions_none (sqrtf : ℚ → ℚ) (objs : List CollisionObject) (x fv : Vector3f)
    (c : Bool)
    (h : ∀ obj ∈ objs,
      ¬ (obj.phi x ≤ 0 ∧ Matrix.dotProduct (normalize sqrtf (obj.grad x)) fv < 0)) :
    Grid.applyCollisions sqrtf objs x fv c = (fv, c) := by
  unfold Grid.applyCollisions
  induction objs with
  | nil => rfl
  | cons obj rest ih =>
    have h0 := h obj (List.mem_cons_self _ _)
    rw [List.foldl_cons]
    by_cases hphi : obj.phi x ≤ 0
    · have hd : ¬ Matrix.dotProduct (normalize sqrtf (obj.grad x)) fv < 0 :=
        fun hd => h0 ⟨hphi, hd⟩
      simp only [hphi, if_true, hd, if_false]
      exact ih (fun o ho => h o (List.mem_cons_of_mem _ ho))
    · simp only [hphi, if_false]
      exact ih (fun o ho => h o (List.mem_cons_of_mem _ ho))

/-- The right-hand side `updateGridVelocities` hands to the solver, at the node
`(a, b, c)`: the node mass times the velocity the node loop stored there. -/
theorem updateGridVelocitiesRhs_node (sqrtf : ℚ → ℚ) (g : Grid) (d : ParticleData)
    (objs : List CollisionObject)
    (hm : g.m_gridMasses.length = (g.m_nx * g.m_ny * g.m_nz).toNat)
    (hv : g.m_gridVelocities.length = (g.m_nx * g.m_ny * g.m_nz * 3).toNat) (a b c : ℤ)
    (ha : 0 ≤ a ∧ a < g.m_nx) (hb : 0 ≤ b ∧ b < g.m_ny) (hc : 0 ≤ c ∧ c < g.m_nz)
    (hz : coeff g.m_gridMasses (g.coordsToIndex a b c) ≠ 0) :
    segment3 (g.updateGridVelocitiesRhs sqrtf d objs).2 (3 * g.coordsToIndex a b c) =
      coeff g.m_gridMasses (g.coordsToIndex a b c) •
        (Grid.applyCollisions sqrtf objs
          ![GRID_H * a + g.m_xmin, GRID_H * b + g.m_ymin, GRID_H * c + g.m_zmin]
          (fun t => segment3 g.m_gridVelocities (3 * g.coordsToIndex a b c) t +
            TIME_STEP * segment3 (g.calculateForces d
              (List.replicate g.m_gridVelocities.length 0)) (3 * g.coordsToIndex a b c) t /
              coeff g.m_gridMasses (g.coordsToIndex a b c)) false).1 := by
  obtain ⟨r0, r1⟩ := coordsToIndex_range g a b c ha.1 ha.2 hb.1 hb.2 hc.1 hc.2
  have r3 : g.coordsToIndex a b c < (g.m_gridMasses.length : ℤ) := by
    rw [hm, Int.toNat_of_nonneg (by omega)]
    exact r1
  have key := forRange_segment3 g.m_gridMasses.length (fun i s => coeff g.m_gridMasses i • s)
    (Grid.forwardUpdate sqrtf { g with m_prevGridVelocities := g.m_gridVelocities }
      (Grid.calculateForces { g with m_prevGridVelocities := g.m_gridVelocities } d
        (List.replicate g.m_gridVelocities.length 0)) objs
      (List.replicate g.m_gridVelocities.length 0,
        resizeFlags g.m_nodeCollided g.m_gridMasses.length)).1
    (g.coordsToIndex a b c) r0 (by
      rw [length_forwardUpdate]
      simp only [List.length_replicate, hv]
      apply (Int.toNat_lt_toNat (by omega)).mpr
      omega)
  rw [if_pos r3] at key
  beta_reduce at key
  have node := forwardUpdate_node sqrtf { g with m_prevGridVelocities := g.m_gridVelocities }
    (Grid.calculateForces { g with m_prevGridVelocities := g.m_gridVelocities } d
      (List.replicate g.m_gridVelocities.length 0)) objs
    (List.replicate g.m_gridVelocities.length 0,
      resizeFlags g.m_nodeCollided g.m_gridMasses.length)
    (by rw [List.length_replicate]; exact hv) (by rw [length_resizeFlags]; exact hm)
    a b c ha hb hc
  have n1 := congrArg Prod.fst node
  rw [apply_ite Prod.fst] at n1
  have hz2 : ¬ coeff ({ g with m_prevGridVelocities := g.m_gridVelocities } :
      Grid).m_gridMasses (Grid.coordsToIndex
        { g with m_prevGridVelocities := g.m_gridVelocities } a b c) = 0 := hz
  rw [if_neg hz2] at n1
  exact key.1.trans (congrArg _ n1)

/-- The node `(1, 1, 1)` of the grid of a single particle of positive mass at the origin
carries the velocity of the particle. -/
theorem originGrid_velocity (p : Particle) (hp : p.particleX = ![0, 0, 0])
    (hm : 0 < p.particleM) :
    segment3 (Grid.Grid [p]).m_gridVelocities (3 * (Grid.Grid [p]).coordsToIndex 1 1 1) =
      p.particleV := by
  obtain ⟨h1, h2, h3, _, _, _⟩ := originGrid_geometry p hp
  have hmass := originGrid_mass p hp
  have hpos : coeff (Grid.Grid [p]).m_gridMasses ((Grid.Grid [p]).coordsToIndex 1 1 1) > 0 := by
    rw [hmass]; positivity
  have hnode := Grid_mass_node [p] 1 1 1 (by rw [h1]; omega) (by rw [h2]; omega)
    (by rw [h3]; omega)
  simp only [List.map_cons, List.map_nil, List.sum_cons, List.sum_nil, add_zero] at hnode
  have hw : (Grid.Grid [p]).nodeWeight p.particleX 1 1 1 = (23 / 48) ^ 3 := by
    have e := hnode.symm.trans hmass
    exact mul_left_cancel₀ (ne_of_gt hm) e
  rw [Grid_velocity_node [p] 1 1 1 (by rw [h1]; omega) (by rw [h2]; omega)
    (by rw [h3]; omega), if_pos hpos, hmass]
  simp only [List.map_cons, List.map_nil, List.sum_cons, List.sum_nil, add_zero, hw]
  have e : ((23 / 48 : ℚ) ^ 3 * (p.particleM / (p.particleM * (23 / 48) ^ 3))) = 1 := by
    field_simp
    ring
  rw [e, one_smul]

/-- The force at the node `(1, 1, 1)` of the grid of a single particle at the origin
whose stress derivative `dEdF` vanishes: gravity on the node mass. -/
theorem originGrid_force (p : Particle) (hp : p.particleX = ![0, 0, 0])
    (hE : Grid.dEdF p = 0) :
    segment3 ((Grid.Grid [p]).calculateForces [p]
      (List.replicate (Grid.Grid [p]).m_gridVelocities.length 0))
      (3 * (Grid.Grid [p]).coordsToIndex 1 1 1) =
      (p.particleM * (23 / 48) ^ 3) • ![0, GRAVITY, 0] := by
  obtain ⟨h1, h2, h3, _, _, _⟩ := originGrid_geometry p hp
  rw [segment3_calculateForces (Grid.Grid [p]) [p] (Grid_contains _) (Grid_masses_length _) _
    (by rw [List.length_replicate, Grid_velocities_length]) 1 1 1 (by rw [h1]; omega)
    (by rw [h2]; omega) (by rw [h3]; omega), originGrid_mass p hp]
  simp [hE]

/-- The collision loop for the floor plane `y = 0` alone, at a node on or below the plane
whose predicted velocity points downwards. -/
theorem applyCollisions_floor (x fv : Vector3f) (c : Bool) (hx : x 1 ≤ 0) (hv : fv 1 < 0) :
    Grid.applyCollisions sqrtExact [floorPlane] x fv c =
      ((1 + COULOMBFRICTION * fv 1 / norm sqrtExact ![fv 0, 0, fv 2]) • ![fv 0, 0, fv 2],
        true) := by
  have hn : norm sqrtExact ![0, 1, 0] = 1 := by
    simp [norm, Matrix.dotProduct, Fin.sum_univ_three, sqrtExact_one]
  have hnorm : normalize sqrtExact ![0, 1, 0] = ![0, 1, 0] := by
    funext t
    simp [normalize, hn]
  have hdot : Matrix.dotProduct ![(0 : ℚ), 1, 0] fv = fv 1 := by
    simp [Matrix.dotProduct, Fin.sum_univ_three]
  have ht : fv - fv 1 • ![(0 : ℚ), 1, 0] = ![fv 0, 0, fv 2] := by
    funext t
    fin_cases t <;> simp
  simp only [Grid.applyCollisions, List.foldl_cons, List.foldl_nil, floorPlane, hx, if_true,
    hnorm, hdot, hv, ht]

/-- The friction response of the collision loop for a single collision object that
contains the node and is approached by the predicted velocity `v*`: with `n` the
normalised gradient and `v_tan = v* - (n . v*) n`, the new velocity is
`v_tan * (1 + mu_f (n . v*) / |v_tan|) = v_tan + mu_f (n . v*) v_tan / |v_tan|`, whatever
the size of `|v_tan|` against `-mu_f (n . v*)`. -/
theorem applyCollisions_single (sqrtf : ℚ → ℚ) (obj : CollisionObject) (x fv : Vector3f)
    (c : Bool) (hphi : obj.phi x ≤ 0)
    (hdot : Matrix.dotProduct (normalize sqrtf (obj.grad x)) fv < 0) :
    Grid.applyCollisions sqrtf [obj] x fv c =
      ((fv - Matrix.dotProduct (normalize sqrtf (obj.grad x)) fv •
          normalize sqrtf (obj.grad x)) +
        (COULOMBFRICTION * Matrix.dotProduct (normalize sqrtf (obj.grad x)) fv) •
          (fun t => (fv - Matrix.dotProduct (normalize sqrtf (obj.grad x)) fv •
            normalize sqrtf (obj.grad x)) t /
            norm sqrtf (fv - Matrix.dotProduct (normalize sqrtf (obj.grad x)) fv •
              normalize sqrtf (obj.grad x))), true) := by
  simp only [Grid.applyCollisions, List.foldl_cons, List.foldl_nil, hphi, if_true, hdot]
  congr 1
  funext t
  simp only [Pi.smul_apply, Pi.add_apply, Pi.sub_apply, smul_eq_mul]
  ring

theorem dEdF_divingParticle : Grid.dEdF divingParticle = 0 := by
  simp [Grid.dEdF, divingParticle, restParticle]

/-- The predicted velocity `v* = v + dt * f / m` at the node `(1, 1, 1)` of the grid of
the diving particle: the particle velocity plus one step of gravity. -/
theorem divingGrid_predicted :
    (fun t => segment3 (Grid.Grid [divingParticle]).m_gridVelocities
        (3 * (Grid.Grid [divingParticle]).coordsToIndex 1 1 1) t +
      TIME_STEP * segment3 ((Grid.Grid [divingParticle]).calculateForces [divingParticle]
        (List.replicate (Grid.Grid [divingParticle]).m_gridVelocities.length 0))
        (3 * (Grid.Grid [divingParticle]).coordsToIndex 1 1 1) t /
        coeff (Grid.Grid [divingParticle]).m_gridMasses
          ((Grid.Grid [divingParticle]).coordsToIndex 1 1 1)) =
      ![1, -(2049 / 500), 0] := by
  have hm1 : divingParticle.particleM = 1 := rfl
  rw [originGrid_velocity divingParticle rfl (by rw [hm1]; norm_num),
    originGrid_force divingParticle rfl dEdF_divingParticle,
    originGrid_mass divingParticle rfl, hm1]
  funext t
  fin_cases t <;> norm_num [divingParticle, TIME_STEP, GRAVITY]

/-- C11, failing input.  On the grid of the diving particle (at the origin, velocity
`(1, -4, 0)`) with the floor plane `y = 0`, the node `(1, 1, 1)` has positive mass, lies
below the floor (`phi ≤ 0`) and has the predicted velocity `v* = (1, -4.098, 0)`, so
`n . v* = -4.098 < 0`, `v_tan = (1, 0, 0)` and `|v_tan| = 1 ≤ 2.049 = -mu_f (n . v*)`:
the sticking case.  The right-hand side `updateGridVelocities` hands to the solver holds
there the node mass times `(-1.049, 0, 0)`, the reversed tangential velocity, not zero. -/
theorem friction_sticking_not_arrested :
    0 < coeff (Grid.Grid [divingParticle]).m_gridMasses
      ((Grid.Grid [divingParticle]).coordsToIndex 1 1 1) ∧
    floorPlane.phi ![GRID_H * 1 + (Grid.Grid [divingParticle]).m_xmin,
      GRID_H * 1 + (Grid.Grid [divingParticle]).m_ymin,
      GRID_H * 1 + (Grid.Grid [divingParticle]).m_zmin] ≤ 0 ∧
    (fun t => segment3 (Grid.Grid [divingParticle]).m_gridVelocities
        (3 * (Grid.Grid [divingParticle]).coordsToIndex 1 1 1) t +
      TIME_STEP * segment3 ((Grid.Grid [divingParticle]).calculateForces [divingParticle]
        (List.replicate (Grid.Grid [divingParticle]).m_gridVelocities.length 0))
        (3 * (Grid.Grid [divingParticle]).coordsToIndex 1 1 1) t /
        coeff (Grid.Grid [divingParticle]).m_gridMasses
          ((Grid.Grid [divingParticle]).coordsToIndex 1 1 1)) =
      ![1, -(2049 / 500), 0] ∧
    norm sqrtExact ![1, 0, 0] ≤ -COULOMBFRICTION * -(2049 / 500) ∧
    segment3 ((Grid.Grid [divingParticle]).updateGridVelocitiesRhs sqrtExact [divingParticle]
        [floorPlane]).2 (3 * (Grid.Grid [divingParticle]).coordsToIndex 1 1 1) =
      coeff (Grid.Grid [divingParticle]).m_gridMasses
        ((Grid.Grid [divingParticle]).coordsToIndex 1 1 1) • ![-(1049 / 1000), 0, 0] ∧
    coeff (Grid.Grid [divingParticle]).m_gridMasses
      ((Grid.Grid [divingParticle]).coordsToIndex 1 1 1) • ![-(1049 / 1000 : ℚ), 0, 0] ≠ 0 := by
  obtain ⟨h1, h2, h3, h4, h5, h6⟩ := originGrid_geometry divingParticle rfl
  have hmass := originGrid_mass divingParticle rfl
  have hm1 : divingParticle.particleM = 1 := rfl
  rw [hm1, one_mul] at hmass
  have hpos : 0 < coeff (Grid.Grid [divingParticle]).m_gridMasses
      ((Grid.Grid [divingParticle]).coordsToIndex 1 1 1) := by
    rw [hmass]; norm_num
  have hn : norm sqrtExact ![1, 0, 0] = 1 := by
    simp [norm, Matrix.dotProduct, Fin.sum_univ_three, sqrtExact_one]
  refine ⟨hpos, ?_, divingGrid_predicted, ?_, ?_, ?_⟩
  · rw [h5]
    norm_num [floorPlane, GRID_H]
  · rw [hn]
    norm_num [COULOMBFRICTION]
  · rw [updateGridVelocitiesRhs_node sqrtExact (Grid.Grid [divingParticle]) [divingParticle]
      [floorPlane] (Grid_masses_length _) (Grid_velocities_length _) 1 1 1
      (by rw [h1]; omega) (by rw [h2]; omega) (by rw [h3]; omega) (ne_of_gt hpos),
      divingGrid_predicted, applyCollisions_floor _ _ _ (by rw [h5]; norm_num [GRID_H])
        (by norm_num)]
    congr 1
    simp only [Matrix.cons_val_zero, Matrix.cons_val_one, Matrix.head_cons, Matrix.cons_val_two,
      Matrix.tail_cons, hn]
    funext t
    fin_cases t <;> norm_num [COULOMBFRICTION]
  · rw [hmass]
    intro h
    have := congrFun h 0
    norm_num at this

/-- C12 (right-hand side is the predicted momentum).  For every node `(a, b, c)` with
`m_i > 0` that no collision object modifies (no object both contains the node and is
approached by the predicted velocity `v*_i = v_i + dt * f_i / m_i`), the vector
`updateGridVelocities` hands to the solver has the entry `m_i * v*_i = m_i * v_i + dt * f_i`
with `f = calculateForces`; the solver is called with that vector, and
`m_prevGridVelocities` holds the grid velocities from before the call. -/
theorem rhs_predicted_momentum (sqrtf : ℚ → ℚ) (g : Grid) (d : ParticleData)
    (objs : List CollisionObject) (implicitSolver : Solver)
    (hm : g.m_gridMasses.length = (g.m_nx * g.m_ny * g.m_nz).toNat)
    (hv : g.m_gridVelocities.length = (g.m_nx * g.m_ny * g.m_nz * 3).toNat) (a b c : ℤ)
    (ha : 0 ≤ a ∧ a < g.m_nx) (hb : 0 ≤ b ∧ b < g.m_ny) (hc : 0 ≤ c ∧ c < g.m_nz)
    (hpos : 0 < coeff g.m_gridMasses (g.coordsToIndex a b c))
    (hfree : ∀ obj ∈ objs,
      ¬ (obj.phi ![GRID_H * a + g.m_xmin, GRID_H * b + g.m_ymin, GRID_H * c + g.m_zmin] ≤ 0 ∧
        Matrix.dotProduct
          (normalize sqrtf (obj.grad
            ![GRID_H * a + g.m_xmin, GRID_H * b + g.m_ymin, GRID_H * c + g.m_zmin]))
          (fun t => segment3 g.m_gridVelocities (3 * g.coordsToIndex a b c) t +
            TIME_STEP * segment3 (g.calculateForces d
              (List.replicate g.m_gridVelocities.length 0)) (3 * g.coordsToIndex a b c) t /
              coeff g.m_gridMasses (g.coordsToIndex a b c)) < 0)) :
    segment3 (g.updateGridVelocitiesRhs sqrtf d objs).2 (3 * g.coordsToIndex a b c) =
      coeff g.m_gridMasses (g.coordsToIndex a b c) •
        (fun t => segment3 g.m_gridVelocities (3 * g.coordsToIndex a b c) t +
          TIME_STEP * segment3 (g.calculateForces d
            (List.replicate g.m_gridVelocities.length 0)) (3 * g.coordsToIndex a b c) t /
            coeff g.m_gridMasses (g.coordsToIndex a b c)) ∧
    segment3 (g.updateGridVelocitiesRhs sqrtf d objs).2 (3 * g.coordsToIndex a b c) =
      coeff g.m_gridMasses (g.coordsToIndex a b c) •
          segment3 g.m_gridVelocities (3 * g.coordsToIndex a b c) +
        TIME_STEP • segment3 (g.calculateForces d
          (List.replicate g.m_gridVelocities.length 0)) (3 * g.coordsToIndex a b c) ∧
    (g.updateGridVelocities sqrtf d objs implicitSolver).m_gridVelocities =
      implicitSolver (g.updateGridVelocitiesRhs sqrtf d objs).1 d objs
        (g.updateGridVelocitiesRhs sqrtf d objs).2 g.m_gridVelocities ∧
    (g.updateGridVelocities sqrtf d objs implicitSolver).m_prevGridVelocities =
      g.m_gridVelocities := by
  have hne : coeff g.m_gridMasses (g.coordsToIndex a b c) ≠ 0 := ne_of_gt hpos
  have key := updateGridVelocitiesRhs_node sqrtf g d objs hm hv a b c ha hb hc hne
  rw [applyCollisions_none sqrtf objs _ _ false hfree] at key
  refine ⟨key, ?_, rfl, rfl⟩
  rw [key]
  funext t
  simp only [Pi.smul_apply, Pi.add_apply, smul_eq_mul]
  field_simp
  ring

/-- Instance of `rhs_predicted_momentum` at the node `(1, 1, 1)` of the grid of the rest
particle, whose mass is `(23/48)^3 > 0`, without collision objects and for the solver
that returns its right-hand side. -/
theorem rhs_predicted_momentum_witness :
    0 < coeff (Grid.Grid [restParticle]).m_gridMasses
      ((Grid.Grid [restParticle]).coordsToIndex 1 1 1) ∧
    segment3 ((Grid.Grid [restParticle]).updateGridVelocitiesRhs sqrtExact [restParticle] []).2
        (3 * (Grid.Grid [restParticle]).coordsToIndex 1 1 1) =
      coeff (Grid.Grid [restParticle]).m_gridMasses
          ((Grid.Grid [restParticle]).coordsToIndex 1 1 1) •
          segment3 (Grid.Grid [restParticle]).m_gridVelocities
            (3 * (Grid.Grid [restParticle]).coordsToIndex 1 1 1) +
        TIME_STEP • segment3 ((Grid.Grid [restParticle]).calculateForces [restParticle]
          (List.replicate (Grid.Grid [restParticle]).m_gridVelocities.length 0))
          (3 * (Grid.Grid [restParticle]).coordsToIndex 1 1 1) :=
  have hpos : 0 < coeff (Grid.Grid [restParticle]).m_gridMasses
      ((Grid.Grid [restParticle]).coordsToIndex 1 1 1) := by
    rw [originGrid_mass restParticle rfl]
    norm_num [restParticle]
  ⟨hpos, (rhs_predicted_momentum sqrtExact (Grid.Grid [restParticle]) [restParticle] []
    (fun _ _ _ b _ => b) (Grid_masses_length _) (Grid_velocities_length _) 1 1 1
    (by rw [restGrid_geometry.1]; omega) (by rw [restGrid_geometry.2.1]; omega)
    (by rw [restGrid_geometry.2.2.1]; omega) hpos
    (fun _ h => absurd h (List.not_mem_nil _))).2.1⟩

/-! ## C13: the FLIP gather -/

/-- The velocity `updateParticleVelocities` gives a particle: its old velocity plus the
sum over the 64 stencil offsets of the weight times the change of the node velocity. -/
theorem updateParticleVelocities_eq (g : Grid) (d : ParticleData) :
    g.updateParticleVelocities d = d.map (fun p =>
      { p with
        particleV := p.particleV + (stencil.map (fun s =>
          ((g.cellAndWeights p.particleX).w 0 s.1 * (g.cellAndWeights p.particleX).w 1 s.2.1 *
            (g.cellAndWeights p.particleX).w 2 s.2.2) •
          (segment3 g.m_gridVelocities
              (3 * g.stencilIndex (g.cellAndWeights p.particleX) s.1 s.2.1 s.2.2) -
            segment3 g.m_prevGridVelocities
              (3 * g.stencilIndex (g.cellAndWeights p.particleX) s.1 s.2.1 s.2.2)))).sum }) := by
  unfold Grid.updateParticleVelocities
  apply List.map_congr_left
  intro p _
  simp only
  rw [forStencil_accum (fun v : Vector3f => v) (fun _ => True) _
    (fun i j k => ((g.cellAndWeights p.particleX).w 0 i * (g.cellAndWeights p.particleX).w 1 j *
        (g.cellAndWeights p.particleX).w 2 k) •
      (segment3 g.m_gridVelocities (3 * g.stencilIndex (g.cellAndWeights p.particleX) i j k) -
        segment3 g.m_prevGridVelocities
          (3 * g.stencilIndex (g.cellAndWeights p.particleX) i j k)))
    (fun _ _ _ _ _ _ _ _ => trivial) (fun _ _ _ _ _ _ _ _ => rfl) p.particleV trivial]

/-- C13 (FLIP gather).  `updateParticleVelocities` keeps the number and the order of the
particles; it sets the velocity of every particle `p` to
`v_p + Σ w_p(i) (v_i - v_i^prev)`, the sum running over the 64 stencil nodes with the
weights `w[0][i] * w[1][j] * w[2][k]`; it leaves positions, masses, volumes and the
deformation data of every particle unchanged; and if the grid velocities equal the
previous grid velocities it leaves every particle unchanged. -/
theorem flip_gather (g : Grid) (d : ParticleData) :
    (g.updateParticleVelocities d).map (fun p => p.particleV) = d.map (fun p =>
      p.particleV + (stencil.map (fun s =>
        ((g.cellAndWeights p.particleX).w 0 s.1 * (g.cellAndWeights p.particleX).w 1 s.2.1 *
          (g.cellAndWeights p.particleX).w 2 s.2.2) •
        (segment3 g.m_gridVelocities
            (3 * g.stencilIndex (g.cellAndWeights p.particleX) s.1 s.2.1 s.2.2) -
          segment3 g.m_prevGridVelocities
            (3 * g.stencilIndex (g.cellAndWeights p.particleX) s.1 s.2.1 s.2.2)))).sum) ∧
    (g.updateParticleVelocities d).map (fun p => { p with particleV := 0 }) =
      d.map (fun p => { p with particleV := 0 }) ∧
    (g.m_gridVelocities = g.m_prevGridVelocities → g.updateParticleVelocities d = d) := by
  refine ⟨?_, ?_, ?_⟩
  · rw [updateParticleVelocities_eq, List.map_map]
    rfl
  · rw [updateParticleVelocities_eq, List.map_map]
    rfl
  · intro h
    rw [updateParticleVelocities_eq, h]
    conv_rhs => rw [← List.map_id d]
    apply List.map_congr_left
    intro p _
    simp only [sub_self, smul_zero, id]
    rw [sum_map_zero stencil (fun _ => (0 : Vector3f)) (fun _ _ => rfl), add_zero]

/-- Instance of `flip_gather` for the sliding particle on its grid after a step of
`updateGridVelocities` whose solver returns the velocities it was given: the grid
velocities equal the previous ones and the particle is unchanged. -/
theorem flip_gather_witness :
    ((Grid.Grid [slidingParticle]).updateGridVelocities sqrtExact [slidingParticle] []
      (fun _ _ _ _ v => v)).updateParticleVelocities [slidingParticle] = [slidingParticle] :=
  (flip_gather ((Grid.Grid [slidingParticle]).updateGridVelocities sqrtExact [slidingParticle] []
    (fun _ _ _ _ v => v)) [slidingParticle]).2.2 rfl

/-! ## C14 to C17: the deformation gradient update -/

/-- The velocity gradient a particle gathers: the sum over the 64 stencil offsets of
`v_idx * weightGrad^T`. -/
theorem delV_eq_sum (g : Grid) (x : Vector3f) :
    g.delV x = (stencil.map (fun s =>
      Matrix.vecMulVec (segment3 g.m_gridVelocities
          (3 * g.stencilIndex (g.cellAndWeights x) s.1 s.2.1 s.2.2))
        ((g.cellAndWeights x).weightGrad s.1 s.2.1 s.2.2))).sum := by
  unfold Grid.delV
  simp only
  rw [forStencil_accum (fun m : Matrix3f => m) (fun _ => True) _
    (fun i j k => Matrix.vecMulVec
      (segment3 g.m_gridVelocities (3 * g.stencilIndex (g.cellAndWeights x) i j k))
      ((g.cellAndWeights x).weightGrad i j k))
    (fun _ _ _ _ _ _ _ _ => trivial) (fun _ _ _ _ _ _ _ _ => rfl) 0 trivial, zero_add]

/-- The Eigen inverse of a 3×3 matrix is the matrix inverse. -/
theorem inverse_eq_inv (m : Matrix3f) : inverse m = m⁻¹ := by
  unfold inverse
  rw [Matrix.inv_def, Ring.inverse_eq_inv', one_div]

/-- With plasticity disabled the stored deformation gradient is the trial one,
`(1 + dt * delV) * F`. -/
theorem updateDeformationGradient_F (svd : Matrix3f → Matrix3f × Vector3f × Matrix3f)
    (polar : Matrix3f → Matrix3f × Matrix3f) (expf : ℚ → ℚ) (g : Grid) (p : Particle) :
    (Grid.updateDeformationGradient false svd polar expf g p).particleF = g.trialF p := by
  unfold Grid.updateDeformationGradient computeInverseAndDetWithCheck
  by_cases h : |(g.trialF p).det| > dummy_precision
  · have hd := decide_eq_true h
    unfold Grid.trialF at hd
    simp only [hd, if_true]
    rfl
  · have hd := decide_eq_false h
    unfold Grid.trialF at hd
    simp only [hd, if_false, Bool.false_eq_true]
    rfl

/-- The cached determinant is the determinant of the trial deformation gradient. -/
theorem updateDeformationGradient_J (plasticity : Bool)
    (svd : Matrix3f → Matrix3f × Vector3f × Matrix3f)
    (polar : Matrix3f → Matrix3f × Matrix3f) (expf : ℚ → ℚ) (g : Grid) (p : Particle) :
    (Grid.updateDeformationGradient plasticity svd polar expf g p).particleJ =
      (g.trialF p).det := by
  unfold Grid.updateDeformationGradient computeInverseAndDetWithCheck
  by_cases h : |(g.trialF p).det| > dummy_precision
  · have hd := decide_eq_true h
    unfold Grid.trialF at hd
    simp only [hd, if_true]
    cases plasticity <;> rfl
  · have hd := decide_eq_false h
    unfold Grid.trialF at hd
    simp only [hd, if_false, Bool.false_eq_true]
    rfl

/-- The cached inverse transpose is that of the trial deformation gradient when Eigen
declares it invertible, and is left as it was otherwise. -/
theorem updateDeformationGradient_FinvTrans (plasticity : Bool)
    (svd : Matrix3f → Matrix3f × Vector3f × Matrix3f)
    (polar : Matrix3f → Matrix3f × Matrix3f) (expf : ℚ → ℚ) (g : Grid) (p : Particle) :
    (Grid.updateDeformationGradient plasticity svd polar expf g p).particleFinvTrans =
      if |(g.trialF p).det| > dummy_precision then (inverse (g.trialF p)).transpose
      else p.particleFinvTrans := by
  unfold Grid.updateDeformationGradient computeInverseAndDetWithCheck
  by_cases h : |(g.trialF p).det| > dummy_precision
  · have hd := decide_eq_true h
    rw [if_pos h]
    unfold Grid.trialF at hd
    simp only [hd, if_true]
    cases plasticity <;> rfl
  · have hd := decide_eq_false h
    rw [if_neg h]
    unfold Grid.trialF at hd
    simp only [hd, if_false, Bool.false_eq_true]

/-- With plasticity enabled and a trial deformation gradient that Eigen declares
invertible, the stored deformation gradient is `U * diag(clamped σ) * V^T` for the
decomposition `(U, σ, V)` that `svd` returns for the trial one. -/
theorem updateDeformationGradient_F_plastic (svd : Matrix3f → Matrix3f × Vector3f × Matrix3f)
    (polar : Matrix3f → Matrix3f × Matrix3f) (expf : ℚ → ℚ) (g : Grid) (p : Particle)
    (h : |(g.trialF p).det| > dummy_precision) :
    (Grid.updateDeformationGradient true svd polar expf g p).particleF =
      (svd (g.trialF p)).1 *
        Matrix.diagonal (fun i => Grid.clampSingularValue ((svd (g.trialF p)).2.1 i)) *
        (svd (g.trialF p)).2.2.transpose := by
  unfold Grid.updateDeformationGradient computeInverseAndDetWithCheck
  have hd := decide_eq_true h
  unfold Grid.trialF at hd
  simp only [hd, if_true]
  rfl

/-- When Eigen declares the trial deformation gradient not invertible, only it and its
determinant are stored, whatever the plasticity setting. -/
theorem updateDeformationGradient_of_not_invertible (plasticity : Bool)
    (svd : Matrix3f → Matrix3f × Vector3f × Matrix3f)
    (polar : Matrix3f → Matrix3f × Matrix3f) (expf : ℚ → ℚ) (g : Grid) (p : Particle)
    (h : ¬ |(g.trialF p).det| > dummy_precision) :
    Grid.updateDeformationGradient plasticity svd polar expf g p =
      { p with particleF := g.trialF p, particleJ := (g.trialF p).det } := by
  unfold Grid.updateDeformationGradient computeInverseAndDetWithCheck
  have hd := decide_eq_false h
  unfold Grid.trialF at hd
  simp only [hd, if_false, Bool.false_eq_true]
  rfl

/-- A grid velocity field that vanishes except for the vector `u` at the node `(a, b, c)`
gives a particle the velocity gradient `u * ∇w_p(a, b, c)^T`. -/
theorem delV_single_node (g : Grid) (d : ParticleData) (h : g.Contains d) (p : Particle)
    (hp : p ∈ d) (a b c : ℤ) (ha : 0 ≤ a ∧ a < g.m_nx) (hb : 0 ≤ b ∧ b < g.m_ny)
    (u : Vector3f)
    (hvel : g.m_gridVelocities =
      setSegment3 (List.replicate (g.m_nx * g.m_ny * g.m_nz * 3).toNat 0)
        (3 * g.coordsToIndex a b c) u) :
    g.delV p.particleX = Matrix.vecMulVec u (g.nodeWeightGrad p.particleX a b c) := by
  rw [delV_eq_sum, ← stencil_weightGrad_select g d h p hp a b c ha hb, ← sum_map_vecMulVec]
  congr 1
  apply List.map_congr_left
  intro s hs
  obtain ⟨h1, h2, h3⟩ := mem_stencil s hs
  obtain ⟨r0, r1⟩ := contains_stencilIndex g d h p hp s.1 s.2.1 s.2.2 h1 h2 h3
  rw [hvel, segment3_setSegment3 _ _ _ _ r0 (by
    rw [List.length_replicate]
    apply (Int.toNat_lt_toNat (by omega)).mpr
    omega), segment3_replicate_zero]
  by_cases e : g.coordsToIndex a b c = g.stencilIndex (g.cellAndWeights p.particleX) s.1 s.2.1 s.2.2
  · rw [if_pos e, if_pos e.symm]
  · rw [if_neg e, if_neg (fun e2 => e e2.symm)]
    ext i j
    simp [Matrix.vecMulVec_apply]

theorem pushedGrid_geometry (a : ℚ) :
    (pushedGrid a).m_nx = 4 ∧ (pushedGrid a).m_ny = 4 ∧ (pushedGrid a).m_nz = 4 ∧
    (pushedGrid a).m_xmin = -(3 / 20) ∧ (pushedGrid a).m_ymin = -(3 / 20) ∧
    (pushedGrid a).m_zmin = -(3 / 20) :=
  restGrid_geometry

/-- The velocity gradient the rest particle gathers on the pushed grid: the velocity
`(a, 0, 0)` of the node `(1, 1, 1)` times its weight gradient
`DN(1/2) / h * N(1/2)^2 * (1, 1, 1)`. -/
theorem pushedGrid_delV (a : ℚ) :
    (pushedGrid a).delV ![0, 0, 0] =
      Matrix.vecMulVec ![a, 0, 0] ![-(13225 / 9216), -(13225 / 9216), -(13225 / 9216)] := by
  obtain ⟨h1, h2, h3, h4, h5, h6⟩ := pushedGrid_geometry a
  have hc : (pushedGrid a).Contains [restParticle] := Grid_contains [restParticle]
  have hx : restParticle.particleX = ![0, 0, 0] := rfl
  have key := delV_single_node (pushedGrid a) [restParticle] hc restParticle
    (List.mem_singleton.mpr rfl) 1 1 1 (by rw [h1]; omega) (by rw [h2]; omega) ![a, 0, 0]
    (by
      show setSegment3 _ _ _ = _
      rw [Grid_velocities_length]
      rfl)
  rw [hx] at key
  rw [key]
  have n : Grid.N ((0 - -(3 / 20 : ℚ)) / GRID_H - ((1 : ℤ) : ℚ)) = 23 / 48 := by
    norm_num [Grid.N, GRID_H, abs_of_pos]
  have dn : Grid.DN ((0 - -(3 / 20 : ℚ)) / GRID_H - ((1 : ℤ) : ℚ)) = -(5 / 8) := by
    norm_num [Grid.DN, Grid.DNnonneg, GRID_H]
  simp only [Grid.nodeWeightGrad, Grid.gridPos, h4, h5, h6, Matrix.cons_val_zero,
    Matrix.cons_val_one, Matrix.head_cons, Matrix.cons_val_two, Matrix.tail_cons, n, dn]
  norm_num [GRID_H]

/-- The trial deformation gradient of the rest particle on the pushed grid. -/
theorem pushedGrid_trialF (a : ℚ) :
    (pushedGrid a).trialF restParticle =
      !![1 - 529 / 36864 * a, -(529 / 36864 * a), -(529 / 36864 * a); 0, 1, 0; 0, 0, 1] := by
  have hx : restParticle.particleX = ![0, 0, 0] := rfl
  have hF : restParticle.particleF = 1 := rfl
  unfold Grid.trialF
  rw [hx, hF, pushedGrid_delV, mul_one]
  ext i j
  fin_cases i <;> fin_cases j <;>
    simp [Matrix.vecMulVec_apply, Matrix.one_apply, TIME_STEP, Matrix.vecHead, Matrix.vecTail] <;>
    ring

theorem pushedGrid_trialF_det (a : ℚ) :
    ((pushedGrid a).trialF restParticle).det = 1 - 529 / 36864 * a := by
  rw [pushedGrid_trialF, Matrix.det_fin_three]
  simp [Matrix.vecHead, Matrix.vecTail]

/-- C14, counterexample.  The rest particle (`F = I`, cached `F^-T = I`) on the pushed
grid with node velocity `(115199424/1653125, 0, 0)`, plasticity disabled: the update
stores a deformation gradient of determinant `1/200000`, which is invertible, together
with `J = 1/200000`, but leaves the cached `F^-T` at `I`; Eigen declares the matrix not
invertible because `|det| ≤ 1e-5`.  The cached `F^-T` is not the inverse transpose of the
stored `F`. -/
theorem deformation_cache_stale :
    Grid.updateDeformationGradients false svdDiagonal polarSymmetric (fun _ => 1)
        (pushedGrid (115199424 / 1653125)) [restParticle] =
      [{ restParticle with
          particleF := !![1 / 200000, -(199999 / 200000), -(199999 / 200000); 0, 1, 0; 0, 0, 1]
          particleJ := 1 / 200000 }] ∧
    ∀ q ∈ Grid.updateDeformationGradients false svdDiagonal polarSymmetric (fun _ => 1)
        (pushedGrid (115199424 / 1653125)) [restParticle],
      q.particleF.det = 1 / 200000 ∧ q.particleFinvTrans = 1 ∧
      (q.particleF⁻¹).transpose = !![200000, 0, 0; 199999, 1, 0; 199999, 0, 1] ∧
      q.particleFinvTrans ≠ (q.particleF⁻¹).transpose := by
  have hF : (pushedGrid (115199424 / 1653125)).trialF restParticle =
      !![1 / 200000, -(199999 / 200000), -(199999 / 200000); 0, 1, 0; 0, 0, 1] := by
    rw [pushedGrid_trialF]
    norm_num
  have hdet : ((pushedGrid (115199424 / 1653125)).trialF restParticle).det = 1 / 200000 := by
    rw [pushedGrid_trialF_det]
    norm_num
  have hnot : ¬ |((pushedGrid (115199424 / 1653125)).trialF restParticle).det| >
      dummy_precision := by
    rw [hdet]
    norm_num [dummy_precision, abs_of_pos]
  have hres : Grid.updateDeformationGradients false svdDiagonal polarSymmetric (fun _ => 1)
        (pushedGrid (115199424 / 1653125)) [restParticle] =
      [{ restParticle with
          particleF := !![1 / 200000, -(199999 / 200000), -(199999 / 200000); 0, 1, 0; 0, 0, 1]
          particleJ := 1 / 200000 }] := by
    unfold Grid.updateDeformationGradients
    rw [List.map_cons, List.map_nil,
      updateDeformationGradient_of_not_invertible _ _ _ _ _ _ hnot, hdet, hF]
  have hinv : ((!![1 / 200000, -(199999 / 200000), -(199999 / 200000); 0, 1, 0; 0, 0, 1] :
      Matrix3f)⁻¹).transpose = !![200000, 0, 0; 199999, 1, 0; 199999, 0, 1] := by
    rw [Matrix.inv_eq_right_inv (B := !![200000, 199999, 199999; 0, 1, 0; 0, 0, 1])]
    · ext i j
      fin_cases i <;> fin_cases j <;> rfl
    · ext i j
      fin_cases i <;> fin_cases j <;>
        simp [Matrix.mul_apply, Fin.sum_univ_three, Matrix.one_apply, Matrix.vecHead,
          Matrix.vecTail] <;> norm_num
  refine ⟨hres, ?_⟩
  intro q hq
  rw [hres, List.mem_singleton] at hq
  subst hq
  refine ⟨?_, rfl, hinv, ?_⟩
  · show Matrix.det !![1 / 200000, -(199999 / 200000), -(199999 / 200000); 0, 1, 0; 0, 0, 1] = _
    rw [← hF, hdet]
  · show restParticle.particleFinvTrans ≠ (Matrix.transpose
      (!![1 / 200000, -(199999 / 200000), -(199999 / 200000); 0, 1, 0; 0, 0, 1] : Matrix3f)⁻¹)
    rw [hinv]
    intro h
    have := congrFun (congrFun h 0) 0
    norm_num [restParticle, Matrix.one_apply] at this

/-- C14, amended.  With plasticity disabled, `updateDeformationGradients` stores for
every particle `p` the deformation gradient
`F_p = (I + dt * Σ_i v_i * ∇w_p(i)^T) * F_p_old` (the sum over the 64 stencil nodes) and
the cached `J_p = det(F_p)`; whenever `|det(F_p)| > 1e-5`, the threshold at which Eigen
declares `F_p` invertible, the cached `F_p^-T` is the transpose of the inverse of `F_p`;
otherwise the cached `F_p^-T` keeps its old value. -/
theorem deformation_caches_consistent (svd : Matrix3f → Matrix3f × Vector3f × Matrix3f)
    (polar : Matrix3f → Matrix3f × Matrix3f) (expf : ℚ → ℚ) (g : Grid) (d : ParticleData) :
    List.Forall₂
      (fun p q : Particle =>
        q.particleF = (1 + TIME_STEP • (stencil.map (fun s =>
          Matrix.vecMulVec (segment3 g.m_gridVelocities
              (3 * g.stencilIndex (g.cellAndWeights p.particleX) s.1 s.2.1 s.2.2))
            ((g.cellAndWeights p.particleX).weightGrad s.1 s.2.1 s.2.2))).sum) *
          p.particleF ∧
        q.particleJ = q.particleF.det ∧
        (|q.particleF.det| > dummy_precision →
          q.particleFinvTrans = (q.particleF⁻¹).transpose ∧
          q.particleF * q.particleFinvTrans.transpose = 1) ∧
        (¬ |q.particleF.det| > dummy_precision → q.particleFinvTrans = p.particleFinvTrans))
      d (Grid.updateDeformationGradients false svd polar expf g d) := by
  unfold Grid.updateDeformationGradients
  rw [List.forall₂_map_right_iff, List.forall₂_same]
  intro p _
  rw [updateDeformationGradient_F, updateDeformationGradient_J,
    updateDeformationGradient_FinvTrans]
  refine ⟨?_, rfl, ?_, ?_⟩
  · unfold Grid.trialF
    rw [delV_eq_sum]
  · intro h
    rw [if_pos h, inverse_eq_inv]
    refine ⟨rfl, ?_⟩
    rw [Matrix.transpose_transpose]
    apply Matrix.mul_nonsing_inv
    rw [isUnit_iff_ne_zero]
    intro h0
    rw [h0, abs_zero] at h
    norm_num [dummy_precision] at h
  · intro h
    rw [if_neg h]

/-- Instance of `deformation_caches_consistent` for the rest particle on the pushed grid
with node velocity `(18432/529, 0, 0)`: the stored deformation gradient has
determinant `1/2 > 1e-5`, and the cached `F^-T` is its inverse transpose. -/
theorem deformation_caches_consistent_witness :
    |(Grid.updateDeformationGradient false svdDiagonal polarSymmetric (fun _ => 1)
      (pushedGrid (18432 / 529)) restParticle).particleF.det| > dummy_precision ∧
    (Grid.updateDeformationGradient false svdDiagonal polarSymmetric (fun _ => 1)
      (pushedGrid (18432 / 529)) restParticle).particleFinvTrans =
      ((Grid.updateDeformationGradient false svdDiagonal polarSymmetric (fun _ => 1)
        (pushedGrid (18432 / 529)) restParticle).particleF⁻¹).transpose :=
  have h : |(Grid.updateDeformationGradient false svdDiagonal polarSymmetric (fun _ => 1)
      (pushedGrid (18432 / 529)) restParticle).particleF.det| > dummy_precision := by
    rw [updateDeformationGradient_F, pushedGrid_trialF_det]
    norm_num [dummy_precision, abs_of_pos]
  ⟨h, ((List.forall₂_cons.mp (deformation_caches_consistent svdDiagonal polarSymmetric
    (fun _ => 1) (pushedGrid (18432 / 529)) [restParticle])).1.2.2.1 h).1⟩

/-- The clamp of a singular value lies in `[1 - THETA_C, 1 + THETA_S]`. -/
theorem clampSingularValue_mem (s : ℚ) :
    1 - THETA_C ≤ Grid.clampSingularValue s ∧ Grid.clampSingularValue s ≤ 1 + THETA_S := by
  unfold Grid.clampSingularValue
  simp only [THETA_C, THETA_S]
  split_ifs <;> constructor <;> linarith

/-- The clamp leaves a singular value of `[1 - THETA_C, 1 + THETA_S]` as it is. -/
theorem clampSingularValue_of_mem (s : ℚ) (h1 : 1 - THETA_C ≤ s) (h2 : s ≤ 1 + THETA_S) :
    Grid.clampSingularValue s = s := by
  unfold Grid.clampSingularValue
  rw [if_neg (not_lt.mpr h2), if_neg (not_lt.mpr h1)]

theorem clampSingularValue_pos (s : ℚ) : 0 < Grid.clampSingularValue s :=
  lt_of_lt_of_le (by norm_num [THETA_C]) (clampSingularValue_mem s).1

theorem sum_map_zero_matrix {ι : Type} (l : List ι) (f : ι → Matrix3f)
    (h : ∀ s ∈ l, f s = 0) : (l.map f).sum = 0 := by
  induction l with
  | nil => rfl
  | cons s l ih =>
    rw [List.map_cons, List.sum_cons, h s (List.mem_cons_self _ _),
      ih (fun t ht => h t (List.mem_cons_of_mem _ ht)), add_zero]

/-- On the grid built from particles at rest, every particle gathers a zero velocity
gradient. -/
theorem Grid_delV_at_rest (d : ParticleData) (hv : ∀ p ∈ d, p.particleV = 0) (p : Particle)
    (hp : p ∈ d) : (Grid.Grid d).delV p.particleX = 0 := by
  rw [delV_eq_sum]
  apply sum_map_zero_matrix
  intro s hs
  obtain ⟨h1, h2, h3⟩ := mem_stencil s hs
  obtain ⟨⟨x1, x2⟩, ⟨y1, y2⟩, ⟨z1, z2⟩⟩ := Grid_contains d p hp
  have e : segment3 (Grid.Grid d).m_gridVelocities
      (3 * (Grid.Grid d).stencilIndex ((Grid.Grid d).cellAndWeights p.particleX)
        s.1 s.2.1 s.2.2) = 0 := by
    unfold Grid.stencilIndex
    rw [Grid_velocity_node d _ _ _ (by omega) (by omega) (by omega)]
    split_ifs
    · apply sum_map_zero
      intro q hq
      rw [hv q hq, smul_zero]
    · rfl
  rw [e]
  ext i j
  simp [Matrix.vecMulVec_apply]

/-- The trial deformation gradient of a particle on the grid built from particles at
rest is its old deformation gradient. -/
theorem Grid_trialF_at_rest (d : ParticleData) (hv : ∀ p ∈ d, p.particleV = 0) (p : Particle)
    (hp : p ∈ d) : (Grid.Grid d).trialF p = p.particleF := by
  unfold Grid.trialF
  rw [Grid_delV_at_rest d hv p hp, smul_zero, add_zero, one_mul]

theorem stretchedGrid_trialF :
    (Grid.Grid [stretchedParticle]).trialF stretchedParticle = Matrix.diagonal ![2, 1, 1] :=
  Grid_trialF_at_rest [stretchedParticle]
    (fun p hp => by
      rw [List.mem_singleton.mp hp]
      funext t
      fin_cases t <;> rfl)
    stretchedParticle (List.mem_singleton.mpr rfl)

theorem det_diagonal3 (v : Vector3f) : (Matrix.diagonal v).det = v 0 * v 1 * v 2 := by
  rw [Matrix.det_diagonal, Fin.prod_univ_three]

/-- C15, counterexample.  The rest particle has `det F = 1 > 0`; on the pushed grid with
node velocity `(73728/529, 0, 0)` the update (plasticity disabled, as shipped) stores
`F = (I + dt * delV) * I` with first row `(-1, -2, -2)`, whose determinant is `-1`. -/
theorem deformation_det_negative :
    0 < restParticle.particleF.det ∧
    ∀ q ∈ Grid.updateDeformationGradients false svdDiagonal polarSymmetric (fun _ => 1)
        (pushedGrid (73728 / 529)) [restParticle],
      q.particleF = !![-1, -2, -2; 0, 1, 0; 0, 0, 1] ∧ q.particleF.det = -1 := by
  constructor
  · show 0 < Matrix.det (1 : Matrix3f)
    rw [Matrix.det_one]
    norm_num
  · intro q hq
    unfold Grid.updateDeformationGradients at hq
    rw [List.map_cons, List.map_nil, List.mem_singleton] at hq
    subst hq
    rw [updateDeformationGradient_F, pushedGrid_trialF_det]
    constructor
    · rw [pushedGrid_trialF]
      norm_num
    · norm_num

/-- C15, amended.  For every particle `p` with `det(F_p) > 0` before the update and every
grid whose velocity gradient at the particle satisfies `det(I + dt * delV_p) > 0`, the
stored deformation gradient has `det(F_p) > 0` after the update; with plasticity
disabled its determinant is `det(I + dt * delV_p) * det(F_p)`.  With plasticity enabled
this holds when `svd` returns for the trial deformation gradient a decomposition
`U * diag(σ) * V^T` with non-negative `σ`. -/
theorem deformation_det_positive (plasticity : Bool)
    (svd : Matrix3f → Matrix3f × Vector3f × Matrix3f)
    (polar : Matrix3f → Matrix3f × Matrix3f) (expf : ℚ → ℚ) (g : Grid) (p : Particle)
    (hdet : 0 < p.particleF.det)
    (hgrad : 0 < (1 + TIME_STEP • g.delV p.particleX).det)
    (hsvd : plasticity = true →
      g.trialF p = (svd (g.trialF p)).1 * Matrix.diagonal (svd (g.trialF p)).2.1 *
        (svd (g.trialF p)).2.2.transpose ∧
      ∀ i, 0 ≤ (svd (g.trialF p)).2.1 i) :
    0 < (Grid.updateDeformationGradient plasticity svd polar expf g p).particleF.det ∧
    (plasticity = false →
      (Grid.updateDeformationGradient plasticity svd polar expf g p).particleF.det =
        (1 + TIME_STEP • g.delV p.particleX).det * p.particleF.det) := by
  have htrial : (g.trialF p).det = (1 + TIME_STEP • g.delV p.particleX).det * p.particleF.det := by
    unfold Grid.trialF
    rw [Matrix.det_mul]
  have hpos : 0 < (g.trialF p).det := by
    rw [htrial]
    exact mul_pos hgrad hdet
  cases plasticity with
  | false =>
    rw [updateDeformationGradient_F]
    exact ⟨hpos, fun _ => htrial⟩
  | true =>
    refine ⟨?_, fun h => absurd h (by decide)⟩
    obtain ⟨hdec, hnn⟩ := hsvd rfl
    by_cases hinv : |(g.trialF p).det| > dummy_precision
    · rw [updateDeformationGradient_F_plastic svd polar expf g p hinv, Matrix.det_mul,
        Matrix.det_mul, Matrix.det_transpose, det_diagonal3]
      rw [hdec, Matrix.det_mul, Matrix.det_mul, Matrix.det_transpose, det_diagonal3] at hpos
      have s0 := hnn 0
      have s1 := hnn 1
      have s2 := hnn 2
      have c0 := clampSingularValue_pos ((svd (g.trialF p)).2.1 0)
      have c1 := clampSingularValue_pos ((svd (g.trialF p)).2.1 1)
      have c2 := clampSingularValue_pos ((svd (g.trialF p)).2.1 2)
      have hs : 0 ≤ (svd (g.trialF p)).2.1 0 * (svd (g.trialF p)).2.1 1 *
          (svd (g.trialF p)).2.1 2 := by positivity
      have hc : 0 < Grid.clampSingularValue ((svd (g.trialF p)).2.1 0) *
          Grid.clampSingularValue ((svd (g.trialF p)).2.1 1) *
          Grid.clampSingularValue ((svd (g.trialF p)).2.1 2) := by positivity
      have huv : 0 < (svd (g.trialF p)).1.det * (svd (g.trialF p)).2.2.det := by
        by_contra hneg
        have hneg2 := not_lt.mp hneg
        have : (svd (g.trialF p)).1.det * ((svd (g.trialF p)).2.1 0 *
            (svd (g.trialF p)).2.1 1 * (svd (g.trialF p)).2.1 2) *
            (svd (g.trialF p)).2.2.det ≤ 0 := by
          have := mul_nonpos_of_nonpos_of_nonneg hneg2 hs
          linarith
        linarith
      have := mul_pos huv hc
      linarith
    · rw [updateDeformationGradient_of_not_invertible true svd polar expf g p hinv]
      exact hpos

/-- Instance of `deformation_det_positive` with plasticity enabled for the stretched
particle on its own grid, which is at rest: `delV = 0`, the trial deformation gradient
is `diag(2, 1, 1)`, and `svdDiagonal` decomposes it. -/
theorem deformation_det_positive_witness :
    0 < stretchedParticle.particleF.det ∧
    0 < (Grid.updateDeformationGradient true svdDiagonal polarSymmetric (fun _ => 1)
      (Grid.Grid [stretchedParticle]) stretchedParticle).particleF.det :=
  have hF : stretchedParticle.particleF = Matrix.diagonal ![2, 1, 1] := rfl
  have hx : stretchedParticle.particleX = ![0, 0, 0] := rfl
  have hdet : 0 < stretchedParticle.particleF.det := by
    rw [hF, det_diagonal3]
    norm_num
  have hgrad : 0 < (1 + TIME_STEP •
      (Grid.Grid [stretchedParticle]).delV stretchedParticle.particleX).det := by
    rw [Grid_delV_at_rest [stretchedParticle]
      (fun p hp => by
        rw [List.mem_singleton.mp hp]
        funext t
        fin_cases t <;> rfl)
      stretchedParticle (List.mem_singleton.mpr rfl), smul_zero, add_zero, Matrix.det_one]
    norm_num
  ⟨hdet, (deformation_det_positive true svdDiagonal polarSymmetric (fun _ => 1)
    (Grid.Grid [stretchedParticle]) stretchedParticle hdet hgrad
    (fun _ => by
      rw [stretchedGrid_trialF]
      constructor
      · ext i j
        fin_cases i <;> fin_cases j <;> simp [svdDiagonal, Matrix.diagonal]
      · intro i
        fin_cases i <;> simp [svdDiagonal])).1⟩

/-- The determinant of `U * diag(σ) * V^T` for orthogonal `U` and `V` has the square
`(σ_0 σ_1 σ_2)^2`. -/
theorem det_sq_of_orthogonal (U V : Matrix3f) (σ : Vector3f) (hU : U * U.transpose = 1)
    (hV : V * V.transpose = 1) :
    (U * Matrix.diagonal σ * V.transpose).det ^ 2 = (σ 0 * σ 1 * σ 2) ^ 2 := by
  have h1 : U.det * U.det = 1 := by
    have := congrArg Matrix.det hU
    rwa [Matrix.det_mul, Matrix.det_transpose, Matrix.det_one] at this
  have h2 : V.det * V.det = 1 := by
    have := congrArg Matrix.det hV
    rwa [Matrix.det_mul, Matrix.det_transpose, Matrix.det_one] at this
  rw [Matrix.det_mul, Matrix.det_mul, Matrix.det_transpose, det_diagonal3]
  calc (U.det * (σ 0 * σ 1 * σ 2) * V.det) ^ 2
      = (U.det * U.det) * (V.det * V.det) * (σ 0 * σ 1 * σ 2) ^ 2 := by ring
    _ = (σ 0 * σ 1 * σ 2) ^ 2 := by rw [h1, h2, one_mul, one_mul]

/-- C16, counterexample.  The rest particle on the pushed grid with node velocity
`(36864/529, 0, 0)` has the singular trial deformation gradient with rows `(0, -1, -1)`,
`(0, 1, 0)`, `(0, 0, 1)`.  With plasticity enabled, whatever `svd`, `polar` and `exp`
are, the update stores the trial deformation gradient unclamped, because it is not
invertible and the plastic block is skipped; the stored matrix, of determinant 0, is no
`U * diag(σ) * V^T` with orthogonal `U`, `V` and all `σ_i` in
`[1 - THETA_C, 1 + THETA_S]`, whose determinant would be at least `(39/40)^3` in size. -/
theorem plastic_clamp_skipped :
    (pushedGrid (36864 / 529)).trialF restParticle = !![0, -1, -1; 0, 1, 0; 0, 0, 1] ∧
    ((pushedGrid (36864 / 529)).trialF restParticle).det = 0 ∧
    ∀ (svd : Matrix3f → Matrix3f × Vector3f × Matrix3f) (polar : Matrix3f → Matrix3f × Matrix3f)
      (expf : ℚ → ℚ),
      (Grid.updateDeformationGradient true svd polar expf (pushedGrid (36864 / 529))
        restParticle).particleF = (pushedGrid (36864 / 529)).trialF restParticle ∧
      ¬ ∃ (U V : Matrix3f) (σ : Vector3f), U * U.transpose = 1 ∧ V * V.transpose = 1 ∧
        (∀ i, 1 - THETA_C ≤ σ i ∧ σ i ≤ 1 + THETA_S) ∧
        (Grid.updateDeformationGradient true svd polar expf (pushedGrid (36864 / 529))
          restParticle).particleF = U * Matrix.diagonal σ * V.transpose := by
  have hF : (pushedGrid (36864 / 529)).trialF restParticle =
      !![0, -1, -1; 0, 1, 0; 0, 0, 1] := by
    rw [pushedGrid_trialF]
    norm_num
  have hdet : ((pushedGrid (36864 / 529)).trialF restParticle).det = 0 := by
    rw [pushedGrid_trialF_det]
    norm_num
  have hnot : ¬ |((pushedGrid (36864 / 529)).trialF restParticle).det| > dummy_precision := by
    rw [hdet]
    norm_num [dummy_precision]
  refine ⟨hF, hdet, ?_⟩
  intro svd polar expf
  rw [updateDeformationGradient_of_not_invertible true svd polar expf _ _ hnot]
  refine ⟨rfl, ?_⟩
  rintro ⟨U, V, σ, hU, hV, hσ, hF⟩
  have hF2 : (pushedGrid (36864 / 529)).trialF restParticle =
      U * Matrix.diagonal σ * V.transpose := hF
  have hsq := det_sq_of_orthogonal U V σ hU hV
  rw [← hF2, hdet] at hsq
  have b0 := (hσ 0).1
  have b1 := (hσ 1).1
  have b2 := (hσ 2).1
  simp only [THETA_C] at b0 b1 b2
  have p01 : (39 / 40 : ℚ) * (39 / 40) ≤ σ 0 * σ 1 :=
    mul_le_mul (by linarith) (by linarith) (by norm_num) (by linarith)
  have p012 : (39 / 40 : ℚ) * (39 / 40) * (39 / 40) ≤ σ 0 * σ 1 * σ 2 :=
    mul_le_mul p01 (by linarith) (by norm_num) (by nlinarith)
  have hsq2 : ((39 / 40 : ℚ) * (39 / 40) * (39 / 40)) ^ 2 ≤ (σ 0 * σ 1 * σ 2) ^ 2 :=
    pow_le_pow_left₀ (by norm_num) p012 2
  rw [← hsq] at hsq2
  norm_num at hsq2

/-- C16, amended.  With plasticity enabled, for every particle whose trial deformation
gradient `F` has `|det F| > 1e-5` (the threshold at which Eigen declares it invertible),
with `(U, σ, V)` the decomposition `svd` returns for `F`, the update stores
`F_p = U * diag(σ̂) * V^T` where every `σ̂_i` (the clamp of `σ_i`) lies in
`[1 - THETA_C, 1 + THETA_S]` and equals `σ_i` when `σ_i` is already in that interval. -/
theorem plastic_clamp (svd : Matrix3f → Matrix3f × Vector3f × Matrix3f)
    (polar : Matrix3f → Matrix3f × Matrix3f) (expf : ℚ → ℚ) (g : Grid) (p : Particle)
    (hinv : |(g.trialF p).det| > dummy_precision) :
    (Grid.updateDeformationGradient true svd polar expf g p).particleF =
      (svd (g.trialF p)).1 *
        Matrix.diagonal (fun i => Grid.clampSingularValue ((svd (g.trialF p)).2.1 i)) *
        (svd (g.trialF p)).2.2.transpose ∧
    (∀ i, 1 - THETA_C ≤ Grid.clampSingularValue ((svd (g.trialF p)).2.1 i) ∧
      Grid.clampSingularValue ((svd (g.trialF p)).2.1 i) ≤ 1 + THETA_S) ∧
    (∀ i, 1 - THETA_C ≤ (svd (g.trialF p)).2.1 i → (svd (g.trialF p)).2.1 i ≤ 1 + THETA_S →
      Grid.clampSingularValue ((svd (g.trialF p)).2.1 i) = (svd (g.trialF p)).2.1 i) :=
  ⟨updateDeformationGradient_F_plastic svd polar expf g p hinv,
    fun _ => clampSingularValue_mem _,
    fun _ h1 h2 => clampSingularValue_of_mem _ h1 h2⟩

theorem stretchedGrid_invertible :
    |((Grid.Grid [stretchedParticle]).trialF stretchedParticle).det| > dummy_precision := by
  rw [stretchedGrid_trialF, det_diagonal3]
  norm_num [dummy_precision, abs_of_pos]

/-- The clamped recomposition of `diag(2, 1, 1)` from `svdDiagonal`: the singular value 2
is cut to `1 + THETA_S = 403/400`. -/
theorem stretchedGrid_clamped :
    (svdDiagonal ((Grid.Grid [stretchedParticle]).trialF stretchedParticle)).1 *
      Matrix.diagonal (fun i => Grid.clampSingularValue
        ((svdDiagonal ((Grid.Grid [stretchedParticle]).trialF stretchedParticle)).2.1 i)) *
      (svdDiagonal ((Grid.Grid [stretchedParticle]).trialF stretchedParticle)).2.2.transpose =
      Matrix.diagonal ![403 / 400, 1, 1] := by
  rw [stretchedGrid_trialF]
  simp only [svdDiagonal, Matrix.transpose_one, Matrix.one_mul, Matrix.mul_one]
  ext i j
  fin_cases i <;> fin_cases j <;>
    norm_num [Grid.clampSingularValue, THETA_S, THETA_C, Matrix.diagonal_apply]

/-- Instance of `plastic_clamp` for the stretched particle on its own grid, whose trial
deformation gradient `diag(2, 1, 1)` has determinant `2 > 1e-5`: the stored deformation
gradient is `diag(403/400, 1, 1)`. -/
theorem plastic_clamp_witness :
    |((Grid.Grid [stretchedParticle]).trialF stretchedParticle).det| > dummy_precision ∧
    (Grid.updateDeformationGradient true svdDiagonal polarSymmetric (fun _ => 1)
      (Grid.Grid [stretchedParticle]) stretchedParticle).particleF =
      Matrix.diagonal ![403 / 400, 1, 1] :=
  ⟨stretchedGrid_invertible, (plastic_clamp svdDiagonal polarSymmetric (fun _ => 1)
    (Grid.Grid [stretchedParticle]) stretchedParticle stretchedGrid_invertible).1.trans
    stretchedGrid_clamped⟩

theorem inv_diagonal3 (a b c : ℚ) (ha : a ≠ 0) (hb : b ≠ 0) (hc : c ≠ 0) :
    (Matrix.diagonal ![a, b, c] : Matrix3f)⁻¹ = Matrix.diagonal ![1 / a, 1 / b, 1 / c] := by
  apply Matrix.inv_eq_right_inv
  have e : (fun i => ![a, b, c] i * ![1 / a, 1 / b, 1 / c] i) = fun _ => (1 : ℚ) := by
    funext i
    fin_cases i <;> simp [ha, hb, hc]
  rw [Matrix.diagonal_mul_diagonal, e, Matrix.diagonal_one]

/-- C17, failing input.  The stretched particle (`F = diag(2, 1, 1)`) on its own grid,
which is at rest, with plasticity enabled: the trial deformation gradient is
`diag(2, 1, 1)`, the plastic block cuts the singular value 2 to `403/400` and stores
`F = diag(403/400, 1, 1)`, of determinant `403/400` and inverse transpose
`diag(400/403, 1, 1)`; the cached `J` is 2 and the cached `F^-T` is `diag(1/2, 1, 1)`,
the values of the trial deformation gradient. -/
theorem plastic_caches_stale :
    (Grid.updateDeformationGradient true svdDiagonal polarSymmetric (fun _ => 1)
      (Grid.Grid [stretchedParticle]) stretchedParticle).particleF =
      Matrix.diagonal ![403 / 400, 1, 1] ∧
    (Grid.updateDeformationGradient true svdDiagonal polarSymmetric (fun _ => 1)
      (Grid.Grid [stretchedParticle]) stretchedParticle).particleF.det = 403 / 400 ∧
    ((Grid.updateDeformationGradient true svdDiagonal polarSymmetric (fun _ => 1)
      (Grid.Grid [stretchedParticle]) stretchedParticle).particleF⁻¹).transpose =
      Matrix.diagonal ![400 / 403, 1, 1] ∧
    (Grid.updateDeformationGradient true svdDiagonal polarSymmetric (fun _ => 1)
      (Grid.Grid [stretchedParticle]) stretchedParticle).particleJ = 2 ∧
    (Grid.updateDeformationGradient true svdDiagonal polarSymmetric (fun _ => 1)
      (Grid.Grid [stretchedParticle]) stretchedParticle).particleFinvTrans =
      Matrix.diagonal ![1 / 2, 1, 1] := by
  have hF : (Grid.updateDeformationGradient true svdDiagonal polarSymmetric (fun _ => 1)
      (Grid.Grid [stretchedParticle]) stretchedParticle).particleF =
      Matrix.diagonal ![403 / 400, 1, 1] :=
    (updateDeformationGradient_F_plastic svdDiagonal polarSymmetric (fun _ => 1)
      (Grid.Grid [stretchedParticle]) stretchedParticle stretchedGrid_invertible).trans
      stretchedGrid_clamped
  refine ⟨hF, ?_, ?_, ?_, ?_⟩
  · rw [hF, det_diagonal3]
    norm_num
  · rw [hF, inv_diagonal3 _ _ _ (by norm_num) (by norm_num) (by norm_num),
      Matrix.diagonal_transpose]
    norm_num
  · rw [updateDeformationGradient_J, stretchedGrid_trialF, det_diagonal3]
    norm_num
  · rw [updateDeformationGradient_FinvTrans, if_pos stretchedGrid_invertible, inverse_eq_inv,
      stretchedGrid_trialF, inv_diagonal3 _ _ _ (by norm_num) (by norm_num) (by norm_num),
      Matrix.diagonal_transpose]
    norm_num

/-! ## C18 to C20: Conjugate Residuals -/

/-- The form `u · A v` of a symmetric matrix is symmetric. -/
theorem dotProduct_mulVec_symm {n : ℕ} (A : Matrix (Fin n) (Fin n) ℚ) (hA : A.IsSymm)
    (u v : Fin n → ℚ) :
    Matrix.dotProduct u (A.mulVec v) = Matrix.dotProduct v (A.mulVec u) := by
  rw [Matrix.dotProduct_mulVec, ← Matrix.mulVec_transpose, hA.eq, Matrix.dotProduct_comm]

/-- For a symmetric matrix, `A u · v = u · A v`. -/
theorem mulVec_dotProduct_symm {n : ℕ} (A : Matrix (Fin n) (Fin n) ℚ) (hA : A.IsSymm)
    (u v : Fin n → ℚ) :
    Matrix.dotProduct (A.mulVec u) v = Matrix.dotProduct u (A.mulVec v) := by
  rw [Matrix.dotProduct_comm, dotProduct_mulVec_symm A hA]

/-- The invariants of the Conjugate Residuals recurrences while no residual has
`r_k · A r_k = 0`: every residual is `A`-orthogonal to the earlier search directions and
residuals, and the vectors `A p` are mutually orthogonal. -/
theorem cr_invariants {n : ℕ} (A : Matrix (Fin n) (Fin n) ℚ) (hA : A.IsSymm)
    (r p : ℕ → Fin n → ℚ) (hp0 : p 0 = r 0)
    (hr : ∀ k, r (k + 1) = r k -
      (Matrix.dotProduct (r k) (A.mulVec (r k)) /
        Matrix.dotProduct (A.mulVec (p k)) (A.mulVec (p k))) • A.mulVec (p k))
    (hp : ∀ k, p (k + 1) = r (k + 1) +
      (Matrix.dotProduct (r (k + 1)) (A.mulVec (r (k + 1))) /
        Matrix.dotProduct (r k) (A.mulVec (r k))) • p k)
    (K : ℕ) (hreg : ∀ k < K, Matrix.dotProduct (r k) (A.mulVec (r k)) ≠ 0) :
    ∀ j ≤ K, ∀ i < j,
      Matrix.dotProduct (r j) (A.mulVec (p i)) = 0 ∧
      Matrix.dotProduct (A.mulVec (p j)) (A.mulVec (p i)) = 0 ∧
      Matrix.dotProduct (r j) (A.mulVec (r i)) = 0 := by
  induction K with
  | zero =>
    intro j hj i hi
    omega
  | succ K ih =>
    have IH := ih (fun k hk => hreg k (Nat.lt_succ_of_lt hk))
    intro j hj i hi
    rcases Nat.lt_or_ge j (K + 1) with hlt | hge
    · exact IH j (Nat.lt_succ_iff.mp hlt) i hi
    have hjK : j = K + 1 := le_antisymm hj hge
    subst hjK
    have hiK : i ≤ K := Nat.lt_succ_iff.mp hi
    -- r_m · A p_m = r_m · A r_m
    have E1 : ∀ m ≤ K, Matrix.dotProduct (r m) (A.mulVec (p m)) =
        Matrix.dotProduct (r m) (A.mulVec (r m)) := by
      intro m hm
      cases m with
      | zero => rw [hp0]
      | succ m =>
        have h0 := (IH (m + 1) hm m (Nat.lt_succ_self m)).1
        rw [hp m, Matrix.mulVec_add, Matrix.mulVec_smul, Matrix.dotProduct_add,
          Matrix.dotProduct_smul, h0, smul_zero, add_zero]
    have C1 : ∀ m ≤ K, Matrix.dotProduct (A.mulVec (p m)) (A.mulVec (p m)) ≠ 0 := by
      intro m hm hc
      have hz : A.mulVec (p m) = 0 := Matrix.dotProduct_self_eq_zero.mp hc
      have := E1 m hm
      rw [hz, Matrix.dotProduct_zero] at this
      exact hreg m (Nat.lt_succ_of_le hm) this.symm
    -- (a)
    have Ha : ∀ m ≤ K, Matrix.dotProduct (r (K + 1)) (A.mulVec (p m)) = 0 := by
      intro m hm
      rw [hr K, Matrix.sub_dotProduct, Matrix.smul_dotProduct, smul_eq_mul]
      rcases Nat.lt_or_ge m K with hlt | hge
      · rw [(IH K le_rfl m hlt).1, (IH K le_rfl m hlt).2.1, mul_zero, sub_zero]
      · have hmK : m = K := le_antisymm hm hge
        subst hmK
        rw [E1 m le_rfl, div_mul_cancel₀ _ (C1 m le_rfl), sub_self]
    -- (c)
    have Hc : ∀ m ≤ K, Matrix.dotProduct (r (K + 1)) (A.mulVec (r m)) = 0 := by
      intro m hm
      cases m with
      | zero => rw [← hp0]; exact Ha 0 hm
      | succ m =>
        have e : r (m + 1) = p (m + 1) -
            (Matrix.dotProduct (r (m + 1)) (A.mulVec (r (m + 1))) /
              Matrix.dotProduct (r m) (A.mulVec (r m))) • p m := by
          rw [hp m, add_sub_cancel_right]
        rw [e, Matrix.mulVec_sub, Matrix.mulVec_smul, Matrix.dotProduct_sub,
          Matrix.dotProduct_smul, Ha (m + 1) hm, Ha m (Nat.le_of_succ_le hm), smul_zero,
          sub_zero]
    -- A r_{K+1} · A p_m in terms of residuals
    have Hk : ∀ m ≤ K, Matrix.dotProduct (A.mulVec (r (K + 1))) (A.mulVec (p m)) =
        (Matrix.dotProduct (A.mulVec (p m)) (A.mulVec (p m)) /
          Matrix.dotProduct (r m) (A.mulVec (r m))) *
        (Matrix.dotProduct (r (K + 1)) (A.mulVec (r m)) -
          Matrix.dotProduct (r (K + 1)) (A.mulVec (r (m + 1)))) := by
      intro m hm
      have ha := hreg m (Nat.lt_succ_of_le hm)
      have hc := C1 m hm
      have e : A.mulVec (p m) =
          (Matrix.dotProduct (A.mulVec (p m)) (A.mulVec (p m)) /
            Matrix.dotProduct (r m) (A.mulVec (r m))) • (r m - r (m + 1)) := by
        have h1 : Matrix.dotProduct (A.mulVec (p m)) (A.mulVec (p m)) /
            Matrix.dotProduct (r m) (A.mulVec (r m)) *
            (Matrix.dotProduct (r m) (A.mulVec (r m)) /
              Matrix.dotProduct (A.mulVec (p m)) (A.mulVec (p m))) = 1 := by
          field_simp
        rw [hr m, sub_sub_cancel, smul_smul, h1, one_smul]
      rw [mulVec_dotProduct_symm A hA]
      conv_lhs => rw [e]
      rw [Matrix.mulVec_smul, Matrix.dotProduct_smul, Matrix.mulVec_sub, Matrix.dotProduct_sub,
        smul_eq_mul]
    refine ⟨Ha i hiK, ?_, Hc i hiK⟩
    rw [hp K, Matrix.mulVec_add, Matrix.mulVec_smul, Matrix.add_dotProduct,
      Matrix.smul_dotProduct, smul_eq_mul, Hk i hiK]
    rcases Nat.lt_or_ge i K with hlt | hge
    · rw [Hc i hiK, Hc (i + 1) hlt, (IH K le_rfl i hlt).2.1, sub_zero, mul_zero, mul_zero,
        add_zero]
    · have hiK2 : i = K := le_antisymm hiK hge
      subst hiK2
      have ha := hreg i (Nat.lt_succ_self i)
      rw [Hc i le_rfl]
      field_simp
      ring

/-- The loop visits the iterates `0, ..., k` of the step, where `k` is the first index
whose residual meets the tolerance, or `maxIters` if there is none. -/
theorem crLoop_eq {n : ℕ} (A : Matrix (Fin n) (Fin n) ℚ) (P : (Fin n → ℚ) → Fin n → ℚ)
    (tol : ℚ) (maxIters : ℕ) (s : CRState n) :
    ∃ k ≤ maxIters,
      crLoop A P tol maxIters s = (List.range (k + 1)).map (fun i => (crStep A P)^[i] s) ∧
      (Matrix.dotProduct ((crStep A P)^[k] s).r ((crStep A P)^[k] s).r ≤ tol ^ 2 ∨
        k = maxIters) ∧
      ∀ i < k, ¬ Matrix.dotProduct ((crStep A P)^[i] s).r ((crStep A P)^[i] s).r ≤ tol ^ 2 := by
  induction maxIters generalizing s with
  | zero =>
    exact ⟨0, le_rfl, rfl, Or.inr rfl, fun i hi => absurd hi (Nat.not_lt_zero i)⟩
  | succ m ih =>
    by_cases h : Matrix.dotProduct s.r s.r ≤ tol ^ 2
    · refine ⟨0, Nat.zero_le _, ?_, Or.inl h, fun i hi => absurd hi (Nat.not_lt_zero i)⟩
      rw [crLoop, if_pos h]
      rfl
    · obtain ⟨k, hk, heq, hstop, hprev⟩ := ih (crStep A P s)
      refine ⟨k + 1, Nat.succ_le_succ hk, ?_, ?_, ?_⟩
      · rw [crLoop, if_neg h, heq]
        conv_rhs => rw [List.range_succ_eq_map, List.map_cons, List.map_map]
        rfl
      · rcases hstop with h1 | h1
        · exact Or.inl h1
        · exact Or.inr (by rw [h1])
      · intro i hi
        cases i with
        | zero => exact h
        | succ i => exact hprev i (Nat.lt_of_succ_lt_succ hi)

/-- The residual of every iterate is `b - A x` (no projection). -/
theorem cr_residual {n : ℕ} (A : Matrix (Fin n) (Fin n) ℚ) (b x0 : Fin n → ℚ) (k : ℕ) :
    ((crStep A id)^[k] (crInit A id b x0)).r =
      b - A.mulVec ((crStep A id)^[k] (crInit A id b x0)).x := by
  induction k with
  | zero => rfl
  | succ k ih =>
    rw [Function.iterate_succ_apply']
    simp only [crStep, id]
    rw [ih, Matrix.mulVec_add, Matrix.mulVec_smul]
    abel

/-- Every iterate has `r_k · A p_k = r_k · A r_k` (no projection). -/
theorem cr_r_dot_Ap {n : ℕ} (A : Matrix (Fin n) (Fin n) ℚ) (b x0 : Fin n → ℚ) (k : ℕ) :
    Matrix.dotProduct ((crStep A id)^[k] (crInit A id b x0)).r
        (A.mulVec ((crStep A id)^[k] (crInit A id b x0)).p) =
      Matrix.dotProduct ((crStep A id)^[k] (crInit A id b x0)).r
        (A.mulVec ((crStep A id)^[k] (crInit A id b x0)).r) := by
  induction k with
  | zero => rfl
  | succ k ih =>
    rw [Function.iterate_succ_apply']
    generalize (crStep A id)^[k] (crInit A id b x0) = s at ih
    have h0 : Matrix.dotProduct (crStep A id s).r (A.mulVec s.p) = 0 := by
      simp only [crStep, id]
      rw [Matrix.sub_dotProduct, Matrix.smul_dotProduct, smul_eq_mul, ih]
      by_cases hc : Matrix.dotProduct (A.mulVec s.p) (A.mulVec s.p) = 0
      · have hz : A.mulVec s.p = 0 := Matrix.dotProduct_self_eq_zero.mp hc
        rw [← ih, hz, Matrix.dotProduct_zero, zero_div, zero_mul, sub_zero]
      · rw [div_mul_cancel₀ _ hc, sub_self]
    have e : (crStep A id s).p = (crStep A id s).r +
        (Matrix.dotProduct (crStep A id s).r (A.mulVec (crStep A id s).r) /
          Matrix.dotProduct s.r (A.mulVec s.r)) • s.p := rfl
    rw [e, Matrix.mulVec_add, Matrix.mulVec_smul, Matrix.dotProduct_add, Matrix.dotProduct_smul,
      h0, smul_zero, add_zero]

/-- A step from a state with `r · A r = 0` keeps `x` and `r` and resets the search
direction to `r`. -/
theorem crStep_of_breakdown {n : ℕ} (A : Matrix (Fin n) (Fin n) ℚ) (s : CRState n)
    (h : Matrix.dotProduct s.r (A.mulVec s.r) = 0) :
    crStep A id s = { x := s.x, r := s.r, p := s.r } := by
  simp only [crStep, id, h, zero_div, zero_smul, add_zero, sub_zero, div_zero]

/-- After a state with `r_K · A r_K = 0` every later iterate is `(x_K, r_K, r_K)`. -/
theorem cr_stalled {n : ℕ} (A : Matrix (Fin n) (Fin n) ℚ) (s : CRState n)
    (h : Matrix.dotProduct s.r (A.mulVec s.r) = 0) (m : ℕ) :
    (crStep A id)^[m + 1] s = { x := s.x, r := s.r, p := s.r } := by
  induction m with
  | zero => exact crStep_of_breakdown A s h
  | succ m ih =>
    rw [Function.iterate_succ_apply', ih]
    exact crStep_of_breakdown A _ h

/-- The invariants of `cr_invariants` for the iterates of the solver without
projection. -/
theorem cr_iterates_invariants {n : ℕ} (A : Matrix (Fin n) (Fin n) ℚ) (hA : A.IsSymm)
    (b x0 : Fin n → ℚ) (K : ℕ)
    (hreg : ∀ k < K, Matrix.dotProduct ((crStep A id)^[k] (crInit A id b x0)).r
      (A.mulVec ((crStep A id)^[k] (crInit A id b x0)).r) ≠ 0) :
    ∀ j ≤ K, ∀ i < j,
      Matrix.dotProduct ((crStep A id)^[j] (crInit A id b x0)).r
        (A.mulVec ((crStep A id)^[i] (crInit A id b x0)).p) = 0 ∧
      Matrix.dotProduct (A.mulVec ((crStep A id)^[j] (crInit A id b x0)).p)
        (A.mulVec ((crStep A id)^[i] (crInit A id b x0)).p) = 0 ∧
      Matrix.dotProduct ((crStep A id)^[j] (crInit A id b x0)).r
        (A.mulVec ((crStep A id)^[i] (crInit A id b x0)).r) = 0 :=
  cr_invariants A hA (fun k => ((crStep A id)^[k] (crInit A id b x0)).r)
    (fun k => ((crStep A id)^[k] (crInit A id b x0)).p) rfl
    (fun k => by
      simp only
      rw [Function.iterate_succ_apply']
      rfl)
    (fun k => by
      simp only
      rw [Function.iterate_succ_apply']
      rfl)
    K hreg

theorem dotProduct_self_nonneg_rat {n : ℕ} (v : Fin n → ℚ) : 0 ≤ Matrix.dotProduct v v :=
  Finset.sum_nonneg (fun i _ => mul_self_nonneg (v i))

/-- There are no `n + 1` vectors of dimension `n` that are mutually `A`-orthogonal and
each have `v · A v ≠ 0`. -/
theorem no_orthogonal_family {n : ℕ} (A : Matrix (Fin n) (Fin n) ℚ)
    (v : Fin (n + 1) → Fin n → ℚ)
    (horth : ∀ i j, i ≠ j → Matrix.dotProduct (v j) (A.mulVec (v i)) = 0)
    (hne : ∀ i, Matrix.dotProduct (v i) (A.mulVec (v i)) ≠ 0) : False := by
  have hli : LinearIndependent ℚ v := by
    rw [Fintype.linearIndependent_iff]
    intro g hg j
    have h1 : Matrix.dotProduct (v j) (A.mulVec (∑ i, g i • v i)) = 0 := by
      rw [hg, Matrix.mulVec_zero, Matrix.dotProduct_zero]
    have key : ∀ s : Finset (Fin (n + 1)),
        Matrix.dotProduct (v j) (A.mulVec (∑ i in s, g i • v i)) =
          ∑ i in s, g i * Matrix.dotProduct (v j) (A.mulVec (v i)) := by
      intro s
      induction s using Finset.induction_on with
      | empty => simp
      | insert hi ih =>
        rw [Finset.sum_insert hi, Finset.sum_insert hi, Matrix.mulVec_add,
          Matrix.dotProduct_add, ih, Matrix.mulVec_smul, Matrix.dotProduct_smul, smul_eq_mul]
    rw [key, Finset.sum_eq_single j] at h1
    · rcases mul_eq_zero.mp h1 with h2 | h2
      · exact h2
      · exact absurd h2 (hne j)
    · intro i _ hij
      rw [horth i j hij, mul_zero]
    · intro hj
      exact absurd (Finset.mem_univ j) hj
  have hcard := hli.fintype_card_le_finrank
  rw [Fintype.card_fin, Module.finrank_fin_fun ℚ] at hcard
  omega

theorem getLastD_map_range {α : Type} (f : ℕ → α) (k : ℕ) (d : α) :
    ((List.range (k + 1)).map f).getLastD d = f k := by
  rw [List.range_succ, List.map_append, List.map_cons, List.map_nil, List.getLastD_concat]

/-- The run of the solver in terms of the iterates of the step: the states visited are
the iterates `0, ..., k`, the returned `x` is that of iterate `k`, and `k` is the first
index whose residual meets the tolerance, or `maxIters` if there is none. -/
theorem crSolve_eq {n : ℕ} (A : Matrix (Fin n) (Fin n) ℚ) (P : (Fin n → ℚ) → Fin n → ℚ)
    (tol : ℚ) (maxIters : ℕ) (b x0 : Fin n → ℚ) :
    ∃ k ≤ maxIters,
      ConjugateResiduals A P tol maxIters b x0 =
        (List.range (k + 1)).map (fun i => (crStep A P)^[i] (crInit A P b x0)) ∧
      crSolve A P tol maxIters b x0 = ((crStep A P)^[k] (crInit A P b x0)).x ∧
      (Matrix.dotProduct ((crStep A P)^[k] (crInit A P b x0)).r
          ((crStep A P)^[k] (crInit A P b x0)).r ≤ tol ^ 2 ∨ k = maxIters) ∧
      ∀ i < k, ¬ Matrix.dotProduct ((crStep A P)^[i] (crInit A P b x0)).r
        ((crStep A P)^[i] (crInit A P b x0)).r ≤ tol ^ 2 := by
  obtain ⟨k, hk, heq, hstop, hprev⟩ := crLoop_eq A P tol maxIters (crInit A P b x0)
  refine ⟨k, hk, heq, ?_, hstop, hprev⟩
  unfold crSolve ConjugateResiduals
  rw [heq, getLastD_map_range]

/-- The run on the swap matrix `[[0, 1], [1, 0]]` with `b = (1, 0)` from `x = 0`: the
first residual `r_0 = b` has `r_0 · A r_0 = 0`, so `α = 0` and the state never changes. -/
theorem swap_run :
    ConjugateResiduals (!![0, 1; 1, 0] : Matrix (Fin 2) (Fin 2) ℚ) id 0 2 ![1, 0] 0 =
      [{ x := 0, r := ![1, 0], p := ![1, 0] }, { x := 0, r := ![1, 0], p := ![1, 0] },
        { x := 0, r := ![1, 0], p := ![1, 0] }] := by
  have h0 : crInit (!![0, 1; 1, 0] : Matrix (Fin 2) (Fin 2) ℚ) id ![1, 0] 0 =
      { x := 0, r := ![1, 0], p := ![1, 0] } := by
    simp [crInit]
  have hb : Matrix.dotProduct ![(1 : ℚ), 0]
      ((!![0, 1; 1, 0] : Matrix (Fin 2) (Fin 2) ℚ).mulVec ![1, 0]) = 0 := by
    simp [Matrix.mulVec, Matrix.dotProduct, Fin.sum_univ_two]
  have hs : crStep (!![0, 1; 1, 0] : Matrix (Fin 2) (Fin 2) ℚ) id
      { x := 0, r := ![1, 0], p := ![1, 0] } = { x := 0, r := ![1, 0], p := ![1, 0] } :=
    crStep_of_breakdown _ _ hb
  have hn : ¬ Matrix.dotProduct ![(1 : ℚ), 0] ![1, 0] ≤ 0 ^ 2 := by
    simp [Matrix.dotProduct, Fin.sum_univ_two]
  unfold ConjugateResiduals
  rw [h0, crLoop, if_neg hn, hs, crLoop, if_neg hn, hs, crLoop]

/-- C18, counterexample.  The swap matrix `A = [[0, 1], [1, 0]]` is symmetric,
indefinite and invertible (`det A = -1`); for `b = (1, 0)` the solver started from
`x = 0` with an iteration limit of 2 and tolerance 0 returns `x = 0`, and `A x = 0 ≠ b`. -/
theorem cr_swap_not_solved :
    (!![0, 1; 1, 0] : Matrix (Fin 2) (Fin 2) ℚ).IsSymm ∧
    (!![0, 1; 1, 0] : Matrix (Fin 2) (Fin 2) ℚ).det = -1 ∧
    crSolve (!![0, 1; 1, 0] : Matrix (Fin 2) (Fin 2) ℚ) id 0 2 ![1, 0] 0 = 0 ∧
    (!![0, 1; 1, 0] : Matrix (Fin 2) (Fin 2) ℚ).mulVec
      (crSolve (!![0, 1; 1, 0] : Matrix (Fin 2) (Fin 2) ℚ) id 0 2 ![1, 0] 0) ≠ ![1, 0] := by
  have hx : crSolve (!![0, 1; 1, 0] : Matrix (Fin 2) (Fin 2) ℚ) id 0 2 ![1, 0] 0 = 0 := by
    unfold crSolve
    rw [swap_run]
    rfl
  refine ⟨?_, ?_, hx, ?_⟩
  · ext i j
    fin_cases i <;> fin_cases j <;> rfl
  · simp [Matrix.det_fin_two]
  · rw [hx, Matrix.mulVec_zero]
    intro h
    have := congrFun h 0
    simp at this

theorem diag_step_one :
    crStep (!![1, 0; 0, -1] : Matrix (Fin 2) (Fin 2) ℚ) id
      { x := 0, r := ![2, 1], p := ![2, 1] } =
      { x := ![6 / 5, 3 / 5], r := ![4 / 5, 8 / 5], p := ![-(12 / 25), 24 / 25] } := by
  simp only [crStep, id]
  have e1 : (!![1, 0; 0, -1] : Matrix (Fin 2) (Fin 2) ℚ).mulVec ![2, 1] = ![2, -1] := by
    ext i; fin_cases i <;> simp [Matrix.mulVec, Matrix.dotProduct, Fin.sum_univ_two]
  have e2 : Matrix.dotProduct ![(2 : ℚ), 1] ![2, -1] = 3 := by
    simp [Matrix.dotProduct, Fin.sum_univ_two]; norm_num
  have e3 : Matrix.dotProduct ![(2 : ℚ), -1] ![2, -1] = 5 := by
    simp [Matrix.dotProduct, Fin.sum_univ_two]; norm_num
  have e4 : (![2, 1] : Fin 2 → ℚ) - (3 / 5 : ℚ) • ![2, -1] = ![4 / 5, 8 / 5] := by
    ext i; fin_cases i <;> simp <;> norm_num
  have e5 : (!![1, 0; 0, -1] : Matrix (Fin 2) (Fin 2) ℚ).mulVec ![4 / 5, 8 / 5] =
      ![4 / 5, -(8 / 5)] := by
    ext i; fin_cases i <;> simp [Matrix.mulVec, Matrix.dotProduct, Fin.sum_univ_two]
  have e6 : Matrix.dotProduct ![(4 / 5 : ℚ), 8 / 5] ![4 / 5, -(8 / 5)] = -(48 / 25) := by
    simp [Matrix.dotProduct, Fin.sum_univ_two]; norm_num
  rw [e1, e2, e3, e4, e5, e6]
  congr 1
  · ext i; fin_cases i <;> norm_num
  · ext i; fin_cases i <;> simp <;> norm_num

theorem diag_step_two :
    crStep (!![1, 0; 0, -1] : Matrix (Fin 2) (Fin 2) ℚ) id
      { x := ![6 / 5, 3 / 5], r := ![4 / 5, 8 / 5], p := ![-(12 / 25), 24 / 25] } =
      { x := ![2, -1], r := 0, p := 0 } := by
  simp only [crStep, id]
  have e1 : (!![1, 0; 0, -1] : Matrix (Fin 2) (Fin 2) ℚ).mulVec ![-(12 / 25), 24 / 25] =
      ![-(12 / 25), -(24 / 25)] := by
    ext i; fin_cases i <;> simp [Matrix.mulVec, Matrix.dotProduct, Fin.sum_univ_two]
  have e5 : (!![1, 0; 0, -1] : Matrix (Fin 2) (Fin 2) ℚ).mulVec ![4 / 5, 8 / 5] =
      ![4 / 5, -(8 / 5)] := by
    ext i; fin_cases i <;> simp [Matrix.mulVec, Matrix.dotProduct, Fin.sum_univ_two]
  have e6 : Matrix.dotProduct ![(4 / 5 : ℚ), 8 / 5] ![4 / 5, -(8 / 5)] = -(48 / 25) := by
    simp [Matrix.dotProduct, Fin.sum_univ_two]; norm_num
  have e3 : Matrix.dotProduct ![-(12 / 25 : ℚ), -(24 / 25)] ![-(12 / 25), -(24 / 25)] =
      144 / 125 := by
    simp [Matrix.dotProduct, Fin.sum_univ_two]; norm_num
  have e4 : (![4 / 5, 8 / 5] : Fin 2 → ℚ) -
      (-(48 / 25) / (144 / 125) : ℚ) • ![-(12 / 25), -(24 / 25)] = 0 := by
    ext i; fin_cases i <;> simp <;> norm_num
  rw [e1, e5, e6, e3, e4]
  congr 1
  · ext i; fin_cases i <;> simp <;> norm_num
  · simp

/-- The run on the indefinite matrix `diag(1, -1)` with `b = (2, 1)` from `x = 0`: two
steps, ending with the residual 0 at `x = (2, -1)`. -/
theorem diag_run :
    ConjugateResiduals (!![1, 0; 0, -1] : Matrix (Fin 2) (Fin 2) ℚ) id 0 2 ![2, 1] 0 =
      [{ x := 0, r := ![2, 1], p := ![2, 1] },
        { x := ![6 / 5, 3 / 5], r := ![4 / 5, 8 / 5], p := ![-(12 / 25), 24 / 25] },
        { x := ![2, -1], r := 0, p := 0 }] := by
  have h0 : crInit (!![1, 0; 0, -1] : Matrix (Fin 2) (Fin 2) ℚ) id ![2, 1] 0 =
      { x := 0, r := ![2, 1], p := ![2, 1] } := by
    simp [crInit]
  have hn0 : ¬ Matrix.dotProduct ![(2 : ℚ), 1] ![2, 1] ≤ 0 ^ 2 := by
    simp [Matrix.dotProduct, Fin.sum_univ_two]; norm_num
  have hn1 : ¬ Matrix.dotProduct ![(4 / 5 : ℚ), 8 / 5] ![4 / 5, 8 / 5] ≤ 0 ^ 2 := by
    simp [Matrix.dotProduct, Fin.sum_univ_two]; norm_num
  unfold ConjugateResiduals
  rw [h0, crLoop, if_neg hn0, diag_step_one, crLoop, if_neg hn1, diag_step_two, crLoop]

theorem diag_isSymm : (!![1, 0; 0, -1] : Matrix (Fin 2) (Fin 2) ℚ).IsSymm := by
  ext i j
  fin_cases i <;> fin_cases j <;> rfl

/-- On the run of `diag_run` every non-zero residual has `r · A r ≠ 0`. -/
theorem diag_run_regular :
    ∀ s ∈ ConjugateResiduals (!![1, 0; 0, -1] : Matrix (Fin 2) (Fin 2) ℚ) id 0 2 ![2, 1] 0,
      s.r ≠ 0 → Matrix.dotProduct s.r
        ((!![1, 0; 0, -1] : Matrix (Fin 2) (Fin 2) ℚ).mulVec s.r) ≠ 0 := by
  intro s hs hr
  rw [diag_run] at hs
  simp only [List.mem_cons, List.mem_singleton, List.not_mem_nil, or_false] at hs
  rcases hs with h | h | h
  · subst h
    simp [Matrix.mulVec, Matrix.dotProduct, Fin.sum_univ_two]
    norm_num
  · subst h
    simp [Matrix.mulVec, Matrix.dotProduct, Fin.sum_univ_two]
    norm_num
  · subst h
    exact absurd rfl hr

/-- C18, amended.  For every symmetric (possibly indefinite) `n × n` matrix `A` and
right-hand side `b` such that no non-zero residual `r` visited by the run has
`r · A r = 0` (no breakdown; so for every definite `A`), the solver without projection,
started from `x = 0` with an iteration limit of `n` and tolerance 0, returns `x` with
`A x = b` in exact arithmetic, after visiting at most `n + 1` states (at most `n`
passes of the loop). -/
theorem cr_solves_without_breakdown {n : ℕ} (A : Matrix (Fin n) (Fin n) ℚ) (hA : A.IsSymm)
    (b : Fin n → ℚ)
    (hreg : ∀ s ∈ ConjugateResiduals A id 0 n b 0,
      s.r ≠ 0 → Matrix.dotProduct s.r (A.mulVec s.r) ≠ 0) :
    A.mulVec (crSolve A id 0 n b 0) = b ∧
    (ConjugateResiduals A id 0 n b 0).length ≤ n + 1 := by
  obtain ⟨k, hk, heq, hx, hstop, hprev⟩ := crSolve_eq A id 0 n b 0
  refine ⟨?_, by rw [heq, List.length_map, List.length_range]; omega⟩
  have hres := cr_residual A b 0 k
  have hzero : ((crStep A id)^[k] (crInit A id b 0)).r = 0 → A.mulVec (crSolve A id 0 n b 0) = b := by
    intro h0
    rw [hx]
    rw [h0] at hres
    exact (sub_eq_zero.mp hres.symm).symm
  have hsq : ∀ i, Matrix.dotProduct ((crStep A id)^[i] (crInit A id b 0)).r
      ((crStep A id)^[i] (crInit A id b 0)).r ≤ 0 ^ 2 →
      ((crStep A id)^[i] (crInit A id b 0)).r = 0 := by
    intro i h
    apply Matrix.dotProduct_self_eq_zero.mp
    have h2 : Matrix.dotProduct ((crStep A id)^[i] (crInit A id b 0)).r
        ((crStep A id)^[i] (crInit A id b 0)).r ≤ 0 := by simpa using h
    exact le_antisymm h2 (dotProduct_self_nonneg_rat _)
  rcases hstop with h | h
  · exact hzero (hsq k h)
  · subst h
    by_contra hne
    have hrk : ((crStep A id)^[k] (crInit A id b 0)).r ≠ 0 := fun h0 => hne (hzero h0)
    have hnz : ∀ i ≤ k, ((crStep A id)^[i] (crInit A id b 0)).r ≠ 0 := by
      intro i hi h0
      rcases Nat.lt_or_ge i k with hlt | hge
      · apply hprev i hlt
        rw [h0, Matrix.dotProduct_zero]
        norm_num
      · have hik : i = k := le_antisymm hi hge
        subst hik
        exact hrk h0
    have hmem : ∀ i ≤ k, (crStep A id)^[i] (crInit A id b 0) ∈
        ConjugateResiduals A id 0 k b 0 := by
      intro i hi
      rw [heq, List.mem_map]
      exact ⟨i, List.mem_range.mpr (Nat.lt_succ_of_le hi), rfl⟩
    have hreg2 : ∀ i ≤ k, Matrix.dotProduct ((crStep A id)^[i] (crInit A id b 0)).r
        (A.mulVec ((crStep A id)^[i] (crInit A id b 0)).r) ≠ 0 :=
      fun i hi => hreg _ (hmem i hi) (hnz i hi)
    have hinv := cr_iterates_invariants A hA b 0 k (fun i hi => hreg2 i (le_of_lt hi))
    apply no_orthogonal_family A
      (fun i : Fin (k + 1) => ((crStep A id)^[(i : ℕ)] (crInit A id b 0)).r)
    · intro i j hij
      have hij2 : (i : ℕ) ≠ (j : ℕ) := fun h => hij (Fin.ext h)
      rcases Nat.lt_or_gt_of_ne hij2 with hlt | hgt
      · exact (hinv j (Nat.lt_succ_iff.mp j.isLt) i hlt).2.2
      · rw [dotProduct_mulVec_symm A hA]
        exact (hinv i (Nat.lt_succ_iff.mp i.isLt) j hgt).2.2
    · intro i
      exact hreg2 i (Nat.lt_succ_iff.mp i.isLt)

/-- Instance of `cr_solves_without_breakdown` for the indefinite matrix `diag(1, -1)` and
`b = (2, 1)`: the solver returns `x` with `A x = b`. -/
theorem cr_solves_without_breakdown_witness :
    (!![1, 0; 0, -1] : Matrix (Fin 2) (Fin 2) ℚ).IsSymm ∧
    (!![1, 0; 0, -1] : Matrix (Fin 2) (Fin 2) ℚ).mulVec
      (crSolve (!![1, 0; 0, -1] : Matrix (Fin 2) (Fin 2) ℚ) id 0 2 ![2, 1] 0) = ![2, 1] :=
  ⟨diag_isSymm, (cr_solves_without_breakdown _ diag_isSymm ![2, 1] diag_run_regular).1⟩

/-- The state at position `k` of the list of visited states is the `k`-th iterate of the
step. -/
theorem crLoop_getElem_some {n : ℕ} (A : Matrix (Fin n) (Fin n) ℚ) (P : (Fin n → ℚ) → Fin n → ℚ)
    (tol : ℚ) (maxIters : ℕ) (s : CRState n) (k : ℕ) (t : CRState n)
    (h : (crLoop A P tol maxIters s)[k]? = some t) : t = (crStep A P)^[k] s := by
  induction maxIters generalizing s k with
  | zero =>
    rw [crLoop] at h
    cases k with
    | zero => exact (Option.some.inj h).symm
    | succ k => simp at h
  | succ m ih =>
    rw [crLoop] at h
    split_ifs at h
    · cases k with
      | zero => exact (Option.some.inj h).symm
      | succ k => simp at h
    · cases k with
      | zero =>
        rw [List.getElem?_cons_zero] at h
        exact (Option.some.inj h).symm
      | succ k =>
        rw [List.getElem?_cons_succ] at h
        exact ih (crStep A P s) k h

/-- One step without projection from a state with `r · A p = r · A r`: the squared norm
of the residual drops by `(r · A r)² / ‖A p‖²`. -/
theorem crStep_norm {n : ℕ} (A : Matrix (Fin n) (Fin n) ℚ) (s : CRState n)
    (hE : Matrix.dotProduct s.r (A.mulVec s.p) = Matrix.dotProduct s.r (A.mulVec s.r)) :
    Matrix.dotProduct (crStep A id s).r (crStep A id s).r =
      Matrix.dotProduct s.r s.r - Matrix.dotProduct s.r (A.mulVec s.r) ^ 2 /
        Matrix.dotProduct (A.mulVec s.p) (A.mulVec s.p) ∧
    Matrix.dotProduct (crStep A id s).r (crStep A id s).r ≤ Matrix.dotProduct s.r s.r ∧
    (Matrix.dotProduct (crStep A id s).r (crStep A id s).r < Matrix.dotProduct s.r s.r ↔
      Matrix.dotProduct s.r (A.mulVec s.r) ≠ 0) := by
  have hc0 := dotProduct_self_nonneg_rat (A.mulVec s.p)
  have key : Matrix.dotProduct (crStep A id s).r (crStep A id s).r =
      Matrix.dotProduct s.r s.r - Matrix.dotProduct s.r (A.mulVec s.r) ^ 2 /
        Matrix.dotProduct (A.mulVec s.p) (A.mulVec s.p) := by
    simp only [crStep, id]
    rw [Matrix.sub_dotProduct, Matrix.dotProduct_sub, Matrix.dotProduct_sub,
      Matrix.smul_dotProduct, Matrix.smul_dotProduct, Matrix.dotProduct_smul,
      Matrix.dotProduct_smul, Matrix.dotProduct_comm (A.mulVec s.p) s.r, hE]
    simp only [smul_eq_mul]
    by_cases hc : Matrix.dotProduct (A.mulVec s.p) (A.mulVec s.p) = 0
    · rw [hc]
      simp
    · field_simp
      ring
  refine ⟨key, ?_, ?_⟩
  · rw [key]
    have : 0 ≤ Matrix.dotProduct s.r (A.mulVec s.r) ^ 2 /
        Matrix.dotProduct (A.mulVec s.p) (A.mulVec s.p) := div_nonneg (sq_nonneg _) hc0
    linarith
  · rw [key]
    constructor
    · intro h ha
      rw [ha] at h
      simp at h
    · intro ha
      have hc : Matrix.dotProduct (A.mulVec s.p) (A.mulVec s.p) ≠ 0 := by
        intro hc
        have hz : A.mulVec s.p = 0 := Matrix.dotProduct_self_eq_zero.mp hc
        rw [hz, Matrix.dotProduct_zero] at hE
        exact ha hE.symm
      have : 0 < Matrix.dotProduct s.r (A.mulVec s.r) ^ 2 /
          Matrix.dotProduct (A.mulVec s.p) (A.mulVec s.p) :=
        div_pos (by positivity) (lt_of_le_of_ne hc0 (Ne.symm hc))
      linarith

/-- C19, counterexample.  The swap matrix `A = [[0, 1], [1, 0]]` is symmetric and
invertible; for `b = (1, 0)`, from `x = 0` with tolerance 0, the recorded residuals
have the squared norms 1, 1, 1: the solver has not converged and the norms do not
decrease. -/
theorem cr_swap_norms_constant :
    (!![0, 1; 1, 0] : Matrix (Fin 2) (Fin 2) ℚ).IsSymm ∧
    (!![0, 1; 1, 0] : Matrix (Fin 2) (Fin 2) ℚ).det = -1 ∧
    (ConjugateResiduals (!![0, 1; 1, 0] : Matrix (Fin 2) (Fin 2) ℚ) id 0 2 ![1, 0] 0).map
      (fun s => Matrix.dotProduct s.r s.r) = [1, 1, 1] := by
  refine ⟨?_, ?_, ?_⟩
  · ext i j
    fin_cases i <;> fin_cases j <;> rfl
  · simp [Matrix.det_fin_two]
  · rw [swap_run]
    simp [Matrix.dotProduct, Fin.sum_univ_two]

/-- C19, amended.  For every matrix `A` and right-hand side `b`, any two consecutive
residuals `r_k`, `r_{k+1}` recorded by the solver without projection satisfy
`‖r_{k+1}‖² = ‖r_k‖² - (r_k · A r_k)² / ‖A p_k‖²`; so the squared norms never increase,
and `‖r_{k+1}‖² < ‖r_k‖²` exactly when `r_k · A r_k ≠ 0`. -/
theorem cr_residual_norms {n : ℕ} (A : Matrix (Fin n) (Fin n) ℚ) (b x0 : Fin n → ℚ)
    (tol : ℚ) (maxIters : ℕ) (k : ℕ) (s t : CRState n)
    (hs : (ConjugateResiduals A id tol maxIters b x0)[k]? = some s)
    (ht : (ConjugateResiduals A id tol maxIters b x0)[k + 1]? = some t) :
    Matrix.dotProduct t.r t.r =
      Matrix.dotProduct s.r s.r - Matrix.dotProduct s.r (A.mulVec s.r) ^ 2 /
        Matrix.dotProduct (A.mulVec s.p) (A.mulVec s.p) ∧
    Matrix.dotProduct t.r t.r ≤ Matrix.dotProduct s.r s.r ∧
    (Matrix.dotProduct t.r t.r < Matrix.dotProduct s.r s.r ↔
      Matrix.dotProduct s.r (A.mulVec s.r) ≠ 0) := by
  have e1 := crLoop_getElem_some A id tol maxIters _ k s hs
  have e2 := crLoop_getElem_some A id tol maxIters _ (k + 1) t ht
  rw [Function.iterate_succ_apply', ← e1] at e2
  rw [e2]
  apply crStep_norm
  rw [e1]
  exact cr_r_dot_Ap A b x0 k

/-- Instance of `cr_residual_norms` for the first two residuals of the run on
`diag(1, -1)` with `b = (2, 1)`: the squared norm drops from 5 to `16/5`. -/
theorem cr_residual_norms_witness :
    Matrix.dotProduct ![(4 / 5 : ℚ), 8 / 5] ![4 / 5, 8 / 5] <
      Matrix.dotProduct ![(2 : ℚ), 1] ![2, 1] ↔
    Matrix.dotProduct ![(2 : ℚ), 1]
      ((!![1, 0; 0, -1] : Matrix (Fin 2) (Fin 2) ℚ).mulVec ![2, 1]) ≠ 0 :=
  (cr_residual_norms (!![1, 0; 0, -1] : Matrix (Fin 2) (Fin 2) ℚ) ![2, 1] 0 0 2 0
    { x := 0, r := ![2, 1], p := ![2, 1] }
    { x := ![6 / 5, 3 / 5], r := ![4 / 5, 8 / 5], p := ![-(12 / 25), 24 / 25] }
    (by rw [diag_run]; rfl) (by rw [diag_run]; rfl)).2.2

/-- A later residual of the iteration without projection is `A`-orthogonal to every
earlier one.  While no residual has `r · A r = 0` this is the invariant of the method;
after the first residual `r_K` with `r_K · A r_K = 0` the iteration stays at `r_K`. -/
theorem cr_iterates_orthogonal {n : ℕ} (A : Matrix (Fin n) (Fin n) ℚ) (hA : A.IsSymm)
    (b x0 : Fin n → ℚ) (i j : ℕ) (hij : i < j) :
    Matrix.dotProduct ((crStep A id)^[j] (crInit A id b x0)).r
      (A.mulVec ((crStep A id)^[i] (crInit A id b x0)).r) = 0 := by
  by_cases hreg : ∀ k < j, Matrix.dotProduct ((crStep A id)^[k] (crInit A id b x0)).r
      (A.mulVec ((crStep A id)^[k] (crInit A id b x0)).r) ≠ 0
  · exact (cr_iterates_invariants A hA b x0 j hreg j le_rfl i hij).2.2
  · have hex : ∃ k, k < j ∧ Matrix.dotProduct ((crStep A id)^[k] (crInit A id b x0)).r
        (A.mulVec ((crStep A id)^[k] (crInit A id b x0)).r) = 0 := by
      by_contra hne
      apply hreg
      intro k hk h0
      exact hne ⟨k, hk, h0⟩
    classical
    obtain ⟨hKj, hK0⟩ := Nat.find_spec hex
    have hmin : ∀ k < Nat.find hex,
        Matrix.dotProduct ((crStep A id)^[k] (crInit A id b x0)).r
          (A.mulVec ((crStep A id)^[k] (crInit A id b x0)).r) ≠ 0 := by
      intro k hk h0
      exact Nat.find_min hex hk ⟨lt_trans hk hKj, h0⟩
    generalize Nat.find hex = K at hKj hK0 hmin
    have hstall : ∀ m, K < m → ((crStep A id)^[m] (crInit A id b x0)).r =
        ((crStep A id)^[K] (crInit A id b x0)).r := by
      intro m hm
      obtain ⟨d, rfl⟩ : ∃ d, m = d + 1 + K := ⟨m - K - 1, by omega⟩
      rw [Function.iterate_add_apply, cr_stalled A _ hK0 d]
    rw [hstall j hKj]
    rcases Nat.lt_trichotomy i K with hlt | heq | hgt
    · exact (cr_iterates_invariants A hA b x0 K hmin K le_rfl i hlt).2.2
    · rw [heq]
      exact hK0
    · rw [hstall i hgt]
      exact hK0

/-- C20 (residuals are `A`-orthogonal).  For every symmetric matrix `A` and right-hand
side `b`, any two distinct residuals `r_i`, `r_j` recorded by the solver without
projection satisfy `r_i · (A r_j) = 0`. -/
theorem cr_residuals_A_orthogonal {n : ℕ} (A : Matrix (Fin n) (Fin n) ℚ) (hA : A.IsSymm)
    (b x0 : Fin n → ℚ) (tol : ℚ) (maxIters : ℕ) (i j : ℕ) (si sj : CRState n)
    (hi : (ConjugateResiduals A id tol maxIters b x0)[i]? = some si)
    (hj : (ConjugateResiduals A id tol maxIters b x0)[j]? = some sj) (hij : i ≠ j) :
    Matrix.dotProduct si.r (A.mulVec sj.r) = 0 := by
  rw [crLoop_getElem_some A id tol maxIters _ i si hi, crLoop_getElem_some A id tol maxIters _ j sj hj]
  rcases Nat.lt_or_gt_of_ne hij with hlt | hgt
  · rw [dotProduct_mulVec_symm A hA]
    exact cr_iterates_orthogonal A hA b x0 i j hlt
  · exact cr_iterates_orthogonal A hA b x0 j i hgt

/-- Instance of `cr_residuals_A_orthogonal` for the first two residuals `(2, 1)` and
`(4/5, 8/5)` of the run on the symmetric indefinite matrix `diag(1, -1)` with
`b = (2, 1)`. -/
theorem cr_residuals_A_orthogonal_witness :
    (!![1, 0; 0, -1] : Matrix (Fin 2) (Fin 2) ℚ).IsSymm ∧
    Matrix.dotProduct ![(2 : ℚ), 1]
      ((!![1, 0; 0, -1] : Matrix (Fin 2) (Fin 2) ℚ).mulVec ![4 / 5, 8 / 5]) = 0 :=
  ⟨diag_isSymm, cr_residuals_A_orthogonal (!![1, 0; 0, -1] : Matrix (Fin 2) (Fin 2) ℚ)
    diag_isSymm ![2, 1] 0 0 2 0 1 { x := 0, r := ![2, 1], p := ![2, 1] }
    { x := ![6 / 5, 3 / 5], r := ![4 / 5, 8 / 5], p := ![-(12 / 25), 24 / 25] }
    (by rw [diag_run]; rfl) (by rw [diag_run]; rfl) (by decide)⟩

/-! ## C21: the search directions of Conjugate Residuals -/

/-- On a run without breakdown (no non-zero residual with `r · A r = 0`), every residual
before a recorded state has `r_k · A r_k ≠ 0`. -/
theorem cr_run_regular_before {n : ℕ} (A : Matrix (Fin n) (Fin n) ℚ) (b x0 : Fin n → ℚ)
    (tol : ℚ) (maxIters : ℕ)
    (hreg : ∀ s ∈ ConjugateResiduals A id tol maxIters b x0,
      s.r ≠ 0 → Matrix.dotProduct s.r (A.mulVec s.r) ≠ 0)
    (j : ℕ) (sj : CRState n) (hj : (ConjugateResiduals A id tol maxIters b x0)[j]? = some sj) :
    ∀ k < j, Matrix.dotProduct ((crStep A id)^[k] (crInit A id b x0)).r
      (A.mulVec ((crStep A id)^[k] (crInit A id b x0)).r) ≠ 0 := by
  obtain ⟨k0, _, heq, _, _, hprev⟩ := crSolve_eq A id tol maxIters b x0
  have hjk : j < k0 + 1 := by
    by_contra hge
    have hnone : (ConjugateResiduals A id tol maxIters b x0)[j]? = none := by
      apply List.getElem?_eq_none
      rw [heq, List.length_map, List.length_range]
      omega
    rw [hnone] at hj
    exact Option.noConfusion hj
  intro k hk
  apply hreg
  · rw [heq, List.mem_map]
    exact ⟨k, List.mem_range.mpr (by omega), rfl⟩
  · intro h0
    apply hprev k (by omega)
    rw [h0, Matrix.dotProduct_zero]
    positivity

/-- C21, counterexample.  The swap matrix `A = [[0, 1], [1, 0]]` is symmetric; for
`b = (1, 0)` from `x = 0` the first two recorded search directions are `p_0 = p_1 = (1, 0)`
and `(A p_0) · (A p_1) = 1`.  Here `r_0 · A r_0 = 0`, so `β = 0/0`; with any value `β` in
its place, `p_1 = r_1 + β p_0` has `(A p_0) · (A p_1) = 1 + β`, which is 0 only for
`β = -1`. -/
theorem cr_swap_directions_not_orthogonal :
    (!![0, 1; 1, 0] : Matrix (Fin 2) (Fin 2) ℚ).IsSymm ∧
    (ConjugateResiduals (!![0, 1; 1, 0] : Matrix (Fin 2) (Fin 2) ℚ) id 0 2 ![1, 0] 0).map
      (fun s => s.p) = [![1, 0], ![1, 0], ![1, 0]] ∧
    Matrix.dotProduct ((!![0, 1; 1, 0] : Matrix (Fin 2) (Fin 2) ℚ).mulVec ![1, 0])
      ((!![0, 1; 1, 0] : Matrix (Fin 2) (Fin 2) ℚ).mulVec ![1, 0]) = 1 ∧
    ∀ β : ℚ, Matrix.dotProduct ((!![0, 1; 1, 0] : Matrix (Fin 2) (Fin 2) ℚ).mulVec ![1, 0])
      ((!![0, 1; 1, 0] : Matrix (Fin 2) (Fin 2) ℚ).mulVec (![1, 0] + β • ![1, 0])) = 1 + β := by
  refine ⟨?_, ?_, ?_, ?_⟩
  · ext i j
    fin_cases i <;> fin_cases j <;> rfl
  · rw [swap_run]
    rfl
  · simp [Matrix.mulVec, Matrix.dotProduct, Fin.sum_univ_two]
  · intro β
    simp [Matrix.mulVec, Matrix.dotProduct, Fin.sum_univ_two]

/-- C21, amended.  For every symmetric matrix `A` and right-hand side `b` such that no
non-zero residual `r` visited by the run has `r · A r = 0` (no breakdown; so for every
definite `A`), any two distinct search directions `p_i`, `p_j` recorded by the solver
without projection satisfy `(A p_i) · (A p_j) = 0`. -/
theorem cr_directions_orthogonal {n : ℕ} (A : Matrix (Fin n) (Fin n) ℚ) (hA : A.IsSymm)
    (b x0 : Fin n → ℚ) (tol : ℚ) (maxIters : ℕ)
    (hreg : ∀ s ∈ ConjugateResiduals A id tol maxIters b x0,
      s.r ≠ 0 → Matrix.dotProduct s.r (A.mulVec s.r) ≠ 0)
    (i j : ℕ) (si sj : CRState n)
    (hi : (ConjugateResiduals A id tol maxIters b x0)[i]? = some si)
    (hj : (ConjugateResiduals A id tol maxIters b x0)[j]? = some sj) (hij : i ≠ j) :
    Matrix.dotProduct (A.mulVec si.p) (A.mulVec sj.p) = 0 := by
  have ri := cr_run_regular_before A b x0 tol maxIters hreg i si hi
  have rj := cr_run_regular_before A b x0 tol maxIters hreg j sj hj
  rw [crLoop_getElem_some A id tol maxIters _ i si hi,
    crLoop_getElem_some A id tol maxIters _ j sj hj]
  rcases Nat.lt_or_gt_of_ne hij with hlt | hgt
  · rw [Matrix.dotProduct_comm]
    exact (cr_iterates_invariants A hA b x0 j rj j le_rfl i hlt).2.1
  · exact (cr_iterates_invariants A hA b x0 i ri i le_rfl j hgt).2.1

/-- Instance of `cr_directions_orthogonal` for the first two search directions `(2, 1)`
and `(-12/25, 24/25)` of the run on the symmetric indefinite matrix `diag(1, -1)` with
`b = (2, 1)`. -/
theorem cr_directions_orthogonal_witness :
    (!![1, 0; 0, -1] : Matrix (Fin 2) (Fin 2) ℚ).IsSymm ∧
    Matrix.dotProduct ((!![1, 0; 0, -1] : Matrix (Fin 2) (Fin 2) ℚ).mulVec ![2, 1])
      ((!![1, 0; 0, -1] : Matrix (Fin 2) (Fin 2) ℚ).mulVec ![-(12 / 25), 24 / 25]) = 0 :=
  ⟨diag_isSymm, cr_directions_orthogonal (!![1, 0; 0, -1] : Matrix (Fin 2) (Fin 2) ℚ)
    diag_isSymm ![2, 1] 0 0 2 diag_run_regular 0 1 { x := 0, r := ![2, 1], p := ![2, 1] }
    { x := ![6 / 5, 3 / 5], r := ![4 / 5, 8 / 5], p := ![-(12 / 25), 24 / 25] }
    (by rw [diag_run]; rfl) (by rw [diag_run]; rfl) (by decide)⟩

/-! ## C23: the linear node index -/

/-- Every index of the storage range is the linear index of a node of the box. -/
theorem coordsToIndex_surj (g : Grid) (hx : 1 ≤ g.m_nx) (hy : 1 ≤ g.m_ny) (idx : ℤ)
    (h0 : 0 ≤ idx) (h1 : idx < g.m_nx * g.m_ny * g.m_nz) :
    ∃ x y z : ℤ, (0 ≤ x ∧ x < g.m_nx) ∧ (0 ≤ y ∧ y < g.m_ny) ∧ (0 ≤ z ∧ z < g.m_nz) ∧
      g.coordsToIndex x y z = idx := by
  have hnx : 0 < g.m_nx := by omega
  have hny : 0 < g.m_ny := by omega
  have q0 : 0 ≤ idx / g.m_nx := Int.ediv_nonneg h0 hnx.le
  have q1 : idx / g.m_nx < g.m_ny * g.m_nz := by
    apply Int.ediv_lt_of_lt_mul hnx
    calc idx < g.m_nx * g.m_ny * g.m_nz := h1
      _ = g.m_ny * g.m_nz * g.m_nx := by ring
  refine ⟨idx % g.m_nx, idx / g.m_nx % g.m_ny, idx / g.m_nx / g.m_ny,
    ⟨Int.emod_nonneg _ (ne_of_gt hnx), Int.emod_lt_of_pos _ hnx⟩,
    ⟨Int.emod_nonneg _ (ne_of_gt hny), Int.emod_lt_of_pos _ hny⟩,
    ⟨Int.ediv_nonneg q0 hny.le, ?_⟩, ?_⟩
  · apply Int.ediv_lt_of_lt_mul hny
    calc idx / g.m_nx < g.m_ny * g.m_nz := q1
      _ = g.m_nz * g.m_ny := by ring
  · unfold Grid.coordsToIndex
    have e1 : idx / g.m_nx % g.m_ny + idx / g.m_nx / g.m_ny * g.m_ny = idx / g.m_nx := by
      rw [mul_comm]
      exact Int.emod_add_ediv _ _
    rw [e1]
    exact Int.emod_add_ediv _ _

/-- C23 (the node linear index is a bijection onto the storage range).  For all grid
dimensions `n_x, n_y, n_z ≥ 1`, `coordsToIndex(x, y, z) = x + n_x * (y + n_y * z)` maps the
box `0 ≤ x < n_x`, `0 ≤ y < n_y`, `0 ≤ z < n_z` into `[0, n_x * n_y * n_z)`, injectively and
onto; so distinct nodes have distinct mass slots `idx` and disjoint velocity slots
`3 idx, 3 idx + 1, 3 idx + 2`. -/
theorem coordsToIndex_bijection (g : Grid) (hx : 1 ≤ g.m_nx) (hy : 1 ≤ g.m_ny)
    (_hz : 1 ≤ g.m_nz) :
    (∀ x y z : ℤ, g.coordsToIndex x y z = x + g.m_nx * (y + g.m_ny * z)) ∧
    (∀ x y z : ℤ, 0 ≤ x ∧ x < g.m_nx → 0 ≤ y ∧ y < g.m_ny → 0 ≤ z ∧ z < g.m_nz →
      0 ≤ g.coordsToIndex x y z ∧ g.coordsToIndex x y z < g.m_nx * g.m_ny * g.m_nz) ∧
    (∀ x y z x2 y2 z2 : ℤ, 0 ≤ x ∧ x < g.m_nx → 0 ≤ y ∧ y < g.m_ny → 0 ≤ z ∧ z < g.m_nz →
      0 ≤ x2 ∧ x2 < g.m_nx → 0 ≤ y2 ∧ y2 < g.m_ny → 0 ≤ z2 ∧ z2 < g.m_nz →
      (x, y, z) ≠ (x2, y2, z2) →
      g.coordsToIndex x y z ≠ g.coordsToIndex x2 y2 z2 ∧
      ∀ s t : ℤ, 0 ≤ s ∧ s < 3 → 0 ≤ t ∧ t < 3 →
        3 * g.coordsToIndex x y z + s ≠ 3 * g.coordsToIndex x2 y2 z2 + t) ∧
    (∀ idx : ℤ, 0 ≤ idx → idx < g.m_nx * g.m_ny * g.m_nz →
      ∃ x y z : ℤ, (0 ≤ x ∧ x < g.m_nx) ∧ (0 ≤ y ∧ y < g.m_ny) ∧ (0 ≤ z ∧ z < g.m_nz) ∧
        g.coordsToIndex x y z = idx) := by
  refine ⟨?_, ?_, ?_, ?_⟩
  · intro x y z
    unfold Grid.coordsToIndex
    ring
  · intro x y z h1 h2 h3
    exact coordsToIndex_range g x y z h1.1 h1.2 h2.1 h2.2 h3.1 h3.2
  · intro x y z x2 y2 z2 h1 h2 _ h4 h5 _ hne
    have hidx : g.coordsToIndex x y z ≠ g.coordsToIndex x2 y2 z2 := by
      intro h
      obtain ⟨e1, e2, e3⟩ := coordsToIndex_inj g x y z x2 y2 z2 h1.1 h1.2 h2.1 h2.2 h4.1 h4.2
        h5.1 h5.2 h
      exact hne (by rw [e1, e2, e3])
    refine ⟨hidx, ?_⟩
    intro s t hs ht h
    apply hidx
    omega
  · intro idx h0 h1
    exact coordsToIndex_surj g hx hy idx h0 h1

/-- Instance of `coordsToIndex_bijection` on the 4 × 4 × 4 grid of the rest particle: the
slot 21 belongs to a node of the box. -/
theorem coordsToIndex_bijection_witness :
    ∃ x y z : ℤ, (0 ≤ x ∧ x < (Grid.Grid [restParticle]).m_nx) ∧
      (0 ≤ y ∧ y < (Grid.Grid [restParticle]).m_ny) ∧
      (0 ≤ z ∧ z < (Grid.Grid [restParticle]).m_nz) ∧
      (Grid.Grid [restParticle]).coordsToIndex x y z = 21 :=
  (coordsToIndex_bijection (Grid.Grid [restParticle])
    (by rw [restGrid_geometry.1]; norm_num) (by rw [restGrid_geometry.2.1]; norm_num)
    (by rw [restGrid_geometry.2.2.1]; norm_num)).2.2.2 21 (by norm_num)
    (by rw [restGrid_geometry.1, restGrid_geometry.2.1, restGrid_geometry.2.2.1]; norm_num)

/-! ## C28: the rotation-differential system is not singular -/

/-- The quadratic form of `G` is the sum of the quadratic form of `S` at three vectors
built from `w`. -/
theorem computeRdifferentialG_form (S : Matrix3f) (hS : S.transpose = S) (w : Vector3f) :
    Matrix.dotProduct w ((Grid.computeRdifferentialG S).mulVec w) =
      Matrix.dotProduct ![0, -w 0, -w 1] (S.mulVec ![0, -w 0, -w 1]) +
      Matrix.dotProduct ![w 0, 0, -w 2] (S.mulVec ![w 0, 0, -w 2]) +
      Matrix.dotProduct ![w 1, w 2, 0] (S.mulVec ![w 1, w 2, 0]) := by
  have s10 : S 1 0 = S 0 1 := by
    have := congrFun (congrFun hS 0) 1
    rwa [Matrix.transpose_apply] at this
  have s20 : S 2 0 = S 0 2 := by
    have := congrFun (congrFun hS 0) 2
    rwa [Matrix.transpose_apply] at this
  have s21 : S 2 1 = S 1 2 := by
    have := congrFun (congrFun hS 1) 2
    rwa [Matrix.transpose_apply] at this
  simp [Grid.computeRdifferentialG, Matrix.mulVec, Matrix.dotProduct, Fin.sum_univ_three,
    Matrix.vecHead, Matrix.vecTail, s10, s20, s21]
  ring

/-- C28 (the rotation-differential system is never singular for a valid polar factor).
For every symmetric positive-definite `S`, the matrix `G` built in `computeRdifferential`
is symmetric and positive definite, hence `det G ≠ 0`, and `G.inverse()` is the inverse
of `G`. -/
theorem rotation_system_positive_definite (S : Matrix3f) (hS : S.transpose = S)
    (hpos : ∀ x : Vector3f, x ≠ 0 → 0 < Matrix.dotProduct x (S.mulVec x)) :
    (Grid.computeRdifferentialG S).transpose = Grid.computeRdifferentialG S ∧
    (∀ w : Vector3f, w ≠ 0 →
      0 < Matrix.dotProduct w ((Grid.computeRdifferentialG S).mulVec w)) ∧
    (Grid.computeRdifferentialG S).det ≠ 0 ∧
    Grid.computeRdifferentialG S * inverse (Grid.computeRdifferentialG S) = 1 ∧
    inverse (Grid.computeRdifferentialG S) * Grid.computeRdifferentialG S = 1 := by
  have hnn : ∀ x : Vector3f, 0 ≤ Matrix.dotProduct x (S.mulVec x) := by
    intro x
    by_cases hx : x = 0
    · rw [hx, Matrix.dotProduct_comm, Matrix.dotProduct_zero]
    · exact (hpos x hx).le
  have hG : ∀ w : Vector3f, w ≠ 0 →
      0 < Matrix.dotProduct w ((Grid.computeRdifferentialG S).mulVec w) := by
    intro w hw
    rw [computeRdifferentialG_form S hS w]
    have h0 := hnn ![0, -w 0, -w 1]
    have h1 := hnn ![w 0, 0, -w 2]
    have h2 := hnn ![w 1, w 2, 0]
    by_cases hw0 : w 0 = 0
    · have hc : (![w 1, w 2, 0] : Vector3f) ≠ 0 := by
        intro h
        apply hw
        funext t
        have e1 := congrFun h 0
        have e2 := congrFun h 1
        simp at e1 e2
        fin_cases t
        · exact hw0
        · exact e1
        · exact e2
      have := hpos _ hc
      linarith
    · have hc : (![w 0, 0, -w 2] : Vector3f) ≠ 0 := by
        intro h
        have e1 := congrFun h 0
        simp at e1
        exact hw0 e1
      have := hpos _ hc
      linarith
  have hdet : (Grid.computeRdifferentialG S).det ≠ 0 := by
    intro h0
    obtain ⟨v, hv, hv0⟩ := Matrix.exists_mulVec_eq_zero_iff.mpr h0
    have := hG v hv
    rw [hv0, Matrix.dotProduct_zero] at this
    exact lt_irrefl _ this
  have hmul := mul_inverse _ hdet
  exact ⟨computeRdifferentialG_transpose S, hG, hdet, hmul, Matrix.mul_eq_one_comm.mp hmul⟩

/-- Instance of `rotation_system_positive_definite` for `S = I`, the polar factor of an
undeformed particle. -/
theorem rotation_system_positive_definite_witness :
    (Grid.computeRdifferentialG 1).det ≠ 0 ∧
    Grid.computeRdifferentialG 1 * inverse (Grid.computeRdifferentialG 1) = 1 :=
  have h := rotation_system_positive_definite 1 Matrix.transpose_one
    (fun x hx => by
      rw [Matrix.one_mulVec]
      apply lt_of_le_of_ne (dotProduct_self_nonneg_rat x)
      intro h0
      exact hx (Matrix.dotProduct_self_eq_zero.mp h0.symm))
  ⟨h.2.2.1, h.2.2.2.1⟩

/-! ## C27: rigid translation -/

/-- A grid velocity field that is the same vector `u` at every node gives every particle a
zero velocity gradient. -/
theorem delV_uniform (g : Grid) (d : ParticleData) (hc : g.Contains d) (u : Vector3f)
    (hu : ∀ a b c : ℤ, 0 ≤ a ∧ a < g.m_nx → 0 ≤ b ∧ b < g.m_ny → 0 ≤ c ∧ c < g.m_nz →
      segment3 g.m_gridVelocities (3 * g.coordsToIndex a b c) = u)
    (p : Particle) (hp : p ∈ d) : g.delV p.particleX = 0 := by
  obtain ⟨⟨x1, x2⟩, ⟨y1, y2⟩, ⟨z1, z2⟩⟩ := hc p hp
  have e : stencil.map (fun s => Matrix.vecMulVec
        (segment3 g.m_gridVelocities
          (3 * g.stencilIndex (g.cellAndWeights p.particleX) s.1 s.2.1 s.2.2))
        ((g.cellAndWeights p.particleX).weightGrad s.1 s.2.1 s.2.2)) =
      stencil.map (fun s => Matrix.vecMulVec u
        ((g.cellAndWeights p.particleX).weightGrad s.1 s.2.1 s.2.2)) := by
    apply List.map_congr_left
    intro s hs
    obtain ⟨h1, h2, h3⟩ := mem_stencil s hs
    unfold Grid.stencilIndex
    rw [hu _ _ _ (by omega) (by omega) (by omega)]
  rw [delV_eq_sum, e, sum_map_vecMulVec,
    stencil_sum_eq_forStencil (fun i j k => (g.cellAndWeights p.particleX).weightGrad i j k),
    weightGrad_stencil_sum]
  ext i j
  simp [Matrix.vecMulVec_apply]

/-- C27 (rigid translation does not deform).  With plasticity disabled, if every grid node
carries the same velocity vector `u`, then for every particle `p` of a particle set whose
stencils the grid contains, `updateDeformationGradients` computes a zero velocity
gradient and leaves `F_p` equal to its previous value. -/
theorem rigid_translation_no_deformation (svd : Matrix3f → Matrix3f × Vector3f × Matrix3f)
    (polar : Matrix3f → Matrix3f × Matrix3f) (expf : ℚ → ℚ) (g : Grid) (d : ParticleData)
    (hc : g.Contains d) (u : Vector3f)
    (hu : ∀ a b c : ℤ, 0 ≤ a ∧ a < g.m_nx → 0 ≤ b ∧ b < g.m_ny → 0 ≤ c ∧ c < g.m_nz →
      segment3 g.m_gridVelocities (3 * g.coordsToIndex a b c) = u) :
    (∀ p ∈ d, g.delV p.particleX = 0) ∧
    (Grid.updateDeformationGradients false svd polar expf g d).map (fun p => p.particleF) =
      d.map (fun p => p.particleF) := by
  refine ⟨fun p hp => delV_uniform g d hc u hu p hp, ?_⟩
  unfold Grid.updateDeformationGradients
  rw [List.map_map]
  apply List.map_congr_left
  intro p hp
  simp only [Function.comp_apply]
  rw [updateDeformationGradient_F]
  unfold Grid.trialF
  rw [delV_uniform g d hc u hu p hp, smul_zero, add_zero, one_mul]

theorem driftingGrid_uniform (a b c : ℤ) (ha : 0 ≤ a ∧ a < driftingGrid.m_nx)
    (hb : 0 ≤ b ∧ b < driftingGrid.m_ny) (hc : 0 ≤ c ∧ c < driftingGrid.m_nz) :
    segment3 driftingGrid.m_gridVelocities (3 * driftingGrid.coordsToIndex a b c) =
      ![1, 1, 1] := by
  obtain ⟨r0, r1⟩ := coordsToIndex_range driftingGrid a b c ha.1 ha.2 hb.1 hb.2 hc.1 hc.2
  show segment3 (List.replicate (Grid.Grid [restParticle]).m_gridVelocities.length 1) _ = _
  apply segment3_replicate _ _ _ r0
  rw [Grid_velocities_length]
  apply (Int.toNat_lt_toNat (by
    have h1 : driftingGrid.m_nx = (Grid.Grid [restParticle]).m_nx := rfl
    have h2 : driftingGrid.m_ny = (Grid.Grid [restParticle]).m_ny := rfl
    have h3 : driftingGrid.m_nz = (Grid.Grid [restParticle]).m_nz := rfl
    rw [← h1, ← h2, ← h3]
    omega)).mpr
  have h1 : driftingGrid.m_nx = (Grid.Grid [restParticle]).m_nx := rfl
  have h2 : driftingGrid.m_ny = (Grid.Grid [restParticle]).m_ny := rfl
  have h3 : driftingGrid.m_nz = (Grid.Grid [restParticle]).m_nz := rfl
  rw [← h1, ← h2, ← h3]
  omega

/-- Instance of `rigid_translation_no_deformation` for the rest particle on the drifting
grid, where every node has the velocity `(1, 1, 1)`. -/
theorem rigid_translation_no_deformation_witness :
    (Grid.updateDeformationGradients false svdDiagonal polarSymmetric (fun _ => 1)
      driftingGrid [restParticle]).map (fun p => p.particleF) = [1] :=
  (rigid_translation_no_deformation svdDiagonal polarSymmetric (fun _ => 1) driftingGrid
    [restParticle] (Grid_contains [restParticle]) ![1, 1, 1] driftingGrid_uniform).2
/-! ## C24: the collision response -/

/-- The normalised vector has unit length when the vector is not zero and the square root
is exact at its squared length. -/
theorem normalize_dot_self (sqrtf : ℚ → ℚ) (v : Vector3f) (hv : v ≠ 0)
    (hsqrt : sqrtf (Matrix.dotProduct v v) * sqrtf (Matrix.dotProduct v v) =
      Matrix.dotProduct v v) :
    Matrix.dotProduct (normalize sqrtf v) (normalize sqrtf v) = 1 := by
  have hne : Matrix.dotProduct v v ≠ 0 := fun h => hv (Matrix.dotProduct_self_eq_zero.mp h)
  have hN : sqrtf (Matrix.dotProduct v v) ≠ 0 := by
    intro h
    rw [h, mul_zero] at hsqrt
    exact hne hsqrt.symm
  have e : Matrix.dotProduct (normalize sqrtf v) (normalize sqrtf v) =
      Matrix.dotProduct v v / (sqrtf (Matrix.dotProduct v v) * sqrtf (Matrix.dotProduct v v)) := by
    simp only [normalize, norm, Matrix.dotProduct, Fin.sum_univ_three]
    field_simp
  rw [e, hsqrt, div_self hne]

/-- The component along `n` of the tangential part `v - (n · v) n` of a vector is
`(n · v) (1 - n · n)`: zero exactly when `n · v = 0` or `n` has unit length. -/
theorem dot_tangent (n v : Vector3f) :
    Matrix.dotProduct n (v - Matrix.dotProduct n v • n) =
      Matrix.dotProduct n v * (1 - Matrix.dotProduct n n) := by
  rw [Matrix.dotProduct_sub, Matrix.dotProduct_smul, smul_eq_mul]
  ring

/-- The collision response away from a head-on impact (C24).  For a single collision
surface whose gradient `G` at the node is not zero and has a non-zero norm, with `n` the
normalised gradient, `v*` the predicted velocity and `v_tan = v* - (n · v*) n`: every node
with `m_i > 0`, `phi(x_i) ≤ 0` and `n · v* < 0` is marked collided; when `|v_tan|`, the
divisor of the friction line, is not zero, the velocity `w` the node holds after the
response (the right-hand side holds `m_i * w`) is the scalar multiple
`(1 + mu_f (n · v*) / |v_tan|) v_tan`, its normal component is that scalar times
`(n · v*) (1 - n · n)`, and it is `0` when the square root is exact at `G · G`, so that
`n` has unit length.  Every node with `m_i > 0` and `phi(x_i) > 0` or `n · v* ≥ 0` keeps
`v*` and is marked not collided. -/
theorem collision_removes_normal_component (sqrtf : ℚ → ℚ) (g : Grid) (d : ParticleData)
    (obj : CollisionObject)
    (hm : g.m_gridMasses.length = (g.m_nx * g.m_ny * g.m_nz).toNat)
    (hv : g.m_gridVelocities.length = (g.m_nx * g.m_ny * g.m_nz * 3).toNat) (a b c : ℤ)
    (ha : 0 ≤ a ∧ a < g.m_nx) (hb : 0 ≤ b ∧ b < g.m_ny) (hc : 0 ≤ c ∧ c < g.m_nz)
    (hpos : 0 < coeff g.m_gridMasses (g.coordsToIndex a b c))
    (hgrad : obj.grad (g.nodeX a b c) ≠ 0)
    (_hnorm : norm sqrtf (obj.grad (g.nodeX a b c)) ≠ 0) :
    (obj.phi (g.nodeX a b c) ≤ 0 ∧
      Matrix.dotProduct (normalize sqrtf (obj.grad (g.nodeX a b c)))
        (g.predictedVelocity d a b c) < 0 →
      flag (g.updateGridVelocitiesRhs sqrtf d [obj]).1.m_nodeCollided
        (g.coordsToIndex a b c) = true ∧
      (norm sqrtf (g.predictedVelocity d a b c -
          Matrix.dotProduct (normalize sqrtf (obj.grad (g.nodeX a b c)))
            (g.predictedVelocity d a b c) • normalize sqrtf (obj.grad (g.nodeX a b c))) ≠ 0 →
        ∃ w : Vector3f,
          segment3 (g.updateGridVelocitiesRhs sqrtf d [obj]).2 (3 * g.coordsToIndex a b c) =
            coeff g.m_gridMasses (g.coordsToIndex a b c) • w ∧
          w = (1 + COULOMBFRICTION *
              Matrix.dotProduct (normalize sqrtf (obj.grad (g.nodeX a b c)))
                (g.predictedVelocity d a b c) /
              norm sqrtf (g.predictedVelocity d a b c -
                Matrix.dotProduct (normalize sqrtf (obj.grad (g.nodeX a b c)))
                  (g.predictedVelocity d a b c) • normalize sqrtf (obj.grad (g.nodeX a b c)))) •
            (g.predictedVelocity d a b c -
              Matrix.dotProduct (normalize sqrtf (obj.grad (g.nodeX a b c)))
                (g.predictedVelocity d a b c) • normalize sqrtf (obj.grad (g.nodeX a b c))) ∧
          Matrix.dotProduct (normalize sqrtf (obj.grad (g.nodeX a b c))) w =
            (1 + COULOMBFRICTION *
              Matrix.dotProduct (normalize sqrtf (obj.grad (g.nodeX a b c)))
                (g.predictedVelocity d a b c) /
              norm sqrtf (g.predictedVelocity d a b c -
                Matrix.dotProduct (normalize sqrtf (obj.grad (g.nodeX a b c)))
                  (g.predictedVelocity d a b c) • normalize sqrtf (obj.grad (g.nodeX a b c)))) *
            (Matrix.dotProduct (normalize sqrtf (obj.grad (g.nodeX a b c)))
                (g.predictedVelocity d a b c) *
              (1 - Matrix.dotProduct (normalize sqrtf (obj.grad (g.nodeX a b c)))
                (normalize sqrtf (obj.grad (g.nodeX a b c))))) ∧
          (sqrtf (Matrix.dotProduct (obj.grad (g.nodeX a b c)) (obj.grad (g.nodeX a b c))) *
              sqrtf (Matrix.dotProduct (obj.grad (g.nodeX a b c)) (obj.grad (g.nodeX a b c))) =
            Matrix.dotProduct (obj.grad (g.nodeX a b c)) (obj.grad (g.nodeX a b c)) →
            Matrix.dotProduct (normalize sqrtf (obj.grad (g.nodeX a b c))) w = 0))) ∧
    (¬ (obj.phi (g.nodeX a b c) ≤ 0 ∧
      Matrix.dotProduct (normalize sqrtf (obj.grad (g.nodeX a b c)))
        (g.predictedVelocity d a b c) < 0) →
      flag (g.updateGridVelocitiesRhs sqrtf d [obj]).1.m_nodeCollided
        (g.coordsToIndex a b c) = false ∧
      segment3 (g.updateGridVelocitiesRhs sqrtf d [obj]).2 (3 * g.coordsToIndex a b c) =
        coeff g.m_gridMasses (g.coordsToIndex a b c) • g.predictedVelocity d a b c) := by
  have hne : coeff g.m_gridMasses (g.coordsToIndex a b c) ≠ 0 := ne_of_gt hpos
  have hrhs : segment3 (g.updateGridVelocitiesRhs sqrtf d [obj]).2
      (3 * g.coordsToIndex a b c) = coeff g.m_gridMasses (g.coordsToIndex a b c) •
        (Grid.applyCollisions sqrtf [obj] (g.nodeX a b c) (g.predictedVelocity d a b c)
          false).1 :=
    updateGridVelocitiesRhs_node sqrtf g d [obj] hm hv a b c ha hb hc hne
  have hflag : flag (g.updateGridVelocitiesRhs sqrtf d [obj]).1.m_nodeCollided
      (g.coordsToIndex a b c) =
      (Grid.applyCollisions sqrtf [obj] (g.nodeX a b c) (g.predictedVelocity d a b c)
        false).2 := by
    have := updateGridVelocitiesRhs_flag sqrtf g d [obj] hm hv a b c ha hb hc
    rw [if_neg hne] at this
    exact this
  constructor
  · rintro ⟨hphi, hdot⟩
    have hs : Grid.applyCollisions sqrtf [obj] (g.nodeX a b c) (g.predictedVelocity d a b c)
        false =
        ((1 + COULOMBFRICTION * Matrix.dotProduct (normalize sqrtf (obj.grad (g.nodeX a b c)))
            (g.predictedVelocity d a b c) /
          norm sqrtf (g.predictedVelocity d a b c -
            Matrix.dotProduct (normalize sqrtf (obj.grad (g.nodeX a b c)))
              (g.predictedVelocity d a b c) • normalize sqrtf (obj.grad (g.nodeX a b c)))) •
          (g.predictedVelocity d a b c -
            Matrix.dotProduct (normalize sqrtf (obj.grad (g.nodeX a b c)))
              (g.predictedVelocity d a b c) • normalize sqrtf (obj.grad (g.nodeX a b c))),
          true) := by
      simp only [Grid.applyCollisions, List.foldl_cons, List.foldl_nil, hphi, if_true, hdot]
    rw [hflag, hrhs, hs]
    refine ⟨rfl, fun _ => ⟨_, rfl, rfl, ?_, ?_⟩⟩
    · rw [Matrix.dotProduct_smul, dot_tangent, smul_eq_mul]
    · intro hsqrt
      rw [Matrix.dotProduct_smul, dot_tangent, normalize_dot_self sqrtf _ hgrad hsqrt,
        sub_self, mul_zero, smul_zero]
  · intro hnot
    have hs := applyCollisions_none sqrtf [obj] (g.nodeX a b c) (g.predictedVelocity d a b c)
      false (fun o ho => by rw [List.mem_singleton.mp ho]; exact hnot)
    rw [hflag, hrhs, hs]
    exact ⟨rfl, rfl⟩

/-- Instance of `collision_removes_normal_component` at the node `(1, 1, 1)` of the grid
of the diving particle with the floor plane `y = 0`: the node lies below the floor, its
predicted velocity `(1, -4.098, 0)` points into it and `v_tan = (1, 0, 0)` is not zero, so
the node is marked collided and the velocity it holds has no component along `(0, 1, 0)`. -/
theorem collision_removes_normal_component_witness :
    flag ((Grid.Grid [divingParticle]).updateGridVelocitiesRhs sqrtExact [divingParticle]
      [floorPlane]).1.m_nodeCollided ((Grid.Grid [divingParticle]).coordsToIndex 1 1 1) =
      true ∧
    ∃ w : Vector3f,
      segment3 ((Grid.Grid [divingParticle]).updateGridVelocitiesRhs sqrtExact [divingParticle]
        [floorPlane]).2 (3 * (Grid.Grid [divingParticle]).coordsToIndex 1 1 1) =
        coeff (Grid.Grid [divingParticle]).m_gridMasses
          ((Grid.Grid [divingParticle]).coordsToIndex 1 1 1) • w ∧
      Matrix.dotProduct ![0, 1, 0] w = 0 := by
  have hgeo := originGrid_geometry divingParticle rfl
  have hpos : 0 < coeff (Grid.Grid [divingParticle]).m_gridMasses
      ((Grid.Grid [divingParticle]).coordsToIndex 1 1 1) := by
    rw [originGrid_mass divingParticle rfl]
    norm_num [divingParticle, restParticle]
  have hn : norm sqrtExact ![0, 1, 0] = 1 := by
    simp [norm, Matrix.dotProduct, Fin.sum_univ_three, sqrtExact_one]
  have hnorm : normalize sqrtExact ![0, 1, 0] = ![0, 1, 0] := by
    funext t
    simp [normalize, hn]
  have hgr : ∀ x : Vector3f, floorPlane.grad x = ![0, 1, 0] := fun _ => rfl
  have hp : (Grid.Grid [divingParticle]).predictedVelocity [divingParticle] 1 1 1 =
      ![1, -(2049 / 500), 0] := divingGrid_predicted
  have hdotv : Matrix.dotProduct ![(0 : ℚ), 1, 0] ![1, -(2049 / 500), 0] = -(2049 / 500) := by
    simp [Matrix.dotProduct, Fin.sum_univ_three]
  have htan : (![1, -(2049 / 500), 0] : Vector3f) - (-(2049 / 500) : ℚ) • ![(0 : ℚ), 1, 0] =
      ![1, 0, 0] := by
    funext t
    fin_cases t <;> simp
  have key := (collision_removes_normal_component sqrtExact (Grid.Grid [divingParticle])
    [divingParticle] floorPlane (Grid_masses_length _) (Grid_velocities_length _) 1 1 1
    (by rw [hgeo.1]; omega) (by rw [hgeo.2.1]; omega) (by rw [hgeo.2.2.1]; omega) hpos
    (by
      intro h
      have := congrFun h 1
      simp [floorPlane] at this)
    (by rw [hgr, hn]; norm_num)).1
    ⟨by
      show GRID_H * ((1 : ℤ) : ℚ) + (Grid.Grid [divingParticle]).m_ymin ≤ 0
      rw [hgeo.2.2.2.2.1]
      norm_num [GRID_H],
    by
      rw [hgr, hnorm, hp, hdotv]
      norm_num⟩
  obtain ⟨hflag, himp⟩ := key
  refine ⟨hflag, ?_⟩
  obtain ⟨w, h1, _, _, h4⟩ := himp (by
    rw [hgr, hnorm, hp, hdotv, htan]
    simp [norm, Matrix.dotProduct, Fin.sum_univ_three, sqrtExact_one])
  refine ⟨w, h1, ?_⟩
  have h5 := h4 (by
    rw [hgr]
    simp [Matrix.dotProduct, Fin.sum_univ_three, sqrtExact_one])
  rw [hgr, hnorm] at h5
  exact h5

theorem dEdF_fallingParticle : Grid.dEdF fallingParticle = 0 := by
  simp [Grid.dEdF, fallingParticle, restParticle]

/-- The predicted velocity `v* = v + dt * f / m` at the node `(1, 1, 1)` of the grid of
the falling particle: the particle velocity plus one step of gravity. -/
theorem fallingGrid_predicted :
    (Grid.Grid [fallingParticle]).predictedVelocity [fallingParticle] 1 1 1 =
      ![0, -(549 / 500), 0] := by
  have hm1 : fallingParticle.particleM = 1 := rfl
  unfold Grid.predictedVelocity
  rw [originGrid_velocity fallingParticle rfl (by rw [hm1]; norm_num),
    originGrid_force fallingParticle rfl dEdF_fallingParticle,
    originGrid_mass fallingParticle rfl, hm1]
  funext t
  fin_cases t <;> norm_num [fallingParticle, TIME_STEP, GRAVITY]

/-- C24, failing input.  On the grid of the falling particle (at the origin, velocity
`(0, -1, 0)`, scenario 5 of the spec) with the floor plane `y = 0`, the node `(1, 1, 1)`
has positive mass, lies below the floor (`phi ≤ 0`), the gradient there is `(0, 1, 0)`,
of norm 1, and the predicted velocity is `v* = (0, -1.098, 0)`, so `n · v* = -1.098 < 0`:
the node is marked collided.  The impact is head-on: `v_tan = v* - (n · v*) n` is the zero
vector and `|v_tan| = 0`, so the friction line `v_tan * (1 + mu_f (n · v*) / |v_tan|)`
divides by zero. -/
theorem collision_head_on_divides_by_zero :
    0 < coeff (Grid.Grid [fallingParticle]).m_gridMasses
      ((Grid.Grid [fallingParticle]).coordsToIndex 1 1 1) ∧
    floorPlane.phi ((Grid.Grid [fallingParticle]).nodeX 1 1 1) ≤ 0 ∧
    floorPlane.grad ((Grid.Grid [fallingParticle]).nodeX 1 1 1) = ![0, 1, 0] ∧
    norm sqrtExact (floorPlane.grad ((Grid.Grid [fallingParticle]).nodeX 1 1 1)) = 1 ∧
    (Grid.Grid [fallingParticle]).predictedVelocity [fallingParticle] 1 1 1 =
      ![0, -(549 / 500), 0] ∧
    Matrix.dotProduct
      (normalize sqrtExact (floorPlane.grad ((Grid.Grid [fallingParticle]).nodeX 1 1 1)))
      ((Grid.Grid [fallingParticle]).predictedVelocity [fallingParticle] 1 1 1) =
      -(549 / 500) ∧
    flag ((Grid.Grid [fallingParticle]).updateGridVelocitiesRhs sqrtExact [fallingParticle]
      [floorPlane]).1.m_nodeCollided ((Grid.Grid [fallingParticle]).coordsToIndex 1 1 1) =
      true ∧
    (Grid.Grid [fallingParticle]).predictedVelocity [fallingParticle] 1 1 1 -
      Matrix.dotProduct
        (normalize sqrtExact (floorPlane.grad ((Grid.Grid [fallingParticle]).nodeX 1 1 1)))
        ((Grid.Grid [fallingParticle]).predictedVelocity [fallingParticle] 1 1 1) •
        normalize sqrtExact (floorPlane.grad ((Grid.Grid [fallingParticle]).nodeX 1 1 1)) =
      0 ∧
    norm sqrtExact ((Grid.Grid [fallingParticle]).predictedVelocity [fallingParticle] 1 1 1 -
      Matrix.dotProduct
        (normalize sqrtExact (floorPlane.grad ((Grid.Grid [fallingParticle]).nodeX 1 1 1)))
        ((Grid.Grid [fallingParticle]).predictedVelocity [fallingParticle] 1 1 1) •
        normalize sqrtExact (floorPlane.grad ((Grid.Grid [fallingParticle]).nodeX 1 1 1))) =
      0 := by
  have hgeo := originGrid_geometry fallingParticle rfl
  have hmass := originGrid_mass fallingParticle rfl
  have hpos : 0 < coeff (Grid.Grid [fallingParticle]).m_gridMasses
      ((Grid.Grid [fallingParticle]).coordsToIndex 1 1 1) := by
    rw [hmass]
    norm_num [fallingParticle, restParticle]
  have hn : norm sqrtExact ![0, 1, 0] = 1 := by
    simp [norm, Matrix.dotProduct, Fin.sum_univ_three, sqrtExact_one]
  have hnorm : normalize sqrtExact ![0, 1, 0] = ![0, 1, 0] := by
    funext t
    simp [normalize, hn]
  have hgr : ∀ x : Vector3f, floorPlane.grad x = ![0, 1, 0] := fun _ => rfl
  have hp := fallingGrid_predicted
  have hdotv : Matrix.dotProduct ![(0 : ℚ), 1, 0] ![0, -(549 / 500), 0] = -(549 / 500) := by
    simp [Matrix.dotProduct, Fin.sum_univ_three]
  have htan : (![0, -(549 / 500), 0] : Vector3f) - (-(549 / 500) : ℚ) • ![(0 : ℚ), 1, 0] =
      0 := by
    funext t
    fin_cases t <;> simp
  have hphi : floorPlane.phi ((Grid.Grid [fallingParticle]).nodeX 1 1 1) ≤ 0 := by
    show GRID_H * ((1 : ℤ) : ℚ) + (Grid.Grid [fallingParticle]).m_ymin ≤ 0
    rw [hgeo.2.2.2.2.1]
    norm_num [GRID_H]
  have hflag : flag ((Grid.Grid [fallingParticle]).updateGridVelocitiesRhs sqrtExact
      [fallingParticle] [floorPlane]).1.m_nodeCollided
      ((Grid.Grid [fallingParticle]).coordsToIndex 1 1 1) = true := by
    have h := updateGridVelocitiesRhs_flag sqrtExact (Grid.Grid [fallingParticle])
      [fallingParticle] [floorPlane] (Grid_masses_length _) (Grid_velocities_length _) 1 1 1
      (by rw [hgeo.1]; omega) (by rw [hgeo.2.1]; omega) (by rw [hgeo.2.2.1]; omega)
    rw [if_neg (ne_of_gt hpos)] at h
    rw [h]
    have hs := applyCollisions_single sqrtExact floorPlane
      ((Grid.Grid [fallingParticle]).nodeX 1 1 1)
      ((Grid.Grid [fallingParticle]).predictedVelocity [fallingParticle] 1 1 1) false hphi
      (by rw [hgr, hnorm, hp, hdotv]; norm_num)
    exact congrArg Prod.snd hs
  refine ⟨hpos, hphi, rfl, by rw [hgr, hn], hp, by rw [hgr, hnorm, hp, hdotv], hflag, ?_, ?_⟩
  · rw [hgr, hnorm, hp, hdotv, htan]
  · rw [hgr, hnorm, hp, hdotv, htan]
    simp [norm, sqrtExact]

/-! ## C25, C26: sums over all nodes -/

/-- Adding `δ` to the segment of node `j` adds `c j • δ` to a weighted sum of the node
segments. -/
theorem weightedSum_setSegment3_add (c : ℕ → ℚ) (n : ℕ) (v : VectorXf)
    (hv : v.length = 3 * n) (j : ℤ) (hj0 : 0 ≤ j) (hj : j < n) (δ : Vector3f) :
    ∑ i in Finset.range n,
        c i • segment3 (setSegment3 v (3 * j) (segment3 v (3 * j) + δ)) (3 * (i : ℤ)) =
      ∑ i in Finset.range n, c i • segment3 v (3 * (i : ℤ)) + c j.toNat • δ := by
  have e : ∀ i ∈ Finset.range n,
      c i • segment3 (setSegment3 v (3 * j) (segment3 v (3 * j) + δ)) (3 * (i : ℤ)) =
        c i • segment3 v (3 * (i : ℤ)) + if j.toNat = i then c i • δ else 0 := by
    intro i hi
    have hi2 := Finset.mem_range.mp hi
    rw [segment3_setSegment3_add v j i δ (by omega) (by omega), smul_add]
    congr 1
    by_cases hij : j = (i : ℤ)
    · have h2 : j.toNat = i := by omega
      rw [if_pos hij, if_pos h2]
    · have h2 : ¬ j.toNat = i := by omega
      rw [if_neg hij, if_neg h2, smul_zero]
  rw [Finset.sum_congr rfl e, Finset.sum_add_distrib, Finset.sum_ite_eq,
    if_pos (Finset.mem_range.mpr (by omega))]

/-- The weight of a particle for a node of its stencil is the product of the three axis
weights that `cellAndWeights` writes. -/
theorem nodeWeight_stencil (g : Grid) (x : Vector3f) (i j k : ℤ)
    (hi : i = -1 ∨ i = 0 ∨ i = 1 ∨ i = 2) (hj : j = -1 ∨ j = 0 ∨ j = 1 ∨ j = 2)
    (hk : k = -1 ∨ k = 0 ∨ k = 1 ∨ k = 2) :
    g.nodeWeight x ((g.cellAndWeights x).particleCell 0 + i)
      ((g.cellAndWeights x).particleCell 1 + j) ((g.cellAndWeights x).particleCell 2 + k) =
      (g.cellAndWeights x).w 0 i * (g.cellAndWeights x).w 1 j * (g.cellAndWeights x).w 2 k := by
  have e : ∀ (a : Fin 3) (m : ℤ),
      g.gridPos x a - (((g.cellAndWeights x).particleCell a + m : ℤ) : ℚ) =
        Int.fract (g.gridPos x a) - m := by
    intro a m
    rw [cellAndWeights_particleCell, Int.fract]
    push_cast
    ring
  unfold Grid.nodeWeight
  rw [cellAndWeights_w g x 0 i hi, cellAndWeights_w g x 1 j hj, cellAndWeights_w g x 2 k hk,
    e 0 i, e 1 j, e 2 k]

/-- The 64 product weights of a particle sum to 1 (list form). -/
theorem stencil_weight_sum (g : Grid) (x : Vector3f) :
    (stencil.map (fun s => (g.cellAndWeights x).w 0 s.1 * (g.cellAndWeights x).w 1 s.2.1 *
      (g.cellAndWeights x).w 2 s.2.2)).sum = 1 := by
  rw [stencil_sum_eq_forStencil (fun i j k => (g.cellAndWeights x).w 0 i *
    (g.cellAndWeights x).w 1 j * (g.cellAndWeights x).w 2 k), forStencil_sum_mul, w_axis_sum,
    w_axis_sum, w_axis_sum]
  norm_num

theorem nodeMomentum_replicate_zero (n k : ℕ) (m : VectorXf) :
    nodeMomentum n m (List.replicate k 0) = 0 := by
  unfold nodeMomentum
  apply Finset.sum_eq_zero
  intro i _
  rw [segment3_replicate_zero k _, smul_zero]

/-- The velocity splat over a mass vector: when every stencil node that the splat skips
carries no weighted mass of the particle, the grid momentum after the splat is the sum of
the particle momenta. -/
theorem nodeMomentum_splatVelocities (g : Grid) (d : ParticleData) (h : g.Contains d)
    (hmass : ∀ p ∈ d, ∀ i j k : ℤ, (i = -1 ∨ i = 0 ∨ i = 1 ∨ i = 2) →
      (j = -1 ∨ j = 0 ∨ j = 1 ∨ j = 2) → (k = -1 ∨ k = 0 ∨ k = 1 ∨ k = 2) →
      ¬ coeff g.m_gridMasses (g.stencilIndex (g.cellAndWeights p.particleX) i j k) > 0 →
      (g.cellAndWeights p.particleX).w 0 i * (g.cellAndWeights p.particleX).w 1 j *
        (g.cellAndWeights p.particleX).w 2 k * p.particleM = 0) :
    nodeMomentum (g.m_nx * g.m_ny * g.m_nz).toNat g.m_gridMasses (g.splatVelocities d) =
      (d.map (fun p => p.particleM • p.particleV)).sum := by
  have step : ∀ (v : VectorXf) (p : Particle), p ∈ d →
      v.length = 3 * (g.m_nx * g.m_ny * g.m_nz).toNat →
      (forStencil (fun i j k v =>
        if coeff g.m_gridMasses (g.stencilIndex (g.cellAndWeights p.particleX) i j k) > 0 then
          setSegment3 v (3 * g.stencilIndex (g.cellAndWeights p.particleX) i j k)
            (segment3 v (3 * g.stencilIndex (g.cellAndWeights p.particleX) i j k) +
              ((g.cellAndWeights p.particleX).w 0 i * (g.cellAndWeights p.particleX).w 1 j *
                (g.cellAndWeights p.particleX).w 2 k * (p.particleM /
                  coeff g.m_gridMasses (g.stencilIndex (g.cellAndWeights p.particleX) i j k))) •
                p.particleV)
        else v) v).length = 3 * (g.m_nx * g.m_ny * g.m_nz).toNat ∧
      nodeMomentum (g.m_nx * g.m_ny * g.m_nz).toNat g.m_gridMasses (forStencil (fun i j k v =>
        if coeff g.m_gridMasses (g.stencilIndex (g.cellAndWeights p.particleX) i j k) > 0 then
          setSegment3 v (3 * g.stencilIndex (g.cellAndWeights p.particleX) i j k)
            (segment3 v (3 * g.stencilIndex (g.cellAndWeights p.particleX) i j k) +
              ((g.cellAndWeights p.particleX).w 0 i * (g.cellAndWeights p.particleX).w 1 j *
                (g.cellAndWeights p.particleX).w 2 k * (p.particleM /
                  coeff g.m_gridMasses (g.stencilIndex (g.cellAndWeights p.particleX) i j k))) •
                p.particleV)
        else v) v) =
        nodeMomentum (g.m_nx * g.m_ny * g.m_nz).toNat g.m_gridMasses v +
          p.particleM • p.particleV := by
    intro v p hp hv
    have hI : ∀ (i j k : ℤ) (m : VectorXf), m.length = 3 * (g.m_nx * g.m_ny * g.m_nz).toNat →
        (if coeff g.m_gridMasses (g.stencilIndex (g.cellAndWeights p.particleX) i j k) > 0 then
          setSegment3 m (3 * g.stencilIndex (g.cellAndWeights p.particleX) i j k)
            (segment3 m (3 * g.stencilIndex (g.cellAndWeights p.particleX) i j k) +
              ((g.cellAndWeights p.particleX).w 0 i * (g.cellAndWeights p.particleX).w 1 j *
                (g.cellAndWeights p.particleX).w 2 k * (p.particleM /
                  coeff g.m_gridMasses (g.stencilIndex (g.cellAndWeights p.particleX) i j k))) •
                p.particleV)
        else m).length = 3 * (g.m_nx * g.m_ny * g.m_nz).toNat := by
      intro i j k m hm
      split_ifs
      · rw [length_setSegment3, hm]
      · exact hm
    constructor
    · apply forStencil_invariant
        (fun m : VectorXf => m.length = 3 * (g.m_nx * g.m_ny * g.m_nz).toNat) _ _ hv
      intro i j k m _ _ _ hm
      exact hI i j k m hm
    · rw [forStencil_accum
        (fun v : VectorXf => nodeMomentum (g.m_nx * g.m_ny * g.m_nz).toNat g.m_gridMasses v)
        (fun v : VectorXf => v.length = 3 * (g.m_nx * g.m_ny * g.m_nz).toNat) _
        (fun i j k => ((g.cellAndWeights p.particleX).w 0 i *
          (g.cellAndWeights p.particleX).w 1 j * (g.cellAndWeights p.particleX).w 2 k *
            p.particleM) • p.particleV)
        (fun i j k m _ _ _ hm => hI i j k m hm)
        (fun i j k m hi hj hk hm => by
          obtain ⟨r0, r1⟩ := contains_stencilIndex g d h p hp i j k hi hj hk
          by_cases hpos :
              coeff g.m_gridMasses (g.stencilIndex (g.cellAndWeights p.particleX) i j k) > 0
          · rw [if_pos hpos]
            unfold nodeMomentum
            beta_reduce
            rw [weightedSum_setSegment3_add (fun i => coeff g.m_gridMasses (i : ℤ)) _ m hm _ r0
              (by
                rw [Int.toNat_of_nonneg (by omega)]
                exact r1) _]
            congr 1
            rw [Int.toNat_of_nonneg r0, smul_smul]
            congr 1
            field_simp
          · rw [if_neg hpos]
            beta_reduce
            rw [hmass p hp i j k hi hj hk hpos, zero_smul, add_zero])
        v hv]
      congr 1
      rw [sum_map_smul_const stencil (fun s => (g.cellAndWeights p.particleX).w 0 s.1 *
          (g.cellAndWeights p.particleX).w 1 s.2.1 * (g.cellAndWeights p.particleX).w 2 s.2.2 *
            p.particleM) p.particleV]
      congr 1
      have e := stencil_weight_sum g p.particleX
      rw [List.sum_map_mul_right, e, one_mul]
  have hv0 : (List.replicate (g.m_nx * g.m_ny * g.m_nz * 3).toNat (0 : ℚ)).length =
      3 * (g.m_nx * g.m_ny * g.m_nz).toNat := by
    rw [List.length_replicate]
    omega
  have key := foldl_accum
    (fun v : VectorXf => nodeMomentum (g.m_nx * g.m_ny * g.m_nz).toNat g.m_gridMasses v)
    (fun v : VectorXf => v.length = 3 * (g.m_nx * g.m_ny * g.m_nz).toNat)
    (fun v p => forStencil (fun i j k v =>
        if coeff g.m_gridMasses (g.stencilIndex (g.cellAndWeights p.particleX) i j k) > 0 then
          setSegment3 v (3 * g.stencilIndex (g.cellAndWeights p.particleX) i j k)
            (segment3 v (3 * g.stencilIndex (g.cellAndWeights p.particleX) i j k) +
              ((g.cellAndWeights p.particleX).w 0 i * (g.cellAndWeights p.particleX).w 1 j *
                (g.cellAndWeights p.particleX).w 2 k * (p.particleM /
                  coeff g.m_gridMasses (g.stencilIndex (g.cellAndWeights p.particleX) i j k))) •
                p.particleV)
        else v) v)
    (fun p : Particle => p.particleM • p.particleV) d
    (fun v p hp hv => (step v p hp hv).1) (fun v p hp hv => (step v p hp hv).2) _ hv0
  beta_reduce at key
  unfold Grid.splatVelocities
  rw [key, nodeMomentum_replicate_zero, zero_add]

/-- A stencil node of a constructed grid whose mass is not positive carries no weighted
mass of the particle, when all particle masses are positive. -/
theorem Grid_skipped_node_weight (d : ParticleData) (hpos : ∀ p ∈ d, 0 < p.particleM)
    (p : Particle) (hp : p ∈ d) (i j k : ℤ) (hi : i = -1 ∨ i = 0 ∨ i = 1 ∨ i = 2)
    (hj : j = -1 ∨ j = 0 ∨ j = 1 ∨ j = 2) (hk : k = -1 ∨ k = 0 ∨ k = 1 ∨ k = 2)
    (hm : ¬ coeff (Grid.Grid d).m_gridMasses
      ((Grid.Grid d).stencilIndex ((Grid.Grid d).cellAndWeights p.particleX) i j k) > 0) :
    ((Grid.Grid d).cellAndWeights p.particleX).w 0 i *
      ((Grid.Grid d).cellAndWeights p.particleX).w 1 j *
        ((Grid.Grid d).cellAndWeights p.particleX).w 2 k * p.particleM = 0 := by
  obtain ⟨⟨x1, x2⟩, ⟨y1, y2⟩, ⟨z1, z2⟩⟩ := Grid_contains d p hp
  have e := Grid_mass_node d (((Grid.Grid d).cellAndWeights p.particleX).particleCell 0 + i)
    (((Grid.Grid d).cellAndWeights p.particleX).particleCell 1 + j)
    (((Grid.Grid d).cellAndWeights p.particleX).particleCell 2 + k)
    ⟨by omega, by omega⟩ ⟨by omega, by omega⟩ ⟨by omega, by omega⟩
  have hle : p.particleM * (Grid.Grid d).nodeWeight p.particleX
      (((Grid.Grid d).cellAndWeights p.particleX).particleCell 0 + i)
      (((Grid.Grid d).cellAndWeights p.particleX).particleCell 1 + j)
      (((Grid.Grid d).cellAndWeights p.particleX).particleCell 2 + k) ≤
      coeff (Grid.Grid d).m_gridMasses
        ((Grid.Grid d).stencilIndex ((Grid.Grid d).cellAndWeights p.particleX) i j k) := by
    unfold Grid.stencilIndex
    rw [e]
    apply List.single_le_sum
    · intro x hx
      obtain ⟨q, hq, rfl⟩ := List.mem_map.mp hx
      exact mul_nonneg (le_of_lt (hpos q hq)) (nodeWeight_nonneg _ _ _ _ _)
    · exact List.mem_map.mpr ⟨p, hp, rfl⟩
  rw [nodeWeight_stencil _ _ i j k hi hj hk] at hle
  have h0 : 0 ≤ p.particleM * (((Grid.Grid d).cellAndWeights p.particleX).w 0 i *
      ((Grid.Grid d).cellAndWeights p.particleX).w 1 j *
        ((Grid.Grid d).cellAndWeights p.particleX).w 2 k) := by
    rw [← nodeWeight_stencil _ _ i j k hi hj hk]
    exact mul_nonneg (le_of_lt (hpos p hp)) (nodeWeight_nonneg _ _ _ _ _)
  rw [mul_comm]
  exact le_antisymm (le_trans hle (not_lt.mp hm)) h0

/-- C25 (momentum conservation of the particle-to-grid scatter).  For every non-empty
particle set whose masses are all positive, the grid that the constructor `Grid::Grid`
builds has one mass and one velocity segment per node, and the sum over all nodes of
`m_i * v_i` equals the sum over the particles of `m_p * v_p`, although the velocity splat
leaves out the nodes whose mass is not positive. -/
theorem scatter_conserves_momentum (d : ParticleData) (_hne : d ≠ [])
    (hpos : ∀ p ∈ d, 0 < p.particleM) :
    (Grid.Grid d).m_gridMasses.length =
        ((Grid.Grid d).m_nx * (Grid.Grid d).m_ny * (Grid.Grid d).m_nz).toNat ∧
    (Grid.Grid d).m_gridVelocities.length =
        3 * ((Grid.Grid d).m_nx * (Grid.Grid d).m_ny * (Grid.Grid d).m_nz).toNat ∧
    nodeMomentum ((Grid.Grid d).m_nx * (Grid.Grid d).m_ny * (Grid.Grid d).m_nz).toNat
        (Grid.Grid d).m_gridMasses (Grid.Grid d).m_gridVelocities =
      (d.map (fun p => p.particleM • p.particleV)).sum := by
  refine ⟨Grid_masses_length d, ?_, ?_⟩
  · rw [Grid_velocities_length]
    omega
  · have e : (Grid.Grid d).m_gridVelocities = (Grid.Grid d).splatVelocities d := rfl
    rw [e]
    exact nodeMomentum_splatVelocities (Grid.Grid d) d (Grid_contains d)
      (fun p hp i j k hi hj hk hm => Grid_skipped_node_weight d hpos p hp i j k hi hj hk hm)

/-- Instance of `scatter_conserves_momentum` for two particles of unit mass half a cell
apart on the x axis, with the velocities `(1, 0, 0)` and `(1, -4, 0)`; the last x layer of
their grid carries no mass. -/
theorem scatter_conserves_momentum_witness :
    [slidingParticle, { divingParticle with particleX := ![1 / 20, 0, 0] }] ≠ [] ∧
    (∀ p ∈ [slidingParticle, { divingParticle with particleX := ![1 / 20, 0, 0] }],
      0 < p.particleM) ∧
    nodeMomentum
      ((Grid.Grid [slidingParticle, { divingParticle with particleX := ![1 / 20, 0, 0] }]).m_nx *
        (Grid.Grid [slidingParticle, { divingParticle with particleX := ![1 / 20, 0, 0] }]).m_ny *
        (Grid.Grid
          [slidingParticle, { divingParticle with particleX := ![1 / 20, 0, 0] }]).m_nz).toNat
      (Grid.Grid
        [slidingParticle, { divingParticle with particleX := ![1 / 20, 0, 0] }]).m_gridMasses
      (Grid.Grid
        [slidingParticle, { divingParticle with particleX := ![1 / 20, 0, 0] }]).m_gridVelocities =
      ([slidingParticle, { divingParticle with particleX := ![1 / 20, 0, 0] }].map
        (fun p => p.particleM • p.particleV)).sum :=
  ⟨List.cons_ne_nil _ _,
    by
      intro p hp
      simp only [List.mem_cons, List.mem_singleton, List.not_mem_nil, or_false] at hp
      rcases hp with rfl | rfl <;> norm_num [slidingParticle, divingParticle, restParticle],
    (scatter_conserves_momentum
      [slidingParticle, { divingParticle with particleX := ![1 / 20, 0, 0] }]
      (List.cons_ne_nil _ _)
      (by
        intro p hp
        simp only [List.mem_cons, List.mem_singleton, List.not_mem_nil, or_false] at hp
        rcases hp with rfl | rfl <;>
          norm_num [slidingParticle, divingParticle, restParticle])).2.2⟩

/-! ## C22: the derivative of the cubic B-spline -/

/-- The truncated cube `max t 0 ^ 3` has the derivative `3 * max t 0 ^ 2` at every point,
the knot `0` included. -/
theorem hasDerivAt_truncated_cube (a : ℚ) :
    HasDerivAt (fun t : ℚ => (max t 0) ^ 3) (3 * (max a 0) ^ 2) a := by
  rcases lt_trichotomy a 0 with h | h | h
  · have e : (fun t : ℚ => (max t 0) ^ 3) =ᶠ[nhds a] fun _ => (0 : ℚ) := by
      filter_upwards [Iio_mem_nhds h] with t ht
      rw [max_eq_right (le_of_lt ht)]
      norm_num
    rw [max_eq_right (le_of_lt h)]
    have z : (3 : ℚ) * 0 ^ 2 = 0 := by norm_num
    rw [z]
    exact (hasDerivAt_const a (0 : ℚ)).congr_of_eventuallyEq e
  · subst h
    rw [max_self]
    have z : (3 : ℚ) * 0 ^ 2 = 0 := by norm_num
    rw [z, hasDerivAt_iff_isLittleO_nhds_zero]
    have b : (fun h : ℚ => (max (0 + h) 0) ^ 3 - (max (0 : ℚ) 0) ^ 3 - h • (0 : ℚ)) =O[nhds 0]
        fun h : ℚ => h ^ 3 := by
      apply Asymptotics.IsBigO.of_bound 1
      filter_upwards with h
      rw [one_mul, max_self]
      rcases le_total 0 h with hh | hh
      · simp [max_eq_left hh]
      · simp [max_eq_right hh]
    exact b.trans_isLittleO (Asymptotics.isLittleO_pow_id (by norm_num))
  · have e : (fun t : ℚ => (max t 0) ^ 3) =ᶠ[nhds a] fun t => t ^ 3 := by
      filter_upwards [Ioi_mem_nhds h] with t ht
      rw [max_eq_left (le_of_lt ht)]
    rw [max_eq_left (le_of_lt h)]
    have d := (hasDerivAt_pow 3 a).congr_of_eventuallyEq e
    exact d

/-- The source function `Grid::N` as a combination of truncated cubes at the knots
`-2, -1, 0, 1, 2`. -/
theorem N_eq_truncated (x : ℚ) :
    Grid.N x = 1 / 6 * ((max (x + 2) 0) ^ 3 - 4 * (max (x + 1) 0) ^ 3 + 6 * (max x 0) ^ 3 -
      4 * (max (x - 1) 0) ^ 3 + (max (x - 2) 0) ^ 3) := by
  rcases lt_or_le x 0 with h0 | h0
  · have a : |x| = -x := abs_of_neg h0
    rw [max_eq_right (le_of_lt h0), max_eq_right (by linarith : x - 1 ≤ 0),
      max_eq_right (by linarith : x - 2 ≤ 0)]
    rcases le_or_lt x (-1) with h1 | h1
    · rw [max_eq_right (by linarith : x + 1 ≤ 0)]
      rcases le_or_lt x (-2) with h2 | h2
      · rw [max_eq_right (by linarith : x + 2 ≤ 0), N_of_two_le_abs (by rw [a]; linarith)]
        norm_num
      · rw [max_eq_left (by linarith : 0 ≤ x + 2),
          N_of_one_le_abs_lt_two (by rw [a]; linarith) (by rw [a]; linarith), a]
        ring
    · rw [max_eq_left (by linarith : 0 ≤ x + 1), max_eq_left (by linarith : 0 ≤ x + 2),
        N_of_abs_lt_one (by rw [a]; linarith), a]
      ring
  · have a : |x| = x := abs_of_nonneg h0
    rw [max_eq_left h0, max_eq_left (by linarith : 0 ≤ x + 1),
      max_eq_left (by linarith : 0 ≤ x + 2)]
    rcases lt_or_le x 1 with h1 | h1
    · rw [max_eq_right (by linarith : x - 1 ≤ 0), max_eq_right (by linarith : x - 2 ≤ 0),
        N_of_abs_lt_one (by rw [a]; exact h1), a]
      ring
    · rw [max_eq_left (by linarith : 0 ≤ x - 1)]
      rcases lt_or_le x 2 with h2 | h2
      · rw [max_eq_right (by linarith : x - 2 ≤ 0),
          N_of_one_le_abs_lt_two (by rw [a]; exact h1) (by rw [a]; exact h2), a]
        ring
      · rw [max_eq_left (by linarith : 0 ≤ x - 2), N_of_two_le_abs (by rw [a]; exact h2)]
        ring

/-- The source function `Grid::DN` as a combination of truncated squares at the knots
`-2, -1, 0, 1, 2`. -/
theorem DN_eq_truncated (x : ℚ) :
    Grid.DN x = 1 / 6 * (3 * (max (x + 2) 0) ^ 2 - 4 * (3 * (max (x + 1) 0) ^ 2) +
      6 * (3 * (max x 0) ^ 2) - 4 * (3 * (max (x - 1) 0) ^ 2) + 3 * (max (x - 2) 0) ^ 2) := by
  unfold Grid.DN Grid.DNnonneg
  rcases lt_or_le x 0 with h0 | h0
  · rw [if_pos h0, max_eq_right (le_of_lt h0), max_eq_right (by linarith : x - 1 ≤ 0),
      max_eq_right (by linarith : x - 2 ≤ 0)]
    rcases le_or_lt x (-1) with h1 | h1
    · rw [max_eq_right (by linarith : x + 1 ≤ 0), if_neg (by linarith : ¬ -x < 1)]
      rcases le_or_lt x (-2) with h2 | h2
      · rw [max_eq_right (by linarith : x + 2 ≤ 0), if_neg (by linarith : ¬ -x < 2)]
        norm_num
      · rw [max_eq_left (by linarith : 0 ≤ x + 2), if_pos (by linarith : -x < 2)]
        ring
    · rw [max_eq_left (by linarith : 0 ≤ x + 1), max_eq_left (by linarith : 0 ≤ x + 2),
        if_pos (by linarith : -x < 1)]
      ring
  · rw [if_neg (not_lt.mpr h0), max_eq_left h0, max_eq_left (by linarith : 0 ≤ x + 1),
      max_eq_left (by linarith : 0 ≤ x + 2)]
    rcases lt_or_le x 1 with h1 | h1
    · rw [max_eq_right (by linarith : x - 1 ≤ 0), max_eq_right (by linarith : x - 2 ≤ 0),
        if_pos h1]
      ring
    · rw [max_eq_left (by linarith : 0 ≤ x - 1), if_neg (not_lt.mpr h1)]
      rcases lt_or_le x 2 with h2 | h2
      · rw [max_eq_right (by linarith : x - 2 ≤ 0), if_pos h2]
        ring
      · rw [max_eq_left (by linarith : 0 ≤ x - 2), if_neg (not_lt.mpr h2)]
        ring

/-- The source function `Grid::N` is the piecewise cubic of the spec. -/
theorem N_eq_specN (x : ℚ) : Grid.N x = specN x := by
  unfold Grid.N specN
  by_cases h1 : |x| < 1
  · simp only [h1, if_true]
    rw [← sq_abs x]
    ring
  · by_cases h2 : |x| < 2
    · simp only [h1, h2, if_false, if_true, not_lt.mp h1, and_self]
      rw [← sq_abs x]
      ring
    · simp only [h1, h2, if_false, and_false]

/-- C22 (DN is the derivative of N).  At every point `x`, the knots `0`, `1`, `-1`, `2`
and `-2` included, the source function `Grid::N` is differentiable with derivative
`Grid::DN x`, and `Grid::N` is the piecewise cubic in `|x|` of the spec. -/
theorem DN_is_derivative_of_N (x : ℚ) :
    HasDerivAt Grid.N (Grid.DN x) x ∧ Grid.N x = specN x := by
  refine ⟨?_, N_eq_specN x⟩
  have e : Grid.N = fun x : ℚ =>
      1 / 6 * ((max (x + 2) 0) ^ 3 - 4 * (max (x + 1) 0) ^ 3 + 6 * (max x 0) ^ 3 -
        4 * (max (x - 1) 0) ^ 3 + (max (x - 2) 0) ^ 3) := funext N_eq_truncated
  rw [e, DN_eq_truncated]
  have t2 := (hasDerivAt_truncated_cube (x + 2)).comp_add_const x 2
  have t1 := (hasDerivAt_truncated_cube (x + 1)).comp_add_const x 1
  have t0 := hasDerivAt_truncated_cube x
  have s1 := (hasDerivAt_truncated_cube (x - 1)).comp_sub_const x 1
  have s2 := (hasDerivAt_truncated_cube (x - 2)).comp_sub_const x 2
  exact ((((t2.sub (t1.const_mul 4)).add (t0.const_mul 6)).sub (s1.const_mul 4)).add
    s2).const_mul (1 / 6)

end MpmSnow
